import Mathlib

/-!
# Interactive scene: transform hierarchy, picking state machine and render dispatch

A shallow embedding of the scene core of the viewer
(`Components/Transform.cpp`, `Components/Light.cpp`, `Objects/RenderObject.h`,
`Objects/CameraObject.h`, `App.cpp`, `Fire.h`, `Water.h`)
and the properties of its transform hierarchy, selection state machine, fog
oscillation, fire atlas animation, per-draw uniform discipline, light uniform
map and camera control.

Conventions of the embedding

* Scalars (`float`) are an arbitrary type `α` in the transform hierarchy, whose
  statements use no law of arithmetic.  The type `F32` is binary32: a finite
  `float` is the rational number it stands for and every operation is the
  exact operation followed by the rounding `round32`.  The frame index of the
  fire, the sphere collision of the camera and the mean scale of the matrix
  constructor are computed in binary32; the `int` operations of the fire
  frame are undefined (`none`) outside 32 bits.  The fog arithmetic is exact
  arithmetic over `ℚ`; the camera angles, the directions and the bounds of the
  camera are stated in an ordered field, with `sqrt`, `cos` and `sin` as
  parameters.
* A `Transform*` is an address (`Nat`) into a store of transforms; `nullptr`
  is `none`.
* Recursion along parent pointers carries explicit fuel; a result `none` means
  that the call did not return (cycle) or dereferenced a dangling pointer.
* The graphics library is a state (`GLContext`) with the program in use, the
  uniform values per program and location, the write masks and the draw calls
  since the last clear.  `App::Render` and `DoPicking` return `none` when they
  index `RenderObjects` out of bounds.
-/

namespace Scene

/-! ## Linear algebra vocabulary (glm) -/

/-- Three component vector, `glm::vec3`. -/
structure Vec3 (α : Type) where
  x : α
  y : α
  z : α
deriving DecidableEq, Repr

/-- Four component vector, `glm::vec4`. -/
structure Vec4 (α : Type) where
  x : α
  y : α
  z : α
  w : α
deriving DecidableEq, Repr

/-- Quaternion, `glm::quat`. -/
structure Quat (α : Type) where
  w : α
  x : α
  y : α
  z : α
deriving DecidableEq, Repr

/-- Column-major 4x4 matrix, `glm::mat4`: `c0 .. c3` are its columns. -/
structure Mat4 (α : Type) where
  c0 : Vec4 α
  c1 : Vec4 α
  c2 : Vec4 α
  c3 : Vec4 α
deriving DecidableEq, Repr

section Glm

variable {α : Type} [Add α] [Mul α] [Sub α] [Zero α] [One α]

/-- Componentwise sum of two `vec4`. -/
def Vec4.add (a b : Vec4 α) : Vec4 α :=
  ⟨a.x + b.x, a.y + b.y, a.z + b.z, a.w + b.w⟩

/-- Product of a `vec4` with a scalar. -/
def Vec4.smul (a : Vec4 α) (s : α) : Vec4 α :=
  ⟨a.x * s, a.y * s, a.z * s, a.w * s⟩

/-- Conversion `glm::vec3(vec4)`: the first three components. -/
def Vec4.toVec3 (a : Vec4 α) : Vec3 α :=
  ⟨a.x, a.y, a.z⟩

/-- Identity matrix, `glm::mat4(1.0f)`. -/
def Mat4.identity : Mat4 α :=
  ⟨⟨1, 0, 0, 0⟩, ⟨0, 1, 0, 0⟩, ⟨0, 0, 1, 0⟩, ⟨0, 0, 0, 1⟩⟩

/-- Matrix times column vector, `glm::mat4 * glm::vec4`. -/
def Mat4.mulVec (m : Mat4 α) (v : Vec4 α) : Vec4 α :=
  Vec4.add (Vec4.add (m.c0.smul v.x) (m.c1.smul v.y))
    (Vec4.add (m.c2.smul v.z) (m.c3.smul v.w))

/-- One column of a matrix product: the combination of the columns of `a`
with the entries of the column `b`. -/
def Mat4.mulCol (a : Mat4 α) (b : Vec4 α) : Vec4 α :=
  Vec4.add (Vec4.add (Vec4.add (a.c0.smul b.x) (a.c1.smul b.y)) (a.c2.smul b.z))
    (a.c3.smul b.w)

/-- Matrix product, `glm::mat4 * glm::mat4`. -/
def Mat4.mul (a b : Mat4 α) : Mat4 α :=
  ⟨a.mulCol b.c0, a.mulCol b.c1, a.mulCol b.c2, a.mulCol b.c3⟩

instance : Mul (Mat4 α) := ⟨Mat4.mul⟩

/-- Translation, `glm::translate(m, v)`: the last column becomes
`m[0]*v.x + m[1]*v.y + m[2]*v.z + m[3]`. -/
def translate (m : Mat4 α) (v : Vec3 α) : Mat4 α :=
  { m with c3 := Vec4.add (Vec4.add (Vec4.add (m.c0.smul v.x) (m.c1.smul v.y))
      (m.c2.smul v.z)) m.c3 }

/-- Scaling, `glm::scale(m, v)`: the first three columns are scaled. -/
def scale (m : Mat4 α) (v : Vec3 α) : Mat4 α :=
  ⟨m.c0.smul v.x, m.c1.smul v.y, m.c2.smul v.z, m.c3⟩

/-- Rotation matrix of a quaternion, `glm::toMat4(q)`. -/
def toMat4 (q : Quat α) : Mat4 α :=
  let two : α := 1 + 1
  let qxx := q.x * q.x
  let qyy := q.y * q.y
  let qzz := q.z * q.z
  let qxz := q.x * q.z
  let qxy := q.x * q.y
  let qyz := q.y * q.z
  let qwx := q.w * q.x
  let qwy := q.w * q.y
  let qwz := q.w * q.z
  ⟨⟨1 - two * (qyy + qzz), two * (qxy + qwz), two * (qxz - qwy), 0⟩,
   ⟨two * (qxy - qwz), 1 - two * (qxx + qzz), two * (qyz + qwx), 0⟩,
   ⟨two * (qxz + qwy), two * (qyz - qwx), 1 - two * (qxx + qyy), 0⟩,
   ⟨0, 0, 0, 1⟩⟩

/-- Translation part of a matrix: the first three entries of its last column. -/
def Mat4.translation (m : Mat4 α) : Vec3 α :=
  m.c3.toVec3

end Glm

/-! ## Transform (`Components/Transform.h`, `Components/Transform.cpp`) -/

/-- The class `Transform`.  The field `_parent` is the raw back-reference
`Transform*`: the address of the parent in the store, `none` for `nullptr`. -/
structure Transform (α : Type) where
  yaw : α
  pitch : α
  lastCircleAngle : α
  _idx : Nat
  _position : Vec3 α
  _startPosition : Vec3 α
  _rotation : Quat α
  _localScale : α
  _parent : Option Nat
deriving DecidableEq, Repr

/-- The memory in which transforms live: the transform at address `a` is
`mem[a]?`; an address without a transform is a dangling pointer. -/
abbrev Store (α : Type) := List (Transform α)

section TransformOps

variable {α : Type} [Add α] [Mul α] [Sub α] [Zero α] [One α]

/-- The local matrix `localM` computed in the first four lines of
`Transform::GetMatrix`: `trans * rot * scale`. -/
def Transform.localMatrix (t : Transform α) : Mat4 α :=
  let trans := translate Mat4.identity t._position
  let rot := toMat4 t._rotation
  let scl := scale Mat4.identity ⟨t._localScale, t._localScale, t._localScale⟩
  trans * rot * scl

/-- The method `Transform::GetMatrix` called on the transform at address `self`.
Every call, the recursive call on the parent included, uses one unit of fuel. -/
def GetMatrix (mem : Store α) : Nat → Nat → Option (Mat4 α)
  | 0, _ => none
  | fuel + 1, self =>
    match mem[self]? with
    | none => none
    | some t =>
      match t._parent with
      | some p => (GetMatrix mem fuel p).map (fun parentM => parentM * t.localMatrix)
      | none => some t.localMatrix

/-- The method `Transform::GetWorldPosition`:
`glm::vec3(GetMatrix() * glm::vec4(0,0,0,1))`. -/
def GetWorldPosition (mem : Store α) (fuel self : Nat) : Option (Vec3 α) :=
  (GetMatrix mem fuel self).map (fun m => (m.mulVec ⟨0, 0, 0, 1⟩).toVec3)

/-- The method `Transform::SetParent(p)` called on the transform at address
`self`: only the field `_parent` of that transform is assigned. -/
def SetParent (mem : Store α) (self : Nat) (p : Option Nat) : Store α :=
  match mem[self]? with
  | none => mem
  | some t => mem.set self { t with _parent := p }

/-- A parent chain listed from the root to the leaf, each element with its
address: every element lives in the store at its address and its parent
pointer is the address of the element before it (`par` for the first one). -/
def ParentChain (mem : Store α) : Option Nat → List (Nat × Transform α) → Prop
  | _, [] => True
  | par, (a, t) :: rest =>
    mem[a]? = some t ∧ t._parent = par ∧ ParentChain mem (some a) rest

/-- Address of the last element of a chain that starts at address `a`. -/
def leafAddr (a : Nat) : List (Nat × Transform α) → Nat
  | [] => a
  | (b, _) :: rest => leafAddr b rest

/-- The left fold `((L(t0) * L(t1)) * ...) * L(tN)` of the local matrices of a
chain whose root has local matrix `m0`. -/
def foldLocal (m0 : Mat4 α) (rest : List (Nat × Transform α)) : Mat4 α :=
  rest.foldl (fun acc p => acc * p.2.localMatrix) m0

end TransformOps

/-! ## Binary32 arithmetic (`float`)

A finite `float` is the rational number it stands for.  An operation on
`float` is the exact operation followed by `round32`, the rounding to the
nearest binary32 value with a tie going to the even significand (24 bits,
gradual underflow with the quantum `2^-149`).  The exponent is not bounded
above, so a result beyond the largest finite `float` is rounded like any
other, where the machine gives an infinity; NaN is not modelled. -/

/-- Rounding of a rational number to the nearest integer, a tie going to the
even one. -/
def roundEven (y : ℚ) : ℤ :=
  let f := ⌊y⌋
  let r := y - f
  if r < 1 / 2 then f
  else if 1 / 2 < r then f + 1
  else if f % 2 = 0 then f else f + 1

/-- The exponent of the unit in the last place of binary32 at `x`:
`floor(log2 |x|) - 23`, and `-149` for a subnormal `x`. -/
def ulpExp (x : ℚ) : ℤ :=
  max (Int.log 2 |x|) (-126) - 23

/-- Rounding to binary32: the multiple of `2 ^ ulpExp x` nearest to `x`. -/
def round32 (x : ℚ) : ℚ :=
  roundEven (x / 2 ^ ulpExp x) * 2 ^ ulpExp x

/-- A value of the type `float`. -/
structure F32 where
  val : ℚ
deriving DecidableEq, Repr

instance : Zero F32 := ⟨⟨0⟩⟩

instance : One F32 := ⟨⟨1⟩⟩

/-- A decimal literal `n` of type `float`. -/
instance (n : ℕ) [n.AtLeastTwo] : OfNat F32 n := ⟨⟨round32 n⟩⟩

instance : Neg F32 := ⟨fun a => ⟨-a.val⟩⟩

instance : Add F32 := ⟨fun a b => ⟨round32 (a.val + b.val)⟩⟩

instance : Sub F32 := ⟨fun a b => ⟨round32 (a.val - b.val)⟩⟩

instance : Mul F32 := ⟨fun a b => ⟨round32 (a.val * b.val)⟩⟩

instance : Div F32 := ⟨fun a b => ⟨round32 (a.val / b.val)⟩⟩

instance : LT F32 := ⟨fun a b => a.val < b.val⟩

instance : LE F32 := ⟨fun a b => a.val ≤ b.val⟩

instance (a b : F32) : Decidable (a < b) := inferInstanceAs (Decidable (a.val < b.val))

instance (a b : F32) : Decidable (a ≤ b) := inferInstanceAs (Decidable (a.val ≤ b.val))

/-! ## Shader programs and the OpenGL state (`Resources/Shader/Shader.h`)

The graphics library is outside the repository.  Its state is modelled by the
components the scene code drives: the program in use, the uniform values of
every program, the write masks, the stencil reference and the list of draw
calls issued since the framebuffer was last cleared.  Matrices and vectors
computed by the camera and transform code are uploaded as the expression
that produces them; the transforms themselves are not part of this state. -/

/-- A value uploaded to a uniform variable. -/
inductive UVal where
  | int (v : Int)
  | float (v : ℚ)
  | vec2 (x y : ℚ)
  | vec3 (x y z : ℚ)
  | sinOf (v : ℚ)
  | undefinedInt
  | modelMatrix (obj : Nat)
  | waterModelMatrix
  | viewMatrix
  | viewRotation
  | projectionMatrix
  | cameraPosition
  | lightPosition (idx : Nat)
  | lightDirection (idx : Nat)
deriving DecidableEq, Repr

/-- The struct `Utils`: cached attribute and uniform locations, `-1` when not
assigned. -/
structure Utils where
  aPosition : Int := -1
  ViewPosition : Int := -1
  aNormal : Int := -1
  ModelM : Int := -1
  ViewM : Int := -1
  ProjectionM : Int := -1
  useCubeMap : Int := -1
  useTexture : Int := -1
  diffMap : Int := -1
  specMap : Int := -1
  aTexCoords : Int := -1
  cubeMap : Int := -1
  lightCount : Int := -1
  useFog : Int := -1
  fogColor : Int := -1
  fogStart : Int := -1
  fogEnd : Int := -1
  useFire : Int := -1
  fireMap : Int := -1
  frame : Int := -1
  useAlpha : Int := -1
  alpha : Int := -1
  useFlashLight : Int := -1
  useFireLight : Int := -1
  useToSphere : Int := -1
  alphaToSphere : Int := -1

/-- The struct `UtilsWater`. -/
structure UtilsWater where
  WaterTexture : Int := -1
  Time : Int := -1
  ScrollSpeed : Int := -1

/-- The class `Shader`: location caches and the program name `_id`. -/
structure Shader where
  _utils : Utils := {}
  _water : UtilsWater := {}
  _id : Nat := 0

/-- One draw call (`glDrawArrays` or `glDrawElements`) as it reaches the
pipeline: the object that issued it (its position in `RenderObjects`), the
program in use, that program's uniform values and the write state at the time
of the call. -/
structure Draw where
  obj : Nat
  program : Nat
  uniforms : Int → Option UVal
  colorMask : Bool
  depthMask : Bool
  stencilTest : Bool
  stencilMask : Nat
  stencilRef : Nat

/-- The OpenGL context. `locations` is `glGetUniformLocation`. -/
structure GLContext where
  locations : Nat → String → Int
  program : Nat
  uniforms : Nat → Int → Option UVal
  depthTest : Bool
  stencilTest : Bool
  blend : Bool
  colorMask : Bool
  depthMask : Bool
  stencilMask : Nat
  stencilRef : Nat
  draws : List Draw

/-- The call `glUseProgram(id)`. -/
def GLContext.useProgram (gl : GLContext) (id : Nat) : GLContext :=
  { gl with program := id }

/-- The calls `glUniform*(location, value)`: the value is stored in the program
in use; location `-1` is ignored. -/
def GLContext.uniform (gl : GLContext) (location : Int) (v : UVal) : GLContext :=
  if location = -1 then gl
  else { gl with uniforms := fun p l =>
          if p = gl.program ∧ l = location then some v else gl.uniforms p l }

/-- A draw call issued for the object at position `obj`. -/
def GLContext.draw (gl : GLContext) (obj : Nat) : GLContext :=
  { gl with draws := gl.draws ++
      [{ obj := obj, program := gl.program, uniforms := gl.uniforms gl.program,
         colorMask := gl.colorMask, depthMask := gl.depthMask,
         stencilTest := gl.stencilTest, stencilMask := gl.stencilMask,
         stencilRef := gl.stencilRef }] }

/-- The call `glClear(GL_COLOR_BUFFER_BIT | GL_DEPTH_BUFFER_BIT |
GL_STENCIL_BUFFER_BIT)`: what was drawn before is gone. -/
def GLContext.clear (gl : GLContext) : GLContext :=
  { gl with draws := [] }

/-- The call `glStencilFunc(GL_ALWAYS, ref, 0xFF)`; the reference is clamped
to the range of the 8-bit stencil buffer. -/
def GLContext.stencilFunc (gl : GLContext) (ref : Nat) : GLContext :=
  { gl with stencilRef := min ref 255 }

/-- The value an `int` uniform receives from a `bool` argument. -/
def boolToInt (b : Bool) : Int :=
  if b then 1 else 0

/-- Static `Shader::Bind`. -/
def Shader.Bind (sh : Shader) (gl : GLContext) : GLContext :=
  gl.useProgram sh._id

/-- Static `Shader::SetInt`. -/
def Shader.SetInt (location : Int) (value : Int) (gl : GLContext) : GLContext :=
  gl.uniform location (.int value)

/-- Static `Shader::SetFloat`. -/
def Shader.SetFloat (location : Int) (value : ℚ) (gl : GLContext) : GLContext :=
  gl.uniform location (.float value)

/-- Static `Shader::SetVec2`, `SetVec3`, `SetMat4`, with the value given as
an uploaded value. -/
def Shader.SetVal (location : Int) (value : UVal) (gl : GLContext) : GLContext :=
  gl.uniform location value

/-- Method `Shader::GetUniformLocationSafe(name)` (the log line aside). -/
def Shader.GetUniformLocationSafe (sh : Shader) (name : String) (gl : GLContext) : Int :=
  gl.locations sh._id name

/-! ## Renderable kinds and `RenderObject` -/

/-- The enum `RenderObject::Type`. -/
inductive RenderObjectType where
  | Mesh
  | Box
  | Sphere
  | CubeMap
  | Water
  | Fire
  | CatType
deriving DecidableEq, Repr

/-- The enum `TypeBox`. -/
inductive TypeBox where
  | None
  | BoxBigT
  | BoxMidT
  | BoxSmlT
  | BoxBigA
  | BoxMidA
  | BoxSmlA
deriving DecidableEq, Repr

/-- The class `Box` (per instance data). `Box::useTexture` is the constant
`true`. -/
structure Box where
  _type : TypeBox := .None
  animFlag : Bool := false
deriving DecidableEq, Repr

/-- The class `Icosphere` (its header is not part of the sources; the render
routine reads the member `useTexture`). -/
structure Icosphere where
  useTexture : Bool := false
deriving DecidableEq, Repr

/-- The class `CubeMap`; `useTexture` is the constant member `false`. -/
structure CubeMap where
  useTexture : Bool := false
deriving DecidableEq, Repr

/-- The class `Fire` (`Fire.h`): atlas columns and rows and frame duration. -/
structure Fire where
  cols : Int := 0
  rows : Int := 0
  frameDuration : ℚ := 0
deriving DecidableEq, Repr

/-- The three `Shader` objects of the application, to which renderers and
materials hold a pointer. -/
inductive ShaderRef where
  | main
  | water
  | white
deriving DecidableEq, Repr

/-- The class `MaterialPGR`: the shader pointer and the name-keyed values. -/
structure MaterialPGR where
  _shader : ShaderRef := .main
  _values : List (String × UVal) := []
deriving DecidableEq, Repr

/-- The class `MeshRenderer`: shader pointer and optional material. -/
structure MeshRenderer where
  _shader : ShaderRef := .main
  _material : Option MaterialPGR := none
deriving DecidableEq, Repr

/-- The class `RenderObject`: the kind tag and the payloads. -/
structure RenderObject where
  _renderer : MeshRenderer := {}
  _box : Box := {}
  _sphere : Icosphere := {}
  _cubemap : CubeMap := {}
  _fire : Fire := {}
  _type : RenderObjectType
deriving DecidableEq, Repr

/-- The class `LightObject` with the uniform map of its `Light`. -/
structure LightObject where
  _shader : ShaderRef := .main
  _idx : Nat := 0
  _data : List (String × UVal) := []
deriving DecidableEq, Repr

/-! ## Fire atlas frame (`Fire::Render`, first two statements) -/

/-- Conversion of a `float` to `int`: truncation toward zero, undefined when
the truncated value is not representable in 32 bits. -/
def floatToInt (q : ℚ) : Option Int :=
  let z := Int.tdiv q.num q.den
  if -2147483648 ≤ z ∧ z < 2147483648 then some z else none

/-- The local `frame` of `Fire::Render` at time `t`, the `double` that
`glfwGetTime()` returns: `int(float(t) / frameDuration)` followed by
`frame %= cols * rows`.  The conversion `float(t)` is `round32 t` and the
quotient of the two `float`s is rounded to binary32.
The result is `none` where the C++ computation is undefined: division by a
zero duration, a quotient outside `int`, an overflowing or zero product, or
the remainder of `INT_MIN` by `-1`. -/
def Fire.frame (f : Fire) (t : ℚ) : Option Int :=
  if f.frameDuration = 0 then none
  else
    match floatToInt (round32 (round32 t / f.frameDuration)) with
    | none => none
    | some frame =>
      let n := f.cols * f.rows
      if n < -2147483648 ∨ 2147483648 ≤ n then none
      else if n = 0 then none
      else if frame = -2147483648 ∧ n = -1 then none
      else some (Int.tmod frame n)

/-! ## Application state (`App.h`, globals of `App.cpp`) -/

/-- Static members of `App` and the globals of `App.cpp` that the frame
pipeline reads or writes, with the static flags of the renderable kinds. -/
structure App where
  gl : GLContext
  glfwTime : ℚ
  shader : Shader
  shaderWater : Shader
  shaderWhite : Shader
  RenderObjects : List RenderObject
  lightObjects : List LightObject
  useFog : Bool
  useFlashLight : Bool
  stencilIdx : Int
  stencilIdxLast : Int
  FogColor : ℚ
  FogColorStep : ℚ
  Cat_isMoving : Bool
  Fire_pointFlag : Bool
  Icosphere_useToSphere : Bool
  Icosphere_lastDynamicScale : ℚ

/-- Constant `App::FogColorMin`. -/
def App.FogColorMin : ℚ := 1 / 5

/-- Constant `App::FogColorMax`. -/
def App.FogColorMax : ℚ := 3 / 5

/-- Constant `App::FogStart`. -/
def App.FogStart : ℚ := 3

/-- Constant `App::FogEnd`. -/
def App.FogEnd : ℚ := 10

/-- Constant `App::BoxBigAlpha`. -/
def App.BoxBigAlpha : ℚ := 1 / 5

/-- Constant `App::BoxMidAlpha`. -/
def App.BoxMidAlpha : ℚ := 1 / 2

/-- Constant `App::BoxSmlAlpha`. -/
def App.BoxSmlAlpha : ℚ := 4 / 5

/-- Constant `App::WaterAlpha`. -/
def App.WaterAlpha : ℚ := 3 / 5

/-- The shader object a pointer refers to. -/
def App.shaderOf (st : App) : ShaderRef → Shader
  | .main => st.shader
  | .water => st.shaderWater
  | .white => st.shaderWhite

/-- Apply a change of the OpenGL context to the application state. -/
def App.withGL (st : App) (f : GLContext → GLContext) : App :=
  { st with gl := f st.gl }

/-- The upload loop shared by `MaterialPGR::ApplyValues` and
`Light::ApplyData`: every entry is looked up by name in `sh` and uploaded to
the program in use. -/
def applyNamed (sh : Shader) (values : List (String × UVal)) (gl : GLContext) : GLContext :=
  values.foldl (fun g nv => g.uniform (sh.GetUniformLocationSafe nv.1 g) nv.2) gl

/-- Method `MeshRenderer::Bind(shader)`. -/
def MeshRenderer.Bind (r : MeshRenderer) (sh : Shader) (st : App) : App :=
  let st := st.withGL (Shader.Bind sh)
  match r._material with
  | some m =>
    if (st.shaderOf r._shader)._id = sh._id then
      st.withGL (applyNamed (st.shaderOf m._shader) m._values)
    else st
  | none => st

/-- Method `RenderObject::RenderMesh`. -/
def RenderObject.RenderMesh (o : RenderObject) (i : Nat) (sh : Shader) (st : App) : App :=
  let st := o._renderer.Bind sh st
  let st := st.withGL (Shader.SetVal sh._utils.ModelM (.modelMatrix i))
  st.withGL (fun g => g.draw i)

/-- Method `RenderObject::RenderBox`. -/
def RenderObject.RenderBox (_o : RenderObject) (i : Nat) (sh : Shader) (st : App) : App :=
  st.withGL (fun g =>
    let g := Shader.Bind sh g
    let g := Shader.SetInt sh._utils.useTexture (boolToInt true) g
    let g := Shader.SetVal sh._utils.ModelM (.modelMatrix i) g
    let g := g.draw i
    let g := Shader.SetInt sh._utils.useAlpha (boolToInt false) g
    let g := Shader.SetFloat sh._utils.alpha 1 g
    Shader.SetInt sh._utils.useTexture (boolToInt (!true)) g)

/-- Method `RenderObject::RenderSphere`. -/
def RenderObject.RenderSphere (o : RenderObject) (i : Nat) (sh : Shader) (st : App) : App :=
  let st := st.withGL (fun g =>
    let g := Shader.Bind sh g
    let g := Shader.SetVal sh._utils.ModelM (.modelMatrix i) g
    let g := Shader.SetInt sh._utils.useTexture (boolToInt o._sphere.useTexture) g
    Shader.SetInt sh._utils.useToSphere (boolToInt true) g)
  let st :=
    if st.Icosphere_useToSphere then
      let st := { st with
        Icosphere_lastDynamicScale := st.Icosphere_lastDynamicScale + 1 / 100 }
      st.withGL (Shader.SetVal sh._utils.alphaToSphere (.sinOf st.Icosphere_lastDynamicScale))
    else st
  st.withGL (fun g =>
    let g := g.draw i
    let g := Shader.SetInt sh._utils.useTexture (boolToInt false) g
    Shader.SetInt sh._utils.useToSphere (boolToInt false) g)

/-- Method `RenderObject::RenderCubeMap`. -/
def RenderObject.RenderCubeMap (o : RenderObject) (i : Nat) (sh : Shader) (st : App) : App :=
  st.withGL (fun g =>
    let g := Shader.Bind sh g
    let g := Shader.SetInt sh._utils.useCubeMap (boolToInt true) g
    let g := Shader.SetInt sh._utils.useTexture (boolToInt o._cubemap.useTexture) g
    let g := Shader.SetVal sh._utils.ModelM (.modelMatrix i) g
    let g := { g with depthMask := false, stencilMask := 0 }
    let g := g.draw i
    let g := Shader.SetInt sh._utils.useCubeMap (boolToInt false) g
    { g with depthMask := true, stencilMask := 255 })

/-- Method `Water::Render`. -/
def Water.Render (i : Nat) (sh : Shader) (g : GLContext) : GLContext :=
  let g := Shader.Bind sh g
  let g := { g with depthMask := false, stencilMask := 0 }
  let g := g.draw i
  { g with depthMask := true, stencilMask := 255 }

/-- Method `RenderObject::RenderWater`. -/
def RenderObject.RenderWater (_o : RenderObject) (i : Nat) (sh : Shader) (st : App) : App :=
  st.withGL (fun g =>
    let g := Shader.Bind sh g
    let g := Shader.SetFloat sh._water.Time st.glfwTime g
    Water.Render i sh g)

/-- Method `Fire::Render`. The uniform `frame` receives the frame index, or
an undefined value where its computation is undefined. -/
def Fire.Render (f : Fire) (i : Nat) (sh : Shader) (t : ℚ) (g : GLContext) : GLContext :=
  let g := Shader.Bind sh g
  let g := { g with blend := true }
  let g := Shader.SetInt sh._utils.useFire (boolToInt true) g
  let g := Shader.SetVal sh._utils.frame
    (match f.frame t with
     | some frame => .int frame
     | none => .undefinedInt) g
  let g := g.draw i
  Shader.SetInt sh._utils.useFire (boolToInt false) g

/-- Method `RenderObject::RenderFire`: the model matrix is uploaded before the
shader is bound. -/
def RenderObject.RenderFire (o : RenderObject) (i : Nat) (sh : Shader) (st : App) : App :=
  st.withGL (fun g =>
    let g := Shader.SetVal sh._utils.ModelM (.modelMatrix i) g
    o._fire.Render i sh st.glfwTime g)

/-- Method `RenderObject::RenderCat`; `Cat::useTexture` is the constant
`false`. The circular motion under `Cat::isMoving` changes the transform
only. -/
def RenderObject.RenderCat (_o : RenderObject) (i : Nat) (sh : Shader) (st : App) : App :=
  st.withGL (fun g =>
    let g := Shader.Bind sh g
    let g := Shader.SetVal sh._utils.ModelM (.modelMatrix i) g
    let g := Shader.SetInt sh._utils.useTexture (boolToInt false) g
    g.draw i)

/-- Method `RenderObject::Render(shader)` of the object at position `i` of
`RenderObjects`: the dispatch on the kind tag. -/
def RenderObject.Render (o : RenderObject) (i : Nat) (sh : Shader) (st : App) : App :=
  match o._type with
  | .Mesh => o.RenderMesh i sh st
  | .Box => o.RenderBox i sh st
  | .Sphere => o.RenderSphere i sh st
  | .CubeMap => o.RenderCubeMap i sh st
  | .Water => o.RenderWater i sh st
  | .Fire => o.RenderFire i sh st
  | .CatType => o.RenderCat i sh st

/-! ## Frame pipeline (`App.cpp`) -/

/-- Function `ApplyBoxSettings(obj)`: the per-sub-type overrides applied right
before a box is dispatched.  The rotating sub-types animate transforms only;
the alpha sub-types switch `useAlpha` on in the program in use. -/
def ApplyBoxSettings (obj : RenderObject) (st : App) : App :=
  match obj._box._type with
  | .BoxBigT => st
  | .BoxMidT => st
  | .BoxSmlT => st
  | .BoxBigA =>
    st.withGL (fun g =>
      let g := Shader.SetInt st.shader._utils.useAlpha (boolToInt true) g
      Shader.SetFloat st.shader._utils.alpha App.BoxBigAlpha g)
  | .BoxMidA =>
    st.withGL (fun g =>
      let g := Shader.SetInt st.shader._utils.useAlpha (boolToInt true) g
      Shader.SetFloat st.shader._utils.alpha App.BoxMidAlpha g)
  | .BoxSmlA =>
    st.withGL (fun g =>
      let g := Shader.SetInt st.shader._utils.useAlpha (boolToInt true) g
      Shader.SetFloat st.shader._utils.alpha App.BoxSmlAlpha g)
  | .None => st

/-- The body of the loop of `RenderSceneObjects` for the object at position
`i`: the per-kind preparation, then `obj.Render(shader)`. -/
def renderSceneStep (st : App) (i : Nat) (obj : RenderObject) : App :=
  let st :=
    if obj._type = .Box then
      let st := st.withGL (fun g =>
        let g := Shader.Bind st.shader g
        Shader.SetVal st.shader._utils.ViewM .viewMatrix g)
      ApplyBoxSettings obj st
    else if obj._type = .CubeMap then
      st.withGL (fun g =>
        let g := Shader.Bind st.shader g
        Shader.SetVal st.shader._utils.ViewM .viewRotation g)
    else if obj._type = .Water then
      obj.Render i st.shaderWater st
    else st
  obj.Render i st.shader st

/-- The loop of `RenderSceneObjects` over the objects from position `i` on.
The collection holds no null pointer (`LoadObjects` inserts none), so the
safety check of the loop never skips. -/
def RenderSceneObjectsFrom : Nat → List RenderObject → App → App
  | _, [], st => st
  | i, o :: os, st => RenderSceneObjectsFrom (i + 1) os (renderSceneStep st i o)

/-- Function `RenderSceneObjects`. -/
def RenderSceneObjects (st : App) : App :=
  RenderSceneObjectsFrom 0 st.RenderObjects st

/-- Method `LightObject::ApplyData`: position and direction of the transform,
then the uniform map of the light. -/
def LightObject.ApplyData (l : LightObject) (st : App) : App :=
  let sh := st.shaderOf l._shader
  st.withGL (fun g =>
    let g := g.uniform
      (sh.GetUniformLocationSafe ("lights[" ++ toString l._idx ++ "].position") g)
      (.lightPosition l._idx)
    let g := g.uniform
      (sh.GetUniformLocationSafe ("lights[" ++ toString l._idx ++ "].direction") g)
      (.lightDirection l._idx)
    applyNamed sh l._data g)

/-- Function `ApplyLightAndCamera`: the light uploads.  The fly mode, bounds
and collision steps move the camera transform only. -/
def ApplyLightAndCamera (st : App) : App :=
  let st := st.withGL (Shader.Bind st.shader)
  st.lightObjects.foldl (fun s l => l.ApplyData s) st

/-- The fog update of `ApplyShaderData`:
`FogColor += FogColorStep; if (FogColor < FogColorMin || FogColor > FogColorMax)
FogColorStep *= -1;` on the pair (`FogColor`, `FogColorStep`). -/
def fogUpdate (fog : ℚ × ℚ) : ℚ × ℚ :=
  let color := fog.1 + fog.2
  if color < App.FogColorMin ∨ color > App.FogColorMax then (color, fog.2 * -1)
  else (color, fog.2)

/-- Function `ApplyShaderData`. -/
def ApplyShaderData (st : App) : App :=
  let sh := st.shader
  let st := st.withGL (fun g =>
    let g := Shader.Bind sh g
    let g := Shader.SetVal sh._utils.ViewM .viewMatrix g
    let g := Shader.SetVal sh._utils.ProjectionM .projectionMatrix g
    let g := Shader.SetVal sh._utils.ViewPosition .cameraPosition g
    let g := Shader.SetInt sh._utils.lightCount st.lightObjects.length g
    let g := Shader.SetInt sh._utils.useFlashLight (boolToInt st.useFlashLight) g
    let g := Shader.SetInt sh._utils.useFireLight (boolToInt st.Fire_pointFlag) g
    let g := Shader.SetInt sh._utils.useCubeMap (boolToInt false) g
    Shader.SetInt sh._utils.useFog (boolToInt st.useFog) g)
  let fog := fogUpdate (st.FogColor, st.FogColorStep)
  let st := { st with FogColor := fog.1, FogColorStep := fog.2 }
  let w := st.shaderWater
  st.withGL (fun g =>
    let g := Shader.SetVal sh._utils.fogColor (.vec3 st.FogColor st.FogColor st.FogColor) g
    let g := Shader.SetFloat sh._utils.fogStart App.FogStart g
    let g := Shader.SetFloat sh._utils.fogEnd App.FogEnd g
    let g := Shader.Bind w g
    let g := Shader.SetInt w._water.WaterTexture 0 g
    let g := Shader.SetVal w._water.ScrollSpeed (.vec2 (1 / 100) (1 / 200)) g
    let g := Shader.SetFloat w._utils.alpha App.WaterAlpha g
    let g := Shader.SetVal w._utils.ModelM .waterModelMatrix g
    let g := Shader.SetVal w._utils.ViewM .viewMatrix g
    let g := Shader.SetVal w._utils.ProjectionM .projectionMatrix g
    let g := Shader.SetInt w._utils.useFog (boolToInt st.useFog) g
    let g := Shader.SetVal w._utils.fogColor (.vec3 st.FogColor st.FogColor st.FogColor) g
    let g := Shader.SetFloat w._utils.fogStart App.FogStart g
    Shader.SetFloat w._utils.fogEnd App.FogEnd g)

/-- The element access `RenderObjects[idx]` with an `int` index: `none` when
the index is outside the collection. -/
def App.objectAt (st : App) (idx : Int) : Option RenderObject :=
  if idx < 0 then none else st.RenderObjects[idx.toNat]?

/-- The part of `App::Render` before the selection logic: clear, uniform
broadcast and the draw phase. -/
def frameStart (st : App) : App :=
  RenderSceneObjects (ApplyShaderData (ApplyLightAndCamera (st.withGL GLContext.clear)))

/-- The block `// Picking` that ends `App::Render`.  The result is `none`
when an element access is out of bounds. -/
def highlightPass (st : App) : Option App :=
  if st.stencilIdx ≥ 0 ∨ st.stencilIdxLast ≥ 0 then
    if st.stencilIdx = st.stencilIdxLast then
      match st.objectAt st.stencilIdx with
      | none => none
      | some o =>
        let st := o.Render st.stencilIdx.toNat st.shader st
        some { st with stencilIdx := -1, stencilIdxLast := -1 }
    else
      let idx := if st.stencilIdx ≠ -1 then st.stencilIdx else st.stencilIdxLast
      let st :=
        if st.stencilIdx ≠ -1 then
          { st with stencilIdxLast := st.stencilIdx, stencilIdx := -1 }
        else st
      let st := st.withGL (fun g =>
        let g := Shader.Bind st.shaderWhite g
        let g := Shader.SetVal st.shaderWhite._utils.ViewM .viewMatrix g
        Shader.SetVal st.shaderWhite._utils.ProjectionM .projectionMatrix g)
      match st.objectAt idx with
      | none => none
      | some o =>
        let st := o.Render idx.toNat st.shaderWhite st
        some (st.withGL (Shader.Bind st.shader))
  else some st

/-- Method `App::Render`: `glClear`, `ApplyLightAndCamera`, `ApplyShaderData`,
`RenderSceneObjects`, then the picking block. -/
def App.Render (st : App) : Option App :=
  highlightPass (frameStart st)

/-- The stencil pass of `DoPicking` over the objects from position `i` on:
`glStencilFunc(GL_ALWAYS, ref, 0xFF); Render(shader); ++ref` with `ref`
starting at 1. -/
def stencilPassFrom : Nat → List RenderObject → App → App
  | _, [], st => st
  | i, o :: os, st =>
    stencilPassFrom (i + 1) os
      (o.Render i st.shader (st.withGL (fun g => g.stencilFunc (i + 1))))

/-- The part of `DoPicking` before the pixel is read: state setup, clear,
stencil pass, restoring the colour mask. -/
def pickingPass (st : App) : App :=
  let st := st.withGL (fun g =>
    let g := { g with depthTest := true, stencilTest := true, stencilMask := 255 }
    let g := g.clear
    { g with colorMask := false, depthMask := true })
  let st := stencilPassFrom 0 st.RenderObjects st
  st.withGL (fun g => { g with colorMask := true, stencilTest := false })

/-- The part of `DoPicking` after the pixel is read: `pixelID` is the byte
that `glReadPixels` stored.  The result is `none` when the element access
`RenderObjects[stencilIdx]` is out of bounds. -/
def resolvePick (pixelID : Fin 256) (st : App) : Option App :=
  let st := { st with
    stencilIdx := if pixelID.val = 0 then -1 else (pixelID.val : Int) - 1 }
  if st.stencilIdx ≠ -1 then
    match st.objectAt st.stencilIdx with
    | none => none
    | some o =>
      if o._type = .CatType then
        some { st with Cat_isMoving := !st.Cat_isMoving, stencilIdx := -1 }
      else if o._type = .Box then
        some { st with
          RenderObjects := st.RenderObjects.set st.stencilIdx.toNat
            { o with _box := { o._box with animFlag := !o._box.animFlag } },
          stencilIdx := -1 }
      else if o._type = .Fire then
        some { st with Fire_pointFlag := !st.Fire_pointFlag, stencilIdx := -1 }
      else if o._type = .Sphere then
        some { st with
          Icosphere_useToSphere := !st.Icosphere_useToSphere, stencilIdx := -1 }
      else some st
  else some st

/-- Function `DoPicking(winX, winY)`, with the byte read back at the pixel as
argument. -/
def DoPicking (pixelID : Fin 256) (st : App) : Option App :=
  resolvePick pixelID (pickingPass st)

/-! ## Vocabulary of the properties -/

/-- The four kinds with a toggle-and-clear branch in `DoPicking`. -/
def RenderObjectType.isToggle : RenderObjectType → Bool
  | .CatType => true
  | .Box => true
  | .Fire => true
  | .Sphere => true
  | _ => false

/-- An `int` flag uniform of a program is off: never written or zero. -/
def FlagOff (gl : GLContext) (prog : Nat) (location : Int) : Prop :=
  gl.uniforms prog location = none ∨ gl.uniforms prog location = some (.int 0)

/-- Two uniform locations do not interfere: a write to `l` leaves the uniform
at `f` alone, because they differ or because `f` was not assigned (`-1`, for
which every write is ignored). -/
def Separate (l f : Int) : Prop :=
  l = f → f = -1

instance (l f : Int) : Decidable (Separate l f) :=
  inferInstanceAs (Decidable (l = f → f = -1))

/-- The part of the guarantee "different uniforms of a linked program have
different locations" that concerns the flags `useAlpha` and `useCubeMap` of
a shader: their locations do not interfere with each other nor with the other
locations through which the render routines write. -/
def Shader.FlagsSeparate (sh : Shader) : Prop :=
  Separate sh._utils.useAlpha sh._utils.useCubeMap ∧
  Separate sh._utils.useCubeMap sh._utils.useAlpha ∧
  ∀ f ∈ [sh._utils.useAlpha, sh._utils.useCubeMap],
    ∀ l ∈ [sh._utils.ModelM, sh._utils.ViewM, sh._utils.useTexture, sh._utils.alpha,
        sh._utils.useToSphere, sh._utils.alphaToSphere, sh._utils.useFire,
        sh._utils.frame, sh._water.Time],
      Separate l f

/-- The locations through which the render routines write with shader `sh`,
the two flags aside, do not interfere with `f`. -/
def WritesSeparate (sh : Shader) (f : Int) : Prop :=
  Separate sh._utils.ModelM f ∧ Separate sh._utils.useTexture f ∧
  Separate sh._utils.alpha f ∧ Separate sh._utils.useToSphere f ∧
  Separate sh._utils.alphaToSphere f ∧ Separate sh._utils.useFire f ∧
  Separate sh._utils.frame f ∧ Separate sh._water.Time f

/-- No value of a mesh material is uploaded to the location of `useAlpha` or
`useCubeMap` of the main shader. -/
def App.MaterialsSeparate (st : App) : Prop :=
  ∀ o ∈ st.RenderObjects, ∀ m, o._renderer._material = some m →
    ∀ nv ∈ m._values, ∀ f ∈ [st.shader._utils.useAlpha, st.shader._utils.useCubeMap],
      Separate (st.gl.locations (st.shaderOf m._shader)._id nv.1) f

/-- Both per-draw flags of the main shader, `useAlpha` and `useCubeMap`, are
off. -/
def App.FlagsOff (st : App) : Prop :=
  FlagOff st.gl st.shader._id st.shader._utils.useAlpha ∧
  FlagOff st.gl st.shader._id st.shader._utils.useCubeMap

/-- The draw calls since the last clear, each as the pair of the position of
the drawing object and the program in use. -/
def App.drawLog (st : App) : List (Nat × Nat) :=
  st.gl.draws.map (fun d => (d.obj, d.program))

/-- The object at position `i` was drawn with program `prog`. -/
def DrawnWith (st : App) (i : Nat) (prog : Nat) : Prop :=
  (i, prog) ∈ st.drawLog

instance (st : App) (i prog : Nat) : Decidable (DrawnWith st i prog) :=
  inferInstanceAs (Decidable ((i, prog) ∈ st.drawLog))

/-- Two states agree on the scene: the three shader objects, the object
collection and the toggle flags of the kinds. -/
def App.SameScene (a b : App) : Prop :=
  a.shader = b.shader ∧ a.shaderWater = b.shaderWater ∧
  a.shaderWhite = b.shaderWhite ∧ a.RenderObjects = b.RenderObjects ∧
  a.Cat_isMoving = b.Cat_isMoving ∧ a.Fire_pointFlag = b.Fire_pointFlag ∧
  a.Icosphere_useToSphere = b.Icosphere_useToSphere

/-- Two states agree on the scene and on both selection indices. -/
def App.SameControl (a b : App) : Prop :=
  a.SameScene b ∧ a.stencilIdx = b.stencilIdx ∧ a.stencilIdxLast = b.stencilIdxLast

/-- The programs with which `RenderSceneObjects` draws an object: the water
shader and then the main shader for the Water kind, the main shader alone
for every other kind. -/
def scenePrograms (st : App) (o : RenderObject) : List Nat :=
  if o._type = .Water then [st.shaderWater._id, st.shader._id] else [st.shader._id]

/-- The draw log that `RenderSceneObjects` produces for the objects from
position `i` on. -/
def sceneLogFrom (st : App) : Nat → List RenderObject → List (Nat × Nat)
  | _, [] => []
  | i, o :: os => (scenePrograms st o).map (fun p => (i, p)) ++ sceneLogFrom st (i + 1) os

/-- The sequence pick `a`, `App::Render`, pick `b`, `App::Render`, a pick
given by the byte read back at the pixel. -/
def pickRenderTwice (a b : Fin 256) (st : App) : Option App :=
  (DoPicking a st).bind fun s1 =>
    s1.Render.bind fun s2 =>
      (DoPicking b s2).bind fun s3 => s3.Render

/-- A context with no program in use, no uniform written and nothing drawn;
no uniform name has a location. -/
def sampleGL : GLContext :=
  { locations := fun _ _ => -1, program := 0, uniforms := fun _ _ => none,
    depthTest := true, stencilTest := false, blend := true, colorMask := true,
    depthMask := true, stencilMask := 255, stencilRef := 0, draws := [] }

/-- A main shader (program 1) whose cached locations are pairwise different. -/
def sampleShader : Shader :=
  { _utils :=
      { aPosition := 0, ViewPosition := 1, aNormal := 2, ModelM := 3, ViewM := 4,
        ProjectionM := 5, useCubeMap := 6, useTexture := 7, diffMap := 8, specMap := 9,
        aTexCoords := 10, cubeMap := 11, lightCount := 12, useFog := 13, fogColor := 14,
        fogStart := 15, fogEnd := 16, useFire := 17, fireMap := 18, frame := 19,
        useAlpha := 20, alpha := 21, useFlashLight := 22, useFireLight := 23,
        useToSphere := 24, alphaToSphere := 25 },
    _id := 1 }

/-- A water shader (program 2), with the locations `LoadWater` assigns. -/
def sampleShaderWater : Shader :=
  { _utils :=
      { aPosition := 0, ViewPosition := 1, aTexCoords := 2, ModelM := 3, ViewM := 4,
        ProjectionM := 5, alpha := 6, useFog := 7, fogColor := 8, fogStart := 9,
        fogEnd := 10 },
    _water := { WaterTexture := 11, Time := 12, ScrollSpeed := 13 },
    _id := 2 }

/-- A highlight shader (program 3), with the locations `LoadWhite` assigns. -/
def sampleShaderWhite : Shader :=
  { _utils := { aPosition := 0, ModelM := 1, ViewM := 2, ProjectionM := 3 },
    _id := 3 }

/-- A state with the given collection and selection indices, the initial
values of `App.cpp` elsewhere. -/
def sampleApp (objs : List RenderObject) (idx last : Int) : App :=
  { gl := sampleGL, glfwTime := 0, shader := sampleShader,
    shaderWater := sampleShaderWater, shaderWhite := sampleShaderWhite,
    RenderObjects := objs, lightObjects := [], useFog := false, useFlashLight := false,
    stencilIdx := idx, stencilIdxLast := last, FogColor := 1 / 2,
    FogColorStep := 1 / 1000, Cat_isMoving := false, Fire_pointFlag := false,
    Icosphere_useToSphere := false, Icosphere_lastDynamicScale := 0 }

/-- A mesh object without material. -/
def sampleMesh : RenderObject := { _type := .Mesh }

/-- A box object of the given sub-type. -/
def sampleBox (t : TypeBox) : RenderObject := { _type := .Box, _box := { _type := t } }

/-- The water object. -/
def sampleWater : RenderObject := { _type := .Water }

/-- The cube map object. -/
def sampleCubeMap : RenderObject := { _type := .CubeMap }

/-- The fire object, with the atlas of `App.h`: 14 columns, 1 row and the
frame duration `0.2f`, the binary32 value `13421773 / 2^26`. -/
def sampleFire : RenderObject :=
  { _type := .Fire, _fire := { cols := 14, rows := 1, frameDuration := 13421773 / 67108864 } }

/-! ## Sample transform hierarchy -/

/-- A root at (1,2,3) with scale 2. -/
def sampleT0 : Transform ℤ :=
  { yaw := 0, pitch := 0, lastCircleAngle := 0, _idx := 0, _position := ⟨1, 2, 3⟩,
    _startPosition := ⟨0, 0, 0⟩, _rotation := ⟨1, 0, 0, 0⟩, _localScale := 2,
    _parent := none }

/-- A child of address 0 at (0,1,0), turned half way round the x axis. -/
def sampleT1 : Transform ℤ :=
  { sampleT0 with
    _position := ⟨0, 1, 0⟩, _rotation := ⟨0, 1, 0, 0⟩, _localScale := 1,
    _parent := some 0 }

/-- A child of address 1 at (5,0,0) with scale 3. -/
def sampleT2 : Transform ℤ :=
  { sampleT0 with _position := ⟨5, 0, 0⟩, _localScale := 3, _parent := some 1 }

/-- A second child of address 0, at (1,1,1). -/
def sampleT3 : Transform ℤ :=
  { sampleT0 with _position := ⟨1, 1, 1⟩, _localScale := 1, _parent := some 0 }

/-- The store with the four sample transforms at the addresses 0 to 3. -/
def sampleStore : Store ℤ := [sampleT0, sampleT1, sampleT2, sampleT3]

/-! ## Picking: stencil references and frame events -/

/-- The draw calls since the last clear, each as the position of the object
drawn and the stencil reference in force at the call, as the 8-bit stencil
buffer stores it. -/
def App.stencilLog (st : App) : List (Nat × Nat) :=
  st.gl.draws.map (fun d => (d.obj, d.stencilRef))

/-- What the main loop does to the picking state between two picks that hit
an object: a frame is rendered, or a click reads stencil value 0. -/
inductive FrameEvent where
  | render
  | pickMiss
  deriving DecidableEq, Repr

/-- One step of the main loop; `none` when it makes an out-of-bounds
access. -/
def FrameEvent.apply : FrameEvent → App → Option App
  | .render, st => st.Render
  | .pickMiss, st => DoPicking 0 st

/-- A run of the main loop over the events in order. -/
def runEvents : List FrameEvent → App → Option App
  | [], st => some st
  | e :: es, st => (e.apply st).bind (runEvents es)

/-- The interactive flags outside the object collection. -/
def App.globalFlags (st : App) : Bool × Bool × Bool :=
  (st.Cat_isMoving, st.Fire_pointFlag, st.Icosphere_useToSphere)

/-- A collection of 256 mesh objects, nothing picked or highlighted. -/
def sampleCrowd : App :=
  sampleApp (List.replicate 256 sampleMesh) (-1) (-1)

/-- A collection of a box, a mesh and the water object, nothing picked or
highlighted. -/
def sampleTrio : App :=
  sampleApp [sampleBox .BoxSmlA, sampleMesh, sampleWater] (-1) (-1)

/-! ## Light (`Components/Light.h`, `Components/Light.cpp`)

The uniform map `std::unordered_map<std::string, LightValue> _data` is a list
of entries with pairwise different names, in the order of first insertion;
the iteration order of the C++ map is not specified, so only the entries as
a set are meaningful. -/

/-- The enum `Light::Type`. -/
inductive LightType where
  | Ambient
  | Direct
  | Point
  | Spot
  deriving DecidableEq, Repr

/-- The `int` value of a `Light::Type` enumerator. -/
def LightType.toInt : LightType → Int
  | .Ambient => 0
  | .Direct => 1
  | .Point => 2
  | .Spot => 3

/-- A `float` constant of `Light.h`: a decimal literal, or
`glm::cos(glm::radians(d))` for a decimal literal `d`. -/
inductive FloatConst where
  | lit (v : ℚ)
  | cosRadians (degrees : ℚ)
  deriving DecidableEq, Repr

/-- The tagged union `Light::LightValue` (the matrix alternatives hold their
entries in column-major order). -/
inductive LightValue where
  | INT (i : Int)
  | FLOAT (f : FloatConst)
  | VEC2 (x y : ℚ)
  | VEC3 (x y z : ℚ)
  | VEC4 (x y z w : ℚ)
  | MAT3 (m : List ℚ)
  | MAT4 (m : List ℚ)
  deriving DecidableEq, Repr

/-- The class `Light`; `_idx` is an `int` and starts at -2, `_data` starts
empty. -/
structure Light where
  _type : LightType := .Point
  _idx : Int := -2
  _data : List (String × LightValue) := []
  deriving DecidableEq, Repr

/-- Constructor `Light::Light(Type type)`. -/
def Light.new (type : LightType) : Light :=
  { _type := type }

/-- Constant `Light::LightColor`. -/
def Light.LightColor : LightValue := .VEC3 1 1 1

/-- Constant `Light::LightAmbient`. -/
def Light.LightAmbient : LightValue := .VEC3 (1 / 10) (1 / 10) (1 / 10)

/-- Constant `Light::LightDiffuse`. -/
def Light.LightDiffuse : LightValue := .VEC3 1 1 1

/-- Constant `Light::LightSpecular`. -/
def Light.LightSpecular : LightValue := .VEC3 1 1 1

/-- Constant `Light::Constant`. -/
def Light.Constant : FloatConst := .lit 1

/-- Constant `Light::Linear`. -/
def Light.Linear : FloatConst := .lit (9 / 100)

/-- Constant `Light::Quadratic`. -/
def Light.Quadratic : FloatConst := .lit (32 / 1000)

/-- Constant `Light::CutOff`. -/
def Light.CutOff : FloatConst := .cosRadians (25 / 2)

/-- Constant `Light::OuterCutOff`. -/
def Light.OuterCutOff : FloatConst := .cosRadians (35 / 2)

/-- The assignment `_data[name] = value` of `std::unordered_map`: the entry
of that name is overwritten, or a new entry is inserted. -/
def mapAssign : List (String × LightValue) → String → LightValue → List (String × LightValue)
  | [], name, v => [(name, v)]
  | (k, w) :: rest, name, v =>
    if k = name then (name, v) :: rest else (k, w) :: mapAssign rest name v

/-- Method `Light::SetInt`. -/
def Light.SetInt (l : Light) (name : String) (value : Int) : Light :=
  { l with _data := mapAssign l._data name (.INT value) }

/-- Method `Light::SetFloat`. -/
def Light.SetFloat (l : Light) (name : String) (value : FloatConst) : Light :=
  { l with _data := mapAssign l._data name (.FLOAT value) }

/-- Method `Light::SetVec3`; the argument is a `VEC3` value. -/
def Light.SetVec3 (l : Light) (name : String) (value : LightValue) : Light :=
  { l with _data := mapAssign l._data name value }

/-- Conversion of a `size_t` to `int` (the assignment `_idx = idx`): the
value modulo 2^32, read as a two's complement 32-bit integer. -/
def sizeToInt (idx : Nat) : Int :=
  let r : Int := ((idx % 4294967296 : Nat) : Int)
  if r < 2147483648 then r else r - 4294967296

/-- The body of `Light::SetData` after the assignment `_idx = idx`, `z`
being the `int` value stored in `_idx`. -/
def Light.SetDataInt (l : Light) (z : Int) : Light :=
  let l := { l with _idx := z }
  let i := toString l._idx
  let l := l.SetInt ("lights[" ++ i ++ "].type") l._type.toInt
  let l := l.SetVec3 ("lights[" ++ i ++ "].color") Light.LightColor
  let l := l.SetVec3 ("lights[" ++ i ++ "].ambient") Light.LightAmbient
  let l := l.SetVec3 ("lights[" ++ i ++ "].diffuse") Light.LightDiffuse
  let l := l.SetVec3 ("lights[" ++ i ++ "].specular") Light.LightSpecular
  if l._type = .Point ∨ l._type = .Spot then
    let l := l.SetFloat ("lights[" ++ i ++ "].constant") Light.Constant
    let l := l.SetFloat ("lights[" ++ i ++ "].linear") Light.Linear
    let l := l.SetFloat ("lights[" ++ i ++ "].quadratic") Light.Quadratic
    let l := l.SetFloat ("lights[" ++ i ++ "].cutOff") Light.CutOff
    l.SetFloat ("lights[" ++ i ++ "].outerCutOff") Light.OuterCutOff
  else l

/-- Method `Light::SetData`: the `size_t` argument is converted to the `int`
member `_idx`, whose decimal form goes into the names. -/
def Light.SetData (l : Light) (idx : Nat) : Light :=
  l.SetDataInt (sizeToInt idx)

/-- Method `Light::ApplyData`: the uploads it makes, one per entry of the
map, each as the name whose location `GetUniformLocationSafe` looks up and
the value passed to the `Shader::Set...` function of its tag. -/
def Light.ApplyData (l : Light) : List (String × LightValue) :=
  l._data

/-- The uniform names that `ApplyData` uploads. -/
def Light.uploadedNames (l : Light) : List String :=
  l.ApplyData.map (fun e => e.1)

/-- The uniform names that `SetData` generates for a light of type `t` and
the index string `i`. -/
def Light.namesFor (t : LightType) (i : String) : List String :=
  ["lights[" ++ i ++ "].type", "lights[" ++ i ++ "].color", "lights[" ++ i ++ "].ambient",
   "lights[" ++ i ++ "].diffuse", "lights[" ++ i ++ "].specular"] ++
  (if t = .Point ∨ t = .Spot then
    ["lights[" ++ i ++ "].constant", "lights[" ++ i ++ "].linear",
     "lights[" ++ i ++ "].quadratic", "lights[" ++ i ++ "].cutOff",
     "lights[" ++ i ++ "].outerCutOff"]
   else [])

/-! ## Vector and quaternion functions (glm)

The functions are written for a scalar type `α` with the operations they
use.  With `α := F32` they compute in binary32, every operation rounded;
the properties that depend on the rounding (the sphere collision, the mean
scale of the matrix constructor) are stated for `F32`.  The properties of
the camera angles, the directions and the bounds are stated for an ordered
field, where the operations are exact.  The functions of the C library that
are not field operations (`sqrt`, and `cos`, `sin` of an angle given in
degrees) are a parameter `Libm α`, so that every statement holds for
whatever these functions return; where a statement needs `sqrt` to be a
square root, or to be accurate, at some argument it says so.  Exceptional
`float` values are not modelled: a division by zero has the value that the
division of `ℚ` gives it (zero), where the C++ program computes an infinity
or a NaN. -/

/-- The functions of the C library used through glm: `sqrt`, and
`cos(glm::radians(x))`, `sin(glm::radians(x))` as functions of the angle `x`
in degrees. -/
structure Libm (α : Type) where
  sqrt : α → α
  cosDeg : α → α
  sinDeg : α → α

/-- Column-major 3x3 matrix, `glm::mat3`: `c0 .. c2` are its columns. -/
structure Mat3 (α : Type) where
  c0 : Vec3 α
  c1 : Vec3 α
  c2 : Vec3 α
deriving DecidableEq, Repr

section GlmArith

variable {α : Type} [Add α] [Sub α] [Mul α] [Div α] [One α]

/-- Componentwise sum of two `vec3`. -/
def Vec3.add (a b : Vec3 α) : Vec3 α :=
  ⟨a.x + b.x, a.y + b.y, a.z + b.z⟩

/-- Componentwise difference of two `vec3`. -/
def Vec3.sub (a b : Vec3 α) : Vec3 α :=
  ⟨a.x - b.x, a.y - b.y, a.z - b.z⟩

/-- Product of a `vec3` with a scalar. -/
def Vec3.smul (a : Vec3 α) (s : α) : Vec3 α :=
  ⟨a.x * s, a.y * s, a.z * s⟩

/-- Function `glm::dot` on `vec3`. -/
def dot (a b : Vec3 α) : α :=
  a.x * b.x + a.y * b.y + a.z * b.z

/-- Function `glm::length` on `vec3`: `sqrt(dot(v, v))`. -/
def length (m : Libm α) (v : Vec3 α) : α :=
  m.sqrt (dot v v)

/-- Function `glm::distance`: `length(p1 - p0)`. -/
def distance (m : Libm α) (p0 p1 : Vec3 α) : α :=
  length m (p1.sub p0)

/-- Function `glm::inversesqrt`: `1 / sqrt(x)`. -/
def inversesqrt (m : Libm α) (x : α) : α :=
  1 / m.sqrt x

/-- Function `glm::normalize` on `vec3`: `v * inversesqrt(dot(v, v))`. -/
def normalize (m : Libm α) (v : Vec3 α) : Vec3 α :=
  v.smul (inversesqrt m (dot v v))

/-- Method `Transform::GetPosition`. -/
def Transform.GetPosition (t : Transform α) : Vec3 α :=
  t._position

/-- Method `Transform::SetPosition`. -/
def Transform.SetPosition (t : Transform α) (pos : Vec3 α) : Transform α :=
  { t with _position := pos }

end GlmArith

section GlmVec

variable {α : Type} [LinearOrderedField α]

/-- Negation of a `vec3`. -/
def Vec3.neg (a : Vec3 α) : Vec3 α :=
  ⟨-a.x, -a.y, -a.z⟩

/-- Function `glm::cross`. -/
def cross (a b : Vec3 α) : Vec3 α :=
  ⟨a.y * b.z - b.y * a.z, a.z * b.x - b.z * a.x, a.x * b.y - b.x * a.y⟩

/-- Function `glm::clamp` on scalars: `min(max(x, minVal), maxVal)`. -/
def clamp (x minVal maxVal : α) : α :=
  min (max x minVal) maxVal

/-- Function `glm::clamp` on `vec3`, componentwise. -/
def Vec3.clamp (v minVal maxVal : Vec3 α) : Vec3 α :=
  ⟨Scene.clamp v.x minVal.x maxVal.x, Scene.clamp v.y minVal.y maxVal.y,
   Scene.clamp v.z minVal.z maxVal.z⟩

/-- Rotation of a vector by a quaternion, `glm::quat * glm::vec3`. -/
def Quat.rotate (q : Quat α) (v : Vec3 α) : Vec3 α :=
  let QuatVector : Vec3 α := ⟨q.x, q.y, q.z⟩
  let uv := cross QuatVector v
  let uuv := cross QuatVector uv
  v.add (((uv.smul q.w).add uuv).smul 2)

/-- Function `glm::normalize` on quaternions; a quaternion of length `<= 0`
gives the identity quaternion. -/
def Quat.normalize (m : Libm α) (q : Quat α) : Quat α :=
  let len := m.sqrt (q.x * q.x + q.y * q.y + q.z * q.z + q.w * q.w)
  if len ≤ 0 then ⟨1, 0, 0, 0⟩
  else
    let oneOverLen := 1 / len
    ⟨q.w * oneOverLen, q.x * oneOverLen, q.y * oneOverLen, q.z * oneOverLen⟩

/-- Function `glm::quat_cast` on a `mat3`; the entry `m[i][j]` of the C++
code is component `j` of column `i`. -/
def quat_cast (m : Libm α) (r : Mat3 α) : Quat α :=
  let fourXSquaredMinus1 := r.c0.x - r.c1.y - r.c2.z
  let fourYSquaredMinus1 := r.c1.y - r.c0.x - r.c2.z
  let fourZSquaredMinus1 := r.c2.z - r.c0.x - r.c1.y
  let fourWSquaredMinus1 := r.c0.x + r.c1.y + r.c2.z
  let s0 : Nat × α := (0, fourWSquaredMinus1)
  let s1 : Nat × α := if fourXSquaredMinus1 > s0.2 then (1, fourXSquaredMinus1) else s0
  let s2 : Nat × α := if fourYSquaredMinus1 > s1.2 then (2, fourYSquaredMinus1) else s1
  let s3 : Nat × α := if fourZSquaredMinus1 > s2.2 then (3, fourZSquaredMinus1) else s2
  let biggestVal := m.sqrt (s3.2 + 1) * (1 / 2)
  let mult := (1 / 4) / biggestVal
  match s3.1 with
  | 0 => ⟨biggestVal, (r.c1.z - r.c2.y) * mult, (r.c2.x - r.c0.z) * mult,
      (r.c0.y - r.c1.x) * mult⟩
  | 1 => ⟨(r.c1.z - r.c2.y) * mult, biggestVal, (r.c0.y + r.c1.x) * mult,
      (r.c2.x + r.c0.z) * mult⟩
  | 2 => ⟨(r.c2.x - r.c0.z) * mult, (r.c0.y + r.c1.x) * mult, biggestVal,
      (r.c1.z + r.c2.y) * mult⟩
  | _ => ⟨(r.c0.y - r.c1.x) * mult, (r.c2.x + r.c0.z) * mult, (r.c1.z + r.c2.y) * mult,
      biggestVal⟩

/-- Function `glm::quatLookAt` (right-handed): the rotation whose third
column is `-direction` and whose first column is `cross(up, -direction)`
normalised. -/
def quatLookAt (m : Libm α) (direction up : Vec3 α) : Quat α :=
  let c2 := direction.neg
  let Right := cross up c2
  let c0 := Right.smul (inversesqrt m (max (1 / 100000) (dot Right Right)))
  let c1 := cross c2 c0
  quat_cast m ⟨c0, c1, c2⟩

/-- Both bounds hold componentwise: `lo <= p <= hi`. -/
def Vec3.Within (lo hi p : Vec3 α) : Prop :=
  lo.x ≤ p.x ∧ p.x ≤ hi.x ∧ lo.y ≤ p.y ∧ p.y ≤ hi.y ∧ lo.z ≤ p.z ∧ p.z ≤ hi.z

/-- The function `sqrt` of `m` returns a square root of `x`: a number that is
not negative and whose square is `x`. -/
def SqrtAt (m : Libm α) (x : α) : Prop :=
  0 ≤ m.sqrt x ∧ m.sqrt x * m.sqrt x = x

end GlmVec

/-! ## Transform: directions and position -/

section TransformDir

variable {α : Type} [LinearOrderedField α]

/-- Method `Transform::GetForward`. -/
def Transform.GetForward (m : Libm α) (t : Transform α) : Vec3 α :=
  normalize m (t._rotation.rotate ⟨0, 0, -1⟩)

/-- Method `Transform::GetUp`. -/
def Transform.GetUp (m : Libm α) (t : Transform α) : Vec3 α :=
  normalize m (t._rotation.rotate ⟨0, 1, 0⟩)

/-- Method `Transform::GetRight`. -/
def Transform.GetRight (m : Libm α) (t : Transform α) : Vec3 α :=
  normalize m (t._rotation.rotate ⟨1, 0, 0⟩)

/-- Method `Transform::SetForward`. -/
def Transform.SetForward (m : Libm α) (t : Transform α) (direction : Vec3 α) : Transform α :=
  { t with _rotation := Quat.normalize m (quatLookAt m direction (t.GetUp m)) }

/-- Method `Transform::UpdateRotationFromEuler`. -/
def Transform.UpdateRotationFromEuler (m : Libm α) (t : Transform α) : Transform α :=
  let direction : Vec3 α :=
    ⟨m.cosDeg t.yaw * m.cosDeg t.pitch, m.sinDeg t.pitch, m.sinDeg t.yaw * m.cosDeg t.pitch⟩
  let forward := normalize m direction
  let up : Vec3 α := ⟨0, 1, 0⟩
  let right := normalize m (cross up forward)
  let up := normalize m (cross forward right)
  { t with _rotation := quatLookAt m forward up }

end TransformDir

section TransformWorld

variable {α : Type} [Add α] [Mul α] [Sub α] [Zero α] [One α]

/-- Method `Transform::GetMatrix` called on a transform object `t` that is
not itself in the store (a member held by value); its parent pointer is an
address into the store `mem`. -/
def Transform.worldMatrix (mem : Store α) (fuel : Nat) (t : Transform α) : Option (Mat4 α) :=
  match t._parent with
  | some p => (GetMatrix mem fuel p).map (fun parentM => parentM * t.localMatrix)
  | none => some t.localMatrix

/-- Method `Transform::GetWorldPosition` called on a transform object held
by value. -/
def Transform.worldPosition (mem : Store α) (fuel : Nat) (t : Transform α) :
    Option (Vec3 α) :=
  (t.worldMatrix mem fuel).map (fun m => (m.mulVec ⟨0, 0, 0, 1⟩).toVec3)

end TransformWorld

/-! ## Camera control (`App::UpdateMouse`, `ApplyLightAndCamera`) -/

/-- The flags of the struct `Input`. -/
structure Input where
  mouseLooking : Bool := false
  keyW : Bool := false
  keyA : Bool := false
  keyS : Bool := false
  keyD : Bool := false
  keyC : Bool := false
  keySpace : Bool := false
  keyCtrl : Bool := false
deriving DecidableEq, Repr

/-- The class `CameraObject`: the linked transform `_transform`, held by
value, the speeds of its `Camera` and the preset transforms. -/
structure CameraObject (α : Type) where
  _transform : Transform α
  _speedHor : α
  _speedVer : α
  _transforms : List (Transform α)

/-- The state that the camera control reads and writes: the globals `input`,
`App::dynamicMode`, `App::flyMode`, `cameraIdx`, the window size, the
`cameraObject`, the transform of `sphereObj`, and the cursor position kept by
the window system (`glfwGetCursorPos`, `glfwSetCursorPos`). -/
structure View (α : Type) where
  input : Input
  dynamicMode : Bool
  flyMode : Bool
  cameraIdx : Int
  WindowWidth : α
  WindowHeight : α
  cursor : α × α
  cameraObject : CameraObject α
  sphereObj : Transform α

section Collision

variable {α : Type} [Add α] [Sub α] [Mul α] [Div α] [Neg α] [One α] [OfNat α 2] [OfNat α 3]
  [OfNat α 5] [OfNat α 7] [LT α] [∀ a b : α, Decidable (a < b)]

/-- Constant `App::CollisionDistance`. -/
def App.CollisionDistance : α := 3 / 2

/-- Constant `App::SpherePos`. -/
def App.SpherePos : Vec3 α := ⟨-5, 7 / 2, -1⟩

/-- The block `Check camera sphere collision` of `ApplyLightAndCamera`, on
the camera transform. -/
def sphereCollision (m : Libm α) (spherePosition : Vec3 α) (t : Transform α) :
    Transform α :=
  let cameraPosition := t.GetPosition
  if distance m cameraPosition spherePosition < App.CollisionDistance then
    let dir := normalize m (cameraPosition.sub spherePosition)
    t.SetPosition (spherePosition.add (dir.smul App.CollisionDistance))
  else t

end Collision

/-- The square of the distance between the points that two `vec3` of `float`
stand for, in exact arithmetic. -/
def sqDist (a b : Vec3 F32) : ℚ :=
  (a.x.val - b.x.val) ^ 2 + (a.y.val - b.y.val) ^ 2 + (a.z.val - b.z.val) ^ 2

/-- The function `sqrt` of `m` is accurate at `x`: its value is not negative
and the square of its value is within the relative error `2^-22` of `x`.
The correctly rounded `sqrtf` is within the relative error `2^-24` of the
square root, so its square is within `2^-23 + 2^-48` of `x`. -/
def SqrtNearAt (m : Libm F32) (x : F32) : Prop :=
  0 ≤ (m.sqrt x).val ∧ (1 - 1 / 2 ^ 22) * x.val ≤ (m.sqrt x).val * (m.sqrt x).val ∧
    (m.sqrt x).val * (m.sqrt x).val ≤ (1 + 1 / 2 ^ 22) * x.val

section CameraControl

variable {α : Type} [LinearOrderedField α]

/-- Constant `App::MouseSensitivity`. -/
def App.MouseSensitivity : α := 1 / 100

/-- Constant `App::minBounds`. -/
def App.minBounds : Vec3 α := ⟨-15, 1 / 10, -15⟩

/-- Constant `App::maxBounds`. -/
def App.maxBounds : Vec3 α := ⟨15, 15, 15⟩

/-- Method `App::UpdateMouse`. -/
def UpdateMouse (m : Libm α) (v : View α) : View α :=
  if v.input.mouseLooking then
    let xpos := v.cursor.1
    let ypos := v.cursor.2
    let centerX := v.WindowWidth / 2
    let centerY := v.WindowHeight / 2
    let offsetX := xpos - centerX
    let offsetY := centerY - ypos
    let offsetX := offsetX * App.MouseSensitivity
    let offsetY := offsetY * App.MouseSensitivity
    let camTransform := v.cameraObject._transform
    let camTransform := { camTransform with yaw := camTransform.yaw + offsetX }
    let camTransform := { camTransform with pitch := camTransform.pitch + offsetY }
    let camTransform := { camTransform with pitch := clamp camTransform.pitch (-89) 89 }
    let camTransform := camTransform.UpdateRotationFromEuler m
    { v with
      cameraObject := { v.cameraObject with _transform := camTransform }
      cursor := (centerX, centerY) }
  else v

/-- The blocks of `ApplyLightAndCamera` before the sphere collision, on the
camera transform: the descent by 0.1 when not in fly mode, then the clamp of
the position into the bounds (`Check camera scene position`). -/
def boundsClamp (flyMode : Bool) (t : Transform α) : Transform α :=
  let t := if !flyMode then t.SetPosition (t.GetPosition.sub ⟨0, 1 / 10, 0⟩) else t
  let clampPos := Vec3.clamp t.GetPosition App.minBounds App.maxBounds
  t.SetPosition clampPos

/-- The camera steps of `ApplyLightAndCamera`, after the light loop: the
descent when not in fly mode, the clamp into the bounds and the sphere
collision. -/
def ApplyCamera (m : Libm α) (v : View α) : View α :=
  let t := boundsClamp v.flyMode v.cameraObject._transform
  let t := sphereCollision m v.sphereObj.GetPosition t
  { v with cameraObject := { v.cameraObject with _transform := t } }

/-- Constant `App::CatPos`. -/
def App.CatPos : Vec3 α := ⟨11 / 10, 21 / 5, 3 / 5⟩

/-- Constant `App::CatScale`. -/
def App.CatScale : α := 1 / 100

/-- The transform `Transform(position, scale)` of a render object;
`glm::quat()` is the quaternion `q0` (the identity, or all zeros where glm
leaves the default constructor to the compiler). -/
def Transform.ofScale (q0 : Quat α) (position : Vec3 α) (scale : α) : Transform α :=
  { yaw := -90, pitch := 0, lastCircleAngle := 0, _idx := 0, _position := position,
    _startPosition := position, _rotation := q0, _localScale := scale, _parent := none }

/-- Function `RenderObject::UpdateCirclePosition`; `cos` and `sin` are the
functions of the C library. -/
def UpdateCirclePosition (m : Libm α) (cos sin : α → α) (transform : Transform α)
    (radiusX radiusY : α) : Transform α :=
  let transform := { transform with lastCircleAngle := transform.lastCircleAngle - 1 / 100 }
  let updPosition : Vec3 α :=
    ⟨radiusX * cos transform.lastCircleAngle, 0, radiusY * sin transform.lastCircleAngle⟩
  let direction := normalize m
    ⟨-radiusX * sin transform.lastCircleAngle, 0, radiusY * cos transform.lastCircleAngle⟩
  let up : Vec3 α := ⟨0, 1, 0⟩
  let rotation := quatLookAt m direction up
  let transform := transform.SetPosition (transform._startPosition.add updPosition)
  { transform with _rotation := rotation }

/-- The transform of the cat in `RenderObject::RenderCat`: moved along the
circle when `Cat::isMoving` is set. -/
def catStep (m : Libm α) (cos sin : α → α) (isMoving : Bool) (t : Transform α) :
    Transform α :=
  if isMoving then UpdateCirclePosition m cos sin t (1 / 2) 1 else t

/-- Every component of the quaternion has a magnitude of at most `5 / 4`: so
it is for the zero quaternion and for a quaternion of length 1, whose
components have a magnitude of at most 1. -/
def Quat.Bounded (q : Quat α) : Prop :=
  |q.w| ≤ 5 / 4 ∧ |q.x| ≤ 5 / 4 ∧ |q.y| ≤ 5 / 4 ∧ |q.z| ≤ 5 / 4

/-- The states of the transform of the cat, the only parent that
`App::Init` gives to a camera preset (`SetStaticParent`): no parent of its
own, the scale `App::CatScale`, a rotation whose components are bounded and
a position within 1 of `App::CatPos` along x and y and within 2 along z; the
circle on which the cat moves has the radii 0.5 along x and 1 along z. -/
def IsCatTransform (P : Transform α) : Prop :=
  P._parent = none ∧ P._localScale = App.CatScale ∧
  |P._position.x - App.CatPos.x| ≤ 1 ∧ |P._position.y - App.CatPos.y| ≤ 1 ∧
  |P._position.z - App.CatPos.z| ≤ 2 ∧ P._rotation.Bounded

/-- The function `sqrt` of `m` returns at `x` a positive number that is at
least half the square root of `x`: four times its square is at least
`x`. -/
def SqrtRoughAt (m : Libm α) (x : α) : Prop :=
  0 < m.sqrt x ∧ x ≤ 4 * (m.sqrt x * m.sqrt x)

/-- The ball around `c` with twice the collision distance as radius lies
within the bounds. -/
def SphereInBounds (c : Vec3 α) : Prop :=
  Vec3.Within
    ⟨App.minBounds.x + 2 * App.CollisionDistance, App.minBounds.y + 2 * App.CollisionDistance,
     App.minBounds.z + 2 * App.CollisionDistance⟩
    ⟨App.maxBounds.x - 2 * App.CollisionDistance, App.maxBounds.y - 2 * App.CollisionDistance,
     App.maxBounds.z - 2 * App.CollisionDistance⟩ c

end CameraControl

/-! ## Matrix decomposition (`glm::decompose`) and the matrix constructor

`glm::decompose` is a function of the glm library (`gtx/matrix_decompose`).
The constructor of `Transform` takes it as a parameter; `decompose` below is
its computation of scale, orientation and translation, the outputs that the
constructor reads (skew and perspective are computed by glm and dropped by
the constructor).  The result `none` stands for the return value `false`. -/

section Decompose

variable {α : Type} [LinearOrderedField α]

/-- Constant `glm::epsilon<float>()`, 2^-23. -/
def epsilon : α := 1 / 8388608

/-- Function `glm::epsilonEqual`: `abs(x - y) < epsilon`. -/
def epsilonEqual (x y eps : α) : Prop :=
  |x - y| < eps

instance (x y eps : α) : Decidable (epsilonEqual x y eps) :=
  inferInstanceAs (Decidable (|x - y| < eps))

/-- Function `glm::determinant` on `mat4`; the entry `m[i][j]` of the C++
code is component `j` of column `i`. -/
def determinant (m : Mat4 α) : α :=
  let SubFactor00 := m.c2.z * m.c3.w - m.c3.z * m.c2.w
  let SubFactor01 := m.c2.y * m.c3.w - m.c3.y * m.c2.w
  let SubFactor02 := m.c2.y * m.c3.z - m.c3.y * m.c2.z
  let SubFactor03 := m.c2.x * m.c3.w - m.c3.x * m.c2.w
  let SubFactor04 := m.c2.x * m.c3.z - m.c3.x * m.c2.z
  let SubFactor05 := m.c2.x * m.c3.y - m.c3.x * m.c2.y
  let DetCof0 := m.c1.y * SubFactor00 - m.c1.z * SubFactor01 + m.c1.w * SubFactor02
  let DetCof1 := -(m.c1.x * SubFactor00 - m.c1.z * SubFactor03 + m.c1.w * SubFactor04)
  let DetCof2 := m.c1.x * SubFactor01 - m.c1.y * SubFactor03 + m.c1.w * SubFactor05
  let DetCof3 := -(m.c1.x * SubFactor02 - m.c1.y * SubFactor04 + m.c1.z * SubFactor05)
  m.c0.x * DetCof0 + m.c0.y * DetCof1 + m.c0.z * DetCof2 + m.c0.w * DetCof3

/-- Division of every entry of a `vec4` by a scalar. -/
def Vec4.div (a : Vec4 α) (s : α) : Vec4 α :=
  ⟨a.x / s, a.y / s, a.z / s, a.w / s⟩

/-- Function `glm::detail::scale(v, desiredLength)`:
`v * desiredLength / length(v)`. -/
def detailScale (m : Libm α) (v : Vec3 α) (desiredLength : α) : Vec3 α :=
  ⟨v.x * desiredLength / length m v, v.y * desiredLength / length m v,
   v.z * desiredLength / length m v⟩

/-- Function `glm::detail::combine(a, b, ascl, bscl)`: `a * ascl + b * bscl`. -/
def detailCombine (a b : Vec3 α) (ascl bscl : α) : Vec3 α :=
  (a.smul ascl).add (b.smul bscl)

/-- The scale and shear part of `glm::decompose` on the three rows: the
scale factors and the orthonormalised rows, negated when the rows form a
left-handed system. -/
def decomposeScale (m : Libm α) (Row0 Row1 Row2 : Vec3 α) :
    Vec3 α × Vec3 α × Vec3 α × Vec3 α :=
  let ScaleX := length m Row0
  let Row0 := detailScale m Row0 1
  let SkewZ := dot Row0 Row1
  let Row1 := detailCombine Row1 Row0 1 (-SkewZ)
  let ScaleY := length m Row1
  let Row1 := detailScale m Row1 1
  let SkewY := dot Row0 Row2
  let Row2 := detailCombine Row2 Row0 1 (-SkewY)
  let SkewX := dot Row1 Row2
  let Row2 := detailCombine Row2 Row1 1 (-SkewX)
  let ScaleZ := length m Row2
  let Row2 := detailScale m Row2 1
  let Pdum3 := cross Row1 Row2
  if dot Row0 Pdum3 < 0 then
    (⟨ScaleX * (-1), ScaleY * (-1), ScaleZ * (-1)⟩, Row0.smul (-1), Row1.smul (-1),
      Row2.smul (-1))
  else (⟨ScaleX, ScaleY, ScaleZ⟩, Row0, Row1, Row2)

/-- The rotation part of `glm::decompose`: the quaternion of the
orthonormal rows. -/
def decomposeOrientation (m : Libm α) (Row0 Row1 Row2 : Vec3 α) : Quat α :=
  let trace := Row0.x + Row1.y + Row2.z
  if trace > 0 then
    let root := m.sqrt (trace + 1)
    let w := (1 / 2) * root
    let root := (1 / 2) / root
    ⟨w, root * (Row1.z - Row2.y), root * (Row2.x - Row0.z), root * (Row0.y - Row1.x)⟩
  else
    let i : Nat := 0
    let i : Nat := if Row1.y > Row0.x then 1 else i
    let i : Nat := if Row2.z > (if i = 1 then Row1.y else Row0.x) then 2 else i
    match i with
    | 0 =>
      let root := m.sqrt (Row0.x - Row1.y - Row2.z + 1)
      let x := (1 / 2) * root
      let root := (1 / 2) / root
      ⟨root * (Row1.z - Row2.y), x, root * (Row0.y + Row1.x), root * (Row0.z + Row2.x)⟩
    | 1 =>
      let root := m.sqrt (Row1.y - Row2.z - Row0.x + 1)
      let y := (1 / 2) * root
      let root := (1 / 2) / root
      ⟨root * (Row2.x - Row0.z), root * (Row1.x + Row0.y), y, root * (Row1.z + Row2.y)⟩
    | _ =>
      let root := m.sqrt (Row2.z - Row0.x - Row1.y + 1)
      let z := (1 / 2) * root
      let root := (1 / 2) / root
      ⟨root * (Row0.y - Row1.x), root * (Row2.x + Row0.z), root * (Row2.y + Row1.z), z⟩

/-- Function `glm::decompose`, as scale, orientation and translation;
`none` when it returns `false`. -/
def decompose (m : Libm α) (ModelMatrix : Mat4 α) : Option (Vec3 α × Quat α × Vec3 α) :=
  if epsilonEqual ModelMatrix.c3.w 0 epsilon then none
  else
    let d := ModelMatrix.c3.w
    let LocalMatrix : Mat4 α :=
      ⟨ModelMatrix.c0.div d, ModelMatrix.c1.div d, ModelMatrix.c2.div d, ModelMatrix.c3.div d⟩
    let PerspectiveMatrix : Mat4 α :=
      ⟨{ LocalMatrix.c0 with w := 0 }, { LocalMatrix.c1 with w := 0 },
       { LocalMatrix.c2 with w := 0 }, { LocalMatrix.c3 with w := 1 }⟩
    if epsilonEqual (determinant PerspectiveMatrix) 0 epsilon then none
    else
      let LocalMatrix : Mat4 α :=
        if ¬ epsilonEqual LocalMatrix.c0.w 0 epsilon ∨ ¬ epsilonEqual LocalMatrix.c1.w 0 epsilon
            ∨ ¬ epsilonEqual LocalMatrix.c2.w 0 epsilon then
          ⟨{ LocalMatrix.c0 with w := 0 }, { LocalMatrix.c1 with w := 0 },
           { LocalMatrix.c2 with w := 0 }, { LocalMatrix.c3 with w := 1 }⟩
        else LocalMatrix
      let Translation := LocalMatrix.c3.toVec3
      let r := decomposeScale m LocalMatrix.c0.toVec3 LocalMatrix.c1.toVec3
        LocalMatrix.c2.toVec3
      some (r.1, decomposeOrientation m r.2.1 r.2.2.1 r.2.2.2, Translation)

/-- The quaternion has length 1. -/
def Quat.IsUnit (q : Quat α) : Prop :=
  q.w * q.w + q.x * q.x + q.y * q.y + q.z * q.z = 1

end Decompose

section FromMatrix

variable {α : Type} [Add α] [Mul α] [Sub α] [Div α] [Neg α] [Zero α] [One α] [OfNat α 3]
  [OfNat α 90]

/-- Constructor `Transform::Transform(const glm::mat4& m)`, with the
function `decompose` it calls as a parameter. -/
def Transform.fromMatrix (decompose : Mat4 α → Option (Vec3 α × Quat α × Vec3 α))
    (m : Mat4 α) : Transform α :=
  match decompose m with
  | none =>
    { yaw := -90, pitch := 0, lastCircleAngle := 0, _idx := 0, _position := ⟨0, 0, 0⟩,
      _startPosition := ⟨0, 0, 0⟩, _rotation := ⟨1, 0, 0, 0⟩, _localScale := 1,
      _parent := none }
  | some (scale, rotation, translation) =>
    { yaw := -90, pitch := 0, lastCircleAngle := 0, _idx := 0, _position := translation,
      _startPosition := ⟨0, 0, 0⟩, _rotation := rotation,
      _localScale := (scale.x + scale.y + scale.z) / 3, _parent := none }

/-- The matrix `translate(position) * rotate(rotation) * scale(s, s, s)`. -/
def composeTRS (position : Vec3 α) (rotation : Quat α) (s : α) : Mat4 α :=
  translate Mat4.identity position * toMat4 rotation * scale Mat4.identity ⟨s, s, s⟩

end FromMatrix

/-! ## Sample values for the camera and direction properties -/

/-- A square root function on `ℚ` that is exact on the squares listed and
returns 0 elsewhere. -/
def sampleSqrt (q : ℚ) : ℚ :=
  if q = 1 then 1
  else if q = 9 / 4 then 3 / 2
  else if q = 4 then 2
  else if q = 9 then 3
  else if q = 16 then 4
  else if q = 25 then 5
  else if q = 256 then 16
  else 0

/-- The cosine of an angle in degrees, exact at the right angles between
-180 and 180 and 0 elsewhere. -/
def sampleCosDeg (x : ℚ) : ℚ :=
  if x = 0 then 1 else if x = 180 ∨ x = -180 then -1 else 0

/-- The sine of an angle in degrees, exact at the right angles between -180
and 180 and 0 elsewhere. -/
def sampleSinDeg (x : ℚ) : ℚ :=
  if x = 90 then 1 else if x = -90 then -1 else 0

/-- The library functions over `ℚ` used in the instances. -/
def sampleLibm : Libm ℚ :=
  { sqrt := sampleSqrt, cosDeg := sampleCosDeg, sinDeg := sampleSinDeg }

/-- A transform at `pos` with the rotation `rot`, scale 1 and the parent
pointer `par`; yaw and pitch as the class initialises them. -/
def sampleTransform (pos : Vec3 ℚ) (rot : Quat ℚ) (par : Option Nat) : Transform ℚ :=
  { yaw := -90, pitch := 0, lastCircleAngle := 0, _idx := 0, _position := pos,
    _startPosition := pos, _rotation := rot, _localScale := 1, _parent := par }

/-- A view of an 800 x 600 window whose camera transform is `cam`, with the
given looking and fly mode flags and cursor position; the sphere object is
at `App::SpherePos`. -/
def sampleView (cam : Transform ℚ) (looking fly : Bool) (cursor : ℚ × ℚ) : View ℚ :=
  { input := { mouseLooking := looking }, dynamicMode := looking, flyMode := fly,
    cameraIdx := 0, WindowWidth := 800, WindowHeight := 600, cursor := cursor,
    cameraObject := { _transform := cam, _speedHor := 1 / 20, _speedVer := 1 / 50,
                      _transforms := [] },
    sphereObj := sampleTransform App.SpherePos ⟨1, 0, 0, 0⟩ none }

/-- A store with one transform, the transform of the cat as the application
constructs it. -/
def sampleCatStore : Store ℚ :=
  [Transform.ofScale ⟨1, 0, 0, 0⟩ App.CatPos App.CatScale]

/-- A view in fly mode whose camera transform, at (-5, 7/2, 0), one unit
from the sphere object, has the transform at address 0 as parent. -/
def sampleParentedView : View ℚ :=
  sampleView (sampleTransform ⟨-5, 7 / 2, 0⟩ ⟨1, 0, 0, 0⟩ (some 0)) false true (0, 0)

/-- A square root function on `float` that is exact at `1681 / 1024`, the
square of `41 / 32`, and returns 0 elsewhere. -/
def sampleSqrt32 (x : F32) : F32 :=
  if x.val = 1681 / 1024 then ⟨41 / 32⟩ else 0

/-- The library functions over `float` used in the instances. -/
def sampleLibm32 : Libm F32 :=
  { sqrt := sampleSqrt32, cosDeg := fun _ => 0, sinDeg := fun _ => 0 }

/-- A transform over `float` at `pos` with the identity rotation, scale 1
and no parent. -/
def sampleTransform32 (pos : Vec3 F32) : Transform F32 :=
  { yaw := -90, pitch := 0, lastCircleAngle := 0, _idx := 0, _position := pos,
    _startPosition := pos, _rotation := ⟨1, 0, 0, 0⟩, _localScale := 1, _parent := none }

/-- The camera position (-5, 3.5, 0.28125), at the distance 1.28125 from
`App::SpherePos`. -/
def sampleNearPosition : Vec3 F32 :=
  ⟨⟨-5⟩, ⟨7 / 2⟩, ⟨9 / 32⟩⟩

/-! ## Selection runs, stencil read-back, view matrix of a draw -/

/-- A step of the main loop that touches the selection state: a frame is
rendered, or a click runs `DoPicking` and reads the byte `R` back. -/
inductive SelectEvent where
  | render
  | pick (R : Fin 256)
  deriving DecidableEq, Repr

/-- One step of the main loop; `none` when it makes an out-of-bounds access
to `RenderObjects`. -/
def SelectEvent.apply : SelectEvent → App → Option App
  | .render, st => st.Render
  | .pick R, st => DoPicking R st

/-- A run of the main loop over the events in order; `none` as soon as one
step makes an out-of-bounds access. -/
def runSelect : List SelectEvent → App → Option App
  | [], st => some st
  | e :: es, st => (e.apply st).bind (runSelect es)

/-- The stencil value read back by the event is at most `n`. -/
def SelectEvent.Within (n : Nat) : SelectEvent → Prop
  | .render => True
  | .pick R => R.val ≤ n

/-- A selection index is -1 or an index of a collection of `n` objects. -/
def IndexOk (n : Nat) (idx : Int) : Prop :=
  idx = -1 ∨ (0 ≤ idx ∧ idx < n)

/-- The selection state is consistent with a collection of `n` objects: the
collection has `n` elements and both selection indices are -1 or an index of
it. -/
def SelectInv (n : Nat) (st : App) : Prop :=
  st.RenderObjects.length = n ∧ IndexOk n st.stencilIdx ∧ IndexOk n st.stencilIdxLast

/-- The stencil value after a write under `glStencilOp(.., .., GL_REPLACE)`:
the bits of the write mask come from the reference, the others stay. -/
def stencilWrite (old ref mask : Nat) : Nat :=
  (old &&& (255 - mask)) ||| (ref &&& mask)

/-- The value of the 8-bit stencil buffer at one pixel after the draw calls
since the last clear (which sets it to 0).  `passes i` says whether the draw
of the object at position `i` produces a fragment at the pixel that passes
the depth test; under `glStencilFunc(GL_ALWAYS, ..)` and
`glStencilOp(GL_KEEP, GL_KEEP, GL_REPLACE)` such a fragment writes the
reference through the stencil mask, every other case keeps the value. -/
def stencilAt (passes : Nat → Bool) (draws : List Draw) : Nat :=
  draws.foldl (fun v d =>
    if d.stencilTest = true ∧ passes d.obj = true then
      stencilWrite v d.stencilRef d.stencilMask
    else v) 0

/-- The draw calls since the last clear, each as the position of the object,
the stencil reference, the stencil write mask and the stencil test flag in
force at the call. -/
def App.stencilOps (st : App) : List (Nat × Nat × Nat × Bool) :=
  st.gl.draws.map (fun d => (d.obj, d.stencilRef, d.stencilMask, d.stencilTest))

/-- The stencil write mask under which an object of the given kind is drawn
when the mask is 0xFF before the call. -/
def RenderObjectType.drawMask : RenderObjectType → Nat
  | .CubeMap => 0
  | .Water => 0
  | _ => 255

/-- The draw calls since the last clear, each as the position of the object,
the program in use and the value of that program's uniform at `location` at
the call. -/
def App.uniformLog (st : App) (location : Int) : List (Nat × Nat × Option UVal) :=
  st.gl.draws.map (fun d => (d.obj, d.program, d.uniforms location))

/-- The stencil operations of a stencil pass over the objects from position
`i` on: the object at position `k` is drawn under the reference `k + 1`
clamped to 255 and under the write mask of its kind. -/
def stencilOpsFrom (test : Bool) : Nat → List RenderObject → List (Nat × Nat × Nat × Bool)
  | _, [] => []
  | i, o :: os => (i, min (i + 1) 255, o._type.drawMask, test) :: stencilOpsFrom test (i + 1) os

/-- The draws with program `p` since the last clear, each as the position of
the object and the value of the uniform at `location` at the call. -/
def viewLog (g : GLContext) (p : Nat) (location : Int) : List (Nat × Option UVal) :=
  (g.draws.filter (fun d => decide (d.program = p))).map
    (fun d => (d.obj, d.uniforms location))

/-- The draws with the main shader since the last clear, each as the
position of the object and the value of the main shader's `ViewM` at the
call. -/
def App.mainViewLog (st : App) : List (Nat × Option UVal) :=
  viewLog st.gl st.shader._id st.shader._utils.ViewM

/-- The value of the main shader's `ViewM` after the preparation that the
loop body of `RenderSceneObjects` makes for an object of the given kind,
when the value before is `v`: the view matrix for a box, the view matrix
without its translation for the cube map, `v` itself for every other
kind. -/
def viewAt : RenderObjectType → Option UVal → Option UVal
  | .Box, _ => some .viewMatrix
  | .CubeMap, _ => some .viewRotation
  | _, v => v

/-- The main-shader draws of `RenderSceneObjects` over the objects from
position `i` on with the value of `ViewM` at each, when the value before
the loop is `v`. -/
def viewLogFrom : Nat → List RenderObject → Option UVal → List (Nat × Option UVal)
  | _, [], _ => []
  | i, o :: os, v => (i, viewAt o._type v) :: viewLogFrom (i + 1) os (viewAt o._type v)

/-- The assumptions on the graphics library under which the main shader's
`ViewM` is tracked through the objects `os`: the water and the main program
are different, `ViewM` has a location, no other location written by the
render routines or by `ApplyBoxSettings` collides with it, and no material
of the objects uploads to it. -/
def ViewEnv (st : App) (os : List RenderObject) : Prop :=
  st.shaderWater._id ≠ st.shader._id ∧ st.shader._utils.ViewM ≠ -1 ∧
  WritesSeparate st.shader st.shader._utils.ViewM ∧
  Separate st.shader._utils.useAlpha st.shader._utils.ViewM ∧
  Separate st.shader._utils.useCubeMap st.shader._utils.ViewM ∧
  ∀ o ∈ os, ∀ m, o._renderer._material = some m → ∀ nv ∈ m._values,
    Separate (st.gl.locations (st.shaderOf m._shader)._id nv.1) st.shader._utils.ViewM

/-- A collection with the kinds in the order of `LoadObjects`: a mesh, the
fire, the cube map, the water and a box; nothing picked or highlighted. -/
def sampleLoadOrder : App :=
  sampleApp [sampleMesh, sampleFire, sampleCubeMap, sampleWater, sampleBox .BoxBigT] (-1) (-1)

/-! ## Input handlers (`App::Update`, `OnKeyChanged`, `OnMouseButtonChanged`,
`ChangeCamera`) -/

/-- The keys `App::OnKeyChanged` has a case for; `other` is every other key. -/
inductive Key where
  | R | G | V | ESCAPE | LEFT | RIGHT | DOWN | W | A | S | D | SPACE | C
  | LEFT_CONTROL | F | LEFT_SHIFT | K1 | K2 | K3 | K4 | other

/-- The mouse buttons `App::OnMouseButtonChanged` has a case for. -/
inductive MouseButton where
  | LEFT | RIGHT | other

/-- The enum `Direction`. -/
inductive Direction where
  | FRONT | LEFT | BACK | RIGHT | UP | DOWN

/-- The inverse trigonometric functions of the C library followed by
`glm::degrees`: `degrees(atan2(y, x))` and `degrees(asin(x))`. -/
structure Trig (α : Type) where
  atan2Deg : α → α → α
  asinDeg : α → α

/-- What happens between two frames, as far as the camera control sees it: a
key or mouse button callback, a call of `App::Update`, or the window system
moving the cursor. -/
inductive InputEvent (α : Type) where
  | key (k : Key) (pressed : Bool)
  | mouse (b : MouseButton) (pressed : Bool)
  | update
  | cursor (x y : α)

section InputHandlers

variable {α : Type} [LinearOrderedField α]

/-- Constant `Camera::DEFAULT_SPEED_H`. -/
def Camera.DEFAULT_SPEED_H : α := 1 / 20

/-- Constant `Camera::DEFAULT_SPEED_V`. -/
def Camera.DEFAULT_SPEED_V : α := 1 / 50

/-- Constructor `Transform::Transform(glm::vec3 position, glm::vec3
direction)`. -/
def Transform.ofDirection (m : Libm α) (tr : Trig α) (position direction : Vec3 α) :
    Transform α :=
  { yaw := tr.atan2Deg direction.z direction.x, pitch := tr.asinDeg direction.y,
    lastCircleAngle := 0, _idx := 0, _position := position, _startPosition := position,
    _rotation := quatLookAt m (normalize m direction) ⟨0, 1, 0⟩, _localScale := 1,
    _parent := none }

/-- Method `Transform::GetWorldForward` called on a transform object held by
value. -/
def Transform.worldForward (m : Libm α) (mem : Store α) (fuel : Nat) (t : Transform α) :
    Option (Vec3 α) :=
  (t.worldMatrix mem fuel).map (fun M => normalize m (M.mulVec ⟨0, 0, -1, 0⟩).toVec3)

/-- Method `CameraObject::UpdateTransform`. -/
def CameraObject.UpdateTransform (m : Libm α) (c : CameraObject α) (dir : Direction) :
    CameraObject α :=
  let position := c._transform.GetPosition
  let speedHor := c._speedHor
  let speedVer := c._speedVer
  let position : Vec3 α :=
    match dir with
    | .FRONT => position.add ((c._transform.GetForward m).smul speedHor)
    | .BACK => position.sub ((c._transform.GetForward m).smul speedHor)
    | .LEFT => position.sub ((c._transform.GetRight m).smul speedHor)
    | .RIGHT => position.add ((c._transform.GetRight m).smul speedHor)
    | .UP => { position with y := position.y + speedVer }
    | .DOWN => { position with y := position.y - speedVer }
  { c with _transform := c._transform.SetPosition position }

/-- Method `App::UpdateKeyboard`. -/
def UpdateKeyboard (m : Libm α) (v : View α) : View α :=
  if !v.dynamicMode then v
  else
    let c := v.cameraObject
    let c := if v.input.keyW then c.UpdateTransform m .FRONT else c
    let c := if v.input.keyA then c.UpdateTransform m .LEFT else c
    let c := if v.input.keyS then c.UpdateTransform m .BACK else c
    let c := if v.input.keyD then c.UpdateTransform m .RIGHT else c
    let c := if v.input.keySpace then c.UpdateTransform m .UP else c
    let c := if v.input.keyC then c.UpdateTransform m .DOWN else c
    { v with cameraObject := c }

/-- Method `App::Update`. -/
def Update (m : Libm α) (v : View α) : View α :=
  UpdateKeyboard m (UpdateMouse m v)

/-- The statements `dynamicMode = false; mouseLooking = false;
SetTransform(GetTransforms()[k])` of the cases 1, 2 and 3 of `ChangeCamera`;
`none` when the preset `k` does not exist. -/
def useStaticCamera (k : Nat) (v : View α) : Option (View α) :=
  let v := { v with dynamicMode := false, input := { v.input with mouseLooking := false } }
  match v.cameraObject._transforms[k]? with
  | none => none
  | some t => some { v with cameraObject := { v.cameraObject with _transform := t } }

/-- Function `ChangeCamera(buttonIdx)`.  The transforms of the scene, among
them the parent of a preset, live in `mem`; the result is `none` when a
preset does not exist or the world matrix of the camera transform is not
defined. -/
def ChangeCamera (m : Libm α) (tr : Trig α) (mem : Store α) (fuel : Nat) (buttonIdx : Int)
    (v : View α) : Option (View α) :=
  if buttonIdx = 0 then
    let v := { v with
      cursor := (v.WindowWidth / 2, v.WindowHeight / 2)
      dynamicMode := true
      input := { v.input with mouseLooking := true } }
    match v.cameraObject._transform.worldPosition mem fuel,
      v.cameraObject._transform.worldForward m mem fuel with
    | some p, some d =>
      if 0 < v.cameraObject._transforms.length then
        let t := Transform.ofDirection m tr p d
        some { v with
          cameraObject := { v.cameraObject with
            _transforms := v.cameraObject._transforms.set 0 t
            _transform := t } }
      else none
    | _, _ => none
  else if buttonIdx = 1 then useStaticCamera 1 v
  else if buttonIdx = 2 then useStaticCamera 2 v
  else if buttonIdx = 3 then useStaticCamera 3 v
  else some v

/-- The value of `cameraObject.GetTransforms().size() - 1` converted to
`int`: the subtraction is made in `size_t`. -/
def lastCameraIdx (size : Nat) : Int :=
  sizeToInt (if size = 0 then 18446744073709551615 else size - 1)

/-- Method `App::OnKeyChanged(key, pressed)`.  The keys R, G, ESCAPE and F
act on state outside the view (the shaders, `useFog`, the window,
`useFlashLight`). -/
def OnKeyChanged (m : Libm α) (tr : Trig α) (mem : Store α) (fuel : Nat) (key : Key)
    (pressed : Bool) (v : View α) : Option (View α) :=
  if pressed then
    match key with
    | .R => some v
    | .G => some v
    | .V => some { v with flyMode := !v.flyMode }
    | .ESCAPE => some v
    | .LEFT =>
      let cameraIdx := v.cameraIdx - 1
      let cameraIdx :=
        if cameraIdx ≤ 0 then lastCameraIdx v.cameraObject._transforms.length else cameraIdx
      ChangeCamera m tr mem fuel cameraIdx { v with cameraIdx := cameraIdx }
    | .RIGHT =>
      let cameraIdx := v.cameraIdx + 1
      let cameraIdx :=
        if cameraIdx ≥ sizeToInt v.cameraObject._transforms.length then 1 else cameraIdx
      ChangeCamera m tr mem fuel cameraIdx { v with cameraIdx := cameraIdx }
    | .DOWN => ChangeCamera m tr mem fuel 0 v
    | .W => some { v with input := { v.input with keyW := true } }
    | .A => some { v with input := { v.input with keyA := true } }
    | .S => some { v with input := { v.input with keyS := true } }
    | .D => some { v with input := { v.input with keyD := true } }
    | .SPACE => some { v with input := { v.input with keySpace := true } }
    | .C => some { v with input := { v.input with keyC := true } }
    | .LEFT_CONTROL => some { v with input := { v.input with keyCtrl := true } }
    | .F => some v
    | .LEFT_SHIFT =>
      some { v with cameraObject := { v.cameraObject with
        _speedHor := Camera.DEFAULT_SPEED_H * 2 } }
    | .K1 => ChangeCamera m tr mem fuel 0 v
    | .K2 => ChangeCamera m tr mem fuel 1 v
    | .K3 => ChangeCamera m tr mem fuel 2 v
    | .K4 => ChangeCamera m tr mem fuel 3 v
    | .other => some v
  else
    match key with
    | .W => some { v with input := { v.input with keyW := false } }
    | .A => some { v with input := { v.input with keyA := false } }
    | .S => some { v with input := { v.input with keyS := false } }
    | .D => some { v with input := { v.input with keyD := false } }
    | .SPACE => some { v with input := { v.input with keySpace := false } }
    | .C => some { v with input := { v.input with keyC := false } }
    | .LEFT_CONTROL => some { v with input := { v.input with keyCtrl := false } }
    | .LEFT_SHIFT =>
      some { v with cameraObject := { v.cameraObject with
        _speedHor := Camera.DEFAULT_SPEED_H } }
    | _ => some v

/-- Method `App::OnMouseButtonChanged(button, pressed)`.  The right button
calls `DoPicking`, which acts on state outside the view. -/
def OnMouseButtonChanged (button : MouseButton) (pressed : Bool) (v : View α) : View α :=
  if pressed then
    match button with
    | .LEFT =>
      if !v.dynamicMode then { v with input := { v.input with mouseLooking := false } }
      else
        let v := { v with input := { v.input with mouseLooking := !v.input.mouseLooking } }
        if v.input.mouseLooking then
          { v with cursor := (v.WindowWidth / 2, v.WindowHeight / 2) }
        else v
    | .RIGHT => v
    | .other => v
  else v

/-- One event of the input loop; `none` when a handler makes an undefined
access. -/
def InputEvent.apply (m : Libm α) (tr : Trig α) (mem : Store α) (fuel : Nat) :
    InputEvent α → View α → Option (View α)
  | .key k pressed, v => OnKeyChanged m tr mem fuel k pressed v
  | .mouse b pressed, v => some (OnMouseButtonChanged b pressed v)
  | .update, v => some (Update m v)
  | .cursor x y, v => some { v with cursor := (x, y) }

/-- A run of the input loop over the events in order. -/
def runInput (m : Libm α) (tr : Trig α) (mem : Store α) (fuel : Nat) :
    List (InputEvent α) → View α → Option (View α)
  | [], v => some v
  | e :: es, v => (e.apply m tr mem fuel v).bind (runInput m tr mem fuel es)

/-- The flag `mouseLooking` is on only in dynamic mode. -/
def LookingIsDynamic (v : View α) : Prop :=
  v.input.mouseLooking = true → v.dynamicMode = true

end InputHandlers

/-- The four presets of the `CameraObject` constructor as far as the run
needs them: positions of `App.h`, identity rotations. -/
def samplePresets : List (Transform ℚ) :=
  [sampleTransform ⟨-7 / 2, 11 / 2, 8⟩ ⟨1, 0, 0, 0⟩ none,
   sampleTransform ⟨-12, 10, -10⟩ ⟨1, 0, 0, 0⟩ none,
   sampleTransform ⟨-12, 10, 10⟩ ⟨1, 0, 0, 0⟩ none,
   sampleTransform ⟨0, 7, -3⟩ ⟨1, 0, 0, 0⟩ none]

/-- The initial view: dynamic mode on, mouse look off, the camera at the
dynamic preset, the cursor at (10, 20). -/
def sampleInitialView : View ℚ :=
  { input := {}, dynamicMode := true, flyMode := true, cameraIdx := 0,
    WindowWidth := 800, WindowHeight := 600, cursor := (10, 20),
    cameraObject :=
      { _transform := sampleTransform ⟨-7 / 2, 11 / 2, 8⟩ ⟨1, 0, 0, 0⟩ none,
        _speedHor := 1 / 20, _speedVer := 1 / 50, _transforms := samplePresets },
    sphereObj := sampleTransform App.SpherePos ⟨1, 0, 0, 0⟩ none }

/-- Inverse trigonometric functions that return 0 everywhere. -/
def sampleTrig : Trig ℚ :=
  { atan2Deg := fun _ _ => 0, asinDeg := fun _ => 0 }

/-- The left button starts mouse look, key 2 selects the first static
camera, W is pressed, the left button is clicked again, the cursor moves,
and `App::Update` runs. -/
def sampleInputs : List (InputEvent ℚ) :=
  [.mouse .LEFT true, .key .K2 true, .key .W true, .mouse .LEFT true, .cursor 500 100,
   .update]

/-! ## Mesh loading (`GltfLoader`, `MeshLoader`, `MeshSource`, `Mesh`) -/

/-- Reduction of a value to `uint32_t` / `unsigned int`. -/
def u32 (n : Nat) : Nat := n % 4294967296

/-- Reduction of a value to `size_t` (64 bit). -/
def u64 (n : Nat) : Nat := n % 18446744073709551616

/-- Conversion of an `int` to `unsigned int`. -/
def intToU32 (z : Int) : Nat := (z % 4294967296).toNat

/-- Constant `TINYGLTF_COMPONENT_TYPE_UNSIGNED_SHORT` of tiny_gltf.h. -/
def TINYGLTF_COMPONENT_TYPE_UNSIGNED_SHORT : Int := 5123

/-- Constant `TINYGLTF_COMPONENT_TYPE_UNSIGNED_INT` of tiny_gltf.h. -/
def TINYGLTF_COMPONENT_TYPE_UNSIGNED_INT : Int := 5125

/-- Constant `TINYGLTF_COMPONENT_TYPE_FLOAT` of tiny_gltf.h. -/
def TINYGLTF_COMPONENT_TYPE_FLOAT : Int := 5126

/-- Constant `TINYGLTF_MODE_LINE` of tiny_gltf.h. -/
def TINYGLTF_MODE_LINE : Int := 1

/-- Constant `TINYGLTF_MODE_TRIANGLES` of tiny_gltf.h. -/
def TINYGLTF_MODE_TRIANGLES : Int := 4

/-- Constant `TINYGLTF_TYPE_VEC2` of tiny_gltf.h. -/
def TINYGLTF_TYPE_VEC2 : Int := 2

/-- Constant `TINYGLTF_TYPE_VEC3` of tiny_gltf.h. -/
def TINYGLTF_TYPE_VEC3 : Int := 3

/-- Constant `TINYGLTF_TYPE_VEC4` of tiny_gltf.h. -/
def TINYGLTF_TYPE_VEC4 : Int := 4

namespace Gltf

/-- The fields of `tinygltf::Accessor` that the loaders read. -/
structure Accessor where
  bufferView : Int
  byteOffset : Nat
  componentType : Int
  count : Nat
  type : Int
  isSparse : Bool := false
deriving DecidableEq, Repr

/-- The fields of `tinygltf::BufferView` that the loaders read. -/
structure BufferView where
  buffer : Int
  byteOffset : Nat
  byteStride : Nat
deriving DecidableEq, Repr

/-- The struct `tinygltf::Buffer`: `data` is the vector of bytes. -/
structure Buffer where
  data : List Nat
deriving DecidableEq, Repr

/-- The fields of `tinygltf::Primitive` that the loaders read; `attributes`
is the map from attribute name to accessor index. -/
structure Primitive where
  attributes : List (String × Int)
  material : Int := -1
  indices : Int := -1
  mode : Int := -1
deriving DecidableEq, Repr

/-- The struct `tinygltf::Mesh`. -/
structure Mesh where
  primitives : List Primitive
deriving DecidableEq, Repr

/-- The fields of `tinygltf::Node` that decide which meshes are loaded: the
mesh index and the child indices. -/
structure Node where
  mesh : Int := -1
  children : List Int := []
deriving DecidableEq, Repr

/-- The struct `tinygltf::Scene`: the indices of the root nodes. -/
structure Scene where
  nodes : List Int
deriving DecidableEq, Repr

/-- The struct `tinygltf::Model` as the parser returns it; of
`materials` only the number of elements is kept. -/
structure Model where
  accessors : List Accessor := []
  bufferViews : List BufferView := []
  buffers : List Buffer := []
  meshes : List Mesh := []
  nodes : List Node := []
  scenes : List Scene := []
  defaultScene : Int := -1
  materialCount : Nat := 0
deriving DecidableEq, Repr

end Gltf

/-- The unchecked element access `v[i]` of a `std::vector` with an `int`
index: `none` when the access is out of bounds. -/
def vecAt {β : Type} (v : List β) (i : Int) : Option β :=
  if i < 0 then none else v[i.toNat]?

/-- The byte at offset `off` of a buffer; `none` outside the buffer. -/
def readU8 (data : List Nat) (off : Nat) : Option Nat :=
  data[off]?

/-- The `uint16_t` whose two bytes start at offset `off` (little endian);
`none` when a byte lies outside the buffer. -/
def readU16 (data : List Nat) (off : Nat) : Option Nat :=
  match data[off]?, data[off + 1]? with
  | some a, some b => some (a + 256 * b)
  | _, _ => none

/-- The four bytes that start at offset `off`, as one 32-bit pattern (little
endian); `none` when a byte lies outside the buffer. -/
def readU32 (data : List Nat) (off : Nat) : Option Nat :=
  match data[off]?, data[off + 1]?, data[off + 2]?, data[off + 3]? with
  | some a, some b, some c, some d => some (a + 256 * b + 65536 * c + 16777216 * d)
  | _, _, _, _ => none

/-- The `float` whose four bytes start at offset `off`, given by its bit
pattern; `none` when a byte lies outside the buffer. -/
def readFloat (data : List Nat) (off : Nat) : Option Nat :=
  readU32 data off

/-- The extraction loop shared by `LoadFloatAttribute` and `FillFloatAttr`:
for `i < count` the `components` floats at `start + i * stride`; `none` when
a read leaves the buffer. -/
def extractFloats (data : List Nat) (start stride count components : Nat) :
    Option (List Nat) :=
  ((List.range count).mapM (fun i =>
    (List.range components).mapM (fun c =>
      readFloat data (start + u64 (i * stride) + 4 * c)))).map List.flatten

/-- The stride that `LoadFloatAttribute` uses: `byteStride`, or the size of
an element when `byteStride` is 0. -/
def attributeStride (components : Nat) (attributeView : Gltf.BufferView) : Nat :=
  if attributeView.byteStride = 0 then u64 (components * 4) else attributeView.byteStride

/-- The part `Stride and data offset` of `LoadFloatAttribute` and the
extraction loop after it, for the accessor, buffer view and buffer that the
first part of the function has looked up. -/
def extractChecked (components : Nat) (attributeAccessor : Gltf.Accessor)
    (attributeView : Gltf.BufferView) (attributeBuffer : Gltf.Buffer) : Option (List Nat) :=
  let byteOffset := u64 (attributeView.byteOffset + attributeAccessor.byteOffset)
  if u64 (byteOffset + u64 (attributeAccessor.count * attributeStride components attributeView))
      > attributeBuffer.data.length then some []
  else
    extractFloats attributeBuffer.data byteOffset (attributeStride components attributeView)
      attributeAccessor.count components

/-- Method `GltfLoader::LoadFloatAttribute(attributeName, components,
optional, model, primitive)`.  The result is `none` when an access is out of
bounds; the empty attribute is `some []`.  Logging is left out, which is all
`optional` affects; a failing allocation in `resize` is not modelled. -/
def LoadFloatAttribute (attributeName : String) (components : Nat) (_optional : Bool)
    (model : Gltf.Model) (primitive : Gltf.Primitive) : Option (List Nat) :=
  if components = 0 ∨ components > 4 then some []
  else
    match primitive.attributes.lookup attributeName with
    | none => some []
    | some accessorIdx =>
      match vecAt model.accessors accessorIdx with
      | none => none
      | some attributeAccessor =>
        if intToU32 attributeAccessor.type ≠ components ∨
            attributeAccessor.componentType ≠ TINYGLTF_COMPONENT_TYPE_FLOAT then some []
        else if attributeAccessor.bufferView < 0 ∨
            attributeAccessor.bufferView ≥ sizeToInt model.bufferViews.length then some []
        else
          match vecAt model.bufferViews attributeAccessor.bufferView with
          | none => none
          | some attributeView =>
            if attributeView.buffer < 0 ∨
                attributeView.buffer ≥ sizeToInt model.buffers.length then some []
            else
              match vecAt model.buffers attributeView.buffer with
              | none => none
              | some attributeBuffer =>
                extractChecked components attributeAccessor attributeView attributeBuffer

/-- The byte offsets that the extraction of `count` elements of
`components` floats reads, element `i` starting at `byteOffset + i * stride`:
some byte lies past the end of a buffer of `size` bytes. -/
def ReadsPastEnd (size byteOffset stride count components : Nat) : Prop :=
  ∃ i, i < count ∧ ∃ c, c < components ∧ size < byteOffset + i * stride + 4 * c + 4

/-- Function `FillFloatAttr(mdl, prim, name, comps, dst)`: the new content of
`dst`; `none` when an access is out of bounds. -/
def FillFloatAttr (mdl : Gltf.Model) (prim : Gltf.Primitive) (name : String) (comps : Nat) :
    Option (List Nat) :=
  match prim.attributes.lookup name with
  | none => some []
  | some accessorIdx =>
    match vecAt mdl.accessors accessorIdx with
    | none => none
    | some acc =>
      match vecAt mdl.bufferViews acc.bufferView with
      | none => none
      | some view =>
        match vecAt mdl.buffers view.buffer with
        | none => none
        | some buf =>
          let stride := if view.byteStride ≠ 0 then view.byteStride else u64 (comps * 4)
          extractFloats buf.data (view.byteOffset + acc.byteOffset) stride acc.count comps

/-- The class `MeshSource`, with the scalar type `α` for `float`.  The two
path strings are left out. -/
structure MeshSource (α : Type) where
  _vertexCount : Nat := 0
  _faceCount : Nat := 0
  _positions : List α := []
  _normals : List α := []
  _uvs : List α := []
  _tangents : List α := []
  _texCoordChannels : List (List α) := [[], [], [], []]
  _texCoordChannelCount : Nat := 0
  _indices : List Nat := []
deriving DecidableEq, Repr

section MeshSourceOps

variable {α : Type}

/-- Constructor `MeshSource::MeshSource(uint32_t vertexCount, uint32_t
faceCount)`. -/
def MeshSource.new (vertexCount faceCount : Nat) : MeshSource α :=
  { _vertexCount := vertexCount, _faceCount := faceCount, _texCoordChannelCount := 0 }

/-- The call `v.assign(p, p + n)` on the array `p` points to: its first `n`
elements; `none` when the array is shorter. -/
def assignFrom {β : Type} (p : List β) (n : Nat) : Option (List β) :=
  if n ≤ p.length then some (p.take n) else none

/-- Method `MeshSource::SetPositions`. -/
def MeshSource.SetPositions (s : MeshSource α) (positions : List α) : Option (MeshSource α) :=
  (assignFrom positions (u32 (s._vertexCount * 3))).map (fun v => { s with _positions := v })

/-- Method `MeshSource::SetNormals`. -/
def MeshSource.SetNormals (s : MeshSource α) (normals : List α) : Option (MeshSource α) :=
  (assignFrom normals (u32 (s._vertexCount * 3))).map (fun v => { s with _normals := v })

/-- Method `MeshSource::SetTangents` (`IMPL_MESH_ENABLE_TANGENT4` is not
defined). -/
def MeshSource.SetTangents (s : MeshSource α) (tangents : List α) : Option (MeshSource α) :=
  (assignFrom tangents (u32 (s._vertexCount * 3))).map (fun v => { s with _tangents := v })

/-- Method `MeshSource::SetTexCoords`. -/
def MeshSource.SetTexCoords (s : MeshSource α) (texCoords : List α) (channel : Int) :
    Option (MeshSource α) :=
  if channel < 0 ∨ channel > 3 then some s
  else
    let s :=
      if intToU32 channel > s._texCoordChannelCount then
        { s with _texCoordChannelCount := intToU32 channel }
      else s
    (assignFrom texCoords (u32 (s._vertexCount * 2))).map (fun v =>
      { s with _texCoordChannels := s._texCoordChannels.set channel.toNat v })

/-- Method `MeshSource::VertexCount`. -/
def MeshSource.VertexCount (s : MeshSource α) : Nat := s._vertexCount

/-- Method `MeshSource::FaceCount`. -/
def MeshSource.FaceCount (s : MeshSource α) : Nat := s._faceCount

/-- Method `MeshSource::TexCoordCount`. -/
def MeshSource.TexCoordCount (s : MeshSource α) : Nat := s._texCoordChannelCount

/-- Method `MeshSource::TexCoords(channel)`: the array the returned pointer
points to; `none` when `channel` is not an index of the array of channels. -/
def MeshSource.TexCoords (s : MeshSource α) (channel : Nat) : Option (List α) :=
  s._texCoordChannels[channel]?

/-- Method `MeshSource::IsIndexed`. -/
def MeshSource.IsIndexed (s : MeshSource α) : Bool := !s._indices.isEmpty

/-- Method `MeshSource::SetIndices`. -/
def MeshSource.SetIndices (s : MeshSource α) (indices : List Nat) : Option (MeshSource α) :=
  (assignFrom indices (u32 (s._faceCount * 3))).map (fun v => { s with _indices := v })

/-- Method `MeshSource::UpdateCounts`. -/
def MeshSource.UpdateCounts (s : MeshSource α) : MeshSource α :=
  let s := { s with _vertexCount := u32 (s._positions.length / 3) }
  { s with _faceCount :=
      if s.IsIndexed then u32 (s._indices.length / 3) else s._vertexCount / 3 }

/-- The loop `for (i < uvChannels.size()) meshSource.SetTexCoords(
uvChannelsData[i].data(), uvChannels[i])` of `GltfLoader::LoadMesh`, from
channel `i` on; `uvChannels[i]` is `i`. -/
def populateTexCoords : Nat → List (List α) → MeshSource α → Option (MeshSource α)
  | _, [], s => some s
  | i, uv :: rest, s => (s.SetTexCoords uv (i : Int)).bind (populateTexCoords (i + 1) rest)

/-- The vectors `expandedPositions`, `expandedNormals`, `expandedTangents`
and `expandedTexCoords` of `MeshLoader::LoadMesh`. -/
structure Expanded (α : Type) where
  positions : List α := []
  normals : List α := []
  tangents : List α := []
  texCoords : List (List α) := []

/-- The loop over the channels in the body of the expansion loop, from
`channel` on for `n` more channels; it ends at the first channel whose data
pointer is null. -/
def expandTexCoords (meshSource : MeshSource α) (baseIndex : Nat) :
    Nat → Nat → List (List α) → Option (List (List α))
  | 0, _, acc => some acc
  | n + 1, channel, acc =>
    match meshSource.TexCoords channel with
    | none => none
    | some tc =>
      if tc.isEmpty then some acc
      else
        match tc[u32 (2 * baseIndex)]?, tc[u32 (u32 (2 * baseIndex) + 1)]?, acc[channel]? with
        | some a, some b, some e =>
          expandTexCoords meshSource baseIndex n (channel + 1) (acc.set channel (e ++ [a, b]))
        | _, _, _ => none

/-- The three floats `p[3 * baseIndex]`, `p[3 * baseIndex + 1]`,
`p[3 * baseIndex + 2]`, the index computed in `unsigned int`; `none` when a
read is out of bounds. -/
def readTriple (p : List α) (baseIndex : Nat) : Option (List α) :=
  match p[u32 (3 * baseIndex)]?, p[u32 (u32 (3 * baseIndex) + 1)]?,
    p[u32 (u32 (3 * baseIndex) + 2)]? with
  | some a, some b, some c => some [a, b, c]
  | _, _, _ => none

/-- The body of the expansion loop of `MeshLoader::LoadMesh` for the index
`i`.  The data pointer of an empty vector is taken to be null. -/
def expandStep (meshSource : MeshSource α) (e : Expanded α) (i : Nat) : Option (Expanded α) :=
  match meshSource._indices[i]? with
  | none => none
  | some baseIndex =>
    match readTriple meshSource._positions baseIndex with
    | none => none
    | some p =>
      let e := { e with positions := e.positions ++ p }
      let e? : Option (Expanded α) :=
        if !meshSource._normals.isEmpty then
          (readTriple meshSource._normals baseIndex).map (fun n =>
            { e with normals := e.normals ++ n })
        else some e
      let e? : Option (Expanded α) :=
        e?.bind (fun e =>
          if !meshSource._tangents.isEmpty then
            (readTriple meshSource._tangents baseIndex).map (fun t =>
              { e with tangents := e.tangents ++ t })
          else some e)
      e?.bind (fun e =>
        (expandTexCoords meshSource baseIndex meshSource.TexCoordCount 0 e.texCoords).map
          (fun tc => { e with texCoords := tc }))

/-- The last loop of the expansion: `SetTexCoords` for every channel below
`TexCoordCount()` whose expanded vector is not empty. -/
def setExpandedTexCoords (texCoords : List (List α)) :
    List Nat → MeshSource α → Option (MeshSource α)
  | [], m => some m
  | channel :: rest, m =>
    match texCoords[channel]? with
    | none => none
    | some tc =>
      if !tc.isEmpty then
        (m.SetTexCoords tc channel).bind (setExpandedTexCoords texCoords rest)
      else setExpandedTexCoords texCoords rest m

/-- Method `MeshLoader::LoadMesh(path, useIndices)` after the file has been
read: `meshSource` is what `GltfLoader::LoadMesh` returned for a path with a
supported extension.  The result is `none` when an access is out of
bounds. -/
def LoadMesh (meshSource : MeshSource α) (useIndices : Bool) : Option (MeshSource α) :=
  if meshSource.VertexCount = 0 then some meshSource
  else if !useIndices then
    let indexCount := u32 (meshSource.FaceCount * 3)
    let expandedMesh : MeshSource α := MeshSource.new indexCount meshSource.FaceCount
    let start : Expanded α :=
      { texCoords := List.replicate meshSource.TexCoordCount [] }
    match (List.range indexCount).foldlM (expandStep meshSource) start with
    | none => none
    | some e =>
      (expandedMesh.SetPositions e.positions).bind (fun m =>
        (if !meshSource._normals.isEmpty then m.SetNormals e.normals else some m).bind (fun m =>
          (if !meshSource._tangents.isEmpty then m.SetTangents e.tangents
            else some m).bind (fun m =>
            (setExpandedTexCoords e.texCoords (List.range meshSource.TexCoordCount) m).map
              (fun m => m.UpdateCounts))))
  else some meshSource.UpdateCounts

/-- The part of `Mesh::CreateGLBuffers(src)` that builds the vector
`interleaved`; `none` when an access is out of bounds. -/
def CreateGLBuffers (src : MeshSource α) : Option (List α) :=
  let _vertexCount := src.VertexCount
  let hasN := !src._normals.isEmpty
  let hasT := !src._tangents.isEmpty
  let hasUV := !src._uvs.isEmpty
  ((List.range _vertexCount).mapM (fun v =>
    match src._positions[u32 (v * 3 + 0)]?, src._positions[u32 (v * 3 + 1)]?,
      src._positions[u32 (v * 3 + 2)]? with
    | some p0, some p1, some p2 =>
      let n? : Option (List α) :=
        if hasN then
          match src._normals[u32 (v * 3 + 0)]?, src._normals[u32 (v * 3 + 1)]?,
            src._normals[u32 (v * 3 + 2)]? with
          | some a, some b, some c => some [a, b, c]
          | _, _, _ => none
        else some []
      let uv? : Option (List α) :=
        if hasUV then
          match src._uvs[u32 (v * 2 + 0)]?, src._uvs[u32 (v * 2 + 1)]? with
          | some a, some b => some [a, b]
          | _, _ => none
        else some []
      let t? : Option (List α) :=
        if hasT then
          match src._tangents[u32 (v * 3 + 0)]?, src._tangents[u32 (v * 3 + 1)]?,
            src._tangents[u32 (v * 3 + 2)]? with
          | some a, some b, some c => some [a, b, c]
          | _, _, _ => none
        else some []
      match n?, uv?, t? with
      | some n, some uv, some t => some ([p0, p1, p2] ++ n ++ uv ++ t)
      | _, _, _ => none
    | _, _, _ => none)).map List.flatten

/-- The number of floats per vertex of the interleaved buffer, `stride` in
`Mesh::CreateGLBuffers`. -/
def interleavedStride (src : MeshSource α) : Nat :=
  3 + (if !src._normals.isEmpty then 3 else 0) + (if !src._uvs.isEmpty then 2 else 0)
    + (if !src._tangents.isEmpty then 3 else 0)

/-- The position in a vertex of the interleaved buffer at which the tangent
starts: after the position, the normal and the UV. -/
def tangentOffset (src : MeshSource α) : Nat :=
  3 + (if !src._normals.isEmpty then 3 else 0) + (if !src._uvs.isEmpty then 2 else 0)

/-- The three tangent floats stored for vertex `v` in the interleaved
buffer built from `src`. -/
def storedTangent (src : MeshSource α) (interleaved : List α) (v : Nat) : List α :=
  (interleaved.drop (v * interleavedStride src + tangentOffset src)).take 3

/-- The first three components of the `v`-th value of a TANGENT attribute
of four floats per vertex. -/
def tangentXYZ (tangents : List α) (v : Nat) : List α :=
  (tangents.drop (4 * v)).take 3

/-- The 2-component UV of vertex `v` in the UV array `tc`. -/
def uvOf (tc : List α) (v : Nat) : List α :=
  (tc.drop (2 * v)).take 2

/-- The three components of vertex `v` in a position or normal array. -/
def vec3Of (p : List α) (v : Nat) : List α :=
  (p.drop (3 * v)).take 3

/-- The components of the vertices `idx`, in order, taken from the position
or normal array `p`. -/
def gather (p : List α) (idx : List Nat) : List α :=
  (idx.map (fun b => vec3Of p b)).flatten

/-- The expansion copies the UV channel `c`: the data pointer of every
channel up to `c` is not null. -/
def liveChannel (src : MeshSource α) (c : Nat) : Bool :=
  (List.range (c + 1)).all (fun k =>
    match src.TexCoords k with
    | some tc => !tc.isEmpty
    | none => false)

/-- The lengths of the expanded UV vectors after `i` iterations of the
expansion loop: `2 i` floats in every channel the expansion copies, none in
the others. -/
def TexLen (src : MeshSource α) (i : Nat) (acc : List (List α)) : Prop :=
  acc.length = src.TexCoordCount ∧
  ∀ c, c < src.TexCoordCount →
    ∃ tc, acc[c]? = some tc ∧ tc.length = if liveChannel src c then 2 * i else 0

/-- The expanded vectors after `i` iterations of the expansion loop: the
positions and the normals of the vertices `Indices()[0 .. i)`, `3 i` tangent
floats when the source has tangents, the UV vectors in step. -/
structure ExpandInv (src : MeshSource α) (i : Nat) (e : Expanded α) : Prop where
  positions : e.positions = gather src._positions (src._indices.take i)
  normals : e.normals =
    if src._normals.isEmpty then [] else gather src._normals (src._indices.take i)
  tangents : e.tangents.length = if src._tangents.isEmpty then 0 else 3 * i
  texCoords : TexLen src i e.texCoords

/-- The source mesh is as the setters leave a mesh of `V` vertices: `3 V`
position floats, indices below `V`, normals and tangents absent or of `3 V`
floats, four UV channels absent or of `2 V` floats; the float indices fit
`unsigned int`. -/
structure SourceOk (src : MeshSource α) (V : Nat) : Prop where
  positions : src._positions.length = 3 * V
  range : 3 * V ≤ 4294967296
  indices : ∀ b ∈ src._indices, b < V
  normals : src._normals = [] ∨ src._normals.length = 3 * V
  tangents : src._tangents = [] ∨ src._tangents.length = 3 * V
  channels : src._texCoordChannels.length = 4
  channelCount : src._texCoordChannelCount ≤ 4
  texCoords : ∀ tc ∈ src._texCoordChannels, tc = [] ∨ tc.length = 2 * V

end MeshSourceOps

/-- The struct `SceneMesh` without the node matrix: the mesh source and, for
the material, the index of the glTF material it was filled from (`none` for
the default material). -/
structure SceneMesh where
  meshSource : MeshSource Nat
  material : Option Nat
deriving DecidableEq, Repr

/-- The index block of the loop body of `ProcessNode`: the content of
`ms._indices`; `none` when an access is out of bounds. -/
def loadIndices (mdl : Gltf.Model) (prim : Gltf.Primitive) : Option (List Nat) :=
  if prim.indices ≥ 0 then
    match vecAt mdl.accessors prim.indices with
    | none => none
    | some acc =>
      match vecAt mdl.bufferViews acc.bufferView with
      | none => none
      | some view =>
        match vecAt mdl.buffers view.buffer with
        | none => none
        | some buf =>
          let base := view.byteOffset + acc.byteOffset
          if acc.componentType = TINYGLTF_COMPONENT_TYPE_UNSIGNED_INT then
            (List.range acc.count).mapM (fun i => readU32 buf.data (base + 4 * i))
          else if acc.componentType = TINYGLTF_COMPONENT_TYPE_UNSIGNED_SHORT then
            (List.range acc.count).mapM (fun i => readU16 buf.data (base + 2 * i))
          else
            (List.range acc.count).mapM (fun i => readU8 buf.data (base + i))
  else some []

/-- The body of the loop over the primitives in `ProcessNode` for a
primitive of mode TRIANGLES: the `SceneMesh` pushed to `out`; `none` when an
access is out of bounds. -/
def loadPrimitive (mdl : Gltf.Model) (prim : Gltf.Primitive) : Option SceneMesh :=
  match FillFloatAttr mdl prim "POSITION" 3, FillFloatAttr mdl prim "NORMAL" 3,
    FillFloatAttr mdl prim "TEXCOORD_0" 2, FillFloatAttr mdl prim "TANGENT" 4,
    loadIndices mdl prim with
  | some positions, some normals, some uvs, some tangents, some indices =>
    let ms : MeshSource Nat :=
      { _positions := positions, _normals := normals, _uvs := uvs, _tangents := tangents,
        _indices := indices }
    let mat? : Option (Option Nat) :=
      if prim.material ≥ 0 then
        if prim.material.toNat < mdl.materialCount then some (some prim.material.toNat)
        else none
      else some none
    mat?.map (fun mat => { meshSource := ms.UpdateCounts, material := mat })
  | _, _, _, _, _ => none

/-- The loop over the primitives of a mesh in `ProcessNode`. -/
def processPrimitives (mdl : Gltf.Model) :
    List Gltf.Primitive → List SceneMesh → Option (List SceneMesh)
  | [], out => some out
  | prim :: rest, out =>
    if prim.mode ≠ TINYGLTF_MODE_TRIANGLES then processPrimitives mdl rest out
    else
      match loadPrimitive mdl prim with
      | none => none
      | some sceneMesh => processPrimitives mdl rest (out ++ [sceneMesh])

/-- Function `ProcessNode(mdl, shader, node, parentM, out, dir)`, the matrix
left out: the content of `out` on return.  Every call, the recursive calls
included, uses one unit of fuel; `none` when the fuel runs out or an access
is out of bounds. -/
def ProcessNode (mdl : Gltf.Model) : Nat → Gltf.Node → List SceneMesh → Option (List SceneMesh)
  | 0, _, _ => none
  | fuel + 1, node, out =>
    let out? : Option (List SceneMesh) :=
      if node.mesh ≥ 0 then
        match vecAt mdl.meshes node.mesh with
        | none => none
        | some mesh => processPrimitives mdl mesh.primitives out
      else some out
    out?.bind (fun out =>
      node.children.foldlM (fun out child =>
        match vecAt mdl.nodes child with
        | none => none
        | some n => ProcessNode mdl fuel n out) out)

/-- The scene that `MeshLoader::LoadScene` selects; `none` when the access
`mdl.scenes[mdl.defaultScene]` is out of bounds. -/
def selectScene (mdl : Gltf.Model) : Option Gltf.Scene :=
  if mdl.scenes.isEmpty then some { nodes := [] }
  else if mdl.defaultScene ≥ 0 then vecAt mdl.scenes mdl.defaultScene
  else mdl.scenes[0]?

/-- Method `MeshLoader::LoadScene` after the file has been parsed into `mdl`
without error. -/
def LoadScene (mdl : Gltf.Model) (fuel : Nat) : Option (List SceneMesh) :=
  match selectScene mdl with
  | none => none
  | some scn =>
    scn.nodes.foldlM (fun out nodeIdx =>
      match vecAt mdl.nodes nodeIdx with
      | none => none
      | some n => ProcessNode mdl fuel n out) []

/-! ### The node graph as a forest -/

mutual
/-- A node of a finite forest: the index of the node in `mdl.nodes` and the
trees of its children, in order. -/
inductive NodeTree where
  | node (idx : Nat) (children : NodeForest)
/-- A finite forest: the trees of the root nodes, in order. -/
inductive NodeForest where
  | nil
  | cons (t : NodeTree) (rest : NodeForest)
end

/-- The index of the root of a tree. -/
def NodeTree.idx : NodeTree → Nat
  | .node idx _ => idx

/-- The indices of the roots of a forest, in order. -/
def NodeForest.roots : NodeForest → List Int
  | .nil => []
  | .cons t rest => (t.idx : Int) :: rest.roots

mutual
/-- The tree is the node graph of the model below its root: every node of
the tree exists in `mdl.nodes` and has the roots of its subtrees as
children. -/
def NodeTree.unfolds (mdl : Gltf.Model) : NodeTree → Bool
  | .node idx children =>
    (match mdl.nodes[idx]? with
     | none => false
     | some n => decide (n.children = children.roots)) && children.unfolds mdl
/-- Every tree of the forest is the node graph below its root. -/
def NodeForest.unfolds (mdl : Gltf.Model) : NodeForest → Bool
  | .nil => true
  | .cons t rest => t.unfolds mdl && rest.unfolds mdl
end

mutual
/-- The nodes of a tree in depth-first order: the root, then the subtrees. -/
def NodeTree.preorder : NodeTree → List Nat
  | .node idx children => idx :: children.preorder
/-- The nodes of a forest in depth-first order. -/
def NodeForest.preorder : NodeForest → List Nat
  | .nil => []
  | .cons t rest => t.preorder ++ rest.preorder
end

mutual
/-- The number of nodes on the longest path from the root down. -/
def NodeTree.height : NodeTree → Nat
  | .node _ children => children.height + 1
/-- The height of the highest tree of the forest. -/
def NodeForest.height : NodeForest → Nat
  | .nil => 0
  | .cons t rest => max t.height rest.height
end

/-- The mesh primitives of a node: those of its mesh when it bears one. -/
def meshPrimitives (mdl : Gltf.Model) (n : Gltf.Node) : List Gltf.Primitive :=
  if n.mesh ≥ 0 then
    match vecAt mdl.meshes n.mesh with
    | some mesh => mesh.primitives
    | none => []
  else []

/-- The mesh primitives of the nodes `order`, node by node. -/
def primitivesInOrder (mdl : Gltf.Model) (order : List Nat) : List Gltf.Primitive :=
  (order.map (fun i =>
    match mdl.nodes[i]? with
    | some n => meshPrimitives mdl n
    | none => [])).flatten

/-- The mesh index of every mesh-bearing node among `order` is an index of
`mdl.meshes`. -/
def MeshesExist (mdl : Gltf.Model) (order : List Nat) : Prop :=
  ∀ i ∈ order, ∀ n, mdl.nodes[i]? = some n → n.mesh ≥ 0 →
    (vecAt mdl.meshes n.mesh).isSome = true

/-- The primitive has mode TRIANGLES. -/
def isTriangles (p : Gltf.Primitive) : Bool :=
  decide (p.mode = TINYGLTF_MODE_TRIANGLES)

/-! ## Sample meshes -/

/-- A buffer of four bytes. -/
def sampleShortBuffer : Gltf.Buffer := { data := [0, 0, 128, 63] }

/-- A primitive whose POSITION attribute is the accessor 0. -/
def sampleShortPrimitive : Gltf.Primitive :=
  { attributes := [("POSITION", 0)], mode := TINYGLTF_MODE_TRIANGLES }

/-- A model whose accessor 0 describes one `vec3` of floats at offset 0 of a
buffer view with `byteStride` 4 over the four-byte buffer. -/
def sampleShortModel : Gltf.Model :=
  { accessors := [{ bufferView := 0, byteOffset := 0,
                    componentType := TINYGLTF_COMPONENT_TYPE_FLOAT, count := 1,
                    type := TINYGLTF_TYPE_VEC3 }],
    bufferViews := [{ buffer := 0, byteOffset := 0, byteStride := 4 }],
    buffers := [sampleShortBuffer] }

/-- The four bytes of the float with the bit pattern `p` (little endian). -/
def floatBytes (p : Nat) : List Nat :=
  [p % 256, p / 256 % 256, p / 65536 % 256, p / 16777216 % 256]

/-- A buffer with the floats of bit patterns 101 to 106 (two positions)
followed by those of bit patterns 1 to 8 (two tangents of four floats). -/
def sampleTangentBuffer : Gltf.Buffer :=
  { data := ([101, 102, 103, 104, 105, 106, 1, 2, 3, 4, 5, 6, 7, 8].map floatBytes).flatten }

/-- A primitive of mode TRIANGLES with a POSITION and a TANGENT attribute. -/
def sampleTangentPrimitive : Gltf.Primitive :=
  { attributes := [("POSITION", 0), ("TANGENT", 1)], mode := TINYGLTF_MODE_TRIANGLES }

/-- A model with two vertices: accessor 0 holds the positions (`vec3`),
accessor 1 the tangents (`vec4`), both tightly packed in one buffer. -/
def sampleTangentModel : Gltf.Model :=
  { accessors :=
      [{ bufferView := 0, byteOffset := 0, componentType := TINYGLTF_COMPONENT_TYPE_FLOAT,
         count := 2, type := TINYGLTF_TYPE_VEC3 },
       { bufferView := 1, byteOffset := 0, componentType := TINYGLTF_COMPONENT_TYPE_FLOAT,
         count := 2, type := TINYGLTF_TYPE_VEC4 }],
    bufferViews :=
      [{ buffer := 0, byteOffset := 0, byteStride := 0 },
       { buffer := 0, byteOffset := 24, byteStride := 0 }],
    buffers := [sampleTangentBuffer],
    meshes := [{ primitives := [sampleTangentPrimitive] }],
    nodes := [{ mesh := 0 }],
    scenes := [{ nodes := [0] }] }

/-- A source mesh of three vertices and one face (2, 0, 1), built with the
setters as `GltfLoader::LoadMesh` does, with the UV channels 0 and 1
populated. -/
def sampleTwoChannels : Option (MeshSource Nat) :=
  ((((MeshSource.new 3 1 : MeshSource Nat).SetPositions [1, 2, 3, 4, 5, 6, 7, 8, 9]).bind
    (fun s => s.SetTexCoords [10, 11, 20, 21, 30, 31] 0)).bind
    (fun s => s.SetTexCoords [40, 41, 50, 51, 60, 61] 1)).bind
    (fun s => s.SetIndices [2, 0, 1])

/-- The same source mesh with the UV channel 0 alone populated. -/
def sampleOneChannel : Option (MeshSource Nat) :=
  (((MeshSource.new 3 1 : MeshSource Nat).SetPositions [1, 2, 3, 4, 5, 6, 7, 8, 9]).bind
    (fun s => s.SetTexCoords [10, 11, 20, 21, 30, 31] 0)).bind
    (fun s => s.SetIndices [2, 0, 1])

/-- The primitive of `sampleTangentPrimitive` with mode LINE. -/
def sampleLinePrimitive : Gltf.Primitive :=
  { attributes := [("POSITION", 0), ("TANGENT", 1)], mode := TINYGLTF_MODE_LINE }

/-- A scene of three nodes: the root 0 bears a mesh of a LINE and a
TRIANGLES primitive and has the children 1 and 2; node 2 bears the mesh of
one TRIANGLES primitive. -/
def sampleSceneModel : Gltf.Model :=
  { sampleTangentModel with
    meshes := [{ primitives := [sampleLinePrimitive, sampleTangentPrimitive] },
               { primitives := [sampleTangentPrimitive] }],
    nodes := [{ mesh := 0, children := [1, 2] }, { mesh := -1 }, { mesh := 1 }],
    scenes := [{ nodes := [0] }] }

/-- The node graph of `sampleSceneModel` as a forest. -/
def sampleForest : NodeForest :=
  .cons (.node 0 (.cons (.node 1 .nil) (.cons (.node 2 .nil) .nil))) .nil

/-- The `SceneMesh` that `loadPrimitive` builds from `sampleTangentPrimitive`
in the sample models. -/
def sampleSceneMesh : SceneMesh :=
  { meshSource :=
      { _vertexCount := 2, _faceCount := 0, _positions := [101, 102, 103, 104, 105, 106],
        _tangents := [1, 2, 3, 4, 5, 6, 7, 8] },
    material := none }

/-- A source mesh of one vertex and 477218589 faces, every index 0. -/
def sampleHugeMesh : MeshSource Nat :=
  { _vertexCount := 1, _faceCount := 477218589, _positions := [1, 2, 3],
    _indices := List.replicate 1431655767 0 }

/-- A source mesh of four vertices and the two faces (0, 1, 2) and (2, 1, 3),
with normals and the UV channels 0 and 1, as the setters leave it. -/
def sampleQuad : MeshSource Nat :=
  { _vertexCount := 4, _faceCount := 2,
    _positions := [10, 11, 12, 20, 21, 22, 30, 31, 32, 40, 41, 42],
    _normals := [110, 111, 112, 120, 121, 122, 130, 131, 132, 140, 141, 142],
    _texCoordChannels := [[1, 2, 3, 4, 5, 6, 7, 8], [11, 12, 13, 14, 15, 16, 17, 18], [], []],
    _texCoordChannelCount := 1,
    _indices := [0, 1, 2, 2, 1, 3] }

/-! # Properties -/

/-! ## Binary32 rounding -/

/-- A rational within one half of an integer rounds to that integer. -/
theorem roundEven_of_close (y : ℚ) (n : ℤ) (h : |y - n| < 1 / 2) : roundEven y = n := by
  have hf : ((⌊y⌋ : ℤ) : ℚ) ≤ y := Int.floor_le y
  have hf2 : y < ((⌊y⌋ : ℤ) : ℚ) + 1 := Int.lt_floor_add_one y
  rw [abs_lt] at h
  obtain ⟨h1, h2⟩ := h
  have ha : ⌊y⌋ ≤ n := by
    have : ((⌊y⌋ : ℤ) : ℚ) < ((n + 1 : ℤ) : ℚ) := by push_cast; linarith
    have := Int.cast_lt.mp this
    omega
  have hb : n ≤ ⌊y⌋ + 1 := by
    have : ((n : ℤ) : ℚ) < ((⌊y⌋ + 2 : ℤ) : ℚ) := by push_cast; linarith
    have := Int.cast_lt.mp this
    omega
  unfold roundEven
  simp only []
  rcases (by omega : ⌊y⌋ = n ∨ ⌊y⌋ + 1 = n) with hc | hc
  · have : y - ((⌊y⌋ : ℤ) : ℚ) < 1 / 2 := by rw [hc]; linarith
    rw [if_pos this, hc]
  · have hq : ((⌊y⌋ : ℤ) : ℚ) = n - 1 := by rw [← hc]; push_cast; ring
    have : ¬ (y - ((⌊y⌋ : ℤ) : ℚ) < 1 / 2) := by rw [hq]; intro h; linarith
    have h3 : 1 / 2 < y - ((⌊y⌋ : ℤ) : ℚ) := by rw [hq]; linarith
    rw [if_neg this, if_pos h3, hc]

/-- A tie goes to the even integer: the upper one when the lower is odd. -/
theorem roundEven_tie_odd (y : ℚ) (n : ℤ) (h : y = n + 1 / 2) (hn : n % 2 = 1) :
    roundEven y = n + 1 := by
  have hf : ⌊y⌋ = n := by
    rw [Int.floor_eq_iff, h]
    constructor <;> linarith
  unfold roundEven
  simp only [hf]
  rw [if_neg (by rw [h]; norm_num), if_neg (by rw [h]; norm_num), if_neg (by omega)]

/-- Rounding to an integer moves a number by at most one half. -/
theorem roundEven_error (y : ℚ) : |(roundEven y : ℚ) - y| ≤ 1 / 2 := by
  have hf : ((⌊y⌋ : ℤ) : ℚ) ≤ y := Int.floor_le y
  have hf2 : y < ((⌊y⌋ : ℤ) : ℚ) + 1 := Int.lt_floor_add_one y
  unfold roundEven
  simp only []
  rw [abs_le]
  split_ifs with h1 h2 h3
  · constructor <;> linarith
  · push_cast; constructor <;> linarith
  · constructor <;> linarith
  · push_cast; constructor <;> linarith

/-- Rounding to an integer does not go below the floor. -/
theorem floor_le_roundEven (y : ℚ) : ⌊y⌋ ≤ roundEven y := by
  unfold roundEven
  simp only []
  split_ifs <;> omega

/-- The binary logarithm of a number between two consecutive powers of 2. -/
theorem log2_eq (r : ℚ) (e : ℤ) (h1 : (2 : ℚ) ^ e ≤ r) (h2 : r < (2 : ℚ) ^ (e + 1)) :
    Int.log 2 r = e := by
  have hr : 0 < r := lt_of_lt_of_le (by positivity) h1
  apply le_antisymm
  · have := (Int.lt_zpow_iff_log_lt (b := 2) (by norm_num) hr (x := e + 1)).mp
      (by exact_mod_cast h2)
    omega
  · exact (Int.zpow_le_iff_le_log (b := 2) (by norm_num) hr).mp (by exact_mod_cast h1)

/-- The value of `round32` at a normal number: with `2^e <= |x| < 2^(e+1)`
and `n` the integer within one half of `x / 2^(e-23)`, it is
`n * 2^(e-23)`. -/
theorem round32_eq (x : ℚ) (e n : ℤ) (h1 : (2 : ℚ) ^ e ≤ |x|) (h2 : |x| < (2 : ℚ) ^ (e + 1))
    (he : -126 ≤ e) (hn : |x / 2 ^ (e - 23) - n| < 1 / 2) :
    round32 x = n * 2 ^ (e - 23) := by
  have hu : ulpExp x = e - 23 := by
    unfold ulpExp
    rw [log2_eq _ e h1 h2, max_eq_left he]
  unfold round32
  rw [hu, roundEven_of_close _ n hn]

/-- Zero is a binary32 value. -/
theorem round32_zero : round32 0 = 0 := by
  simp [round32, roundEven]

/-- Rounding to binary32 keeps the sign of a non-negative number. -/
theorem round32_nonneg (x : ℚ) (h : 0 ≤ x) : 0 ≤ round32 x := by
  unfold round32
  have hp : (0 : ℚ) < 2 ^ ulpExp x := by positivity
  have h1 : 0 ≤ x / 2 ^ ulpExp x := div_nonneg h hp.le
  have h2 : 0 ≤ roundEven (x / 2 ^ ulpExp x) :=
    le_trans (Int.floor_nonneg.mpr h1) (floor_le_roundEven _)
  have h3 : (0 : ℚ) ≤ (roundEven (x / 2 ^ ulpExp x) : ℚ) := by exact_mod_cast h2
  exact mul_nonneg h3 hp.le

/-- The error of rounding to binary32: at most `|x| / 2^24` (half a unit in
the last place of a normal number) plus `2^-150` (half the subnormal
quantum). -/
theorem round32_error (x : ℚ) : |round32 x - x| ≤ |x| / 2 ^ 24 + 1 / 2 ^ 150 := by
  by_cases hx : x = 0
  · subst hx
    rw [round32_zero]
    norm_num
  have hp : (0 : ℚ) < 2 ^ ulpExp x := by positivity
  have h := roundEven_error (x / 2 ^ ulpExp x)
  have e1 : round32 x - x
      = ((roundEven (x / 2 ^ ulpExp x) : ℚ) - x / 2 ^ ulpExp x) * 2 ^ ulpExp x := by
    unfold round32
    field_simp
  rw [e1, abs_mul, abs_of_pos hp]
  have h3 : (2 : ℚ) ^ ulpExp x * (1 / 2) ≤ |x| / 2 ^ 24 + 1 / 2 ^ 150 := by
    unfold ulpExp
    rcases le_total (Int.log 2 |x|) (-126) with hc | hc
    · rw [max_eq_right hc]
      have : (0 : ℚ) ≤ |x| / 2 ^ 24 := by positivity
      have e2 : (2 : ℚ) ^ ((-126 : ℤ) - 23) * (1 / 2) = 1 / 2 ^ 150 := by norm_num
      rw [e2]
      linarith
    · rw [max_eq_left hc]
      have hx0 : 0 < |x| := abs_pos.mpr hx
      have := Int.zpow_log_le_self (b := 2) (by norm_num) hx0
      have e2 : (2 : ℚ) ^ (Int.log 2 |x| - 23) * (1 / 2) = 2 ^ Int.log 2 |x| / 2 ^ 24 := by
        rw [zpow_sub₀ (by norm_num)]
        norm_num
        ring
      rw [e2]
      have : (2 : ℚ) ^ Int.log 2 |x| / 2 ^ 24 ≤ |x| / 2 ^ 24 := by
        apply div_le_div_of_nonneg_right _ (by positivity)
        exact_mod_cast this
      have : (0 : ℚ) ≤ 1 / 2 ^ 150 := by positivity
      linarith
  calc |(roundEven (x / 2 ^ ulpExp x) : ℚ) - x / 2 ^ ulpExp x| * 2 ^ ulpExp x
      ≤ 1 / 2 * 2 ^ ulpExp x := by
        apply mul_le_mul_of_nonneg_right h hp.le
    _ = 2 ^ ulpExp x * (1 / 2) := by ring
    _ ≤ _ := h3

/-! ## Operations on `float` -/

theorem F32.add_val (a b : F32) : (a + b).val = round32 (a.val + b.val) := rfl

theorem F32.sub_val (a b : F32) : (a - b).val = round32 (a.val - b.val) := rfl

theorem F32.mul_val (a b : F32) : (a * b).val = round32 (a.val * b.val) := rfl

theorem F32.div_val (a b : F32) : (a / b).val = round32 (a.val / b.val) := rfl

theorem F32.neg_val (a : F32) : (-a).val = -a.val := rfl

theorem F32.one_val : (1 : F32).val = 1 := rfl

theorem F32.ofNat_val (n : ℕ) [n.AtLeastTwo] : (OfNat.ofNat n : F32).val = round32 n := rfl

theorem F32.lt_def (a b : F32) : a < b ↔ a.val < b.val := Iff.rfl

theorem F32.ext_val (a b : F32) (h : a.val = b.val) : a = b := by
  cases a
  cases b
  simp only at h
  rw [h]

theorem round32_two : round32 2 = 2 := by
  rw [round32_eq 2 1 8388608 (by norm_num) (by norm_num) (by norm_num)
    (by norm_num [abs_lt])]
  norm_num

theorem round32_three : round32 3 = 3 := by
  rw [round32_eq 3 1 12582912 (by norm_num) (by norm_num) (by norm_num)
    (by norm_num [abs_lt])]
  norm_num

theorem F32.two_val : (2 : F32).val = 2 := by
  show round32 ((2 : ℕ) : ℚ) = 2
  rw [show ((2 : ℕ) : ℚ) = 2 by norm_num]
  exact round32_two

theorem F32.three_val : (3 : F32).val = 3 := by
  show round32 ((3 : ℕ) : ℚ) = 3
  rw [show ((3 : ℕ) : ℚ) = 3 by norm_num]
  exact round32_three

/-- The constant `1.5f`. -/
theorem round32_three_halves : round32 (3 / 2) = 3 / 2 := by
  rw [round32_eq (3 / 2) 0 12582912 (by norm_num [abs_of_pos]) (by norm_num [abs_of_pos])
    (by norm_num) (by norm_num [abs_lt])]
  norm_num

/-- The product of two matrices is `Mat4.mul`. -/
theorem Mat4.mul_def {α : Type} [Add α] [Mul α] [Sub α] [Zero α] [One α] (a b : Mat4 α) :
    a * b = Mat4.mul a b := rfl

/-! ## Transform hierarchy -/

section TransformTheorems

variable {α : Type} [Add α] [Mul α] [Sub α] [Zero α] [One α]

/-- Walking down a chain: when the call on address `a` returns `m` for every
fuel of at least `k`, the call on the leaf of a chain hanging below `a`
returns the left fold of the local matrices, for every fuel of at least
`k` plus the length of the chain. -/
theorem GetMatrix_chain_aux (mem : Store α) :
    ∀ (rest : List (Nat × Transform α)) (a : Nat) (m : Mat4 α) (k : Nat),
      (∀ fuel, k ≤ fuel → GetMatrix mem fuel a = some m) →
      ParentChain mem (some a) rest →
      ∀ fuel, k + rest.length ≤ fuel →
        GetMatrix mem fuel (leafAddr a rest) = some (foldLocal m rest) := by
  intro rest
  induction rest with
  | nil =>
    intro a m k h _ fuel hf
    simpa [leafAddr, foldLocal] using h fuel (by simpa using hf)
  | cons hd tl ih =>
    intro a m k h hc fuel hf
    obtain ⟨a1, t1⟩ := hd
    obtain ⟨hmem, hpar, hrest⟩ := hc
    have hstep : ∀ fuel, k + 1 ≤ fuel →
        GetMatrix mem fuel a1 = some (m * t1.localMatrix) := by
      intro f hf1
      obtain ⟨f0, rfl⟩ : ∃ f0, f = f0 + 1 := ⟨f - 1, by omega⟩
      simp [GetMatrix, hmem, hpar, h f0 (by omega)]
    have key := ih a1 (m * t1.localMatrix) (k + 1) hstep hrest fuel
      (by simp only [List.length_cons] at hf; omega)
    have hleaf : leafAddr a ((a1, t1) :: tl) = leafAddr a1 tl := rfl
    rw [hleaf, key]
    simp [foldLocal]

/-- The call on a root (no parent) returns its local matrix for every positive
fuel. -/
theorem GetMatrix_root (mem : Store α) (a : Nat) (t : Transform α)
    (hmem : mem[a]? = some t) (hpar : t._parent = none) :
    ∀ fuel, 1 ≤ fuel → GetMatrix mem fuel a = some t.localMatrix := by
  intro fuel hf
  obtain ⟨f0, rfl⟩ : ∃ f0, fuel = f0 + 1 := ⟨fuel - 1, by omega⟩
  simp [GetMatrix, hmem, hpar]

/-- The call on the leaf of a full chain (from a root) returns the left fold
of the local matrices. -/
theorem GetMatrix_chain (mem : Store α) (a0 : Nat) (t0 : Transform α)
    (rest : List (Nat × Transform α))
    (hc : ParentChain mem none ((a0, t0) :: rest)) :
    ∀ fuel, rest.length + 1 ≤ fuel →
      GetMatrix mem fuel (leafAddr a0 rest) = some (foldLocal t0.localMatrix rest) := by
  intro fuel hf
  obtain ⟨hmem, hpar, hrest⟩ := hc
  exact GetMatrix_chain_aux mem rest a0 t0.localMatrix 1
    (GetMatrix_root mem a0 t0 hmem hpar) hrest fuel (by omega)

/-- C1. For every parent chain t0, t1, ..., tN in the store (t0 without a
parent, the parent pointer of each further element the address of the one
before it) the call `GetMatrix()` on tN returns, and its value is the left fold
`((L(t0) * L(t1)) * ...) * L(tN)` of the local matrices
`L(t) = translate(position) * rotate(rotation) * scale(localScale)`; for a
transform without a parent the value is `L(t)`.  No law of the scalar
arithmetic is used. -/
theorem C1_GetMatrix_left_fold (mem : Store α) (a0 : Nat) (t0 : Transform α)
    (rest : List (Nat × Transform α))
    (hc : ParentChain mem none ((a0, t0) :: rest)) :
    (∀ fuel, rest.length + 1 ≤ fuel →
      GetMatrix mem fuel (leafAddr a0 rest)
        = some (rest.foldl (fun acc p => acc * p.2.localMatrix) t0.localMatrix)) ∧
    (∀ fuel, 1 ≤ fuel → GetMatrix mem fuel a0
        = some (translate Mat4.identity t0._position * toMat4 t0._rotation
            * scale Mat4.identity ⟨t0._localScale, t0._localScale, t0._localScale⟩)) :=
  ⟨GetMatrix_chain mem a0 t0 rest hc,
   GetMatrix_root mem a0 t0 hc.1 hc.2.1⟩

end TransformTheorems

/-- A chain that avoids address `t` is still a chain after the transform at
`t` is overwritten. -/
theorem ParentChain_set {α : Type} (mem : Store α) (t : Nat) (v : Transform α) :
    ∀ (chain : List (Nat × Transform α)) (par : Option Nat),
      (∀ x ∈ chain, x.1 ≠ t) → ParentChain mem par chain →
      ParentChain (mem.set t v) par chain := by
  intro chain
  induction chain with
  | nil => intro par _ _; trivial
  | cons hd tl ih =>
    intro par hne hc
    obtain ⟨a, u⟩ := hd
    obtain ⟨hmem, hpar, hrest⟩ := hc
    have ha : a ≠ t := hne (a, u) (List.mem_cons_self _ _)
    refine ⟨?_, hpar, ih (some a) (fun x hx => hne x (List.mem_cons_of_mem _ hx)) hrest⟩
    rw [List.getElem?_set_ne (Ne.symm ha)]
    exact hmem

/-- A transform made its own parent: `GetMatrix()` on it does not return,
whatever the fuel (the cycle that `SetParent` does not check for). -/
theorem SetParent_self_diverges {α : Type} [Add α] [Mul α] [Sub α] [Zero α] [One α]
    (mem : Store α) (t : Nat) (tt : Transform α) (ht : mem[t]? = some tt) :
    ∀ fuel, GetMatrix (SetParent mem t (some t)) fuel t = none := by
  have hlt : t < mem.length := by
    rcases Nat.lt_or_ge t mem.length with h | h
    · exact h
    · rw [List.getElem?_eq_none h] at ht; cases ht
  have hself : (SetParent mem t (some t))[t]? = some { tt with _parent := some t } := by
    simp only [SetParent, ht]
    rw [List.getElem?_set_self hlt]
  intro fuel
  induction fuel with
  | zero => rfl
  | succ n ih => simp only [GetMatrix, hself, ih, Option.map_none']

section Reparent

variable {α : Type} [Ring α]

/-- Over a ring, `m * (0,0,0,1)` is the last column of `m`. -/
theorem mulVec_unit_w (m : Mat4 α) :
    (m.mulVec ⟨0, 0, 0, 1⟩).toVec3 = m.translation := by
  simp [Mat4.mulVec, Vec4.add, Vec4.smul, Vec4.toVec3, Mat4.translation]

/-- C2. Let t be a transform in the store (with any previous parent pointer)
and p a transform whose chain from its root down to p itself is finite and
does not pass through t.  Right after `t.SetParent(p)` the call
`p.GetMatrix()` returns the same matrix `pm` as before, `t.GetMatrix()`
returns `pm * L(t)` and `t.GetWorldPosition()` returns the translation part
of that product; the old parent of t does not occur in the result. -/
theorem C2_SetParent_next_query (mem : Store α) (t p : Nat) (tt : Transform α)
    (ht : mem[t]? = some tt)
    (a0 : Nat) (t0 : Transform α) (rest : List (Nat × Transform α))
    (hc : ParentChain mem none ((a0, t0) :: rest))
    (hp : leafAddr a0 rest = p)
    (hnot : ∀ x ∈ (a0, t0) :: rest, x.1 ≠ t) :
    ∀ fuel, rest.length + 1 ≤ fuel →
      ∃ pm, GetMatrix mem fuel p = some pm ∧
        GetMatrix (SetParent mem t (some p)) fuel p = some pm ∧
        GetMatrix (SetParent mem t (some p)) (fuel + 1) t
          = some (pm * tt.localMatrix) ∧
        GetWorldPosition (SetParent mem t (some p)) (fuel + 1) t
          = some (pm * tt.localMatrix).translation := by
  intro fuel hf
  have hlt : t < mem.length := by
    rcases Nat.lt_or_ge t mem.length with h | h
    · exact h
    · rw [List.getElem?_eq_none h] at ht; cases ht
  have hset : SetParent mem t (some p) = mem.set t { tt with _parent := some p } := by
    simp [SetParent, ht]
  have hc2 : ParentChain (SetParent mem t (some p)) none ((a0, t0) :: rest) := by
    rw [hset]
    exact ParentChain_set mem t _ _ none hnot hc
  have h1 := GetMatrix_chain mem a0 t0 rest hc fuel hf
  have h2 := GetMatrix_chain (SetParent mem t (some p)) a0 t0 rest hc2 fuel hf
  rw [hp] at h1 h2
  have hself : (SetParent mem t (some p))[t]? = some { tt with _parent := some p } := by
    rw [hset, List.getElem?_set_self hlt]
  have h3 : GetMatrix (SetParent mem t (some p)) (fuel + 1) t
      = some (foldLocal t0.localMatrix rest * tt.localMatrix) := by
    simp only [GetMatrix, hself, h2, Option.map_some']
    rfl
  refine ⟨foldLocal t0.localMatrix rest, h1, h2, h3, ?_⟩
  simp only [GetWorldPosition, h3, Option.map_some', mulVec_unit_w]

end Reparent

/-- C1, instance: the chain of the addresses 0, 1, 2 of the sample store; the
world matrix of the leaf has the columns (6,0,0,0), (0,-6,0,0), (0,0,-6,0)
and (11,4,3,1). -/
theorem C1_GetMatrix_left_fold_witness :
    ParentChain sampleStore none [(0, sampleT0), (1, sampleT1), (2, sampleT2)] ∧
    GetMatrix sampleStore 3 2
      = some ((sampleT0.localMatrix * sampleT1.localMatrix) * sampleT2.localMatrix) ∧
    GetMatrix sampleStore 3 2
      = some ⟨⟨6, 0, 0, 0⟩, ⟨0, -6, 0, 0⟩, ⟨0, 0, -6, 0⟩, ⟨11, 4, 3, 1⟩⟩ :=
  ⟨⟨rfl, rfl, rfl, rfl, rfl, rfl, trivial⟩,
   (C1_GetMatrix_left_fold sampleStore 0 sampleT0 [(1, sampleT1), (2, sampleT2)]
      ⟨rfl, rfl, rfl, rfl, rfl, rfl, trivial⟩).1 3 (by decide),
   by decide⟩

/-- C2, instance: the transform at address 3 (a child of address 0) is
re-parented to address 2; the next query gives the world matrix of address 2
times its local matrix, and the world position (17,-2,-3). -/
theorem C2_SetParent_next_query_witness :
    sampleStore[3]? = some sampleT3 ∧
    ParentChain sampleStore none [(0, sampleT0), (1, sampleT1), (2, sampleT2)] ∧
    (∀ x ∈ [(0, sampleT0), (1, sampleT1), (2, sampleT2)], x.1 ≠ 3) ∧
    (∃ pm, GetMatrix sampleStore 3 2 = some pm ∧
      GetMatrix (SetParent sampleStore 3 (some 2)) 3 2 = some pm ∧
      GetMatrix (SetParent sampleStore 3 (some 2)) 4 3 = some (pm * sampleT3.localMatrix) ∧
      GetWorldPosition (SetParent sampleStore 3 (some 2)) 4 3
        = some (pm * sampleT3.localMatrix).translation) ∧
    GetWorldPosition (SetParent sampleStore 3 (some 2)) 4 3 = some ⟨17, -2, -3⟩ ∧
    GetWorldPosition sampleStore 4 3 = some ⟨3, 4, 5⟩ :=
  ⟨rfl, ⟨rfl, rfl, rfl, rfl, rfl, rfl, trivial⟩, by decide,
   C2_SetParent_next_query sampleStore 3 2 sampleT3 rfl 0 sampleT0
     [(1, sampleT1), (2, sampleT2)] ⟨rfl, rfl, rfl, rfl, rfl, rfl, trivial⟩ rfl (by decide)
     3 (by decide),
   by decide, by decide⟩

/-! ## Effects of the render routines on the tracked state -/

@[simp] theorem GLContext.uniform_draws (g : GLContext) (l : Int) (v : UVal) :
    (g.uniform l v).draws = g.draws := by
  unfold GLContext.uniform; split <;> rfl

@[simp] theorem GLContext.uniform_program (g : GLContext) (l : Int) (v : UVal) :
    (g.uniform l v).program = g.program := by
  unfold GLContext.uniform; split <;> rfl

@[simp] theorem applyNamed_draws (sh : Shader) (vs : List (String × UVal)) (g : GLContext) :
    (applyNamed sh vs g).draws = g.draws := by
  unfold applyNamed
  induction vs generalizing g with
  | nil => rfl
  | cons hd tl ih => simp [List.foldl_cons, ih]

@[simp] theorem applyNamed_program (sh : Shader) (vs : List (String × UVal)) (g : GLContext) :
    (applyNamed sh vs g).program = g.program := by
  unfold applyNamed
  induction vs generalizing g with
  | nil => rfl
  | cons hd tl ih => simp [List.foldl_cons, ih]

theorem App.SameScene.sceneRefl (a : App) : a.SameScene a :=
  ⟨rfl, rfl, rfl, rfl, rfl, rfl, rfl⟩

theorem App.SameScene.sceneTrans {a b c : App} (h1 : a.SameScene b) (h2 : b.SameScene c) :
    a.SameScene c := by
  obtain ⟨a1, a2, a3, a4, a5, a6, a7⟩ := h1
  obtain ⟨b1, b2, b3, b4, b5, b6, b7⟩ := h2
  exact ⟨a1.trans b1, a2.trans b2, a3.trans b3, a4.trans b4, a5.trans b5, a6.trans b6,
    a7.trans b7⟩

theorem App.SameScene.sceneSymm {a b : App} (h : a.SameScene b) : b.SameScene a := by
  obtain ⟨a1, a2, a3, a4, a5, a6, a7⟩ := h
  exact ⟨a1.symm, a2.symm, a3.symm, a4.symm, a5.symm, a6.symm, a7.symm⟩

theorem App.SameControl.controlRefl (a : App) : a.SameControl a :=
  ⟨App.SameScene.sceneRefl a, rfl, rfl⟩

theorem App.SameControl.controlTrans {a b c : App} (h1 : a.SameControl b) (h2 : b.SameControl c) :
    a.SameControl c :=
  ⟨h1.1.sceneTrans h2.1, h1.2.1.trans h2.2.1, h1.2.2.trans h2.2.2⟩

theorem App.withGL_sameControl (st : App) (f : GLContext → GLContext) :
    (st.withGL f).SameControl st :=
  App.SameControl.controlRefl st

/-- A render routine leaves the control state alone. -/
theorem Render_sameControl (o : RenderObject) (i : Nat) (sh : Shader) (st : App) :
    (o.Render i sh st).SameControl st := by
  unfold RenderObject.Render
  cases o._type
  · simp only [RenderObject.RenderMesh, MeshRenderer.Bind]
    split
    · split <;> exact App.SameControl.controlRefl st
    · exact App.SameControl.controlRefl st
  · exact App.SameControl.controlRefl st
  · simp only [RenderObject.RenderSphere]
    split <;> exact ⟨⟨rfl, rfl, rfl, rfl, rfl, rfl, rfl⟩, rfl, rfl⟩
  · exact App.SameControl.controlRefl st
  · exact App.SameControl.controlRefl st
  · exact App.SameControl.controlRefl st
  · exact App.SameControl.controlRefl st

/-- A render routine issues exactly one draw call, for its object and with
the program of the shader it was given. -/
theorem Render_drawLog (o : RenderObject) (i : Nat) (sh : Shader) (st : App) :
    (o.Render i sh st).drawLog = st.drawLog ++ [(i, sh._id)] := by
  unfold RenderObject.Render
  cases o._type
  · simp only [RenderObject.RenderMesh, MeshRenderer.Bind]
    split
    · split <;>
        simp [App.drawLog, App.withGL, GLContext.draw, Shader.SetVal, Shader.Bind,
          GLContext.useProgram]
    · simp [App.drawLog, App.withGL, GLContext.draw, Shader.SetVal, Shader.Bind,
          GLContext.useProgram]
  · simp [RenderObject.RenderBox, App.drawLog, App.withGL, GLContext.draw, Shader.SetVal,
      Shader.SetInt, Shader.SetFloat, Shader.Bind, GLContext.useProgram]
  · simp only [RenderObject.RenderSphere]
    split <;>
      simp [App.drawLog, App.withGL, GLContext.draw, Shader.SetVal,
        Shader.SetInt, Shader.SetFloat, Shader.Bind, GLContext.useProgram]
  · simp [RenderObject.RenderCubeMap, App.drawLog, App.withGL, GLContext.draw, Shader.SetVal,
      Shader.SetInt, Shader.SetFloat, Shader.Bind, GLContext.useProgram]
  · simp [RenderObject.RenderWater, Water.Render, App.drawLog, App.withGL, GLContext.draw,
      Shader.SetVal, Shader.SetInt, Shader.SetFloat, Shader.Bind, GLContext.useProgram]
  · simp [RenderObject.RenderFire, Fire.Render, App.drawLog, App.withGL, GLContext.draw,
      Shader.SetVal, Shader.SetInt, Shader.SetFloat, Shader.Bind, GLContext.useProgram]
  · simp [RenderObject.RenderCat, App.drawLog, App.withGL, GLContext.draw, Shader.SetVal,
      Shader.SetInt, Shader.SetFloat, Shader.Bind, GLContext.useProgram]

theorem ApplyBoxSettings_sameControl (o : RenderObject) (st : App) :
    (ApplyBoxSettings o st).SameControl st := by
  unfold ApplyBoxSettings
  cases o._box._type <;> exact App.SameControl.controlRefl st

theorem ApplyBoxSettings_drawLog (o : RenderObject) (st : App) :
    (ApplyBoxSettings o st).drawLog = st.drawLog := by
  unfold ApplyBoxSettings
  cases o._box._type <;>
    simp [App.drawLog, App.withGL, Shader.SetInt, Shader.SetFloat]

theorem renderSceneStep_sameControl (st : App) (i : Nat) (o : RenderObject) :
    (renderSceneStep st i o).SameControl st := by
  unfold renderSceneStep
  refine (Render_sameControl o i _ _).controlTrans ?_
  split
  · exact (ApplyBoxSettings_sameControl o _).controlTrans (App.SameControl.controlRefl st)
  · split
    · exact App.SameControl.controlRefl st
    · split
      · exact Render_sameControl o i _ st
      · exact App.SameControl.controlRefl st

theorem renderSceneStep_drawLog (st : App) (i : Nat) (o : RenderObject) :
    (renderSceneStep st i o).drawLog
      = st.drawLog ++ (scenePrograms st o).map (fun p => (i, p)) := by
  unfold renderSceneStep scenePrograms
  rw [Render_drawLog]
  by_cases hb : o._type = .Box
  · have hw : o._type ≠ .Water := by rw [hb]; decide
    simp only [hb, ↓reduceIte, reduceCtorEq, List.map_cons, List.map_nil]
    rw [ApplyBoxSettings_drawLog, (ApplyBoxSettings_sameControl o _).1.1]
    simp [App.drawLog, App.withGL, Shader.SetVal, Shader.Bind, GLContext.useProgram]
  · by_cases hc : o._type = .CubeMap
    · have hw : o._type ≠ .Water := by rw [hc]; decide
      simp [hc, App.drawLog, App.withGL, Shader.SetVal, Shader.Bind,
        GLContext.useProgram]
    · by_cases hw : o._type = .Water
      · simp [hw, Render_drawLog, (Render_sameControl o i st.shaderWater st).1.1]
      · simp [hb, hc, hw]

theorem RenderSceneObjectsFrom_sameControl (os : List RenderObject) :
    ∀ (i : Nat) (st : App), (RenderSceneObjectsFrom i os st).SameControl st := by
  induction os with
  | nil => intro i st; exact App.SameControl.controlRefl st
  | cons o os ih =>
    intro i st
    exact (ih (i + 1) _).controlTrans (renderSceneStep_sameControl st i o)

theorem scenePrograms_congr {a b : App} (h : a.SameScene b) (o : RenderObject) :
    scenePrograms a o = scenePrograms b o := by
  unfold scenePrograms
  rw [h.1, h.2.1]

theorem sceneLogFrom_congr {a b : App} (h : a.SameScene b) (os : List RenderObject) :
    ∀ i, sceneLogFrom a i os = sceneLogFrom b i os := by
  induction os with
  | nil => intro i; rfl
  | cons o os ih => intro i; simp [sceneLogFrom, ih, scenePrograms_congr h]

theorem RenderSceneObjectsFrom_drawLog (os : List RenderObject) :
    ∀ (i : Nat) (st : App),
      (RenderSceneObjectsFrom i os st).drawLog = st.drawLog ++ sceneLogFrom st i os := by
  induction os with
  | nil => intro i st; simp [RenderSceneObjectsFrom, sceneLogFrom]
  | cons o os ih =>
    intro i st
    simp only [RenderSceneObjectsFrom, sceneLogFrom]
    rw [ih, renderSceneStep_drawLog,
      sceneLogFrom_congr (renderSceneStep_sameControl st i o).1, List.append_assoc]

theorem LightObject.ApplyData_sameControl (l : LightObject) (st : App) :
    (l.ApplyData st).SameControl st :=
  App.SameControl.controlRefl st

theorem LightObject.ApplyData_drawLog (l : LightObject) (st : App) :
    (l.ApplyData st).drawLog = st.drawLog := by
  simp [LightObject.ApplyData, App.drawLog, App.withGL]

theorem applyLights_sameControl (ls : List LightObject) :
    ∀ st : App, (ls.foldl (fun s l => l.ApplyData s) st).SameControl st := by
  induction ls with
  | nil => intro st; exact App.SameControl.controlRefl st
  | cons l ls ih =>
    intro st
    exact (ih _).controlTrans (LightObject.ApplyData_sameControl l st)

theorem applyLights_drawLog (ls : List LightObject) :
    ∀ st : App, (ls.foldl (fun s l => l.ApplyData s) st).drawLog = st.drawLog := by
  induction ls with
  | nil => intro st; rfl
  | cons l ls ih =>
    intro st
    rw [List.foldl_cons, ih, LightObject.ApplyData_drawLog]

theorem ApplyLightAndCamera_sameControl (st : App) :
    (ApplyLightAndCamera st).SameControl st :=
  (applyLights_sameControl _ _).controlTrans (App.SameControl.controlRefl st)

theorem ApplyLightAndCamera_drawLog (st : App) :
    (ApplyLightAndCamera st).drawLog = st.drawLog := by
  unfold ApplyLightAndCamera
  rw [applyLights_drawLog]
  rfl

theorem ApplyShaderData_sameControl (st : App) :
    (ApplyShaderData st).SameControl st :=
  ⟨⟨rfl, rfl, rfl, rfl, rfl, rfl, rfl⟩, rfl, rfl⟩

theorem ApplyShaderData_drawLog (st : App) :
    (ApplyShaderData st).drawLog = st.drawLog := by
  simp [ApplyShaderData, App.drawLog, App.withGL, Shader.SetVal, Shader.SetInt,
    Shader.SetFloat, Shader.Bind, GLContext.useProgram]

/-- The frame prefix leaves the control state alone. -/
theorem frameStart_sameControl (st : App) : (frameStart st).SameControl st := by
  unfold frameStart RenderSceneObjects
  refine (RenderSceneObjectsFrom_sameControl _ 0 _).controlTrans ?_
  refine (ApplyShaderData_sameControl _).controlTrans ?_
  refine (ApplyLightAndCamera_sameControl _).controlTrans ?_
  exact App.SameControl.controlRefl st

/-- The draw log after the frame prefix: the scene log of the collection. -/
theorem frameStart_drawLog (st : App) :
    (frameStart st).drawLog = sceneLogFrom st 0 st.RenderObjects := by
  have h1 : (ApplyShaderData (ApplyLightAndCamera (st.withGL GLContext.clear))).SameControl st :=
    (ApplyShaderData_sameControl _).controlTrans
      ((ApplyLightAndCamera_sameControl _).controlTrans (App.SameControl.controlRefl st))
  unfold frameStart RenderSceneObjects
  rw [RenderSceneObjectsFrom_drawLog, ApplyShaderData_drawLog, ApplyLightAndCamera_drawLog,
    sceneLogFrom_congr h1.1, h1.1.2.2.2.1]
  simp [App.drawLog, App.withGL, GLContext.clear]

theorem stencilPassFrom_sameControl (os : List RenderObject) :
    ∀ (i : Nat) (st : App), (stencilPassFrom i os st).SameControl st := by
  induction os with
  | nil => intro i st; exact App.SameControl.controlRefl st
  | cons o os ih =>
    intro i st
    exact (ih (i + 1) _).controlTrans ((Render_sameControl o i _ _).controlTrans (App.SameControl.controlRefl st))

/-- The stencil pass of a pick leaves the control state alone. -/
theorem pickingPass_sameControl (st : App) : (pickingPass st).SameControl st := by
  unfold pickingPass
  exact (stencilPassFrom_sameControl _ 0 _).controlTrans (App.SameControl.controlRefl st)

theorem App.objectAt_congr {a b : App} (h : a.SameScene b) (idx : Int) :
    a.objectAt idx = b.objectAt idx := by
  unfold App.objectAt
  rw [h.2.2.2.1]

theorem App.objectAt_natCast (st : App) (n : Nat) :
    st.objectAt (n : Int) = st.RenderObjects[n]? := by
  unfold App.objectAt
  simp

/-! ## The four outcomes of the selection logic of `App::Render` -/

/-- Programs of the scene log: the main or the water program. -/
theorem mem_sceneLogFrom (st : App) (os : List RenderObject) :
    ∀ (i j p : Nat), (j, p) ∈ sceneLogFrom st i os →
      p = st.shader._id ∨ p = st.shaderWater._id := by
  induction os with
  | nil => intro i j p h; simp [sceneLogFrom] at h
  | cons o os ih =>
    intro i j p h
    simp only [sceneLogFrom, List.mem_append, List.mem_map] at h
    rcases h with ⟨q, hq, heq⟩ | h
    · have hp : q = p := (Prod.mk.inj heq).2
      subst hp
      unfold scenePrograms at hq
      split at hq
      · simp only [List.mem_cons, List.mem_singleton, List.mem_nil_iff, or_false] at hq
        exact hq.symm
      · simp only [List.mem_singleton] at hq
        exact Or.inl hq
    · exact ih _ _ _ h

/-- No pending pick and nothing highlighted: nothing is added to the frame. -/
theorem highlightPass_idle (p : App) (h1 : p.stencilIdx < 0) (h2 : p.stencilIdxLast < 0) :
    highlightPass p = some p := by
  unfold highlightPass
  rw [if_neg (by omega)]

/-- The pending pick is the highlighted index: the object is drawn once more
with the main shader and both indices are reset. -/
theorem highlightPass_same (p : App) (o : RenderObject)
    (h1 : p.stencilIdx = p.stencilIdxLast) (h2 : 0 ≤ p.stencilIdx)
    (ho : p.objectAt p.stencilIdx = some o) :
    ∃ s, highlightPass p = some s ∧ s.SameScene p ∧ s.stencilIdx = -1 ∧
      s.stencilIdxLast = -1 ∧
      s.drawLog = p.drawLog ++ [(p.stencilIdx.toNat, p.shader._id)] := by
  unfold highlightPass
  rw [if_pos (Or.inl h2), if_pos h1, ho]
  refine ⟨_, rfl, (Render_sameControl o _ _ _).1, rfl, rfl, ?_⟩
  exact Render_drawLog o _ _ _

/-- A pending pick of an index that is not the highlighted one: the index
becomes the highlighted one and its object is drawn with the highlight
shader. -/
theorem highlightPass_new (p : App) (o : RenderObject)
    (h1 : p.stencilIdx ≠ p.stencilIdxLast) (h2 : 0 ≤ p.stencilIdx)
    (ho : p.objectAt p.stencilIdx = some o) :
    ∃ s, highlightPass p = some s ∧ s.SameScene p ∧ s.stencilIdx = -1 ∧
      s.stencilIdxLast = p.stencilIdx ∧
      s.drawLog = p.drawLog ++ [(p.stencilIdx.toNat, p.shaderWhite._id)] := by
  have h3 : p.stencilIdx ≠ -1 := by omega
  unfold highlightPass
  rw [if_pos (Or.inl h2), if_neg h1]
  simp only [if_pos h3]
  have hobj : ∀ f : GLContext → GLContext,
      App.objectAt (App.withGL { p with
        stencilIdxLast := p.stencilIdx, stencilIdx := -1 } f) p.stencilIdx = some o := by
    intro f
    rw [← ho]
    exact App.objectAt_congr ⟨rfl, rfl, rfl, rfl, rfl, rfl, rfl⟩ _
  rw [hobj]
  refine ⟨_, rfl, ?_, ?_, ?_, ?_⟩
  · exact (Render_sameControl o _ _ _).1
  · exact (Render_sameControl o _ _ _).2.1
  · exact (Render_sameControl o _ _ _).2.2
  · show (o.Render _ _ _).drawLog = _
    rw [Render_drawLog]
    simp [App.drawLog, App.withGL, Shader.SetVal, Shader.Bind, GLContext.useProgram]

/-- No pending pick and a highlighted index: the highlighted object is drawn
with the highlight shader and the indices stay. -/
theorem highlightPass_keep (p : App) (o : RenderObject)
    (h1 : p.stencilIdx = -1) (h2 : 0 ≤ p.stencilIdxLast)
    (ho : p.objectAt p.stencilIdxLast = some o) :
    ∃ s, highlightPass p = some s ∧ s.SameControl p ∧
      s.drawLog = p.drawLog ++ [(p.stencilIdxLast.toNat, p.shaderWhite._id)] := by
  have h3 : ¬ p.stencilIdx = p.stencilIdxLast := by omega
  have h4 : ¬ p.stencilIdx ≠ -1 := by omega
  unfold highlightPass
  rw [if_pos (Or.inr h2), if_neg h3]
  simp only [if_neg h4]
  have hobj : ∀ f : GLContext → GLContext,
      App.objectAt (App.withGL p f) p.stencilIdxLast = some o := by
    intro f
    rw [← ho]
    exact App.objectAt_congr ⟨rfl, rfl, rfl, rfl, rfl, rfl, rfl⟩ _
  rw [hobj]
  refine ⟨_, rfl, Render_sameControl o _ _ _, ?_⟩
  show (o.Render _ _ _).drawLog = _
  rw [Render_drawLog]
  simp [App.drawLog, App.withGL, Shader.SetVal, Shader.Bind, GLContext.useProgram]

/-- Outcome of `App::Render` with no pending pick and nothing highlighted. -/
theorem App.Render_idle (st : App) (h1 : st.stencilIdx < 0) (h2 : st.stencilIdxLast < 0) :
    ∃ s, st.Render = some s ∧ s.SameControl st ∧
      s.drawLog = sceneLogFrom st 0 st.RenderObjects := by
  have hp := frameStart_sameControl st
  refine ⟨frameStart st, ?_, hp, frameStart_drawLog st⟩
  exact highlightPass_idle _ (by rw [hp.2.1]; exact h1) (by rw [hp.2.2]; exact h2)

/-- Outcome of `App::Render` when the pending pick is the highlighted index. -/
theorem App.Render_same (st : App) (o : RenderObject)
    (h1 : st.stencilIdx = st.stencilIdxLast) (h2 : 0 ≤ st.stencilIdx)
    (ho : st.objectAt st.stencilIdx = some o) :
    ∃ s, st.Render = some s ∧ s.SameScene st ∧ s.stencilIdx = -1 ∧
      s.stencilIdxLast = -1 ∧
      s.drawLog = sceneLogFrom st 0 st.RenderObjects
        ++ [(st.stencilIdx.toNat, st.shader._id)] := by
  have hp := frameStart_sameControl st
  obtain ⟨s, hs, hsc, hi, hl, hd⟩ := highlightPass_same (frameStart st) o
    (by rw [hp.2.1, hp.2.2]; exact h1) (by rw [hp.2.1]; exact h2)
    (by rw [App.objectAt_congr hp.1, hp.2.1]; exact ho)
  refine ⟨s, hs, hsc.sceneTrans hp.1, hi, hl, ?_⟩
  rw [hd, frameStart_drawLog, hp.2.1, hp.1.1]

/-- Outcome of `App::Render` with a pending pick of a new index. -/
theorem App.Render_new (st : App) (o : RenderObject)
    (h1 : st.stencilIdx ≠ st.stencilIdxLast) (h2 : 0 ≤ st.stencilIdx)
    (ho : st.objectAt st.stencilIdx = some o) :
    ∃ s, st.Render = some s ∧ s.SameScene st ∧ s.stencilIdx = -1 ∧
      s.stencilIdxLast = st.stencilIdx ∧
      s.drawLog = sceneLogFrom st 0 st.RenderObjects
        ++ [(st.stencilIdx.toNat, st.shaderWhite._id)] := by
  have hp := frameStart_sameControl st
  obtain ⟨s, hs, hsc, hi, hl, hd⟩ := highlightPass_new (frameStart st) o
    (by rw [hp.2.1, hp.2.2]; exact h1) (by rw [hp.2.1]; exact h2)
    (by rw [App.objectAt_congr hp.1, hp.2.1]; exact ho)
  refine ⟨s, hs, hsc.sceneTrans hp.1, hi, hl.trans hp.2.1, ?_⟩
  rw [hd, frameStart_drawLog, hp.2.1, hp.1.2.2.1]

/-- Outcome of `App::Render` with no pending pick and a highlighted index. -/
theorem App.Render_keep (st : App) (o : RenderObject)
    (h1 : st.stencilIdx = -1) (h2 : 0 ≤ st.stencilIdxLast)
    (ho : st.objectAt st.stencilIdxLast = some o) :
    ∃ s, st.Render = some s ∧ s.SameControl st ∧
      s.drawLog = sceneLogFrom st 0 st.RenderObjects
        ++ [(st.stencilIdxLast.toNat, st.shaderWhite._id)] := by
  have hp := frameStart_sameControl st
  obtain ⟨s, hs, hsc, hd⟩ := highlightPass_keep (frameStart st) o
    (by rw [hp.2.1]; exact h1) (by rw [hp.2.2]; exact h2)
    (by rw [App.objectAt_congr hp.1, hp.2.2]; exact ho)
  refine ⟨s, hs, hsc.controlTrans hp, ?_⟩
  rw [hd, frameStart_drawLog, hp.2.2, hp.1.2.2.1]

/-! ## Resolution of a pick -/

/-- Stencil value 0: no selection. -/
theorem resolvePick_zero (R : Fin 256) (p : App) (h : R.val = 0) :
    resolvePick R p = some { p with stencilIdx := -1 } := by
  unfold resolvePick
  simp [h]

/-- Stencil value `R >= 1` with an object at position `R - 1`: the outcome
is decided by the kind of that object. -/
theorem resolvePick_hit (R : Fin 256) (p : App) (o : RenderObject) (h : 1 ≤ R.val)
    (ho : p.RenderObjects[R.val - 1]? = some o) :
    resolvePick R p =
      (let q : App := { p with stencilIdx := (R.val : Int) - 1 }
       if o._type = .CatType then
         some { q with Cat_isMoving := !p.Cat_isMoving, stencilIdx := -1 }
       else if o._type = .Box then
         some { q with
           RenderObjects := p.RenderObjects.set (R.val - 1)
             { o with _box := { o._box with animFlag := !o._box.animFlag } },
           stencilIdx := -1 }
       else if o._type = .Fire then
         some { q with Fire_pointFlag := !p.Fire_pointFlag, stencilIdx := -1 }
       else if o._type = .Sphere then
         some { q with Icosphere_useToSphere := !p.Icosphere_useToSphere, stencilIdx := -1 }
       else some q) := by
  have h0 : R.val ≠ 0 := by omega
  have h1 : ((R.val : Int) - 1).toNat = R.val - 1 := by omega
  have h2 : ¬ ((R.val : Int) - 1 < 0) := by omega
  have h3 : ¬ ((R.val : Int) - 1 = -1) := by omega
  unfold resolvePick
  simp only [h0, ↓reduceIte, App.objectAt, h1, h2, h3, ne_eq, not_false_eq_true, ho]

/-! ## Picking and the selection state machine -/

/-- C3. For the stencil value R read back by `DoPicking`: if R = 0 the pick
resolves to no selection (`stencilIdx` is -1, the highlighted index, the
collection with its box flags and the three static kind flags are unchanged);
if R >= 1 and there is an object at position R - 1, the pick returns and its
outcome is decided by the kind of `RenderObjects[R-1]`: Cat, Box, Fire and
Sphere flip their flag (for Box the flag of the object at position R - 1) and
clear `stencilIdx`, every other kind stores R - 1 in `stencilIdx`. -/
theorem C3_pick_resolves_index (st : App) (R : Fin 256) :
    (R.val = 0 →
      ∃ s, DoPicking R st = some s ∧ s.stencilIdx = -1 ∧
        s.stencilIdxLast = st.stencilIdxLast ∧ s.RenderObjects = st.RenderObjects ∧
        s.Cat_isMoving = st.Cat_isMoving ∧ s.Fire_pointFlag = st.Fire_pointFlag ∧
        s.Icosphere_useToSphere = st.Icosphere_useToSphere) ∧
    (∀ o, 1 ≤ R.val → st.RenderObjects[R.val - 1]? = some o →
      ∃ s, DoPicking R st = some s ∧ s.stencilIdxLast = st.stencilIdxLast ∧
        (o._type = .CatType →
          s.Cat_isMoving = (!st.Cat_isMoving) ∧ s.stencilIdx = -1) ∧
        (o._type = .Box →
          s.RenderObjects = st.RenderObjects.set (R.val - 1)
            { o with _box := { o._box with animFlag := !o._box.animFlag } } ∧
          s.stencilIdx = -1) ∧
        (o._type = .Fire →
          s.Fire_pointFlag = (!st.Fire_pointFlag) ∧ s.stencilIdx = -1) ∧
        (o._type = .Sphere →
          s.Icosphere_useToSphere = (!st.Icosphere_useToSphere) ∧ s.stencilIdx = -1) ∧
        (o._type.isToggle = false →
          s.stencilIdx = (R.val : Int) - 1 ∧ s.RenderObjects = st.RenderObjects ∧
          s.Cat_isMoving = st.Cat_isMoving ∧ s.Fire_pointFlag = st.Fire_pointFlag ∧
          s.Icosphere_useToSphere = st.Icosphere_useToSphere)) := by
  have hp := pickingPass_sameControl st
  obtain ⟨⟨-, -, -, hobjs, hcat, hfire, hsph⟩, -, hlast⟩ := hp
  constructor
  · intro h0
    refine ⟨_, resolvePick_zero R _ h0, rfl, hlast, hobjs, hcat, hfire, hsph⟩
  · intro o h1 ho
    have ho2 : (pickingPass st).RenderObjects[R.val - 1]? = some o := by rw [hobjs]; exact ho
    unfold DoPicking
    rw [resolvePick_hit R _ o h1 ho2]
    cases ht : o._type <;>
      simp [RenderObjectType.isToggle, hlast, hobjs, hcat, hfire, hsph]

/-- C3, instance: with a mesh at position 0 and a box at position 1, the
stencil value 2 flips the flag of the box at position 1. -/
theorem C3_pick_resolves_index_witness :
    1 ≤ (2 : Fin 256).val ∧
    (sampleApp [sampleMesh, sampleBox .BoxBigT] (-1) (-1)).RenderObjects[(2 : Fin 256).val - 1]?
      = some (sampleBox .BoxBigT) ∧
    ∃ s, DoPicking 2 (sampleApp [sampleMesh, sampleBox .BoxBigT] (-1) (-1)) = some s ∧
      s.RenderObjects = [sampleMesh,
        { sampleBox .BoxBigT with _box := { _type := .BoxBigT, animFlag := true } }] ∧
      s.stencilIdx = -1 := by
  refine ⟨by decide, rfl, ?_⟩
  obtain ⟨s, hs, -, -, hbox, -⟩ :=
    (C3_pick_resolves_index (sampleApp [sampleMesh, sampleBox .BoxBigT] (-1) (-1)) 2).2
      (sampleBox .BoxBigT) (by decide) rfl
  exact ⟨s, hs, hbox rfl⟩

/-- A pick that hits an object of a kind without a toggle branch stores the
index of the object as pending pick and changes nothing else of the
control state. -/
theorem DoPicking_select (st : App) (A : Nat) (hA : A + 1 < 256) (o : RenderObject)
    (ho : st.RenderObjects[A]? = some o) (hk : o._type.isToggle = false) :
    ∃ s, DoPicking ⟨A + 1, hA⟩ st = some s ∧ s.SameScene st ∧ s.stencilIdx = A ∧
      s.stencilIdxLast = st.stencilIdxLast := by
  have hp := pickingPass_sameControl st
  have ho2 : (pickingPass st).RenderObjects[(⟨A + 1, hA⟩ : Fin 256).val - 1]? = some o := by
    rw [hp.1.2.2.2.1]; exact ho
  unfold DoPicking
  rw [resolvePick_hit ⟨A + 1, hA⟩ _ o (by simp) ho2]
  cases ht : o._type <;> simp [RenderObjectType.isToggle, ht] at hk ⊢ <;>
    exact ⟨hp.1, hp.2.2⟩

/-- A pick that hits an object of a toggle kind leaves no pending pick, keeps
the highlighted index and the shaders, and keeps the kind of every object. -/
theorem DoPicking_toggle (st : App) (R : Fin 256) (o : RenderObject) (hR : 1 ≤ R.val)
    (ho : st.RenderObjects[R.val - 1]? = some o) (hk : o._type.isToggle = true) :
    ∃ s, DoPicking R st = some s ∧ s.stencilIdx = -1 ∧
      s.stencilIdxLast = st.stencilIdxLast ∧ s.shader = st.shader ∧
      s.shaderWater = st.shaderWater ∧ s.shaderWhite = st.shaderWhite ∧
      s.RenderObjects.length = st.RenderObjects.length := by
  have hp := pickingPass_sameControl st
  have ho2 : (pickingPass st).RenderObjects[R.val - 1]? = some o := by
    rw [hp.1.2.2.2.1]; exact ho
  unfold DoPicking
  rw [resolvePick_hit R _ o hR ho2]
  cases ht : o._type <;> simp [RenderObjectType.isToggle, ht] at hk ⊢ <;>
    simp [hp.2.2, hp.1.1, hp.1.2.1, hp.1.2.2.1, hp.1.2.2.2.1]

/-- The highlight program does not occur in a scene log. -/
theorem not_mem_sceneLog_white (st : App) (hw1 : st.shaderWhite._id ≠ st.shader._id)
    (hw2 : st.shaderWhite._id ≠ st.shaderWater._id) (os : List RenderObject) (i j : Nat) :
    (j, st.shaderWhite._id) ∉ sceneLogFrom st i os := by
  intro h
  rcases mem_sceneLogFrom st os i j _ h with h | h
  · exact hw1 h
  · exact hw2 h

/-- C4, as stated, fails: start with no pending pick and object 0 (a mesh)
highlighted.  After pick 0, `App::Render`, pick 0, `App::Render` the index 0
is highlighted again (`stencilIdxLast = 0`) and the last frame drew object 0
with the highlight program 3. -/
theorem C4_counterexample :
    (sampleApp [sampleMesh] (-1) 0).stencilIdx = -1 ∧
    (pickRenderTwice 1 1 (sampleApp [sampleMesh] (-1) 0)).map
        (fun s => (s.stencilIdx, s.stencilIdxLast, s.drawLog))
      = some (-1, 0, [(0, 1), (0, 3)]) := by
  decide

/-- C4, amended. Start from any selection state in which A is not the
highlighted index (`stencilIdxLast` is not A), A the index of an object whose
kind is not Cat, Box, Fire or Sphere, and let the three shader programs be
different.  The sequence pick A, `App::Render`, pick A, `App::Render` returns
and ends in Idle (`stencilIdx = stencilIdxLast = -1`); in the last frame
object A is drawn with the main shader and not with the highlight shader. -/
theorem C4_pick_twice_idle (st : App) (A : Nat) (hA : A + 1 < 256) (o : RenderObject)
    (ho : st.RenderObjects[A]? = some o) (hk : o._type.isToggle = false)
    (hlast : st.stencilIdxLast ≠ (A : Int))
    (hw1 : st.shaderWhite._id ≠ st.shader._id)
    (hw2 : st.shaderWhite._id ≠ st.shaderWater._id) :
    ∃ s, pickRenderTwice ⟨A + 1, hA⟩ ⟨A + 1, hA⟩ st = some s ∧
      s.stencilIdx = -1 ∧ s.stencilIdxLast = -1 ∧
      DrawnWith s A st.shader._id ∧ ¬ DrawnWith s A st.shaderWhite._id := by
  obtain ⟨s1, h1, sc1, i1, l1⟩ := DoPicking_select st A hA o ho hk
  have ho1 : s1.objectAt s1.stencilIdx = some o := by
    rw [i1, App.objectAt_natCast, sc1.2.2.2.1]; exact ho
  obtain ⟨s2, h2, sc2, -, l2, -⟩ := App.Render_new s1 o
    (by rw [i1, l1]; exact Ne.symm hlast) (by rw [i1]; omega) ho1
  have sc2st : s2.SameScene st := sc2.sceneTrans sc1
  obtain ⟨s3, h3, sc3, i3, l3⟩ := DoPicking_select s2 A hA o
    (by rw [sc2st.2.2.2.1]; exact ho) hk
  have sc3st : s3.SameScene st := sc3.sceneTrans sc2st
  have ho3 : s3.objectAt s3.stencilIdx = some o := by
    rw [i3, App.objectAt_natCast, sc3st.2.2.2.1]; exact ho
  obtain ⟨s4, h4, -, i4, l4, d4⟩ := App.Render_same s3 o
    (by rw [i3, l3, l2, i1]) (by rw [i3]; omega) ho3
  refine ⟨s4, by simp [pickRenderTwice, h1, h2, h3, h4], i4, l4, ?_, ?_⟩
  · unfold DrawnWith
    rw [d4, i3, sc3st.1]
    simp
  · unfold DrawnWith
    rw [d4, i3, sc3st.1, ← sc3st.2.2.1]
    intro hmem
    rcases List.mem_append.mp hmem with h | h
    · exact not_mem_sceneLog_white s3 (by rw [sc3st.1, sc3st.2.2.1]; exact hw1)
        (by rw [sc3st.2.1, sc3st.2.2.1]; exact hw2) _ _ _ h
    · have h2 := (Prod.mk.inj (List.mem_singleton.mp h)).2
      exact hw1 (by rw [← sc3st.2.2.1]; exact h2)

/-- C4 amended, instance: three meshes, nothing highlighted, A = 1. -/
theorem C4_pick_twice_idle_witness :
    (sampleApp [sampleMesh, sampleMesh, sampleMesh] (-1) (-1)).RenderObjects[1]?
      = some sampleMesh ∧
    sampleMesh._type.isToggle = false ∧
    (sampleApp [sampleMesh, sampleMesh, sampleMesh] (-1) (-1)).stencilIdxLast ≠ ((1 : Nat) : Int) ∧
    ∃ s, pickRenderTwice 2 2 (sampleApp [sampleMesh, sampleMesh, sampleMesh] (-1) (-1)) = some s ∧
      s.stencilIdx = -1 ∧ s.stencilIdxLast = -1 ∧
      DrawnWith s 1 1 ∧ ¬ DrawnWith s 1 3 :=
  ⟨rfl, rfl, by decide,
    C4_pick_twice_idle (sampleApp [sampleMesh, sampleMesh, sampleMesh] (-1) (-1)) 1
      (by decide) sampleMesh rfl rfl (by decide) (by decide) (by decide)⟩

/-- C5. Let A and B be different indices of objects whose kind is not Cat,
Box, Fire or Sphere, and let the three shader programs be different.  From
every state the sequence pick A, `App::Render`, pick B, `App::Render` returns;
afterwards the highlighted index `stencilIdxLast` is B, and the last frame
drew object B with the highlight shader and did not draw object A with it. -/
theorem C5_pick_other_moves_highlight (st : App) (A B : Nat) (hA : A + 1 < 256)
    (hB : B + 1 < 256) (hAB : A ≠ B) (oA oB : RenderObject)
    (hoA : st.RenderObjects[A]? = some oA) (hkA : oA._type.isToggle = false)
    (hoB : st.RenderObjects[B]? = some oB) (hkB : oB._type.isToggle = false)
    (hw1 : st.shaderWhite._id ≠ st.shader._id)
    (hw2 : st.shaderWhite._id ≠ st.shaderWater._id) :
    ∃ s, pickRenderTwice ⟨A + 1, hA⟩ ⟨B + 1, hB⟩ st = some s ∧
      s.stencilIdxLast = (B : Int) ∧
      DrawnWith s B st.shaderWhite._id ∧ ¬ DrawnWith s A st.shaderWhite._id := by
  obtain ⟨s1, h1, sc1, i1, l1⟩ := DoPicking_select st A hA oA hoA hkA
  have ho1 : s1.objectAt s1.stencilIdx = some oA := by
    rw [i1, App.objectAt_natCast, sc1.2.2.2.1]; exact hoA
  have hstep : ∃ s2, s1.Render = some s2 ∧ s2.SameScene s1 ∧
      (s2.stencilIdxLast = -1 ∨ s2.stencilIdxLast = (A : Int)) := by
    by_cases heq : s1.stencilIdx = s1.stencilIdxLast
    · obtain ⟨s2, h2, sc2, -, l2, -⟩ := App.Render_same s1 oA heq (by rw [i1]; omega) ho1
      exact ⟨s2, h2, sc2, Or.inl l2⟩
    · obtain ⟨s2, h2, sc2, -, l2, -⟩ := App.Render_new s1 oA heq (by rw [i1]; omega) ho1
      exact ⟨s2, h2, sc2, Or.inr (by rw [l2, i1])⟩
  obtain ⟨s2, h2, sc2, l2⟩ := hstep
  have sc2st : s2.SameScene st := sc2.sceneTrans sc1
  obtain ⟨s3, h3, sc3, i3, l3⟩ := DoPicking_select s2 B hB oB
    (by rw [sc2st.2.2.2.1]; exact hoB) hkB
  have sc3st : s3.SameScene st := sc3.sceneTrans sc2st
  have ho3 : s3.objectAt s3.stencilIdx = some oB := by
    rw [i3, App.objectAt_natCast, sc3st.2.2.2.1]; exact hoB
  have hne : s3.stencilIdx ≠ s3.stencilIdxLast := by
    rw [i3, l3]
    rcases l2 with h | h <;> rw [h] <;> omega
  obtain ⟨s4, h4, -, -, l4, d4⟩ := App.Render_new s3 oB hne (by rw [i3]; omega) ho3
  refine ⟨s4, by simp [pickRenderTwice, h1, h2, h3, h4], by rw [l4, i3], ?_, ?_⟩
  · unfold DrawnWith
    rw [d4, i3, sc3st.2.2.1]
    simp
  · unfold DrawnWith
    rw [d4, i3]
    intro hmem
    rcases List.mem_append.mp hmem with h | h
    · rw [← sc3st.2.2.1] at h
      exact not_mem_sceneLog_white s3 (by rw [sc3st.1, sc3st.2.2.1]; exact hw1)
        (by rw [sc3st.2.1, sc3st.2.2.1]; exact hw2) _ _ _ h
    · have h2 := (Prod.mk.inj (List.mem_singleton.mp h)).1
      rw [Int.toNat_ofNat] at h2
      exact hAB h2

/-- C5, instance: three meshes, A = 0 and B = 2. -/
theorem C5_pick_other_moves_highlight_witness :
    (0 : Nat) ≠ 2 ∧
    (sampleApp [sampleMesh, sampleMesh, sampleMesh] (-1) (-1)).RenderObjects[0]?
      = some sampleMesh ∧
    (sampleApp [sampleMesh, sampleMesh, sampleMesh] (-1) (-1)).RenderObjects[2]?
      = some sampleMesh ∧
    sampleMesh._type.isToggle = false ∧
    ∃ s, pickRenderTwice 1 3 (sampleApp [sampleMesh, sampleMesh, sampleMesh] (-1) (-1)) = some s ∧
      s.stencilIdxLast = ((2 : Nat) : Int) ∧ DrawnWith s 2 3 ∧ ¬ DrawnWith s 0 3 :=
  ⟨by decide, rfl, rfl, rfl,
    C5_pick_other_moves_highlight (sampleApp [sampleMesh, sampleMesh, sampleMesh] (-1) (-1))
      0 2 (by decide) (by decide) (by decide) sampleMesh sampleMesh rfl rfl rfl rfl
      (by decide) (by decide)⟩

/-- C6, as stated, fails: object 0 (a mesh) is highlighted and the pick
resolves to the box at position 1.  After the pick `stencilIdxLast` is still
0, and the following frame draws object 0 with the highlight program 3. -/
theorem C6_counterexample :
    (DoPicking 2 (sampleApp [sampleMesh, sampleBox .BoxBigT] (-1) 0)).map
        (fun s => (s.stencilIdx, s.stencilIdxLast)) = some (-1, 0) ∧
    ((DoPicking 2 (sampleApp [sampleMesh, sampleBox .BoxBigT] (-1) 0)).bind App.Render).map
        (fun s => (s.stencilIdx, s.stencilIdxLast, s.drawLog))
      = some (-1, 0, [(0, 1), (1, 1), (0, 3)]) := by
  decide

/-- C6, amended. Whenever a pick resolves to an object of kind Cat, Box, Fire
or Sphere, the pick returns with no pending pick (`stencilIdx = -1`) and with
the highlighted index `stencilIdxLast` it found.  If nothing was highlighted
before (`stencilIdxLast = -1`) the state is Idle and the following
`App::Render` draws nothing with the highlight shader; if an index L of the
collection was highlighted before, it stays highlighted and the following
`App::Render` draws object L, and no other object, with the highlight shader.
The three shader programs are assumed different. -/
theorem C6_toggle_pick_keeps_highlight (st : App) (R : Fin 256) (o : RenderObject)
    (hR : 1 ≤ R.val) (ho : st.RenderObjects[R.val - 1]? = some o)
    (hk : o._type.isToggle = true)
    (hw1 : st.shaderWhite._id ≠ st.shader._id)
    (hw2 : st.shaderWhite._id ≠ st.shaderWater._id) :
    ∃ s, DoPicking R st = some s ∧ s.stencilIdx = -1 ∧
      s.stencilIdxLast = st.stencilIdxLast ∧
      (st.stencilIdxLast = -1 →
        ∃ s2, s.Render = some s2 ∧ s2.stencilIdx = -1 ∧ s2.stencilIdxLast = -1 ∧
          ∀ i, ¬ DrawnWith s2 i st.shaderWhite._id) ∧
      (∀ L : Nat, st.stencilIdxLast = (L : Int) → L < st.RenderObjects.length →
        ∃ s2, s.Render = some s2 ∧ s2.stencilIdx = -1 ∧ s2.stencilIdxLast = (L : Int) ∧
          DrawnWith s2 L st.shaderWhite._id ∧
          ∀ i, DrawnWith s2 i st.shaderWhite._id → i = L) := by
  obtain ⟨s, hs, hi, hl, hsh, hwa, hwh, hlen⟩ := DoPicking_toggle st R o hR ho hk
  have hnw : ∀ (os : List RenderObject) (i j : Nat),
      (j, st.shaderWhite._id) ∉ sceneLogFrom s i os := by
    intro os i j
    rw [← hwh]
    exact not_mem_sceneLog_white s (by rw [hsh, hwh]; exact hw1)
      (by rw [hwa, hwh]; exact hw2) os i j
  refine ⟨s, hs, hi, hl, ?_, ?_⟩
  · intro hidle
    obtain ⟨s2, h2, sc2, d2⟩ := App.Render_idle s (by rw [hi]; omega)
      (by rw [hl, hidle]; omega)
    refine ⟨s2, h2, by rw [sc2.2.1, hi], by rw [sc2.2.2, hl, hidle], ?_⟩
    intro i
    unfold DrawnWith
    rw [d2]
    exact hnw _ _ _
  · intro L hL hlt
    have hex : ∃ oL, s.RenderObjects[L]? = some oL := by
      have hlt2 : L < s.RenderObjects.length := by rw [hlen]; exact hlt
      exact ⟨s.RenderObjects[L], List.getElem?_eq_getElem hlt2⟩
    obtain ⟨oL, hoL⟩ := hex
    obtain ⟨s2, h2, sc2, d2⟩ := App.Render_keep s oL hi (by rw [hl, hL]; omega)
      (by rw [hl, hL, App.objectAt_natCast]; exact hoL)
    refine ⟨s2, h2, by rw [sc2.2.1, hi], by rw [sc2.2.2, hl, hL], ?_, ?_⟩
    · unfold DrawnWith
      rw [d2, hl, hL, hwh]
      simp
    · intro i
      unfold DrawnWith
      rw [d2, hl, hL, hwh]
      intro hmem
      rcases List.mem_append.mp hmem with h | h
      · exact absurd h (hnw _ _ _)
      · have h2 := (Prod.mk.inj (List.mem_singleton.mp h)).1
        rw [Int.toNat_ofNat] at h2
        exact h2

/-- C6 amended, instance: a mesh and a box, the mesh highlighted, the pick
hits the box. -/
theorem C6_toggle_pick_keeps_highlight_witness :
    1 ≤ (2 : Fin 256).val ∧
    (sampleApp [sampleMesh, sampleBox .BoxBigT] (-1) 0).RenderObjects[(2 : Fin 256).val - 1]?
      = some (sampleBox .BoxBigT) ∧
    (sampleBox .BoxBigT)._type.isToggle = true ∧
    ∃ s, DoPicking 2 (sampleApp [sampleMesh, sampleBox .BoxBigT] (-1) 0) = some s ∧
      s.stencilIdx = -1 ∧ s.stencilIdxLast = 0 ∧
      ∃ s2, s.Render = some s2 ∧ s2.stencilIdx = -1 ∧ s2.stencilIdxLast = ((0 : Nat) : Int) ∧
        DrawnWith s2 0 3 ∧ ∀ i, DrawnWith s2 i 3 → i = 0 := by
  refine ⟨by decide, rfl, rfl, ?_⟩
  obtain ⟨s, hs, hi, hl, -, hkeep⟩ :=
    C6_toggle_pick_keeps_highlight (sampleApp [sampleMesh, sampleBox .BoxBigT] (-1) 0) 2
      (sampleBox .BoxBigT) (by decide) rfl rfl (by decide) (by decide)
  exact ⟨s, hs, hi, hl, hkeep 0 rfl (by decide)⟩

/-! ## Fog oscillation -/

/-- For a non-negative quotient inside the range of `int` the conversion is
the floor. -/
theorem floatToInt_of_nonneg (q : ℚ) (h0 : 0 ≤ q) (h1 : ⌊q⌋ < 2147483648) :
    floatToInt q = some ⌊q⌋ := by
  have hnum : 0 ≤ q.num := Rat.num_nonneg.mpr h0
  have hden : (0 : Int) ≤ (q.den : Int) := Int.ofNat_nonneg _
  have hz : Int.tdiv q.num q.den = ⌊q⌋ := by
    rw [Int.tdiv_eq_ediv hnum hden, Rat.floor_def]
  have hfl : 0 ≤ ⌊q⌋ := Int.floor_nonneg.mpr h0
  unfold floatToInt
  simp only [hz]
  rw [if_pos ⟨by omega, h1⟩]

/-- A quotient whose floor does not fit an `int` has no conversion. -/
theorem floatToInt_of_large (q : ℚ) (h0 : 0 ≤ q) (h1 : 2147483648 ≤ ⌊q⌋) :
    floatToInt q = none := by
  have hnum : 0 ≤ q.num := Rat.num_nonneg.mpr h0
  have hden : (0 : Int) ≤ (q.den : Int) := Int.ofNat_nonneg _
  have hz : Int.tdiv q.num q.den = ⌊q⌋ := by
    rw [Int.tdiv_eq_ediv hnum hden, Rat.floor_def]
  unfold floatToInt
  simp only [hz]
  rw [if_neg (by omega)]

/-- The binary32 quotient of `Fire::Render` is not negative. -/
theorem Fire.quotient_nonneg (D t : ℚ) (ht : 0 ≤ t) (hD : 0 < D) :
    0 ≤ round32 (round32 t / D) :=
  round32_nonneg _ (div_nonneg (round32_nonneg t ht) hD.le)

/-- The frame index where every step of its computation is defined. -/
theorem Fire.frame_eq (f : Fire) (t : ℚ) (ht : 0 ≤ t) (hD : 0 < f.frameDuration)
    (hn : 0 < f.cols * f.rows) (hn2 : f.cols * f.rows < 2147483648)
    (hq : ⌊round32 (round32 t / f.frameDuration)⌋ < 2147483648) :
    f.frame t = some (⌊round32 (round32 t / f.frameDuration)⌋ % (f.cols * f.rows)) := by
  have hq0 := Fire.quotient_nonneg f.frameDuration t ht hD
  have hfl : 0 ≤ ⌊round32 (round32 t / f.frameDuration)⌋ := Int.floor_nonneg.mpr hq0
  unfold Fire.frame
  rw [if_neg (ne_of_gt hD), floatToInt_of_nonneg _ hq0 hq]
  simp only
  rw [if_neg (by omega), if_neg (by omega), if_neg (by omega),
    Int.tmod_eq_emod hfl (le_of_lt hn)]

/-- The distance of the binary32 quotient `fl(fl(T) / D)` from `T / D`. -/
theorem Fire.quotient_error (D t : ℚ) (ht : 0 ≤ t) (hD : 0 < D) :
    |round32 (round32 t / D) - t / D| ≤ t / D / 2 ^ 22 + (1 / D + 1) / 2 ^ 149 := by
  have h1 := round32_error t
  have h2 := round32_error (round32 t / D)
  have ha := round32_nonneg t ht
  rw [abs_of_nonneg ht] at h1
  rw [abs_of_nonneg (div_nonneg ha hD.le)] at h2
  have h1a := abs_le.mp h1
  have hDi : 0 < 1 / D := by positivity
  have e1 : round32 t / D - t / D = (round32 t - t) * (1 / D) := by field_simp
  have h3 : |round32 t / D - t / D| ≤ (t / 2 ^ 24 + 1 / 2 ^ 150) * (1 / D) := by
    rw [e1, abs_mul, abs_of_pos hDi]
    exact mul_le_mul_of_nonneg_right h1 hDi.le
  have h4 : round32 t / D ≤ (t + (t / 2 ^ 24 + 1 / 2 ^ 150)) * (1 / D) := by
    rw [div_eq_mul_one_div]
    apply mul_le_mul_of_nonneg_right _ hDi.le
    linarith [h1a.2]
  have h5 : |round32 (round32 t / D) - t / D|
      ≤ |round32 (round32 t / D) - round32 t / D| + |round32 t / D - t / D| := by
    have := abs_add (round32 (round32 t / D) - round32 t / D) (round32 t / D - t / D)
    simpa using this
  have hx : 0 ≤ t / D := div_nonneg ht hD.le
  have e3 : (t / 2 ^ 24 + 1 / 2 ^ 150) * (1 / D) = t / D / 2 ^ 24 + 1 / D / 2 ^ 150 := by
    ring
  have e4 : (t + (t / 2 ^ 24 + 1 / 2 ^ 150)) * (1 / D)
      = t / D + (t / D / 2 ^ 24 + 1 / D / 2 ^ 150) := by
    ring
  rw [e3] at h3
  rw [e4] at h4
  linarith [h2, h3, h4, h5, hx, hDi]

/-- The atlas of `App.h` has a positive frame duration. -/
theorem sampleFire_duration : sampleFire._fire.frameDuration = 13421773 / 67108864 := rfl

/-- C8, as stated, fails: with the atlas of `App.h` (14 columns, 1 row, frame
duration `0.2f`) and the elapsed time T = 1 s the binary32 quotient
`float(T) / D` is 5 (the exact quotient 4.99999993 rounds up), so
`Fire::Render` uploads the frame index 5 where floor(T/D) mod (C*R) is 4.
With the elapsed time T = 10^10 s the quotient is 49999998976, which no
`int` holds: the conversion `int(...)` is undefined and no frame index is
produced. -/
theorem C8_counterexample :
    ((0 : ℚ) ≤ 1 ∧ 0 < sampleFire._fire.frameDuration ∧
      0 < sampleFire._fire.cols * sampleFire._fire.rows ∧
      sampleFire._fire.frame 1 = some 5 ∧
      ⌊(1 : ℚ) / sampleFire._fire.frameDuration⌋
        % (sampleFire._fire.cols * sampleFire._fire.rows) = 4) ∧
    sampleFire._fire.frame 10000000000 = none := by
  have hD : 0 < sampleFire._fire.frameDuration := by norm_num [sampleFire]
  have hr1 : round32 1 = 1 := by
    rw [round32_eq 1 0 8388608 (by norm_num) (by norm_num) (by norm_num)
      (by norm_num [abs_lt])]
    norm_num
  have hr2 : round32 (1 / sampleFire._fire.frameDuration) = 5 := by
    rw [sampleFire_duration,
      round32_eq _ 2 10485760 (by norm_num [abs_of_pos]) (by norm_num [abs_of_pos])
        (by norm_num) (by norm_num [abs_lt])]
    norm_num
  have hfl : ⌊(1 : ℚ) / sampleFire._fire.frameDuration⌋ = 4 := by
    rw [sampleFire_duration, Int.floor_eq_iff]
    norm_num
  have h5 : sampleFire._fire.frame 1 = some 5 := by
    rw [Fire.frame_eq _ 1 (by norm_num) hD (by decide) (by decide)
      (by rw [hr1, hr2]; norm_num), hr1, hr2]
    norm_num
    decide
  have hr3 : round32 10000000000 = 10000000000 := by
    rw [round32_eq _ 33 9765625 (by norm_num [abs_of_pos]) (by norm_num [abs_of_pos])
      (by norm_num) (by norm_num [abs_lt])]
    norm_num
  have hr4 : round32 (10000000000 / sampleFire._fire.frameDuration) = 49999998976 := by
    rw [sampleFire_duration,
      round32_eq _ 35 12207031 (by norm_num [abs_of_pos]) (by norm_num [abs_of_pos])
        (by norm_num) (by norm_num [abs_lt])]
    norm_num
  have hnone : sampleFire._fire.frame 10000000000 = none := by
    unfold Fire.frame
    rw [if_neg (ne_of_gt hD), hr3, hr4,
      floatToInt_of_large _ (by norm_num) (by norm_num)]
  refine ⟨⟨by norm_num, hD, by decide, h5, ?_⟩, hnone⟩
  rw [hfl]
  decide

/-- C8, amended. For every elapsed time T >= 0, frame duration D > 0 and
atlas with C columns and R rows, 0 < C*R < 2^31, let Q be the binary32
quotient `float(T) / D` that `Fire::Render` computes.  If floor(Q) is below
2^31, the frame index uploaded is floor(Q) mod (C*R), a value in [0, C*R).
The quotient Q differs from T/D by at most (T/D) / 2^22 + (1/D + 1) / 2^149,
so that floor(Q) is within 1 of floor(T/D) whenever T/D <= 2^21 and
D >= 2^-100; it need not be equal to it. -/
theorem C8_frame_index (f : Fire) (hD : 0 < f.frameDuration)
    (hn : 0 < f.cols * f.rows) (hn2 : f.cols * f.rows < 2147483648)
    (t : ℚ) (ht : 0 ≤ t)
    (hq : ⌊round32 (round32 t / f.frameDuration)⌋ < 2147483648) :
    f.frame t = some (⌊round32 (round32 t / f.frameDuration)⌋ % (f.cols * f.rows)) ∧
    0 ≤ ⌊round32 (round32 t / f.frameDuration)⌋ % (f.cols * f.rows) ∧
    ⌊round32 (round32 t / f.frameDuration)⌋ % (f.cols * f.rows) < f.cols * f.rows ∧
    |round32 (round32 t / f.frameDuration) - t / f.frameDuration|
      ≤ t / f.frameDuration / 2 ^ 22 + (1 / f.frameDuration + 1) / 2 ^ 149 ∧
    (t / f.frameDuration ≤ 2 ^ 21 → 1 / 2 ^ 100 ≤ f.frameDuration →
      ⌊t / f.frameDuration⌋ - 1 ≤ ⌊round32 (round32 t / f.frameDuration)⌋ ∧
      ⌊round32 (round32 t / f.frameDuration)⌋ ≤ ⌊t / f.frameDuration⌋ + 1) := by
  have herr := Fire.quotient_error f.frameDuration t ht hD
  refine ⟨Fire.frame_eq f t ht hD hn hn2 hq, Int.emod_nonneg _ (ne_of_gt hn),
    Int.emod_lt_of_pos _ hn, herr, ?_⟩
  intro hx hDlow
  have hinv : 1 / f.frameDuration ≤ 2 ^ 100 := by
    rw [div_le_iff₀ hD]
    have : (1 : ℚ) = 2 ^ 100 * (1 / 2 ^ 100) := by norm_num
    calc (1 : ℚ) = 2 ^ 100 * (1 / 2 ^ 100) := this
      _ ≤ 2 ^ 100 * f.frameDuration := by
        apply mul_le_mul_of_nonneg_left hDlow (by positivity)
  have hb : t / f.frameDuration / 2 ^ 22 + (1 / f.frameDuration + 1) / 2 ^ 149 < 1 := by
    have h1 : t / f.frameDuration / 2 ^ 22 ≤ 2 ^ 21 / 2 ^ 22 :=
      div_le_div_of_nonneg_right hx (by positivity)
    have h2 : (1 / f.frameDuration + 1) / 2 ^ 149 ≤ (2 ^ 100 + 1) / 2 ^ 149 :=
      div_le_div_of_nonneg_right (by linarith) (by positivity)
    have h3 : (2 : ℚ) ^ 21 / 2 ^ 22 + (2 ^ 100 + 1) / 2 ^ 149 < 1 := by norm_num
    linarith
  have herr2 := abs_le.mp herr
  have hf1 := Int.floor_le (t / f.frameDuration)
  have hf2 := Int.lt_floor_add_one (t / f.frameDuration)
  constructor
  · apply Int.le_floor.mpr
    push_cast
    linarith [herr2.1]
  · have : ⌊round32 (round32 t / f.frameDuration)⌋ < ⌊t / f.frameDuration⌋ + 2 := by
      apply Int.floor_lt.mpr
      push_cast
      linarith [herr2.2]
    omega

/-- C8 amended, instance: the atlas of `App.h` at T = 3.1 s, where the
binary32 quotient is 15.4999990463 and the frame is 1 (15 mod 14). -/
theorem C8_frame_index_witness :
    0 < sampleFire._fire.frameDuration ∧
    0 < sampleFire._fire.cols * sampleFire._fire.rows ∧
    sampleFire._fire.cols * sampleFire._fire.rows < 2147483648 ∧
    (0 : ℚ) ≤ 31 / 10 ∧
    round32 (round32 (31 / 10) / sampleFire._fire.frameDuration) = 16252927 / 1048576 ∧
    sampleFire._fire.frame (31 / 10) = some 1 := by
  have hD : 0 < sampleFire._fire.frameDuration := by norm_num [sampleFire]
  have hr1 : round32 (31 / 10) = 6501171 / 2097152 := by
    rw [round32_eq _ 1 13002342 (by norm_num [abs_of_pos]) (by norm_num [abs_of_pos])
      (by norm_num) (by norm_num [abs_lt])]
    norm_num
  have hr2 : round32 (6501171 / 2097152 / sampleFire._fire.frameDuration)
      = 16252927 / 1048576 := by
    rw [sampleFire_duration,
      round32_eq _ 3 16252927 (by norm_num [abs_of_pos]) (by norm_num [abs_of_pos])
        (by norm_num) (by norm_num [abs_lt])]
    norm_num
  have hfl : ⌊(16252927 / 1048576 : ℚ)⌋ = 15 := by
    rw [Int.floor_eq_iff]
    norm_num
  have h := C8_frame_index sampleFire._fire hD (by decide) (by decide) (31 / 10)
    (by norm_num) (by rw [hr1, hr2, hfl]; decide)
  refine ⟨hD, by decide, by decide, by norm_num, by rw [hr1, hr2], ?_⟩
  rw [h.1, hr1, hr2, hfl]
  decide

/-- The atlas of `App.h` at T = D * C * R, the `double` 14 * 0.2f: the
binary32 quotient is 14 and the frame is 0. -/
theorem Fire.frame_full_cycle :
    sampleFire._fire.frame (sampleFire._fire.frameDuration * 14) = some 0 := by
  have hD : 0 < sampleFire._fire.frameDuration := by norm_num [sampleFire]
  have hr1 : round32 (sampleFire._fire.frameDuration * 14) = 11744051 / 4194304 := by
    rw [sampleFire_duration,
      round32_eq _ 1 11744051 (by norm_num [abs_of_pos]) (by norm_num [abs_of_pos])
        (by norm_num) (by norm_num [abs_lt])]
    norm_num
  have hr2 : round32 (11744051 / 4194304 / sampleFire._fire.frameDuration) = 14 := by
    rw [sampleFire_duration,
      round32_eq _ 3 14680064 (by norm_num [abs_of_pos]) (by norm_num [abs_of_pos])
        (by norm_num) (by norm_num [abs_lt])]
    norm_num
  rw [Fire.frame_eq _ _ (by norm_num [sampleFire]) hD (by decide) (by decide)
    (by rw [hr1, hr2]; norm_num), hr1, hr2]
  norm_num
  decide

/-! ## Per-draw flags of the main shader -/

@[simp] theorem GLContext.uniform_locations (g : GLContext) (l : Int) (v : UVal) :
    (g.uniform l v).locations = g.locations := by
  unfold GLContext.uniform; split <;> rfl

/-- A write to a location that does not interfere with `f` leaves the uniform
at `f` alone, in every program. -/
theorem GLContext.uniform_sep (g : GLContext) (l f : Int) (v : UVal) (p : Nat)
    (h : Separate l f) : (g.uniform l v).uniforms p f = g.uniforms p f := by
  unfold GLContext.uniform
  split
  · rfl
  · next hl =>
    simp only
    rw [if_neg]
    rintro ⟨-, hfl⟩
    exact hl (by rw [← hfl]; exact h hfl.symm)

/-- A write while another program is in use leaves the uniforms of `p`
alone. -/
theorem GLContext.uniform_other_program (g : GLContext) (l f : Int) (v : UVal) (p : Nat)
    (h : p ≠ g.program) : (g.uniform l v).uniforms p f = g.uniforms p f := by
  unfold GLContext.uniform
  split
  · rfl
  · simp only
    rw [if_neg]
    rintro ⟨hp, -⟩
    exact h hp

/-- Writing zero to a flag of the program in use leaves the flag off,
provided it was off when its location is `-1`. -/
theorem FlagOff_uniform_zero (g : GLContext) (f : Int)
    (h : f = -1 → FlagOff g g.program f) :
    FlagOff (g.uniform f (.int 0)) g.program f := by
  unfold GLContext.uniform
  split
  · next hf => exact h hf
  · right
    simp

theorem applyNamed_locations (sh : Shader) (vs : List (String × UVal)) :
    ∀ g : GLContext, (applyNamed sh vs g).locations = g.locations := by
  unfold applyNamed
  induction vs with
  | nil => intro g; rfl
  | cons hd tl ih => intro g; simp [List.foldl_cons, ih]

/-- The upload of named values whose locations do not interfere with `f`
leaves the uniform at `f` alone. -/
theorem applyNamed_sep (sh : Shader) (f : Int) (p : Nat) (vs : List (String × UVal)) :
    ∀ g : GLContext, (∀ nv ∈ vs, Separate (g.locations sh._id nv.1) f) →
      (applyNamed sh vs g).uniforms p f = g.uniforms p f := by
  induction vs with
  | nil => intro g _; rfl
  | cons hd tl ih =>
    intro g h
    have h1 : applyNamed sh (hd :: tl) g
        = applyNamed sh tl (g.uniform (sh.GetUniformLocationSafe hd.1 g) hd.2) := rfl
    rw [h1, ih _ (by
      intro nv hnv
      rw [GLContext.uniform_locations]
      exact h nv (List.mem_cons_of_mem _ hnv))]
    exact GLContext.uniform_sep g _ f _ p (h hd (List.mem_cons_self _ _))

@[simp] theorem GLContext.draw_uniforms (g : GLContext) (i : Nat) :
    (g.draw i).uniforms = g.uniforms := rfl

@[simp] theorem GLContext.draw_program (g : GLContext) (i : Nat) :
    (g.draw i).program = g.program := rfl

@[simp] theorem GLContext.draw_locations (g : GLContext) (i : Nat) :
    (g.draw i).locations = g.locations := rfl

@[simp] theorem GLContext.useProgram_uniforms (g : GLContext) (id : Nat) :
    (g.useProgram id).uniforms = g.uniforms := rfl

@[simp] theorem GLContext.useProgram_program (g : GLContext) (id : Nat) :
    (g.useProgram id).program = id := rfl

@[simp] theorem GLContext.useProgram_locations (g : GLContext) (id : Nat) :
    (g.useProgram id).locations = g.locations := rfl

/-- A render routine leaves alone every uniform with which none of its
writes interferes. -/
theorem Render_uniform_untouched (o : RenderObject) (i : Nat) (sh : Shader) (st : App)
    (f : Int) (p : Nat) (hw : WritesSeparate sh f)
    (ha : o._type = .Box → Separate sh._utils.useAlpha f)
    (hc : o._type = .CubeMap → Separate sh._utils.useCubeMap f)
    (hm : o._type = .Mesh → ∀ m, o._renderer._material = some m → ∀ nv ∈ m._values,
      Separate (st.gl.locations (st.shaderOf m._shader)._id nv.1) f) :
    (o.Render i sh st).gl.uniforms p f = st.gl.uniforms p f := by
  obtain ⟨h1, h2, h3, h4, h5, h6, h7, h8⟩ := hw
  unfold RenderObject.Render
  cases ht : o._type
  · have hm2 := hm ht
    simp only [RenderObject.RenderMesh, MeshRenderer.Bind]
    cases hmat : o._renderer._material with
    | none =>
      simp [App.withGL, Shader.SetVal, Shader.Bind, GLContext.uniform_sep, h1]
    | some m =>
      simp only
      split
      · simp only [App.withGL, Shader.SetVal, Shader.Bind, GLContext.draw_uniforms]
        rw [GLContext.uniform_sep _ _ _ _ _ h1, applyNamed_sep]
        · rfl
        · exact hm2 m hmat
      · simp [App.withGL, Shader.SetVal, Shader.Bind, GLContext.uniform_sep, h1]
  · have ha2 := ha ht
    simp [RenderObject.RenderBox, App.withGL, Shader.SetVal, Shader.SetInt, Shader.SetFloat,
      Shader.Bind, GLContext.uniform_sep, h1, h2, h3, ha2]
  · simp only [RenderObject.RenderSphere]
    split <;>
      simp [App.withGL, Shader.SetVal, Shader.SetInt, Shader.SetFloat,
        Shader.Bind, GLContext.uniform_sep, h1, h2, h4, h5]
  · have hc2 := hc ht
    simp [RenderObject.RenderCubeMap, App.withGL, Shader.SetVal, Shader.SetInt,
      Shader.SetFloat, Shader.Bind, GLContext.uniform_sep, h1, h2, hc2]
  · simp [RenderObject.RenderWater, Water.Render, App.withGL, Shader.SetVal, Shader.SetInt,
      Shader.SetFloat, Shader.Bind, GLContext.uniform_sep, h8]
  · simp [RenderObject.RenderFire, Fire.Render, App.withGL, Shader.SetVal, Shader.SetInt,
      Shader.SetFloat, Shader.Bind, GLContext.uniform_sep, h1, h6, h7]
  · simp [RenderObject.RenderCat, App.withGL, Shader.SetVal, Shader.SetInt,
      Shader.SetFloat, Shader.Bind, GLContext.uniform_sep, h1, h2]

theorem FlagOff_congr {g g2 : GLContext} {p : Nat} {f : Int}
    (h : g2.uniforms p f = g.uniforms p f) (hoff : FlagOff g p f) : FlagOff g2 p f := by
  unfold FlagOff at hoff ⊢
  rw [h]
  exact hoff

/-- Writing zero to a flag through the shader whose program is in use leaves
the flag off. -/
theorem FlagOff_reset (sh : Shader) (f : Int) (g : GLContext) (hp : g.program = sh._id)
    (hg : f = -1 → FlagOff g sh._id f) :
    FlagOff (g.uniform f (.int 0)) sh._id f := by
  have := FlagOff_uniform_zero g f (by rw [hp]; exact hg)
  rw [hp] at this
  exact this

/-- `RenderBox` ends with `useAlpha` off. -/
theorem RenderBox_useAlpha_off (o : RenderObject) (i : Nat) (sh : Shader) (st : App)
    (h1 : Separate sh._utils.ModelM sh._utils.useAlpha)
    (h2 : Separate sh._utils.useTexture sh._utils.useAlpha)
    (h3 : Separate sh._utils.alpha sh._utils.useAlpha)
    (hf : sh._utils.useAlpha = -1 → FlagOff st.gl sh._id sh._utils.useAlpha) :
    FlagOff (o.RenderBox i sh st).gl sh._id sh._utils.useAlpha := by
  simp only [RenderObject.RenderBox, App.withGL, Shader.SetVal, Shader.SetInt,
    Shader.SetFloat, Shader.Bind, boolToInt]
  refine FlagOff_congr (GLContext.uniform_sep _ _ _ _ _ h2) ?_
  refine FlagOff_congr (GLContext.uniform_sep _ _ _ _ _ h3) ?_
  simp only [Bool.not_true, Bool.false_eq_true, ↓reduceIte]
  refine FlagOff_reset sh _ _ (by simp) ?_
  intro hneg
  refine FlagOff_congr ?_ (hf hneg)
  simp [GLContext.uniform_sep, h1, h2]

/-- `RenderCubeMap` ends with `useCubeMap` off. -/
theorem RenderCubeMap_useCubeMap_off (o : RenderObject) (i : Nat) (sh : Shader) (st : App)
    (hf : sh._utils.useCubeMap = -1 → FlagOff st.gl sh._id sh._utils.useCubeMap) :
    FlagOff (o.RenderCubeMap i sh st).gl sh._id sh._utils.useCubeMap := by
  simp only [RenderObject.RenderCubeMap, App.withGL, Shader.SetVal, Shader.SetInt,
    Shader.Bind, boolToInt]
  show FlagOff (GLContext.uniform _ sh._utils.useCubeMap (.int _)) sh._id
    sh._utils.useCubeMap
  simp only [Bool.false_eq_true, ↓reduceIte]
  refine FlagOff_reset sh _ _ (by simp) ?_
  intro hneg
  refine FlagOff_congr ?_ (hf hneg)
  have hsep : ∀ l : Int, Separate l sh._utils.useCubeMap := fun l _ => hneg
  simp [GLContext.uniform_sep, hsep]

/-- A render routine given a shader whose program is not `p` leaves the
uniforms of `p` alone when the object is of the Water kind. -/
theorem RenderWater_other_program (o : RenderObject) (i : Nat) (sh : Shader) (st : App)
    (f : Int) (p : Nat) (hp : p ≠ sh._id) :
    (o.RenderWater i sh st).gl.uniforms p f = st.gl.uniforms p f := by
  simp only [RenderObject.RenderWater, Water.Render, App.withGL, Shader.SetFloat,
    Shader.Bind, GLContext.draw_uniforms, GLContext.useProgram_uniforms]
  rw [GLContext.uniform_other_program _ _ _ _ _ (by simpa using hp)]
  rfl

/-- A render routine does not change the location table. -/
theorem Render_locations (o : RenderObject) (i : Nat) (sh : Shader) (st : App) :
    (o.Render i sh st).gl.locations = st.gl.locations := by
  unfold RenderObject.Render
  cases o._type
  · simp only [RenderObject.RenderMesh, MeshRenderer.Bind]
    split
    · split <;>
        simp [App.withGL, Shader.SetVal, Shader.Bind, applyNamed_locations]
    · simp [App.withGL, Shader.SetVal, Shader.Bind]
  · simp [RenderObject.RenderBox, App.withGL, Shader.SetVal, Shader.SetInt, Shader.SetFloat,
      Shader.Bind]
  · simp only [RenderObject.RenderSphere]
    split <;>
      simp [App.withGL, Shader.SetVal, Shader.SetInt, Shader.SetFloat, Shader.Bind]
  · simp [RenderObject.RenderCubeMap, App.withGL, Shader.SetVal, Shader.SetInt,
      Shader.SetFloat, Shader.Bind]
  · simp [RenderObject.RenderWater, Water.Render, App.withGL, Shader.SetVal, Shader.SetInt,
      Shader.SetFloat, Shader.Bind]
  · simp [RenderObject.RenderFire, Fire.Render, App.withGL, Shader.SetVal, Shader.SetInt,
      Shader.SetFloat, Shader.Bind]
  · simp [RenderObject.RenderCat, App.withGL, Shader.SetVal, Shader.SetInt,
      Shader.SetFloat, Shader.Bind]

theorem FlagsSeparate_writes (sh : Shader) (h : sh.FlagsSeparate) :
    WritesSeparate sh sh._utils.useAlpha ∧ WritesSeparate sh sh._utils.useCubeMap ∧
    Separate sh._utils.ViewM sh._utils.useAlpha ∧
    Separate sh._utils.ViewM sh._utils.useCubeMap := by
  obtain ⟨-, -, h3⟩ := h
  have ha := h3 sh._utils.useAlpha (by simp)
  have hc := h3 sh._utils.useCubeMap (by simp)
  refine ⟨⟨ha _ (by simp), ha _ (by simp), ha _ (by simp), ha _ (by simp), ha _ (by simp),
    ha _ (by simp), ha _ (by simp), ha _ (by simp)⟩,
    ⟨hc _ (by simp), hc _ (by simp), hc _ (by simp), hc _ (by simp), hc _ (by simp),
    hc _ (by simp), hc _ (by simp), hc _ (by simp)⟩, ha _ (by simp), hc _ (by simp)⟩

theorem ApplyBoxSettings_uniform_untouched (o : RenderObject) (st : App) (f : Int) (p : Nat)
    (h1 : Separate st.shader._utils.useAlpha f) (h2 : Separate st.shader._utils.alpha f) :
    (ApplyBoxSettings o st).gl.uniforms p f = st.gl.uniforms p f := by
  unfold ApplyBoxSettings
  cases o._box._type <;>
    simp [App.withGL, Shader.SetInt, Shader.SetFloat, GLContext.uniform_sep, h1, h2]

theorem ApplyBoxSettings_locations (o : RenderObject) (st : App) :
    (ApplyBoxSettings o st).gl.locations = st.gl.locations := by
  unfold ApplyBoxSettings
  cases o._box._type <;> simp [App.withGL, Shader.SetInt, Shader.SetFloat]

/-- One iteration of the loop of `RenderSceneObjects` returns with both flags
off when it starts with both flags off. -/
theorem renderSceneStep_flagsOff (st : App) (i : Nat) (o : RenderObject)
    (hid : st.shaderWater._id ≠ st.shader._id) (hsep : st.shader.FlagsSeparate)
    (hmat : ∀ m, o._renderer._material = some m → ∀ nv ∈ m._values,
      ∀ f ∈ [st.shader._utils.useAlpha, st.shader._utils.useCubeMap],
        Separate (st.gl.locations (st.shaderOf m._shader)._id nv.1) f)
    (hoff : st.FlagsOff) :
    FlagOff (renderSceneStep st i o).gl st.shader._id st.shader._utils.useAlpha ∧
    FlagOff (renderSceneStep st i o).gl st.shader._id st.shader._utils.useCubeMap := by
  obtain ⟨hwa, hwc, hva, hvc⟩ := FlagsSeparate_writes st.shader hsep
  obtain ⟨hac, hca, -⟩ := hsep
  obtain ⟨hoffa, hoffc⟩ := hoff
  unfold renderSceneStep
  by_cases hb : o._type = .Box
  · simp only [hb, ↓reduceIte]
    have hpre : ∀ f : Int, Separate st.shader._utils.ViewM f →
        (f = st.shader._utils.useAlpha → f = -1) → Separate st.shader._utils.alpha f →
        (ApplyBoxSettings o (st.withGL (fun g =>
          Shader.SetVal st.shader._utils.ViewM .viewMatrix (Shader.Bind st.shader g)))).gl.uniforms
            st.shader._id f = st.gl.uniforms st.shader._id f := by
      intro f hv ha hal
      refine Eq.trans (ApplyBoxSettings_uniform_untouched o _ f _
        (fun h => ha h.symm) hal) ?_
      simp [App.withGL, Shader.SetVal, Shader.Bind, GLContext.uniform_sep, hv]
    have hsh : (ApplyBoxSettings o (st.withGL (fun g =>
        Shader.SetVal st.shader._utils.ViewM .viewMatrix (Shader.Bind st.shader g)))).shader
          = st.shader := (ApplyBoxSettings_sameControl o _).1.1
    have hrb : ∀ s : App, o.Render i s.shader s = o.RenderBox i s.shader s := by
      intro s; unfold RenderObject.Render; rw [hb]
    constructor
    · rw [hrb, hsh]
      refine RenderBox_useAlpha_off o i st.shader _ hwa.1 hwa.2.1 hwa.2.2.1 ?_
      intro hneg
      refine FlagOff_congr ?_ hoffa
      exact hpre _ hva (fun _ => hneg) hwa.2.2.1
    · rw [hsh]
      refine FlagOff_congr ?_ hoffc
      rw [Render_uniform_untouched o i st.shader _ _ _ hwc (fun _ => hac)
        (fun h => by rw [hb] at h; cases h) (fun h => by rw [hb] at h; cases h)]
      exact hpre _ hvc (fun h => hac h.symm) hwc.2.2.1
  · by_cases hc : o._type = .CubeMap
    · simp only [hc, ↓reduceIte, reduceCtorEq]
      have hrc : ∀ s : App, o.Render i s.shader s = o.RenderCubeMap i s.shader s := by
        intro s; unfold RenderObject.Render; rw [hc]
      constructor
      · refine FlagOff_congr ?_ hoffa
        show (o.Render i st.shader _).gl.uniforms _ _ = _
        rw [Render_uniform_untouched o i st.shader _ _ _ hwa
          (fun h => by rw [hc] at h; cases h) (fun _ => hca)
          (fun h => by rw [hc] at h; cases h)]
        simp [App.withGL, Shader.SetVal, Shader.Bind, GLContext.uniform_sep, hva]
      · show FlagOff (o.Render i st.shader _).gl _ _
        have := hrc (st.withGL (fun g =>
          Shader.SetVal st.shader._utils.ViewM .viewRotation (Shader.Bind st.shader g)))
        rw [show (st.withGL (fun g => Shader.SetVal st.shader._utils.ViewM .viewRotation
          (Shader.Bind st.shader g))).shader = st.shader from rfl] at this
        rw [this]
        refine RenderCubeMap_useCubeMap_off o i st.shader _ ?_
        intro hneg
        refine FlagOff_congr ?_ hoffc
        simp [App.withGL, Shader.SetVal, Shader.Bind, GLContext.uniform_sep, hvc]
    · by_cases hw : o._type = .Water
      · simp only [hw, ↓reduceIte, reduceCtorEq]
        have hsh : (o.Render i st.shaderWater st).shader = st.shader :=
          (Render_sameControl o i _ st).1.1
        have hrw : o.Render i st.shaderWater st = o.RenderWater i st.shaderWater st := by
          unfold RenderObject.Render; rw [hw]
        have huntouched : ∀ f : Int, WritesSeparate st.shader f →
            (o.Render i (o.Render i st.shaderWater st).shader
              (o.Render i st.shaderWater st)).gl.uniforms st.shader._id f
              = st.gl.uniforms st.shader._id f := by
          intro f hwf
          rw [hsh, Render_uniform_untouched o i st.shader _ _ _ hwf
            (fun h => by rw [hw] at h; cases h) (fun h => by rw [hw] at h; cases h)
            (fun h => by rw [hw] at h; cases h), hrw]
          exact RenderWater_other_program o i _ st f _ (Ne.symm hid)
        exact ⟨FlagOff_congr (huntouched _ hwa) hoffa, FlagOff_congr (huntouched _ hwc) hoffc⟩
      · simp only [hb, hc, hw, ↓reduceIte]
        have huntouched : ∀ f ∈ [st.shader._utils.useAlpha, st.shader._utils.useCubeMap],
            WritesSeparate st.shader f →
            (o.Render i st.shader st).gl.uniforms st.shader._id f
              = st.gl.uniforms st.shader._id f := by
          intro f hf hwf
          exact Render_uniform_untouched o i st.shader st f _ hwf
            (fun h => absurd h hb) (fun h => absurd h hc)
            (fun _ m hm nv hnv => hmat m hm nv hnv f hf)
        exact ⟨FlagOff_congr (huntouched _ (by simp) hwa) hoffa,
          FlagOff_congr (huntouched _ (by simp) hwc) hoffc⟩

theorem renderSceneStep_locations (st : App) (i : Nat) (o : RenderObject) :
    (renderSceneStep st i o).gl.locations = st.gl.locations := by
  unfold renderSceneStep
  rw [Render_locations]
  split
  · rw [ApplyBoxSettings_locations]
    simp [App.withGL, Shader.SetVal, Shader.Bind]
  · split
    · simp [App.withGL, Shader.SetVal, Shader.Bind]
    · split
      · exact Render_locations o i _ st
      · rfl

/-- The loop over a concatenation is the loop over the first part followed by
the loop over the second part. -/
theorem RenderSceneObjectsFrom_append (pre suf : List RenderObject) :
    ∀ (i : Nat) (st : App),
      RenderSceneObjectsFrom i (pre ++ suf) st
        = RenderSceneObjectsFrom (i + pre.length) suf (RenderSceneObjectsFrom i pre st) := by
  induction pre with
  | nil => intro i st; rfl
  | cons o os ih =>
    intro i st
    have h := ih (i + 1) (renderSceneStep st i o)
    have hi : i + (o :: os).length = i + 1 + os.length := by
      simp only [List.length_cons]; omega
    rw [hi]
    exact h

/-- The loop of `RenderSceneObjects` over any list of objects returns with
both flags off when it starts with both flags off. -/
theorem RenderSceneObjectsFrom_flagsOff (os : List RenderObject) :
    ∀ (i : Nat) (st : App), st.shaderWater._id ≠ st.shader._id → st.shader.FlagsSeparate →
      (∀ o ∈ os, ∀ m, o._renderer._material = some m → ∀ nv ∈ m._values,
        ∀ f ∈ [st.shader._utils.useAlpha, st.shader._utils.useCubeMap],
          Separate (st.gl.locations (st.shaderOf m._shader)._id nv.1) f) →
      st.FlagsOff → (RenderSceneObjectsFrom i os st).FlagsOff := by
  induction os with
  | nil => intro i st _ _ _ hoff; exact hoff
  | cons o os ih =>
    intro i st hid hsep hmat hoff
    have hstep := renderSceneStep_flagsOff st i o hid hsep
      (hmat o (List.mem_cons_self _ _)) hoff
    have hsc := renderSceneStep_sameControl st i o
    have hloc := renderSceneStep_locations st i o
    have hshaderOf : ∀ r, (renderSceneStep st i o).shaderOf r = st.shaderOf r := by
      intro r
      cases r
      · exact hsc.1.1
      · exact hsc.1.2.1
      · exact hsc.1.2.2.1
    simp only [RenderSceneObjectsFrom]
    refine ih (i + 1) (renderSceneStep st i o) ?_ ?_ ?_ ?_
    · rw [hsc.1.1, hsc.1.2.1]; exact hid
    · rw [hsc.1.1]; exact hsep
    · intro o2 ho2 m hm nv hnv f hf
      rw [hloc, hshaderOf]
      rw [hsc.1.1] at hf
      exact hmat o2 (List.mem_cons_of_mem _ ho2) m hm nv hnv f hf
    · unfold App.FlagsOff
      rw [hsc.1.1]
      exact hstep

/-- C9. Let the draw phase start with the flags `useAlpha` and `useCubeMap`
of the main shader off.  For every collection of RenderObjects and every k,
when the dispatch of the first k objects by `RenderSceneObjects` has returned
both flags are off again: no flag set for an object (by `ApplyBoxSettings` or
`RenderCubeMap`) is still on when the next object is dispatched.
Assumed of the graphics library: the water and the main program are
different, the locations of the two flags do not collide with the other
locations written, and no mesh material uploads to them. -/
theorem C9_flags_off_between_draws (st : App)
    (hid : st.shaderWater._id ≠ st.shader._id) (hsep : st.shader.FlagsSeparate)
    (hmat : st.MaterialsSeparate) (hoff : st.FlagsOff) (k : Nat) :
    (RenderSceneObjectsFrom 0 (st.RenderObjects.take k) st).FlagsOff ∧
    RenderSceneObjects st
      = RenderSceneObjectsFrom (0 + (st.RenderObjects.take k).length)
          (st.RenderObjects.drop k)
          (RenderSceneObjectsFrom 0 (st.RenderObjects.take k) st) := by
  constructor
  · refine RenderSceneObjectsFrom_flagsOff _ 0 st hid hsep ?_ hoff
    intro o ho
    exact hmat o (List.mem_of_mem_take ho)
  · rw [← RenderSceneObjectsFrom_append, List.take_append_drop]
    rfl

/-- C9, instance: an alpha box, the cube map, the water, a mesh and the fire.
The flags are off after the first two objects (and after all five), although
the draw of the alpha box was issued with `useAlpha` on (location 20) and the
draw of the cube map with `useCubeMap` on (location 6). -/
theorem C9_flags_off_between_draws_witness :
    (sampleApp [sampleBox .BoxBigA, sampleCubeMap, sampleWater, sampleMesh, sampleFire]
        (-1) (-1)).shaderWater._id
      ≠ (sampleApp [sampleBox .BoxBigA, sampleCubeMap, sampleWater, sampleMesh, sampleFire]
        (-1) (-1)).shader._id ∧
    sampleShader.FlagsSeparate ∧
    (sampleApp [sampleBox .BoxBigA, sampleCubeMap, sampleWater, sampleMesh, sampleFire]
        (-1) (-1)).MaterialsSeparate ∧
    (sampleApp [sampleBox .BoxBigA, sampleCubeMap, sampleWater, sampleMesh, sampleFire]
        (-1) (-1)).FlagsOff ∧
    (RenderSceneObjectsFrom 0
        ([sampleBox .BoxBigA, sampleCubeMap, sampleWater, sampleMesh, sampleFire].take 2)
        (sampleApp [sampleBox .BoxBigA, sampleCubeMap, sampleWater, sampleMesh, sampleFire]
          (-1) (-1))).FlagsOff ∧
    (RenderSceneObjectsFrom 0 [sampleBox .BoxBigA, sampleCubeMap]
        (sampleApp [sampleBox .BoxBigA, sampleCubeMap, sampleWater, sampleMesh, sampleFire]
          (-1) (-1))).gl.draws.map (fun d => (d.uniforms 20, d.uniforms 6))
      = [(some (.int 1), none), (some (.int 0), some (.int 1))] := by
  have hid : (sampleApp [sampleBox .BoxBigA, sampleCubeMap, sampleWater, sampleMesh,
      sampleFire] (-1) (-1)).shaderWater._id
      ≠ (sampleApp [sampleBox .BoxBigA, sampleCubeMap, sampleWater, sampleMesh, sampleFire]
        (-1) (-1)).shader._id := by decide
  have hsep : sampleShader.FlagsSeparate := by
    unfold Shader.FlagsSeparate
    decide
  have hmat : (sampleApp [sampleBox .BoxBigA, sampleCubeMap, sampleWater, sampleMesh,
      sampleFire] (-1) (-1)).MaterialsSeparate := by
    intro o ho m hm
    simp only [sampleApp, List.mem_cons, List.mem_singleton, List.mem_nil_iff, or_false] at ho
    rcases ho with h | h | h | h | h <;> rw [h] at hm <;> cases hm
  have hoff : (sampleApp [sampleBox .BoxBigA, sampleCubeMap, sampleWater, sampleMesh,
      sampleFire] (-1) (-1)).FlagsOff := ⟨Or.inl rfl, Or.inl rfl⟩
  exact ⟨hid, hsep, hmat, hoff,
    (C9_flags_off_between_draws _ hid hsep hmat hoff 2).1, by decide⟩

/-! ## Water in the draw phase -/

/-- The draws of the object at position `i` in a scene log. -/
theorem sceneLogFrom_filter (st : App) (i : Nat) (os : List RenderObject) :
    ∀ j, (sceneLogFrom st j os).filter (fun d => d.1 = i + j)
      = match os[i]? with
        | some o => (scenePrograms st o).map (fun p => (i + j, p))
        | none => [] := by
  induction os generalizing i with
  | nil => intro j; simp [sceneLogFrom]
  | cons o os ih =>
    intro j
    simp only [sceneLogFrom, List.filter_append]
    cases i with
    | zero =>
      have h1 : ((scenePrograms st o).map (fun p => (j, p))).filter
          (fun d => decide (d.1 = 0 + j)) = (scenePrograms st o).map (fun p => (j, p)) := by
        rw [List.filter_eq_self]
        intro d hd
        obtain ⟨p, -, rfl⟩ := List.mem_map.mp hd
        simp
      have h2 : (sceneLogFrom st (j + 1) os).filter (fun d => decide (d.1 = 0 + j)) = [] := by
        rw [List.filter_eq_nil_iff]
        intro d hd
        have hge : ∀ (os : List RenderObject) (k : Nat) (d : Nat × Nat),
            d ∈ sceneLogFrom st k os → k ≤ d.1 := by
          intro os
          induction os with
          | nil => intro k d h; simp [sceneLogFrom] at h
          | cons o os ih2 =>
            intro k d h
            simp only [sceneLogFrom, List.mem_append, List.mem_map] at h
            rcases h with ⟨p, -, rfl⟩ | h
            · exact le_refl _
            · exact le_trans (Nat.le_succ k) (ih2 _ _ h)
        have := hge os (j + 1) d hd
        simp only [decide_eq_true_eq]
        omega
      rw [h1, h2]
      simp
    | succ i =>
      have h1 : ((scenePrograms st o).map (fun p => (j, p))).filter
          (fun d => decide (d.1 = i + 1 + j)) = [] := by
        rw [List.filter_eq_nil_iff]
        intro d hd
        obtain ⟨p, -, rfl⟩ := List.mem_map.mp hd
        simp only [decide_eq_true_eq]
        omega
      have h2 := ih i (j + 1)
      have hij : i + (j + 1) = i + 1 + j := by omega
      rw [hij] at h2
      rw [h1, h2]
      simp

/-- What the draw phase does with a Water object, for every collection: the
object at position `i` is drawn twice, first with the water program and then
with the main program. -/
theorem RenderSceneObjects_water_draws (st : App) (i : Nat) (o : RenderObject)
    (hclear : st.drawLog = []) (ho : st.RenderObjects[i]? = some o)
    (hw : o._type = .Water) :
    (RenderSceneObjects st).drawLog.filter (fun d => d.1 = i)
      = [(i, st.shaderWater._id), (i, st.shader._id)] := by
  unfold RenderSceneObjects
  rw [RenderSceneObjectsFrom_drawLog, hclear, List.nil_append]
  have h := sceneLogFrom_filter st i st.RenderObjects 0
  simp only [Nat.add_zero] at h
  rw [h, ho]
  simp [scenePrograms, hw]

/-- C10, evaluated: with a mesh at position 0 and the water object at position
1 the draw phase issues three draws: the mesh with the main program 1, the
water with the water program 2 and the water once more with the main
program 1. -/
theorem C10_water_drawn_with_main_shader :
    (RenderSceneObjects (sampleApp [sampleMesh, sampleWater] (-1) (-1))).drawLog
      = [(0, 1), (1, 2), (1, 1)] ∧
    DrawnWith (RenderSceneObjects (sampleApp [sampleMesh, sampleWater] (-1) (-1))) 1
      (sampleApp [sampleMesh, sampleWater] (-1) (-1)).shader._id := by
  decide

/-! ## Stencil references of the picking pass -/

@[simp] theorem GLContext.uniform_stencilRef (g : GLContext) (l : Int) (v : UVal) :
    (g.uniform l v).stencilRef = g.stencilRef := by
  unfold GLContext.uniform; split <;> rfl

@[simp] theorem applyNamed_stencilRef (sh : Shader) (vs : List (String × UVal))
    (g : GLContext) : (applyNamed sh vs g).stencilRef = g.stencilRef := by
  unfold applyNamed
  induction vs generalizing g with
  | nil => rfl
  | cons hd tl ih => simp [List.foldl_cons, ih]

/-- A render routine leaves the stencil reference as it found it. -/
theorem Render_stencilRef (o : RenderObject) (i : Nat) (sh : Shader) (st : App) :
    (o.Render i sh st).gl.stencilRef = st.gl.stencilRef := by
  unfold RenderObject.Render
  cases o._type
  · simp only [RenderObject.RenderMesh, MeshRenderer.Bind]
    split
    · split <;>
        simp [App.withGL, GLContext.draw, Shader.SetVal, Shader.Bind,
          GLContext.useProgram]
    · simp [App.withGL, GLContext.draw, Shader.SetVal, Shader.Bind,
          GLContext.useProgram]
  · simp [RenderObject.RenderBox, App.withGL, GLContext.draw, Shader.SetVal,
      Shader.SetInt, Shader.SetFloat, Shader.Bind, GLContext.useProgram]
  · simp only [RenderObject.RenderSphere]
    split <;>
      simp [App.withGL, GLContext.draw, Shader.SetVal,
        Shader.SetInt, Shader.SetFloat, Shader.Bind, GLContext.useProgram]
  · simp [RenderObject.RenderCubeMap, App.withGL, GLContext.draw, Shader.SetVal,
      Shader.SetInt, Shader.SetFloat, Shader.Bind, GLContext.useProgram]
  · simp [RenderObject.RenderWater, Water.Render, App.withGL, GLContext.draw,
      Shader.SetVal, Shader.SetInt, Shader.SetFloat, Shader.Bind, GLContext.useProgram]
  · simp [RenderObject.RenderFire, Fire.Render, App.withGL, GLContext.draw,
      Shader.SetVal, Shader.SetInt, Shader.SetFloat, Shader.Bind, GLContext.useProgram]
  · simp [RenderObject.RenderCat, App.withGL, GLContext.draw, Shader.SetVal,
      Shader.SetInt, Shader.SetFloat, Shader.Bind, GLContext.useProgram]

/-- A render routine issues exactly one draw call, for its object and under
the stencil reference in force. -/
theorem Render_stencilLog (o : RenderObject) (i : Nat) (sh : Shader) (st : App) :
    (o.Render i sh st).stencilLog = st.stencilLog ++ [(i, st.gl.stencilRef)] := by
  unfold RenderObject.Render
  cases o._type
  · simp only [RenderObject.RenderMesh, MeshRenderer.Bind]
    split
    · split <;>
        simp [App.stencilLog, App.withGL, GLContext.draw, Shader.SetVal, Shader.Bind,
          GLContext.useProgram]
    · simp [App.stencilLog, App.withGL, GLContext.draw, Shader.SetVal, Shader.Bind,
          GLContext.useProgram]
  · simp [RenderObject.RenderBox, App.stencilLog, App.withGL, GLContext.draw, Shader.SetVal,
      Shader.SetInt, Shader.SetFloat, Shader.Bind, GLContext.useProgram]
  · simp only [RenderObject.RenderSphere]
    split <;>
      simp [App.stencilLog, App.withGL, GLContext.draw, Shader.SetVal,
        Shader.SetInt, Shader.SetFloat, Shader.Bind, GLContext.useProgram]
  · simp [RenderObject.RenderCubeMap, App.stencilLog, App.withGL, GLContext.draw,
      Shader.SetVal, Shader.SetInt, Shader.SetFloat, Shader.Bind, GLContext.useProgram]
  · simp [RenderObject.RenderWater, Water.Render, App.stencilLog, App.withGL, GLContext.draw,
      Shader.SetVal, Shader.SetInt, Shader.SetFloat, Shader.Bind, GLContext.useProgram]
  · simp [RenderObject.RenderFire, Fire.Render, App.stencilLog, App.withGL, GLContext.draw,
      Shader.SetVal, Shader.SetInt, Shader.SetFloat, Shader.Bind, GLContext.useProgram]
  · simp [RenderObject.RenderCat, App.stencilLog, App.withGL, GLContext.draw, Shader.SetVal,
      Shader.SetInt, Shader.SetFloat, Shader.Bind, GLContext.useProgram]

/-- The stencil pass draws the objects in order, the object at position `j`
under the reference `j + 1` clamped to 255. -/
theorem stencilPassFrom_stencilLog (os : List RenderObject) (i : Nat) (st : App) :
    (stencilPassFrom i os st).stencilLog =
      st.stencilLog ++ (List.range os.length).map (fun k => (i + k, min (i + k + 1) 255)) := by
  induction os generalizing i st with
  | nil => simp [stencilPassFrom]
  | cons o os ih =>
    rw [stencilPassFrom, ih, Render_stencilLog]
    simp only [List.length_cons, List.range_succ_eq_map, List.map_cons, List.map_map,
      List.append_assoc, List.singleton_append, Nat.add_zero]
    have hr : (st.withGL (fun g => g.stencilFunc (i + 1))).gl.stencilRef = min (i + 1) 255 := rfl
    have hl : (st.withGL (fun g => g.stencilFunc (i + 1))).stencilLog = st.stencilLog := rfl
    rw [hr, hl]
    congr 2
    apply List.map_congr_left
    intro k _
    simp only [Function.comp_apply]
    rw [show i + 1 + k = i + (k + 1) by omega]

/-- The draws of the picking pass of `DoPicking`, with their stencil
references. -/
theorem pickingPass_stencilLog (st : App) :
    (pickingPass st).stencilLog =
      (List.range st.RenderObjects.length).map (fun k => (k, min (k + 1) 255)) := by
  unfold pickingPass
  have h := stencilPassFrom_stencilLog st.RenderObjects 0
    (st.withGL (fun g =>
      let g := { g with depthTest := true, stencilTest := true, stencilMask := 255 }
      let g := g.clear
      { g with colorMask := false, depthMask := true }))
  simp only [App.stencilLog, App.withGL, GLContext.clear, List.map_nil, List.nil_append,
    Nat.zero_add] at h ⊢
  exact h

/-! ## C11: stencil references of the picking pass -/

/-- C11 (as stated, refuted): in a collection of 256 objects the stencil
pass draws the objects at positions 254 and 255 under the same stored
reference 255, and the object at position 255 is not drawn under 256. -/
theorem C11_counterexample :
    (254, 255) ∈ (pickingPass sampleCrowd).stencilLog ∧
    (255, 255) ∈ (pickingPass sampleCrowd).stencilLog ∧
    (255, 256) ∉ (pickingPass sampleCrowd).stencilLog := by
  rw [pickingPass_stencilLog]
  have hl : sampleCrowd.RenderObjects.length = 256 := by
    simp only [sampleCrowd, sampleApp, List.length_replicate]
  rw [hl]
  refine ⟨List.mem_map.2 ⟨254, by simp, rfl⟩, List.mem_map.2 ⟨255, by simp, rfl⟩, ?_⟩
  intro h
  obtain ⟨k, _, hk⟩ := List.mem_map.1 h
  have h2 : min (k + 1) 255 = 256 := (Prod.mk.inj hk).2
  omega

/-- C11 (amended): for a collection of at most 255 objects the stencil pass
of `DoPicking` draws the object at position `i` under stencil reference
`i + 1`, each object once and in order, and no two objects share a stored
reference. -/
theorem C11_stencil_reference_unique (st : App) (h : st.RenderObjects.length ≤ 255) :
    (pickingPass st).stencilLog =
      (List.range st.RenderObjects.length).map (fun i => (i, i + 1)) ∧
    ∀ i j r, (i, r) ∈ (pickingPass st).stencilLog →
      (j, r) ∈ (pickingPass st).stencilLog → i = j := by
  have hlog : (pickingPass st).stencilLog =
      (List.range st.RenderObjects.length).map (fun i => (i, i + 1)) := by
    rw [pickingPass_stencilLog]
    apply List.map_congr_left
    intro k hk
    have : k < st.RenderObjects.length := List.mem_range.1 hk
    rw [Nat.min_eq_left (by omega)]
  refine ⟨hlog, ?_⟩
  intro i j r hi hj
  rw [hlog] at hi hj
  obtain ⟨a, _, ha⟩ := List.mem_map.1 hi
  obtain ⟨b, _, hb⟩ := List.mem_map.1 hj
  have ha1 := (Prod.mk.inj ha).1
  have ha2 := (Prod.mk.inj ha).2
  have hb1 := (Prod.mk.inj hb).1
  have hb2 := (Prod.mk.inj hb).2
  omega

/-- C11 witness: a collection of a box, a mesh and the water object. -/
theorem C11_stencil_reference_unique_witness :
    sampleTrio.RenderObjects.length ≤ 255 ∧
    ((pickingPass sampleTrio).stencilLog =
      (List.range sampleTrio.RenderObjects.length).map (fun i => (i, i + 1)) ∧
    ∀ i j r, (i, r) ∈ (pickingPass sampleTrio).stencilLog →
      (j, r) ∈ (pickingPass sampleTrio).stencilLog → i = j) :=
  ⟨by decide, C11_stencil_reference_unique sampleTrio (by decide)⟩

/-! ## C15: the highlight persists -/

/-- A click that reads stencil value 0 leaves the scene and the highlighted
index alone and leaves no pending pick. -/
theorem DoPicking_miss (st : App) :
    ∃ s, DoPicking 0 st = some s ∧ s.SameScene st ∧ s.stencilIdx = -1 ∧
      s.stencilIdxLast = st.stencilIdxLast := by
  have hp := pickingPass_sameControl st
  refine ⟨{ pickingPass st with stencilIdx := -1 }, ?_, hp.1, rfl, hp.2.2⟩
  unfold DoPicking
  exact resolvePick_zero 0 _ rfl

/-- With an object highlighted and no pick pending, a run of frames and
missed clicks returns and changes neither the scene nor the two indices. -/
theorem runEvents_sameControl (events : List FrameEvent) (st : App) (o : RenderObject)
    (h1 : st.stencilIdx = -1) (h2 : 0 ≤ st.stencilIdxLast)
    (ho : st.objectAt st.stencilIdxLast = some o) :
    ∃ s, runEvents events st = some s ∧ s.SameControl st := by
  induction events generalizing st with
  | nil => exact ⟨st, rfl, App.SameControl.controlRefl st⟩
  | cons e es ih =>
    have step : ∃ s, e.apply st = some s ∧ s.SameControl st := by
      cases e with
      | render =>
        obtain ⟨s, hs, hc, _⟩ := App.Render_keep st o h1 h2 ho
        exact ⟨s, hs, hc⟩
      | pickMiss =>
        obtain ⟨s, hs, hc, hi, hl⟩ := DoPicking_miss st
        exact ⟨s, hs, hc, by rw [hi, h1], hl⟩
    obtain ⟨s, hs, hc⟩ := step
    obtain ⟨s2, hs2, hc2⟩ := ih s (by rw [hc.2.1]; exact h1) (by rw [hc.2.2]; exact h2)
      (by rw [App.objectAt_congr hc.1, hc.2.2]; exact ho)
    refine ⟨s2, ?_, hc2.controlTrans hc⟩
    simp only [runEvents, hs, Option.some_bind, hs2]

/-- C15: with the object at position `A` highlighted and no pick pending,
after any run of rendered frames and clicks that read stencil value 0 the
highlighted index is still `A` and no pick is pending, and a further
`App::Render` returns, keeps the highlighted index `A` and draws the object
at `A` with the highlight shader. -/
theorem C15_highlight_persists (st : App) (A : Nat) (o : RenderObject)
    (hA : st.RenderObjects[A]? = some o) (hidx : st.stencilIdx = -1)
    (hlast : st.stencilIdxLast = A) (events : List FrameEvent) :
    ∃ s, runEvents events st = some s ∧ s.stencilIdx = -1 ∧ s.stencilIdxLast = A ∧
      ∃ s2, s.Render = some s2 ∧ s2.stencilIdx = -1 ∧ s2.stencilIdxLast = A ∧
        DrawnWith s2 A st.shaderWhite._id := by
  have h2 : 0 ≤ st.stencilIdxLast := by rw [hlast]; exact Int.ofNat_nonneg A
  have ho : st.objectAt st.stencilIdxLast = some o := by
    rw [hlast, App.objectAt_natCast]; exact hA
  obtain ⟨s, hs, hc⟩ := runEvents_sameControl events st o hidx h2 ho
  have hsl : s.stencilIdxLast = A := by rw [hc.2.2]; exact hlast
  have hsi : s.stencilIdx = -1 := by rw [hc.2.1]; exact hidx
  obtain ⟨s2, hr, hc2, hd⟩ := App.Render_keep s o hsi (by rw [hc.2.2]; exact h2)
    (by rw [App.objectAt_congr hc.1, hc.2.2]; exact ho)
  refine ⟨s, hs, hsi, hsl, s2, hr, by rw [hc2.2.1]; exact hsi, by rw [hc2.2.2]; exact hsl, ?_⟩
  unfold DrawnWith
  rw [hd, hsl, hc.1.2.2.1]
  simp

/-- C15 witness: the mesh at position 1 highlighted; two frames, a missed
click and another frame. -/
theorem C15_highlight_persists_witness :
    ∃ s, runEvents [.render, .render, .pickMiss, .render]
        (sampleApp [sampleBox .BoxSmlA, sampleMesh, sampleWater] (-1) 1) = some s ∧
      s.stencilIdx = -1 ∧ s.stencilIdxLast = (1 : Nat) ∧
      ∃ s2, s.Render = some s2 ∧ s2.stencilIdx = -1 ∧ s2.stencilIdxLast = (1 : Nat) ∧
        DrawnWith s2 1
          (sampleApp [sampleBox .BoxSmlA, sampleMesh, sampleWater] (-1) 1).shaderWhite._id :=
  C15_highlight_persists (sampleApp [sampleBox .BoxSmlA, sampleMesh, sampleWater] (-1) 1)
    1 sampleMesh rfl rfl rfl [.render, .render, .pickMiss, .render]

/-! ## C16: a pick flips one flag -/

/-- C16: a pick that reads stencil value `R >= 1` with an object `o` of a
toggle kind at position `R - 1` returns, leaves `stencilIdx` at -1 and the
highlighted index as it was, and flips exactly the flag of the kind of `o`:
for a Box the `animFlag` of the object at position `R - 1`, every other
object of the collection and the three static flags `Cat::isMoving`,
`Fire::pointFlag`, `Icosphere::useToSphere` being unchanged; for a Cat, a
Fire or a Sphere the static flag of that kind, the collection (with every
`animFlag`) and the other two static flags being unchanged. -/
theorem C16_pick_flips_one_flag (st : App) (R : Fin 256) (o : RenderObject)
    (hR : 1 ≤ R.val) (ho : st.RenderObjects[R.val - 1]? = some o)
    (hk : o._type.isToggle = true) :
    ∃ s, DoPicking R st = some s ∧ s.stencilIdx = -1 ∧
      s.stencilIdxLast = st.stencilIdxLast ∧
      (o._type = .Box →
        s.RenderObjects[R.val - 1]? =
          some { o with _box := { o._box with animFlag := !o._box.animFlag } } ∧
        (∀ j, j ≠ R.val - 1 → s.RenderObjects[j]? = st.RenderObjects[j]?) ∧
        s.globalFlags = st.globalFlags) ∧
      (o._type = .CatType →
        s.globalFlags = (!st.Cat_isMoving, st.Fire_pointFlag, st.Icosphere_useToSphere) ∧
        s.RenderObjects = st.RenderObjects) ∧
      (o._type = .Fire →
        s.globalFlags = (st.Cat_isMoving, !st.Fire_pointFlag, st.Icosphere_useToSphere) ∧
        s.RenderObjects = st.RenderObjects) ∧
      (o._type = .Sphere →
        s.globalFlags = (st.Cat_isMoving, st.Fire_pointFlag, !st.Icosphere_useToSphere) ∧
        s.RenderObjects = st.RenderObjects) := by
  have hp := pickingPass_sameControl st
  obtain ⟨⟨-, -, -, hobjs, hcat, hfire, hsph⟩, -, hlast⟩ := hp
  have ho2 : (pickingPass st).RenderObjects[R.val - 1]? = some o := by rw [hobjs]; exact ho
  have hlt : R.val - 1 < st.RenderObjects.length := by
    rcases Nat.lt_or_ge (R.val - 1) st.RenderObjects.length with h | h
    · exact h
    · rw [List.getElem?_eq_none h] at ho; exact absurd ho (by simp)
  unfold DoPicking
  rw [resolvePick_hit R _ o hR ho2]
  cases ht : o._type <;> simp [RenderObjectType.isToggle, ht] at hk ⊢
  · refine ⟨hlast, ?_, ?_, ?_⟩
    · rw [hobjs, List.getElem?_set_self hlt]
    · intro j hj
      rw [hobjs, List.getElem?_set_ne (Ne.symm hj)]
    · simp [App.globalFlags, hcat, hfire, hsph]
  · exact ⟨hlast, by simp [App.globalFlags, hcat, hfire, hsph], hobjs⟩
  · exact ⟨hlast, by simp [App.globalFlags, hcat, hfire, hsph], hobjs⟩
  · exact ⟨hlast, by simp [App.globalFlags, hcat, hfire, hsph], hobjs⟩

/-- C16 witness: two boxes and a mesh; the stencil value 2 flips the flag of
the box at position 1 and leaves the box at position 0 alone. -/
theorem C16_pick_flips_one_flag_witness :
    ∃ s, DoPicking 2 (sampleApp [sampleBox .BoxBigT, sampleBox .BoxSmlA, sampleMesh] (-1) 2)
        = some s ∧
      s.stencilIdx = -1 ∧ s.stencilIdxLast = 2 ∧
      s.RenderObjects[1]? =
        some { sampleBox .BoxSmlA with _box := { _type := .BoxSmlA, animFlag := true } } ∧
      s.RenderObjects[0]? = some (sampleBox .BoxBigT) ∧
      s.globalFlags = (false, false, false) := by
  obtain ⟨s, hs, hi, hl, hbox, -⟩ :=
    C16_pick_flips_one_flag (sampleApp [sampleBox .BoxBigT, sampleBox .BoxSmlA, sampleMesh] (-1) 2)
      2 (sampleBox .BoxSmlA) (by decide) rfl rfl
  obtain ⟨h1, h2, h3⟩ := hbox rfl
  exact ⟨s, hs, hi, hl, h1, (h2 0 (by decide)).trans rfl, h3.trans rfl⟩

/-! ## Light: the uniform map -/

theorem mem_keys_mapAssign (m : List (String × LightValue)) (name : String) (v : LightValue)
    (k : String) :
    k ∈ (mapAssign m name v).map (fun e => e.1) ↔ k ∈ m.map (fun e => e.1) ∨ k = name := by
  induction m with
  | nil => simp [mapAssign]
  | cons hd tl ih =>
    obtain ⟨k0, w⟩ := hd
    unfold mapAssign
    split
    · rename_i h
      subst h
      simp only [List.map_cons, List.mem_cons]
      tauto
    · simp only [List.map_cons, List.mem_cons, ih]
      tauto

theorem Light.SetDataInt_names (l : Light) (z : Int) (k : String) :
    k ∈ (l.SetDataInt z).uploadedNames ↔
      k ∈ l.uploadedNames ∨ k ∈ Light.namesFor l._type (toString z) := by
  unfold Light.SetDataInt Light.namesFor Light.uploadedNames Light.ApplyData
  by_cases h : l._type = .Point ∨ l._type = .Spot
  · simp only [Light.SetInt, Light.SetVec3, Light.SetFloat, h, ↓reduceIte,
      mem_keys_mapAssign, List.mem_append, List.mem_cons, List.mem_singleton,
      List.not_mem_nil, or_false, or_assoc]
  · simp only [Light.SetInt, Light.SetVec3, Light.SetFloat, h, ↓reduceIte,
      mem_keys_mapAssign, List.mem_append, List.mem_cons, List.mem_singleton,
      List.not_mem_nil, or_false, or_assoc]

theorem Light.SetDataInt_type (l : Light) (z : Int) : (l.SetDataInt z)._type = l._type := by
  unfold Light.SetDataInt
  by_cases h : l._type = .Point ∨ l._type = .Spot
  · simp only [Light.SetInt, Light.SetVec3, Light.SetFloat, h, ↓reduceIte]
  · simp only [Light.SetInt, Light.SetVec3, Light.SetFloat, h, ↓reduceIte]

/-- The names that `ApplyData` uploads after `SetData`: those of the map
before the call and those generated for the stored index. -/
theorem Light.SetData_names (l : Light) (idx : Nat) (k : String) :
    k ∈ (l.SetData idx).uploadedNames ↔
      k ∈ l.uploadedNames ∨ k ∈ Light.namesFor l._type (toString (sizeToInt idx)) :=
  Light.SetDataInt_names l (sizeToInt idx) k

theorem Light.SetData_type (l : Light) (idx : Nat) : (l.SetData idx)._type = l._type :=
  Light.SetDataInt_type l (sizeToInt idx)

theorem sizeToInt_of_lt (idx : Nat) (h : idx < 2147483648) : sizeToInt idx = (idx : Int) := by
  unfold sizeToInt
  have h1 : idx % 4294967296 = idx := Nat.mod_eq_of_lt (by omega)
  simp only [h1]
  rw [if_pos (by omega)]

theorem toString_natCast (n : Nat) : toString ((n : Nat) : Int) = toString n := rfl

/-- Two generated names with the same index are equal only when their
field suffixes are. -/
theorem lightName_eq_iff (s a b : String) :
    "lights[" ++ s ++ a = "lights[" ++ s ++ b ↔ a = b := by
  constructor
  · intro h
    have h2 := congrArg String.data h
    simp only [String.data_append, List.append_cancel_left_eq] at h2
    exact String.ext h2
  · intro h; rw [h]

/-! ## C19, C20: names and entries of the uniform map -/

/-- C19 (as stated, refuted): a freshly constructed Point light after
`SetData(0)` and `SetData(1)` still uploads `lights[0].type`, which is not
one of the names generated for index 1. -/
theorem C19_counterexample :
    "lights[0].type" ∈ (((Light.new .Point).SetData 0).SetData 1).uploadedNames ∧
    "lights[0].type" ∉ Light.namesFor .Point "1" := by
  decide

/-- C19 (amended): for every light and indices `i`, `j`, after `SetData(i)`
followed by `SetData(j)` the uniform names that `ApplyData` uploads are the
names the map held before, the names generated for the index stored by
`SetData(i)` and the names generated for the index stored by `SetData(j)`:
the names of the earlier index stay in the map. -/
theorem C19_names_accumulate (l : Light) (i j : Nat) (k : String) :
    k ∈ ((l.SetData i).SetData j).uploadedNames ↔
      k ∈ l.uploadedNames ∨ k ∈ Light.namesFor l._type (toString (sizeToInt i)) ∨
        k ∈ Light.namesFor l._type (toString (sizeToInt j)) := by
  rw [Light.SetData_names, Light.SetData_names, Light.SetData_type, or_assoc]

/-- C20 (as stated, refuted): for the index 2^31 the entries are named after
the `int` value -2^31 of `_idx`, not after the index. -/
theorem C20_counterexample :
    "lights[2147483648].type" ∉ ((Light.new .Spot).SetData 2147483648).uploadedNames ∧
    "lights[-2147483648].type" ∈ ((Light.new .Spot).SetData 2147483648).uploadedNames := by
  decide

/-- C20 (amended): for every light type and index `i` below 2^31, after
`SetData(i)` on a freshly constructed light the uniform map holds exactly
the entries `lights[i].type` (the type as `int`), `lights[i].color`,
`lights[i].ambient`, `lights[i].diffuse`, `lights[i].specular` (the `vec3`
defaults) and, if and only if the type is Point or Spot, `lights[i].constant`,
`lights[i].linear`, `lights[i].quadratic`, `lights[i].cutOff` and
`lights[i].outerCutOff` (the `float` defaults). -/
theorem C20_fresh_light_entries (t : LightType) (i : Nat) (h : i < 2147483648) :
    ((Light.new t).SetData i)._data =
      [("lights[" ++ toString i ++ "].type", .INT t.toInt),
       ("lights[" ++ toString i ++ "].color", Light.LightColor),
       ("lights[" ++ toString i ++ "].ambient", Light.LightAmbient),
       ("lights[" ++ toString i ++ "].diffuse", Light.LightDiffuse),
       ("lights[" ++ toString i ++ "].specular", Light.LightSpecular)] ++
      (if t = .Point ∨ t = .Spot then
        [("lights[" ++ toString i ++ "].constant", .FLOAT Light.Constant),
         ("lights[" ++ toString i ++ "].linear", .FLOAT Light.Linear),
         ("lights[" ++ toString i ++ "].quadratic", .FLOAT Light.Quadratic),
         ("lights[" ++ toString i ++ "].cutOff", .FLOAT Light.CutOff),
         ("lights[" ++ toString i ++ "].outerCutOff", .FLOAT Light.OuterCutOff)]
       else []) := by
  unfold Light.SetData
  rw [sizeToInt_of_lt i h]
  unfold Light.SetDataInt
  simp only [toString_natCast]
  generalize toString i = s
  cases t <;>
    simp [Light.new, Light.SetInt, Light.SetVec3, Light.SetFloat, mapAssign, lightName_eq_iff]

/-- C20 witness: a Spot light with index 3 and a Direct light with index 0. -/
theorem C20_fresh_light_entries_witness :
    (3 < 2147483648 ∧
      ((Light.new .Spot).SetData 3)._data =
        [("lights[3].type", .INT 3), ("lights[3].color", .VEC3 1 1 1),
         ("lights[3].ambient", .VEC3 (1 / 10) (1 / 10) (1 / 10)),
         ("lights[3].diffuse", .VEC3 1 1 1), ("lights[3].specular", .VEC3 1 1 1),
         ("lights[3].constant", .FLOAT (.lit 1)),
         ("lights[3].linear", .FLOAT (.lit (9 / 100))),
         ("lights[3].quadratic", .FLOAT (.lit (32 / 1000))),
         ("lights[3].cutOff", .FLOAT (.cosRadians (25 / 2))),
         ("lights[3].outerCutOff", .FLOAT (.cosRadians (35 / 2)))]) ∧
    (0 < 2147483648 ∧
      ((Light.new .Direct).SetData 0)._data =
        [("lights[0].type", .INT 1), ("lights[0].color", .VEC3 1 1 1),
         ("lights[0].ambient", .VEC3 (1 / 10) (1 / 10) (1 / 10)),
         ("lights[0].diffuse", .VEC3 1 1 1), ("lights[0].specular", .VEC3 1 1 1)]) :=
  ⟨⟨by decide, (C20_fresh_light_entries .Spot 3 (by decide)).trans rfl⟩,
   ⟨by decide, (C20_fresh_light_entries .Direct 0 (by decide)).trans rfl⟩⟩

/-! ## C12: mouse look -/

section MouseLook

variable {α : Type} [LinearOrderedField α]

theorem clamp_mem (x lo hi : α) (h : lo ≤ hi) : lo ≤ clamp x lo hi ∧ clamp x lo hi ≤ hi := by
  unfold clamp
  exact ⟨le_min (le_max_right x lo) h, min_le_right _ _⟩

theorem UpdateRotationFromEuler_pitch (m : Libm α) (t : Transform α) :
    (t.UpdateRotationFromEuler m).pitch = t.pitch ∧
    (t.UpdateRotationFromEuler m).yaw = t.yaw ∧
    (t.UpdateRotationFromEuler m)._position = t._position :=
  ⟨rfl, rfl, rfl⟩

/-- C12: when `App::UpdateMouse` runs with the looking flag set, the pitch
of the camera transform afterwards is the previous pitch plus the vertical
cursor offset from the window centre times the sensitivity, clamped to
[-89, 89], so it lies in [-89, 89] for every previous pitch and cursor
position; when the looking flag is clear, `UpdateMouse` changes nothing, in
particular not yaw, pitch and rotation of the camera transform. -/
theorem C12_mouse_look_pitch (m : Libm α) (v : View α) :
    (v.input.mouseLooking = true →
      (UpdateMouse m v).cameraObject._transform.pitch =
        clamp (v.cameraObject._transform.pitch +
          (v.WindowHeight / 2 - v.cursor.2) * App.MouseSensitivity) (-89) 89 ∧
      -89 ≤ (UpdateMouse m v).cameraObject._transform.pitch ∧
      (UpdateMouse m v).cameraObject._transform.pitch ≤ 89) ∧
    (v.input.mouseLooking = false →
      UpdateMouse m v = v ∧
      (UpdateMouse m v).cameraObject._transform.yaw = v.cameraObject._transform.yaw ∧
      (UpdateMouse m v).cameraObject._transform.pitch = v.cameraObject._transform.pitch ∧
      (UpdateMouse m v).cameraObject._transform._rotation =
        v.cameraObject._transform._rotation) := by
  constructor
  · intro h
    have hp : (UpdateMouse m v).cameraObject._transform.pitch =
        clamp (v.cameraObject._transform.pitch +
          (v.WindowHeight / 2 - v.cursor.2) * App.MouseSensitivity) (-89) 89 := by
      unfold UpdateMouse
      rw [if_pos h]
      rfl
    refine ⟨hp, ?_⟩
    rw [hp]
    exact clamp_mem _ _ _ (by norm_num)
  · intro h
    have hv : UpdateMouse m v = v := by
      unfold UpdateMouse
      rw [if_neg (by simp [h])]
    rw [hv]
    exact ⟨rfl, rfl, rfl, rfl⟩

end MouseLook

/-- C12 witness: the cursor 20000 pixels above the centre of the window
while looking (the pitch ends at 89), and any cursor while not looking. -/
theorem C12_mouse_look_pitch_witness :
    ((sampleView (sampleTransform ⟨0, 0, 0⟩ ⟨1, 0, 0, 0⟩ none) true true
        (400, -19700)).input.mouseLooking = true ∧
      (UpdateMouse sampleLibm (sampleView (sampleTransform ⟨0, 0, 0⟩ ⟨1, 0, 0, 0⟩ none)
        true true (400, -19700))).cameraObject._transform.pitch = 89) ∧
    ((sampleView (sampleTransform ⟨0, 0, 0⟩ ⟨1, 0, 0, 0⟩ none) false true
        (400, -19700)).input.mouseLooking = false ∧
      (UpdateMouse sampleLibm (sampleView (sampleTransform ⟨0, 0, 0⟩ ⟨1, 0, 0, 0⟩ none)
        false true (400, -19700))).cameraObject._transform.pitch = 0) := by
  refine ⟨⟨rfl, ?_⟩, ⟨rfl, ?_⟩⟩
  · rw [((C12_mouse_look_pitch sampleLibm (sampleView (sampleTransform ⟨0, 0, 0⟩ ⟨1, 0, 0, 0⟩
      none) true true (400, -19700))).1 rfl).1]
    norm_num [sampleView, sampleTransform, clamp, App.MouseSensitivity]
  · rw [((C12_mouse_look_pitch sampleLibm (sampleView (sampleTransform ⟨0, 0, 0⟩ ⟨1, 0, 0, 0⟩
      none) false true (400, -19700))).2 rfl).2.2.1]
    rfl

/-! ## C14: sphere collision -/

section Collision

variable {α : Type} [LinearOrderedField α]

theorem dot_self_nonneg (v : Vec3 α) : 0 ≤ dot v v := by
  unfold dot
  nlinarith [mul_self_nonneg v.x, mul_self_nonneg v.y, mul_self_nonneg v.z]

theorem dot_sub_comm (a b : Vec3 α) :
    dot (a.sub b) (a.sub b) = dot (b.sub a) (b.sub a) := by
  simp only [dot, Vec3.sub]
  ring

theorem dot_sub_self_pos (a b : Vec3 α) (h : a ≠ b) : 0 < dot (a.sub b) (a.sub b) := by
  rcases lt_or_eq_of_le (dot_self_nonneg (a.sub b)) with h1 | h1
  · exact h1
  · exfalso
    apply h
    simp only [dot, Vec3.sub] at h1
    have hx : (a.x - b.x) * (a.x - b.x) = 0 := by
      nlinarith [mul_self_nonneg (a.x - b.x), mul_self_nonneg (a.y - b.y),
        mul_self_nonneg (a.z - b.z)]
    have hy : (a.y - b.y) * (a.y - b.y) = 0 := by
      nlinarith [mul_self_nonneg (a.x - b.x), mul_self_nonneg (a.y - b.y),
        mul_self_nonneg (a.z - b.z)]
    have hz : (a.z - b.z) * (a.z - b.z) = 0 := by
      nlinarith [mul_self_nonneg (a.x - b.x), mul_self_nonneg (a.y - b.y),
        mul_self_nonneg (a.z - b.z)]
    have hx2 : a.x = b.x := sub_eq_zero.1 (mul_self_eq_zero.1 hx)
    have hy2 : a.y = b.y := sub_eq_zero.1 (mul_self_eq_zero.1 hy)
    have hz2 : a.z = b.z := sub_eq_zero.1 (mul_self_eq_zero.1 hz)
    cases a; cases b
    simp only [Vec3.mk.injEq]
    exact ⟨hx2, hy2, hz2⟩

/-- A square root of a positive number is positive. -/
theorem SqrtAt.pos {m : Libm α} {x : α} (h : SqrtAt m x) (hx : 0 < x) : 0 < m.sqrt x := by
  rcases lt_or_eq_of_le h.1 with h1 | h1
  · exact h1
  · exfalso
    have h2 := h.2
    rw [← h1] at h2
    simp at h2
    exact absurd h2 (ne_of_lt hx)

/-- A square root of `d * d` for `d >= 0` is `d`. -/
theorem SqrtAt.eq_of_sq {m : Libm α} {d : α} (h : SqrtAt m (d * d)) (hd : 0 ≤ d) :
    m.sqrt (d * d) = d := by
  have h2 : (m.sqrt (d * d) - d) * (m.sqrt (d * d) + d) = 0 := by
    have := h.2
    ring_nf
    ring_nf at this
    rw [this]
    ring
  rcases mul_eq_zero.1 h2 with h3 | h3
  · exact sub_eq_zero.1 h3
  · have h4 : m.sqrt (d * d) = 0 := by linarith [h.1]
    have h5 : d = 0 := by linarith [h.1]
    rw [h5] at h4 ⊢
    exact h4

/-- The position to which the collision step moves a camera that is closer
to the centre than the collision distance. -/
theorem sphereCollision_position (m : Libm α) (c : Vec3 α) (t : Transform α)
    (h : distance m t._position c < App.CollisionDistance) :
    (sphereCollision m c t)._position =
      c.add (((t._position.sub c).smul (1 / length m (t._position.sub c))).smul
        App.CollisionDistance) := by
  unfold sphereCollision
  simp only [Transform.GetPosition]
  rw [if_pos h]
  rfl

theorem sphereCollision_far (m : Libm α) (c : Vec3 α) (t : Transform α)
    (h : App.CollisionDistance ≤ distance m t._position c) :
    sphereCollision m c t = t := by
  unfold sphereCollision
  simp only [Transform.GetPosition]
  rw [if_neg (not_lt.2 h)]

/-- The projected position is at the collision distance from the centre. -/
theorem projected_distance (m : Libm α) (c p : Vec3 α) (hne : p ≠ c)
    (hs : SqrtAt m (dot (p.sub c) (p.sub c)))
    (hD : SqrtAt m (App.CollisionDistance * App.CollisionDistance)) :
    distance m (c.add (((p.sub c).smul (1 / length m (p.sub c))).smul
        App.CollisionDistance)) c = App.CollisionDistance := by
  have hpos := hs.pos (dot_sub_self_pos p c hne)
  have hsq := hs.2
  unfold distance length
  generalize hsv : m.sqrt (dot (p.sub c) (p.sub c)) = s at hpos hsq
  have hs0 : s ≠ 0 := ne_of_gt hpos
  have harg : dot (c.sub (c.add (((p.sub c).smul (1 / s)).smul App.CollisionDistance)))
      (c.sub (c.add (((p.sub c).smul (1 / s)).smul App.CollisionDistance))) =
      App.CollisionDistance * App.CollisionDistance := by
    simp only [dot, Vec3.sub, Vec3.add, Vec3.smul] at hsq ⊢
    field_simp
    linear_combination (App.CollisionDistance * App.CollisionDistance : α) * hsq.symm
  rw [harg]
  exact hD.eq_of_sq (by unfold App.CollisionDistance; norm_num)

/-- In exact arithmetic the sphere-collision step is the radial projection:
for every camera position `p` other than the sphere position `c`, with
`sqrt` returning a square root of the squared distance and of the squared
collision distance, a position with `|p - c| >= CollisionDistance` is left
unchanged, a position with `|p - c| < CollisionDistance` is moved to
`c + (p - c) * (1 / |p - c|) * CollisionDistance`, which is at distance
`CollisionDistance` from `c`. -/
theorem sphereCollision_exact (m : Libm α) (c : Vec3 α) (t : Transform α)
    (hne : t._position ≠ c)
    (hs : SqrtAt m (dot (t._position.sub c) (t._position.sub c)))
    (hD : SqrtAt m (App.CollisionDistance * App.CollisionDistance)) :
    (App.CollisionDistance ≤ distance m t._position c → sphereCollision m c t = t) ∧
    (distance m t._position c < App.CollisionDistance →
      (sphereCollision m c t)._position =
        c.add (((t._position.sub c).smul (1 / length m (t._position.sub c))).smul
          App.CollisionDistance) ∧
      distance m (sphereCollision m c t)._position c = App.CollisionDistance) := by
  refine ⟨sphereCollision_far m c t, ?_⟩
  intro h
  have hp := sphereCollision_position m c t h
  refine ⟨hp, ?_⟩
  rw [hp]
  exact projected_distance m c t._position hne hs hD

end Collision

/-! ## Error analysis of the sphere collision in binary32 -/

/-- The rounding error of `round32` as two inequalities. -/
theorem round32_bounds (x : ℚ) :
    x - (|x| / 2 ^ 24 + 1 / 2 ^ 150) ≤ round32 x ∧
    round32 x ≤ x + (|x| / 2 ^ 24 + 1 / 2 ^ 150) := by
  have h := abs_le.mp (round32_error x)
  constructor <;> linarith [h.1, h.2]

/-- The rounding error of `round32` at a number that is not negative. -/
theorem round32_bounds_nonneg (x : ℚ) (hx : 0 ≤ x) :
    0 ≤ round32 x ∧ (1 - 1 / 2 ^ 24) * x - 1 / 2 ^ 150 ≤ round32 x ∧
    round32 x ≤ (1 + 1 / 2 ^ 24) * x + 1 / 2 ^ 150 := by
  have h := round32_bounds x
  rw [abs_of_nonneg hx] at h
  refine ⟨round32_nonneg x hx, ?_, ?_⟩ <;> linarith [h.1, h.2]

/-- The sum of three squares as binary32 computes it,
`fl(fl(fl(x^2) + fl(y^2)) + fl(z^2))`, against the exact sum. -/
theorem dot_self_bounds (x y z : ℚ) :
    0 ≤ round32 (round32 (round32 (x * x) + round32 (y * y)) + round32 (z * z)) ∧
    (1 - 3 / 2 ^ 24) * (x * x + y * y + z * z) - 5 / 2 ^ 150
      ≤ round32 (round32 (round32 (x * x) + round32 (y * y)) + round32 (z * z)) ∧
    round32 (round32 (round32 (x * x) + round32 (y * y)) + round32 (z * z))
      ≤ (1 + 4 / 2 ^ 24) * (x * x + y * y + z * z) + 6 / 2 ^ 150 := by
  have hx := round32_bounds_nonneg (x * x) (mul_self_nonneg x)
  have hy := round32_bounds_nonneg (y * y) (mul_self_nonneg y)
  have hz := round32_bounds_nonneg (z * z) (mul_self_nonneg z)
  have sx := mul_self_nonneg x
  have sy := mul_self_nonneg y
  have sz := mul_self_nonneg z
  generalize round32 (x * x) = qx at *
  generalize round32 (y * y) = qy at *
  generalize round32 (z * z) = qz at *
  generalize x * x = X at *
  generalize y * y = Y at *
  generalize z * z = Z at *
  have ht := round32_bounds_nonneg (qx + qy) (by linarith [hx.1, hy.1])
  generalize round32 (qx + qy) = t at *
  have hs := round32_bounds_nonneg (t + qz) (by linarith [ht.1, hz.1])
  generalize round32 (t + qz) = s at *
  refine ⟨hs.1, ?_, ?_⟩
  · nlinarith [hx.1, hx.2.1, hy.1, hy.2.1, hz.1, hz.2.1, ht.1, ht.2.1, hs.2.1]
  · nlinarith [hx.1, hx.2.2, hy.1, hy.2.2, hz.1, hz.2.2, ht.1, ht.2.2, hs.2.2]

/-- The square of a rounded number from above. -/
theorem sq_round32_le (a : ℚ) :
    round32 a * round32 a ≤ (1 + 3 / 2 ^ 24) * (a * a) + 3 / 2 ^ 150 := by
  have h := round32_error a
  have hE : |round32 a| ≤ |a| + (|a| / 2 ^ 24 + 1 / 2 ^ 150) := by
    have := abs_sub_abs_le_abs_sub (round32 a) a
    linarith
  have hA0 := abs_nonneg a
  have hE0 := abs_nonneg (round32 a)
  rw [← abs_mul_abs_self (round32 a), ← abs_mul_abs_self a]
  generalize |round32 a| = E at *
  generalize |a| = A at *
  have h1 : E * E ≤ (A + (A / 2 ^ 24 + 1 / 2 ^ 150)) * (A + (A / 2 ^ 24 + 1 / 2 ^ 150)) :=
    mul_self_le_mul_self hE0 hE
  nlinarith [mul_self_nonneg (A - 1), mul_self_nonneg A]

/-- The square of a rounded number from below. -/
theorem sq_round32_ge (a : ℚ) :
    (1 - 3 / 2 ^ 24) * (a * a) - 3 / 2 ^ 150 ≤ round32 a * round32 a := by
  have h := round32_error a
  have hE : |a| - (|a| / 2 ^ 24 + 1 / 2 ^ 150) ≤ |round32 a| := by
    have := abs_sub_abs_le_abs_sub a (round32 a)
    rw [abs_sub_comm] at this
    linarith
  have hA0 := abs_nonneg a
  have hE0 := abs_nonneg (round32 a)
  rw [← abs_mul_abs_self (round32 a), ← abs_mul_abs_self a]
  generalize |round32 a| = E at *
  generalize |a| = A at *
  rcases le_or_lt 0 (A - (A / 2 ^ 24 + 1 / 2 ^ 150)) with hc | hc
  · have h1 : (A - (A / 2 ^ 24 + 1 / 2 ^ 150)) * (A - (A / 2 ^ 24 + 1 / 2 ^ 150)) ≤ E * E :=
      mul_self_le_mul_self hc hE
    nlinarith [mul_self_nonneg (A - 1), mul_self_nonneg A]
  · have hA : A ≤ 1 / 2 ^ 149 := by linarith
    have : A * A ≤ 1 / 2 ^ 149 * (1 / 2 ^ 149) := mul_self_le_mul_self hA0 hA
    nlinarith [mul_self_nonneg E]

/-- One coordinate of the pushed position, `fl(c + fl(fl(g) * 1.5))`, is
within `21 / 2^24` of `c + 1.5 * g`. -/
theorem push_component (c g : ℚ) (hc : |c| ≤ 16) (hg : |g| ≤ 1001 / 1000) :
    |round32 (c + round32 (round32 g * (3 / 2))) - c - 3 / 2 * g| ≤ 21 / 2 ^ 24 := by
  have h1 := round32_bounds g
  have hg2 := abs_le.mp hg
  have hc2 := abs_le.mp hc
  have e1 : |g| / 2 ^ 24 + 1 / 2 ^ 150 ≤ 1001 / 1000 / 2 ^ 24 + 1 / 2 ^ 150 :=
    add_le_add_right (div_le_div_of_nonneg_right hg (by positivity)) _
  generalize round32 g = dr at *
  have hdr : |dr * (3 / 2)| ≤ 1503 / 1000 := by
    rw [abs_le]
    constructor <;> linarith [h1.1, h1.2, hg2.1, hg2.2]
  have h2 := round32_bounds (dr * (3 / 2))
  have e2 : |dr * (3 / 2)| / 2 ^ 24 + 1 / 2 ^ 150 ≤ 1503 / 1000 / 2 ^ 24 + 1 / 2 ^ 150 :=
    add_le_add_right (div_le_div_of_nonneg_right hdr (by positivity)) _
  have hdr2 := abs_le.mp hdr
  generalize round32 (dr * (3 / 2)) = mm at *
  have hcm : |c + mm| ≤ 1751 / 100 := by
    rw [abs_le]
    constructor <;> linarith [h2.1, h2.2, hdr2.1, hdr2.2, hc2.1, hc2.2]
  have h3 := round32_bounds (c + mm)
  have e3 : |c + mm| / 2 ^ 24 + 1 / 2 ^ 150 ≤ 1751 / 100 / 2 ^ 24 + 1 / 2 ^ 150 :=
    add_le_add_right (div_le_div_of_nonneg_right hcm (by positivity)) _
  generalize round32 (c + mm) = n at *
  rw [abs_le]
  constructor <;> linarith [h1.1, h1.2, h2.1, h2.2, h3.1, h3.2]

/-- The square of one coordinate of the push. -/
theorem sq_push (g E : ℚ) (hg : |g| ≤ 1001 / 1000) (hE : |E| ≤ 21 / 2 ^ 24) :
    9 / 4 * (g * g) - 64 / 2 ^ 24 ≤ (3 / 2 * g + E) * (3 / 2 * g + E) := by
  have h1 : |g * E| ≤ 1001 / 1000 * (21 / 2 ^ 24) := by
    rw [abs_mul]
    exact mul_le_mul hg hE (abs_nonneg _) (by norm_num)
  have h2 := abs_le.mp h1
  nlinarith [mul_self_nonneg E, h2.1, h2.2]

/-- The camera is left where it is: a computed distance of at least 1.5
means an exact squared distance of at least `(3/2 - 2^-16)^2`.  Here the
computed distance `s` is the computed square root of the computed
`dot(e, e)` with `e = fl(a)` componentwise. -/
theorem far_bound (a1 a2 a3 s : ℚ)
    (hs2 : s * s ≤ (1 + 1 / 2 ^ 22)
      * round32 (round32 (round32 (round32 a1 * round32 a1)
          + round32 (round32 a2 * round32 a2)) + round32 (round32 a3 * round32 a3)))
    (hfar : 3 / 2 ≤ s) :
    (3 / 2 - 1 / 2 ^ 16) ^ 2 ≤ a1 * a1 + a2 * a2 + a3 * a3 := by
  have hd := (dot_self_bounds (round32 a1) (round32 a2) (round32 a3)).2.2
  have h1 := sq_round32_le a1
  have h2 := sq_round32_le a2
  have h3 := sq_round32_le a3
  have hss : 3 / 2 * (3 / 2) ≤ s * s := mul_self_le_mul_self (by norm_num) hfar
  generalize round32 (round32 (round32 (round32 a1 * round32 a1)
    + round32 (round32 a2 * round32 a2)) + round32 (round32 a3 * round32 a3)) = sg at *
  generalize round32 a1 * round32 a1 = E1 at *
  generalize round32 a2 * round32 a2 = E2 at *
  generalize round32 a3 * round32 a3 = E3 at *
  generalize a1 * a1 = A1 at *
  generalize a2 * a2 = A2 at *
  generalize a3 * a3 = A3 at *
  generalize s * s = S at *
  norm_num at *
  linarith

/-- The computed length `s` against the exact sum of squares `D`. -/
theorem len_bounds (D sg s : ℚ) (hD : 1 / 2 ^ 41 ≤ D) (hD12 : D ≤ 12)
    (h1 : (1 - 3 / 2 ^ 24) * D - 5 / 2 ^ 150 ≤ sg)
    (h2 : sg ≤ (1 + 4 / 2 ^ 24) * D + 6 / 2 ^ 150)
    (hs0 : 0 ≤ s) (hs1 : (1 - 1 / 2 ^ 22) * sg ≤ s * s)
    (hs2 : s * s ≤ (1 + 1 / 2 ^ 22) * sg) :
    (1 - 8 / 2 ^ 24) * D ≤ s * s ∧ s * s ≤ (1 + 10 / 2 ^ 24) * D ∧ 0 < s ∧ s ≤ 4 := by
  have hlo : (1 - 8 / 2 ^ 24) * D ≤ s * s := by
    generalize s * s = S at *
    norm_num at *
    linarith
  have hhi : s * s ≤ (1 + 10 / 2 ^ 24) * D := by
    generalize s * s = S at *
    norm_num at *
    linarith
  refine ⟨hlo, hhi, ?_, ?_⟩
  · rcases eq_or_lt_of_le hs0 with h | h
    · rw [← h] at hlo
      norm_num at hlo
      linarith
    · exact h
  · by_contra hcon
    push_neg at hcon
    have : 4 * 4 < s * s := mul_self_lt_mul_self (by norm_num) hcon
    linarith

/-- The rounded reciprocal of the computed length, times the length. -/
theorem inv_bounds (s : ℚ) (hspos : 0 < s) (hs4 : s ≤ 4) :
    1 - 2 / 2 ^ 24 ≤ round32 (1 / s) * s ∧ round32 (1 / s) * s ≤ 1 + 2 / 2 ^ 24 := by
  have hw : 0 < 1 / s := by positivity
  have hws : 1 / s * s = 1 := by field_simp
  have hinv := round32_bounds (1 / s)
  rw [abs_of_pos hw] at hinv
  generalize 1 / s = w at *
  generalize round32 w = inv at *
  have a1 := mul_le_mul_of_nonneg_right hinv.1 hspos.le
  have a2 := mul_le_mul_of_nonneg_right hinv.2 hspos.le
  have e1 : (w - (w / 2 ^ 24 + 1 / 2 ^ 150)) * s = 1 - 1 / 2 ^ 24 - s / 2 ^ 150 := by
    linear_combination (1 - 1 / 2 ^ 24) * hws
  have e2 : (w + (w / 2 ^ 24 + 1 / 2 ^ 150)) * s = 1 + 1 / 2 ^ 24 + s / 2 ^ 150 := by
    linear_combination (1 + 1 / 2 ^ 24) * hws
  rw [e1] at a1
  rw [e2] at a2
  constructor <;> linarith

/-- The square of a number close to 1. -/
theorem sq_near_one (r : ℚ) (h1 : 1 - 2 / 2 ^ 24 ≤ r) (h2 : r ≤ 1 + 2 / 2 ^ 24) :
    1 - 4 / 2 ^ 24 ≤ r * r ∧ r * r ≤ 1 + 5 / 2 ^ 24 := by
  have a1 : (1 - 2 / 2 ^ 24) * (1 - 2 / 2 ^ 24) ≤ r * r :=
    mul_self_le_mul_self (by norm_num) h1
  have a2 : r * r ≤ (1 + 2 / 2 ^ 24) * (1 + 2 / 2 ^ 24) :=
    mul_self_le_mul_self (by linarith) h2
  constructor
  · have : (1 : ℚ) - 4 / 2 ^ 24 ≤ (1 - 2 / 2 ^ 24) * (1 - 2 / 2 ^ 24) := by norm_num
    linarith
  · have : ((1 : ℚ) + 2 / 2 ^ 24) * (1 + 2 / 2 ^ 24) ≤ 1 + 5 / 2 ^ 24 := by norm_num
    linarith

/-- The squared length `G` of the direction before its rounding. -/
theorem dir_bounds (D S R G : ℚ) (hD0 : 0 ≤ D) (hS : 0 < S)
    (hlo : (1 - 8 / 2 ^ 24) * D ≤ S) (hhi : S ≤ (1 + 10 / 2 ^ 24) * D)
    (hR1 : 1 - 4 / 2 ^ 24 ≤ R) (hR2 : R ≤ 1 + 5 / 2 ^ 24) (hG : G * S = R * D) :
    1 - 14 / 2 ^ 24 ≤ G ∧ G ≤ 1 + 14 / 2 ^ 24 := by
  have b1 : (1 - 4 / 2 ^ 24) * D ≤ R * D := mul_le_mul_of_nonneg_right hR1 hD0
  have b2 : R * D ≤ (1 + 5 / 2 ^ 24) * D := mul_le_mul_of_nonneg_right hR2 hD0
  constructor
  · have : (1 - 14 / 2 ^ 24) * S ≤ G * S := by
      rw [hG]
      have : (1 - 14 / 2 ^ 24) * S ≤ (1 - 14 / 2 ^ 24) * ((1 + 10 / 2 ^ 24) * D) :=
        mul_le_mul_of_nonneg_left hhi (by norm_num)
      have e : ((1 : ℚ) - 14 / 2 ^ 24) * ((1 + 10 / 2 ^ 24) * D)
          = (1 - 4 / 2 ^ 24) * D - 140 / 2 ^ 48 * D := by ring
      have : 0 ≤ 140 / 2 ^ 48 * D := mul_nonneg (by norm_num) hD0
      linarith
    exact le_of_mul_le_mul_right this hS
  · have : G * S ≤ (1 + 14 / 2 ^ 24) * S := by
      rw [hG]
      have h3 : (1 + 14 / 2 ^ 24) * ((1 - 8 / 2 ^ 24) * D) ≤ (1 + 14 / 2 ^ 24) * S :=
        mul_le_mul_of_nonneg_left hlo (by norm_num)
      have e : ((1 : ℚ) + 14 / 2 ^ 24) * ((1 - 8 / 2 ^ 24) * D)
          = (1 + 5 / 2 ^ 24) * D + (1 / 2 ^ 24 - 112 / 2 ^ 48) * D := by ring
      have : 0 ≤ (1 / 2 ^ 24 - 112 / 2 ^ 48) * D := mul_nonneg (by norm_num) hD0
      linarith
    exact le_of_mul_le_mul_right this hS

/-- A component of a vector whose squared length is close to 1. -/
theorem comp_bound (g r G : ℚ) (hr : 0 ≤ r) (hG : g * g + r = G) (hG2 : G ≤ 1 + 14 / 2 ^ 24) :
    |g| ≤ 1001 / 1000 := by
  have hgg : g * g ≤ 1 + 14 / 2 ^ 24 := by linarith
  rw [abs_le]
  constructor
  · by_contra hcon
    push_neg at hcon
    have : 1001 / 1000 * (1001 / 1000) < -g * -g :=
      mul_self_lt_mul_self (by norm_num) (by linarith)
    have e : -g * -g = g * g := by ring
    rw [e] at this
    norm_num at this hgg
    linarith
  · by_contra hcon
    push_neg at hcon
    have : 1001 / 1000 * (1001 / 1000) < g * g :=
      mul_self_lt_mul_self (by norm_num) hcon
    norm_num at this hgg
    linarith

/-- The square of one coordinate of the pushed position relative to the
centre. -/
theorem push_sq (c g : ℚ) (hc : |c| ≤ 16) (hg : |g| ≤ 1001 / 1000) :
    9 / 4 * (g * g) - 64 / 2 ^ 24
      ≤ (round32 (c + round32 (round32 g * (3 / 2))) - c) ^ 2 := by
  have h := sq_push g _ hg (push_component c g hc hg)
  have e : (round32 (c + round32 (round32 g * (3 / 2))) - c) ^ 2
      = (3 / 2 * g + (round32 (c + round32 (round32 g * (3 / 2))) - c - 3 / 2 * g))
        * (3 / 2 * g + (round32 (c + round32 (round32 g * (3 / 2))) - c - 3 / 2 * g)) := by
    ring
  rw [e]
  exact h

/-- The camera is pushed: with `d = fl(p - c)` componentwise, not too short,
and `s` the computed square root of the computed `dot(d, d)`, the pushed
position `fl(c + fl(fl(d * fl(1 / s)) * 1.5))` is at an exact squared
distance of at least `(3/2 - 2^-16)^2` from `c`. -/
theorem near_bound (c1 c2 c3 d1 d2 d3 s : ℚ)
    (hc1 : |c1| ≤ 16) (hc2 : |c2| ≤ 16) (hc3 : |c3| ≤ 16)
    (hd1 : d1 * d1 ≤ 4) (hd2 : d2 * d2 ≤ 4) (hd3 : d3 * d3 ≤ 4)
    (hD : 1 / 2 ^ 41 ≤ d1 * d1 + d2 * d2 + d3 * d3)
    (hs0 : 0 ≤ s)
    (hs1 : (1 - 1 / 2 ^ 22)
      * round32 (round32 (round32 (d1 * d1) + round32 (d2 * d2)) + round32 (d3 * d3))
      ≤ s * s)
    (hs2 : s * s ≤ (1 + 1 / 2 ^ 22)
      * round32 (round32 (round32 (d1 * d1) + round32 (d2 * d2)) + round32 (d3 * d3))) :
    (3 / 2 - 1 / 2 ^ 16) ^ 2 ≤
      (round32 (c1 + round32 (round32 (d1 * round32 (1 / s)) * (3 / 2))) - c1) ^ 2
      + (round32 (c2 + round32 (round32 (d2 * round32 (1 / s)) * (3 / 2))) - c2) ^ 2
      + (round32 (c3 + round32 (round32 (d3 * round32 (1 / s)) * (3 / 2))) - c3) ^ 2 := by
  have hdot := dot_self_bounds d1 d2 d3
  have hD0 : 0 ≤ d1 * d1 + d2 * d2 + d3 * d3 := by
    linarith [mul_self_nonneg d1, mul_self_nonneg d2, mul_self_nonneg d3]
  obtain ⟨hlo, hhi, hspos, hs4⟩ := len_bounds _ _ s hD (by linarith) hdot.2.1 hdot.2.2 hs0
    hs1 hs2
  obtain ⟨hr1, hr2⟩ := inv_bounds s hspos hs4
  obtain ⟨hrr1, hrr2⟩ := sq_near_one _ hr1 hr2
  generalize round32 (1 / s) = inv at *
  have hGs : (d1 * inv * (d1 * inv) + d2 * inv * (d2 * inv) + d3 * inv * (d3 * inv))
      * (s * s) = inv * s * (inv * s) * (d1 * d1 + d2 * d2 + d3 * d3) := by ring
  obtain ⟨hG1, hG2⟩ := dir_bounds _ _ _ _ hD0 (mul_pos hspos hspos) hlo hhi hrr1 hrr2 hGs
  have g1 : |d1 * inv| ≤ 1001 / 1000 :=
    comp_bound _ (d2 * inv * (d2 * inv) + d3 * inv * (d3 * inv)) _
      (by linarith [mul_self_nonneg (d2 * inv), mul_self_nonneg (d3 * inv)]) (by ring) hG2
  have g2 : |d2 * inv| ≤ 1001 / 1000 :=
    comp_bound _ (d1 * inv * (d1 * inv) + d3 * inv * (d3 * inv)) _
      (by linarith [mul_self_nonneg (d1 * inv), mul_self_nonneg (d3 * inv)]) (by ring) hG2
  have g3 : |d3 * inv| ≤ 1001 / 1000 :=
    comp_bound _ (d1 * inv * (d1 * inv) + d2 * inv * (d2 * inv)) _
      (by linarith [mul_self_nonneg (d1 * inv), mul_self_nonneg (d2 * inv)]) (by ring) hG2
  have p1 := push_sq c1 _ hc1 g1
  have p2 := push_sq c2 _ hc2 g2
  have p3 := push_sq c3 _ hc3 g3
  have hnum : ((3 : ℚ) / 2 - 1 / 2 ^ 16) ^ 2 ≤ 9 / 4 * (1 - 14 / 2 ^ 24) - 192 / 2 ^ 24 := by
    norm_num
  linarith [p1, p2, p3, hG1, hnum]

/-! ## C14: the sphere collision in binary32 -/

/-- The constant `App::CollisionDistance` in binary32 is `1.5`. -/
theorem CollisionDistance_val : (App.CollisionDistance : F32).val = 3 / 2 := by
  unfold App.CollisionDistance
  rw [F32.div_val, F32.three_val, F32.two_val, round32_three_halves]

/-- The value of `dot(v, v)` in binary32. -/
theorem dot_self_val (v : Vec3 F32) :
    (dot v v).val = round32 (round32 (round32 (v.x.val * v.x.val)
      + round32 (v.y.val * v.y.val)) + round32 (v.z.val * v.z.val)) := rfl

/-- The computed distance of `p` from `c`. -/
theorem distance_val (m : Libm F32) (p c : Vec3 F32) :
    distance m p c = m.sqrt (dot (c.sub p) (c.sub p)) := rfl

/-- The coordinates of the pushed position. -/
theorem push_val (m : Libm F32) (p c : Vec3 F32) :
    (c.add ((normalize m (p.sub c)).smul App.CollisionDistance))
      = ⟨⟨round32 (c.x.val + round32 (round32 (round32 (p.x.val - c.x.val)
            * round32 (1 / (m.sqrt (dot (p.sub c) (p.sub c))).val)) * (3 / 2)))⟩,
         ⟨round32 (c.y.val + round32 (round32 (round32 (p.y.val - c.y.val)
            * round32 (1 / (m.sqrt (dot (p.sub c) (p.sub c))).val)) * (3 / 2)))⟩,
         ⟨round32 (c.z.val + round32 (round32 (round32 (p.z.val - c.z.val)
            * round32 (1 / (m.sqrt (dot (p.sub c) (p.sub c))).val)) * (3 / 2)))⟩⟩ := by
  simp only [Vec3.add, Vec3.smul, normalize, inversesqrt, Vec3.sub, Vec3.mk.injEq]
  refine ⟨?_, ?_, ?_⟩ <;> apply F32.ext_val <;>
    simp only [F32.add_val, F32.mul_val, F32.div_val, F32.sub_val, F32.one_val,
      CollisionDistance_val]

/-- The collision step where the computed distance is below the collision
distance. -/
theorem sphereCollision_near32 (m : Libm F32) (c : Vec3 F32) (t : Transform F32)
    (h : distance m t._position c < App.CollisionDistance) :
    (sphereCollision m c t)._position
      = c.add ((normalize m (t._position.sub c)).smul App.CollisionDistance) := by
  unfold sphereCollision
  simp only [Transform.GetPosition]
  rw [if_pos h]
  rfl

/-- The collision step where the computed distance is not below the
collision distance. -/
theorem sphereCollision_far32 (m : Libm F32) (c : Vec3 F32) (t : Transform F32)
    (h : ¬ distance m t._position c < App.CollisionDistance) :
    sphereCollision m c t = t := by
  unfold sphereCollision
  simp only [Transform.GetPosition]
  rw [if_neg h]

/-- A camera that the collision step pushes is within 2 of the centre in
every coordinate after the rounding of the difference, and the rounded
difference is not too short. -/
theorem near_prep (b1 b2 b3 s : ℚ)
    (hP : 1 / 2 ^ 40 ≤ b1 * b1 + b2 * b2 + b3 * b3)
    (hs0 : 0 ≤ s) (hnear : s < 3 / 2)
    (hs1 : (1 - 1 / 2 ^ 22)
      * round32 (round32 (round32 (round32 (-b1) * round32 (-b1))
          + round32 (round32 (-b2) * round32 (-b2))) + round32 (round32 (-b3) * round32 (-b3)))
      ≤ s * s) :
    round32 b1 * round32 b1 ≤ 4 ∧ round32 b2 * round32 b2 ≤ 4 ∧ round32 b3 * round32 b3 ≤ 4 ∧
    1 / 2 ^ 41 ≤ round32 b1 * round32 b1 + round32 b2 * round32 b2 + round32 b3 * round32 b3 := by
  have hd := (dot_self_bounds (round32 (-b1)) (round32 (-b2)) (round32 (-b3))).2.1
  have l1 := sq_round32_ge (-b1)
  have l2 := sq_round32_ge (-b2)
  have l3 := sq_round32_ge (-b3)
  have u1 := sq_round32_le b1
  have u2 := sq_round32_le b2
  have u3 := sq_round32_le b3
  have g1 := sq_round32_ge b1
  have g2 := sq_round32_ge b2
  have g3 := sq_round32_ge b3
  have n1 := mul_self_nonneg (round32 (-b1))
  have n2 := mul_self_nonneg (round32 (-b2))
  have n3 := mul_self_nonneg (round32 (-b3))
  have m1 := mul_self_nonneg b1
  have m2 := mul_self_nonneg b2
  have m3 := mul_self_nonneg b3
  have hss : s * s < 3 / 2 * (3 / 2) := mul_self_lt_mul_self hs0 hnear
  have e1 : -b1 * -b1 = b1 * b1 := by ring
  have e2 : -b2 * -b2 = b2 * b2 := by ring
  have e3 : -b3 * -b3 = b3 * b3 := by ring
  rw [e1] at l1
  rw [e2] at l2
  rw [e3] at l3
  generalize round32 (round32 (round32 (round32 (-b1) * round32 (-b1))
    + round32 (round32 (-b2) * round32 (-b2))) + round32 (round32 (-b3) * round32 (-b3)))
    = sg at *
  generalize round32 (-b1) * round32 (-b1) = E1 at *
  generalize round32 (-b2) * round32 (-b2) = E2 at *
  generalize round32 (-b3) * round32 (-b3) = E3 at *
  generalize round32 b1 * round32 b1 = D1 at *
  generalize round32 b2 * round32 b2 = D2 at *
  generalize round32 b3 * round32 b3 = D3 at *
  generalize b1 * b1 = B1 at *
  generalize b2 * b2 = B2 at *
  generalize b3 * b3 = B3 at *
  generalize s * s = S at *
  norm_num at *
  refine ⟨?_, ?_, ?_, ?_⟩ <;> linarith

/-- Binary32 values that occur in the instances: each is its own
rounding. -/
theorem round32_samples :
    round32 5 = 5 ∧ round32 7 = 7 ∧ round32 (7 / 2) = 7 / 2 ∧ round32 (-5) = -5 ∧
    round32 (41 / 32) = 41 / 32 ∧ round32 (-(41 / 32)) = -(41 / 32) ∧
    round32 (1681 / 1024) = 1681 / 1024 ∧
    round32 (4194303 / 8388608) = 4194303 / 8388608 := by
  refine ⟨?_, ?_, ?_, ?_, ?_, ?_, ?_, ?_⟩
  · rw [round32_eq 5 2 10485760 (by norm_num) (by norm_num) (by norm_num)
      (by norm_num [abs_lt])]
    norm_num
  · rw [round32_eq 7 2 14680064 (by norm_num) (by norm_num) (by norm_num)
      (by norm_num [abs_lt])]
    norm_num
  · rw [round32_eq (7 / 2) 1 14680064 (by norm_num [abs_of_pos]) (by norm_num [abs_of_pos])
      (by norm_num) (by norm_num [abs_lt])]
    norm_num
  · rw [round32_eq (-5) 2 (-10485760) (by norm_num) (by norm_num) (by norm_num)
      (by norm_num [abs_lt])]
    norm_num
  · rw [round32_eq (41 / 32) 0 10747904 (by norm_num [abs_of_pos])
      (by norm_num [abs_of_pos]) (by norm_num) (by norm_num [abs_lt])]
    norm_num
  · rw [round32_eq (-(41 / 32)) 0 (-10747904) (by norm_num [abs_of_neg])
      (by norm_num [abs_of_neg]) (by norm_num) (by norm_num [abs_lt])]
    norm_num
  · rw [round32_eq (1681 / 1024) 0 13770752 (by norm_num [abs_of_pos])
      (by norm_num [abs_of_pos]) (by norm_num) (by norm_num [abs_lt])]
    norm_num
  · rw [round32_eq (4194303 / 8388608) (-2) 16777212 (by norm_num [abs_of_pos])
      (by norm_num [abs_of_pos]) (by norm_num) (by norm_num [abs_lt])]
    norm_num

/-- The roundings in the push of the camera at (-5, 3.5, 0.28125): the
reciprocal of the length 1.28125, the direction and its product with
1.5. -/
theorem round32_push_samples :
    round32 (32 / 41) = 3273603 / 4194304 ∧
    round32 (134217723 / 134217728) = 16777215 / 16777216 ∧
    round32 (50331645 / 33554432) = 12582911 / 8388608 := by
  refine ⟨?_, ?_, ?_⟩
  · rw [round32_eq (32 / 41) (-1) 13094412 (by norm_num [abs_of_pos])
      (by norm_num [abs_of_pos]) (by norm_num) (by norm_num [abs_lt])]
    norm_num
  · rw [round32_eq (134217723 / 134217728) (-1) 16777215 (by norm_num [abs_of_pos])
      (by norm_num [abs_of_pos]) (by norm_num) (by norm_num [abs_lt])]
    norm_num
  · rw [round32_eq (50331645 / 33554432) 0 12582911 (by norm_num [abs_of_pos])
      (by norm_num [abs_of_pos]) (by norm_num) (by norm_num [abs_lt])]
    norm_num

/-- The constant `App::SpherePos` in binary32. -/
theorem SpherePos_val : (App.SpherePos : Vec3 F32) = ⟨⟨-5⟩, ⟨7 / 2⟩, ⟨-1⟩⟩ := by
  unfold App.SpherePos
  simp only [Vec3.mk.injEq]
  refine ⟨?_, ?_, ?_⟩ <;> apply F32.ext_val
  · show -round32 ((5 : ℕ) : ℚ) = -5
    rw [show ((5 : ℕ) : ℚ) = 5 by norm_num, round32_samples.1]
  · show round32 (round32 ((7 : ℕ) : ℚ) / round32 ((2 : ℕ) : ℚ)) = 7 / 2
    rw [show ((7 : ℕ) : ℚ) = 7 by norm_num, show ((2 : ℕ) : ℚ) = 2 by norm_num,
      round32_samples.2.1, round32_two, round32_samples.2.2.1]
  · rfl

/-- The computed squared distance of the camera at (-5, 3.5, 0.28125) from
the sphere, in either direction of the difference. -/
theorem sampleNear_dot :
    (dot ((App.SpherePos : Vec3 F32).sub sampleNearPosition)
      (App.SpherePos.sub sampleNearPosition)).val = 1681 / 1024 ∧
    (dot (sampleNearPosition.sub App.SpherePos)
      (sampleNearPosition.sub App.SpherePos)).val = 1681 / 1024 := by
  rw [SpherePos_val]
  simp only [dot_self_val, Vec3.sub, F32.sub_val, sampleNearPosition]
  norm_num [round32_zero, round32_samples]

/-- The computed distance of the camera at (-5, 3.5, 0.28125) from the
sphere and the position to which the collision step moves it. -/
theorem sampleNear_step :
    distance sampleLibm32 sampleNearPosition App.SpherePos = ⟨41 / 32⟩ ∧
    distance sampleLibm32 (sampleTransform32 sampleNearPosition)._position App.SpherePos
      < App.CollisionDistance ∧
    (sphereCollision sampleLibm32 App.SpherePos
      (sampleTransform32 sampleNearPosition))._position
      = ⟨⟨-5⟩, ⟨7 / 2⟩, ⟨4194303 / 8388608⟩⟩ := by
  have hd : distance sampleLibm32 sampleNearPosition App.SpherePos = ⟨41 / 32⟩ := by
    rw [distance_val]
    show sampleSqrt32 _ = _
    unfold sampleSqrt32
    rw [if_pos sampleNear_dot.1]
  have hlt : distance sampleLibm32 (sampleTransform32 sampleNearPosition)._position
      App.SpherePos < App.CollisionDistance := by
    show distance sampleLibm32 sampleNearPosition App.SpherePos < App.CollisionDistance
    rw [hd, F32.lt_def, CollisionDistance_val]
    norm_num
  have hs : (sampleLibm32.sqrt (dot (sampleNearPosition.sub App.SpherePos)
      (sampleNearPosition.sub App.SpherePos))).val = 41 / 32 := by
    show (sampleSqrt32 _).val = _
    unfold sampleSqrt32
    rw [if_pos sampleNear_dot.2]
  refine ⟨hd, hlt, ?_⟩
  rw [sphereCollision_near32 _ _ _ hlt]
  show (App.SpherePos : Vec3 F32).add
    ((normalize sampleLibm32 (sampleNearPosition.sub App.SpherePos)).smul
      App.CollisionDistance) = _
  rw [push_val, hs, SpherePos_val]
  simp only [sampleNearPosition]
  norm_num [round32_zero, round32_samples, round32_push_samples]

/-- C14, as stated, fails in binary32: the camera at (-5, 3.5, 0.28125), at
the distance 1.28125 from the sphere at `App::SpherePos` = (-5, 3.5, -1),
is moved to (-5, 3.5, 0.49999988), which is at the distance
1.5 - 2^-23 from the sphere, below `CollisionDistance`.  The direction
`normalize(p - c)` is computed as (0, 0, 1 - 2^-24): the reciprocal of the
length rounds to 0.78048778 and its product with 1.28125 rounds below 1. -/
theorem C14_counterexample :
    distance sampleLibm32 sampleNearPosition App.SpherePos = ⟨41 / 32⟩ ∧
    (sphereCollision sampleLibm32 App.SpherePos
      (sampleTransform32 sampleNearPosition))._position
      = ⟨⟨-5⟩, ⟨7 / 2⟩, ⟨4194303 / 8388608⟩⟩ ∧
    sqDist (sphereCollision sampleLibm32 App.SpherePos
      (sampleTransform32 sampleNearPosition))._position App.SpherePos
      = (3 / 2 - 1 / 2 ^ 23) ^ 2 ∧
    sqDist (sphereCollision sampleLibm32 App.SpherePos
      (sampleTransform32 sampleNearPosition))._position App.SpherePos
      < (App.CollisionDistance : F32).val ^ 2 := by
  obtain ⟨hd, _, hp⟩ := sampleNear_step
  refine ⟨hd, hp, ?_, ?_⟩
  · rw [hp, SpherePos_val]
    norm_num [sqDist]
  · rw [hp, SpherePos_val, CollisionDistance_val]
    norm_num [sqDist]

/-- C14, amended.  The sphere-collision step of `ApplyLightAndCamera` in
binary32, for a sphere centre `c` with coordinates of magnitude at most 16,
a camera position `p` at a distance of at least 2^-20 from `c`, and `sqrt`
accurate at the two squared distances it is called with: a position whose
computed distance from `c` is not below `CollisionDistance` is left
unchanged, a position whose computed distance is below it is moved to
`c + normalize(p - c) * CollisionDistance`, every operation rounded; in
both cases the camera ends at a distance of at least
`CollisionDistance - 2^-16` from `c`.  The distance can be below
`CollisionDistance`, and the new position is the radial projection only up
to the rounding. -/
theorem C14_sphere_collision (m : Libm F32) (c : Vec3 F32) (t : Transform F32)
    (hc : |c.x.val| ≤ 16 ∧ |c.y.val| ≤ 16 ∧ |c.z.val| ≤ 16)
    (hp : 1 / 2 ^ 40 ≤ sqDist t._position c)
    (hs1 : SqrtNearAt m (dot (c.sub t._position) (c.sub t._position)))
    (hs2 : SqrtNearAt m (dot (t._position.sub c) (t._position.sub c))) :
    (¬ distance m t._position c < App.CollisionDistance → sphereCollision m c t = t) ∧
    (distance m t._position c < App.CollisionDistance →
      (sphereCollision m c t)._position
        = c.add ((normalize m (t._position.sub c)).smul App.CollisionDistance)) ∧
    (3 / 2 - 1 / 2 ^ 16) ^ 2 ≤ sqDist (sphereCollision m c t)._position c := by
  refine ⟨sphereCollision_far32 m c t, sphereCollision_near32 m c t, ?_⟩
  obtain ⟨hs10, hs11, hs12⟩ := hs1
  obtain ⟨hs20, hs21, hs22⟩ := hs2
  rw [dot_self_val] at hs11 hs12 hs21 hs22
  simp only [Vec3.sub, F32.sub_val] at hs11 hs12 hs21 hs22
  by_cases h : distance m t._position c < App.CollisionDistance
  · rw [sphereCollision_near32 m c t h, push_val]
    rw [F32.lt_def, CollisionDistance_val, distance_val] at h
    have e1 : c.x.val - t._position.x.val = -(t._position.x.val - c.x.val) := by ring
    have e2 : c.y.val - t._position.y.val = -(t._position.y.val - c.y.val) := by ring
    have e3 : c.z.val - t._position.z.val = -(t._position.z.val - c.z.val) := by ring
    rw [e1, e2, e3] at hs11
    have hP : 1 / 2 ^ 40 ≤ (t._position.x.val - c.x.val) * (t._position.x.val - c.x.val)
        + (t._position.y.val - c.y.val) * (t._position.y.val - c.y.val)
        + (t._position.z.val - c.z.val) * (t._position.z.val - c.z.val) := by
      unfold sqDist at hp
      linarith [hp]
    obtain ⟨q1, q2, q3, hD⟩ := near_prep _ _ _ _ hP hs10 h hs11
    have := near_bound c.x.val c.y.val c.z.val _ _ _ _ hc.1 hc.2.1 hc.2.2 q1 q2 q3 hD
      hs20 hs21 hs22
    simpa [sqDist] using this
  · rw [sphereCollision_far32 m c t h]
    rw [F32.lt_def, CollisionDistance_val, distance_val, not_lt] at h
    have := far_bound _ _ _ _ hs12 h
    unfold sqDist
    linarith [this]

/-- C14 amended, instance: the camera at (-5, 3.5, 0.28125) with the sphere
at `App::SpherePos`; it ends at the distance 1.5 - 2^-23 from the
sphere. -/
theorem C14_sphere_collision_witness :
    (|(App.SpherePos : Vec3 F32).x.val| ≤ 16 ∧ |(App.SpherePos : Vec3 F32).y.val| ≤ 16 ∧
      |(App.SpherePos : Vec3 F32).z.val| ≤ 16) ∧
    1 / 2 ^ 40 ≤ sqDist (sampleTransform32 sampleNearPosition)._position App.SpherePos ∧
    SqrtNearAt sampleLibm32 (dot
      ((App.SpherePos : Vec3 F32).sub (sampleTransform32 sampleNearPosition)._position)
      (App.SpherePos.sub (sampleTransform32 sampleNearPosition)._position)) ∧
    SqrtNearAt sampleLibm32 (dot
      ((sampleTransform32 sampleNearPosition)._position.sub App.SpherePos)
      ((sampleTransform32 sampleNearPosition)._position.sub App.SpherePos)) ∧
    (3 / 2 - 1 / 2 ^ 16) ^ 2 ≤ sqDist (sphereCollision sampleLibm32 App.SpherePos
      (sampleTransform32 sampleNearPosition))._position App.SpherePos := by
  have hc : |(App.SpherePos : Vec3 F32).x.val| ≤ 16 ∧ |(App.SpherePos : Vec3 F32).y.val| ≤ 16 ∧
      |(App.SpherePos : Vec3 F32).z.val| ≤ 16 := by
    rw [SpherePos_val]
    norm_num [abs_le]
  have hp : 1 / 2 ^ 40
      ≤ sqDist (sampleTransform32 sampleNearPosition)._position App.SpherePos := by
    rw [SpherePos_val]
    norm_num [sqDist, sampleTransform32, sampleNearPosition]
  have hs1 : SqrtNearAt sampleLibm32 (dot
      ((App.SpherePos : Vec3 F32).sub (sampleTransform32 sampleNearPosition)._position)
      (App.SpherePos.sub (sampleTransform32 sampleNearPosition)._position)) := by
    show SqrtNearAt sampleLibm32 (dot ((App.SpherePos : Vec3 F32).sub sampleNearPosition)
      (App.SpherePos.sub sampleNearPosition))
    unfold SqrtNearAt
    show 0 ≤ (sampleSqrt32 _).val ∧ _ ≤ (sampleSqrt32 _).val * (sampleSqrt32 _).val ∧
      (sampleSqrt32 _).val * (sampleSqrt32 _).val ≤ _
    unfold sampleSqrt32
    rw [if_pos sampleNear_dot.1, sampleNear_dot.1]
    norm_num
  have hs2 : SqrtNearAt sampleLibm32 (dot
      ((sampleTransform32 sampleNearPosition)._position.sub App.SpherePos)
      ((sampleTransform32 sampleNearPosition)._position.sub App.SpherePos)) := by
    show SqrtNearAt sampleLibm32 (dot (sampleNearPosition.sub App.SpherePos)
      (sampleNearPosition.sub App.SpherePos))
    unfold SqrtNearAt
    show 0 ≤ (sampleSqrt32 _).val ∧ _ ≤ (sampleSqrt32 _).val * (sampleSqrt32 _).val ∧
      (sampleSqrt32 _).val * (sampleSqrt32 _).val ≤ _
    unfold sampleSqrt32
    rw [if_pos sampleNear_dot.2, sampleNear_dot.2]
    norm_num
  exact ⟨hc, hp, hs1, hs2,
    (C14_sphere_collision sampleLibm32 App.SpherePos (sampleTransform32 sampleNearPosition)
      hc hp hs1 hs2).2.2⟩

/-! ## C13: the camera and the bounds -/

section Bounds

variable {α : Type} [LinearOrderedField α]

theorem Vec3.clamp_within (v lo hi : Vec3 α) (hx : lo.x ≤ hi.x) (hy : lo.y ≤ hi.y)
    (hz : lo.z ≤ hi.z) : Vec3.Within lo hi (Vec3.clamp v lo hi) := by
  unfold Vec3.Within Vec3.clamp
  exact ⟨(clamp_mem _ _ _ hx).1, (clamp_mem _ _ _ hx).2, (clamp_mem _ _ _ hy).1,
    (clamp_mem _ _ _ hy).2, (clamp_mem _ _ _ hz).1, (clamp_mem _ _ _ hz).2⟩

/-- The bounds clamp leaves the position within the bounds. -/
theorem boundsClamp_within (flyMode : Bool) (t : Transform α) :
    Vec3.Within App.minBounds App.maxBounds (boundsClamp flyMode t)._position := by
  unfold boundsClamp
  simp only [Transform.SetPosition]
  exact Vec3.clamp_within _ _ _ (by norm_num [App.minBounds, App.maxBounds])
    (by norm_num [App.minBounds, App.maxBounds]) (by norm_num [App.minBounds, App.maxBounds])

theorem boundsClamp_parent (flyMode : Bool) (t : Transform α) :
    (boundsClamp flyMode t)._parent = t._parent := by
  unfold boundsClamp
  cases flyMode <;> rfl

theorem sphereCollision_parent (m : Libm α) (c : Vec3 α) (t : Transform α) :
    (sphereCollision m c t)._parent = t._parent := by
  unfold sphereCollision
  simp only [Transform.GetPosition]
  split <;> rfl

/-- A component of a vector divided by a positive number that is at least
half its length lies between -2 and 2. -/
theorem rough_component_bound (s a b c : α) (hs : 0 < s)
    (h : a * a + b * b + c * c ≤ 4 * (s * s)) :
    -2 ≤ a * (1 / s) ∧ a * (1 / s) ≤ 2 := by
  have h1 : a * a ≤ 2 * s * (2 * s) := by nlinarith [mul_self_nonneg b, mul_self_nonneg c]
  have h3 : -(2 * s) ≤ a ∧ a ≤ 2 * s := by
    constructor
    · by_contra hc
      push_neg at hc
      nlinarith
    · by_contra hc
      push_neg at hc
      nlinarith
  rw [mul_one_div]
  exact ⟨by rw [le_div_iff₀ hs]; linarith [h3.1], by rw [div_le_iff₀ hs]; linarith [h3.2]⟩

/-- The translation part of the local matrix is the position. -/
theorem localMatrix_translation (t : Transform α) :
    t.localMatrix.translation = t._position := by
  simp only [Transform.localMatrix, Mat4.mul_def, Mat4.mul, Mat4.mulCol, translate, scale,
    toMat4, Mat4.identity, Vec4.add, Vec4.smul, Vec4.toVec3, Mat4.translation]
  cases t with
  | mk yaw pitch lca idx pos start rot scl par =>
    cases pos
    simp

/-- The world position of a transform without parent is its position. -/
theorem worldPosition_root (mem : Store α) (fuel : Nat) (t : Transform α)
    (h : t._parent = none) : t.worldPosition mem fuel = some t._position := by
  unfold Transform.worldPosition Transform.worldMatrix
  rw [h]
  simp only [Option.map_some', mulVec_unit_w, localMatrix_translation]

/-- The sphere collision keeps a position within the bounds when the ball
of twice the collision distance around the centre lies within them and
`sqrt` returns a positive number that is at least half the distance. -/
theorem sphereCollision_within (m : Libm α) (c : Vec3 α) (t : Transform α)
    (hin : SphereInBounds c)
    (hw : Vec3.Within App.minBounds App.maxBounds t._position)
    (hs : SqrtRoughAt m (dot (t._position.sub c) (t._position.sub c))) :
    Vec3.Within App.minBounds App.maxBounds (sphereCollision m c t)._position := by
  rcases lt_or_le (distance m t._position c) App.CollisionDistance with h | h
  · rw [sphereCollision_position m c t h]
    have hpos := hs.1
    have hsq := hs.2
    unfold length
    generalize m.sqrt (dot (t._position.sub c) (t._position.sub c)) = s at hpos hsq
    simp only [dot, Vec3.sub] at hsq
    have bx := rough_component_bound s (t._position.x - c.x) (t._position.y - c.y)
      (t._position.z - c.z) hpos hsq
    have by1 := rough_component_bound s (t._position.y - c.y) (t._position.x - c.x)
      (t._position.z - c.z) hpos (by linarith [hsq])
    have bz := rough_component_bound s (t._position.z - c.z) (t._position.x - c.x)
      (t._position.y - c.y) hpos (by linarith [hsq])
    have hD : (0 : α) < App.CollisionDistance := by unfold App.CollisionDistance; norm_num
    have ex1 := mul_le_mul_of_nonneg_right bx.1 hD.le
    have ex2 := mul_le_mul_of_nonneg_right bx.2 hD.le
    have ey1 := mul_le_mul_of_nonneg_right by1.1 hD.le
    have ey2 := mul_le_mul_of_nonneg_right by1.2 hD.le
    have ez1 := mul_le_mul_of_nonneg_right bz.1 hD.le
    have ez2 := mul_le_mul_of_nonneg_right bz.2 hD.le
    unfold SphereInBounds Vec3.Within at hin
    unfold Vec3.Within
    simp only [Vec3.add, Vec3.smul, Vec3.sub]
    obtain ⟨h1, h2, h3, h4, h5, h6⟩ := hin
    simp only at h1 h2 h3 h4 h5 h6
    refine ⟨?_, ?_, ?_, ?_, ?_, ?_⟩ <;> linarith
  · rw [sphereCollision_far m c t h]; exact hw

/-- The last column of the local matrix is the position with the entry 1. -/
theorem localMatrix_c3 (t : Transform α) :
    t.localMatrix.c3 = ⟨t._position.x, t._position.y, t._position.z, 1⟩ := by
  simp only [Transform.localMatrix, Mat4.mul_def, Mat4.mul, Mat4.mulCol, translate, scale,
    toMat4, Mat4.identity, Vec4.add, Vec4.smul]
  simp

/-- The world position of a transform whose parent has no parent: the
position of the parent plus the rotated and scaled position of the
child. -/
theorem worldPosition_child (mem : Store α) (fuel : Nat) (t P : Transform α) (a : Nat)
    (hp : t._parent = some a) (hm : mem[a]? = some P) (hP : P._parent = none) :
    t.worldPosition mem (fuel + 1) = some
      ⟨P._position.x + P._localScale * ((toMat4 P._rotation).c0.x * t._position.x
          + (toMat4 P._rotation).c1.x * t._position.y
          + (toMat4 P._rotation).c2.x * t._position.z),
       P._position.y + P._localScale * ((toMat4 P._rotation).c0.y * t._position.x
          + (toMat4 P._rotation).c1.y * t._position.y
          + (toMat4 P._rotation).c2.y * t._position.z),
       P._position.z + P._localScale * ((toMat4 P._rotation).c0.z * t._position.x
          + (toMat4 P._rotation).c1.z * t._position.y
          + (toMat4 P._rotation).c2.z * t._position.z)⟩ := by
  unfold Transform.worldPosition Transform.worldMatrix
  rw [hp]
  simp only [GetMatrix, hm, hP, Option.map_some', mulVec_unit_w, Mat4.translation]
  have h3 : (P.localMatrix * t.localMatrix).c3 = P.localMatrix.mulCol t.localMatrix.c3 := rfl
  rw [h3, localMatrix_c3]
  simp only [Transform.localMatrix, Mat4.mul_def, Mat4.mul, Mat4.mulCol, translate, scale,
    toMat4, Mat4.identity, Vec4.add, Vec4.smul, Vec4.toVec3]
  congr 1
  simp only [Vec3.mk.injEq]
  refine ⟨?_, ?_, ?_⟩ <;> ring

/-- A product of two numbers of magnitude at most `5 / 4`. -/
theorem prod_bound (a b : α) (ha : |a| ≤ 5 / 4) (hb : |b| ≤ 5 / 4) : |a * b| ≤ 25 / 16 := by
  rw [abs_mul]
  calc |a| * |b| ≤ 5 / 4 * (5 / 4) := mul_le_mul ha hb (abs_nonneg _) (by norm_num)
    _ = 25 / 16 := by norm_num

/-- A diagonal entry of the rotation matrix. -/
theorem diag_bound (a b : α) (ha : |a| ≤ 5 / 4) (hb : |b| ≤ 5 / 4) :
    |1 - (1 + 1) * (a * a + b * b)| ≤ 25 / 4 := by
  have h1 := (abs_le.mp (prod_bound a a ha ha)).2
  have h2 := (abs_le.mp (prod_bound b b hb hb)).2
  have h3 := mul_self_nonneg a
  have h4 := mul_self_nonneg b
  rw [abs_le]
  constructor <;> linarith

/-- An entry of the rotation matrix off the diagonal, with a sum. -/
theorem off_bound_add (a b : α) (ha : |a| ≤ 25 / 16) (hb : |b| ≤ 25 / 16) :
    |(1 + 1) * (a + b)| ≤ 25 / 4 := by
  rw [abs_le] at *
  constructor <;> linarith [ha.1, ha.2, hb.1, hb.2]

/-- An entry of the rotation matrix off the diagonal, with a difference. -/
theorem off_bound_sub (a b : α) (ha : |a| ≤ 25 / 16) (hb : |b| ≤ 25 / 16) :
    |(1 + 1) * (a - b)| ≤ 25 / 4 := by
  rw [abs_le] at *
  constructor <;> linarith [ha.1, ha.2, hb.1, hb.2]

/-- The entries of the rotation matrix of a bounded quaternion have a
magnitude of at most `25 / 4`. -/
theorem toMat4_entry_bound (q : Quat α) (hq : q.Bounded) :
    (|(toMat4 q).c0.x| ≤ 25 / 4 ∧ |(toMat4 q).c1.x| ≤ 25 / 4 ∧ |(toMat4 q).c2.x| ≤ 25 / 4) ∧
    (|(toMat4 q).c0.y| ≤ 25 / 4 ∧ |(toMat4 q).c1.y| ≤ 25 / 4 ∧ |(toMat4 q).c2.y| ≤ 25 / 4) ∧
    (|(toMat4 q).c0.z| ≤ 25 / 4 ∧ |(toMat4 q).c1.z| ≤ 25 / 4 ∧ |(toMat4 q).c2.z| ≤ 25 / 4) := by
  obtain ⟨hw, hx, hy, hz⟩ := hq
  simp only [toMat4]
  exact ⟨⟨diag_bound _ _ hy hz,
      off_bound_sub _ _ (prod_bound _ _ hx hy) (prod_bound _ _ hw hz),
      off_bound_add _ _ (prod_bound _ _ hx hz) (prod_bound _ _ hw hy)⟩,
    ⟨off_bound_add _ _ (prod_bound _ _ hx hy) (prod_bound _ _ hw hz),
      diag_bound _ _ hx hz,
      off_bound_sub _ _ (prod_bound _ _ hy hz) (prod_bound _ _ hw hx)⟩,
    ⟨off_bound_sub _ _ (prod_bound _ _ hx hz) (prod_bound _ _ hw hy),
      off_bound_add _ _ (prod_bound _ _ hy hz) (prod_bound _ _ hw hx),
      diag_bound _ _ hx hy⟩⟩

/-- A sum of three products of a bounded matrix entry with a bounded
coordinate. -/
theorem row_bound (r0 r1 r2 x y z : α) (h0 : |r0| ≤ 25 / 4) (h1 : |r1| ≤ 25 / 4)
    (h2 : |r2| ≤ 25 / 4) (hx : |x| ≤ 15) (hy : |y| ≤ 15) (hz : |z| ≤ 15) :
    |r0 * x + r1 * y + r2 * z| ≤ 1125 / 4 := by
  have a0 : |r0 * x| ≤ 25 / 4 * 15 := by
    rw [abs_mul]; exact mul_le_mul h0 hx (abs_nonneg _) (by norm_num)
  have a1 : |r1 * y| ≤ 25 / 4 * 15 := by
    rw [abs_mul]; exact mul_le_mul h1 hy (abs_nonneg _) (by norm_num)
  have a2 : |r2 * z| ≤ 25 / 4 * 15 := by
    rw [abs_mul]; exact mul_le_mul h2 hz (abs_nonneg _) (by norm_num)
  have b1 := abs_add (r0 * x + r1 * y) (r2 * z)
  have b2 := abs_add (r0 * x) (r1 * y)
  linarith

/-- The transform `Transform(App::CatPos, App::CatScale)` with which the cat
is constructed is a state of the cat, for a bounded `glm::quat()`. -/
theorem ofScale_isCat (q0 : Quat α) (hq : q0.Bounded) :
    IsCatTransform (Transform.ofScale q0 (App.CatPos : Vec3 α) App.CatScale) := by
  refine ⟨rfl, rfl, ?_, ?_, ?_, hq⟩ <;> simp [Transform.ofScale]

/-- The step of the cat in `RenderCat` keeps its transform among the states
of the cat, for `cos` and `sin` of magnitude at most 1 and a bounded
result of `glm::quatLookAt`. -/
theorem catStep_isCat (m : Libm α) (cos sin : α → α) (isMoving : Bool) (t : Transform α)
    (ht : IsCatTransform t) (hst : t._startPosition = App.CatPos)
    (hc : ∀ x, |cos x| ≤ 1) (hsn : ∀ x, |sin x| ≤ 1)
    (hq : ∀ d u, (quatLookAt m d u).Bounded) :
    IsCatTransform (catStep m cos sin isMoving t) ∧
    (catStep m cos sin isMoving t)._startPosition = App.CatPos := by
  unfold catStep
  cases isMoving
  · exact ⟨ht, hst⟩
  · simp only [if_true, UpdateCirclePosition, Transform.SetPosition, Vec3.add]
    refine ⟨⟨ht.1, ht.2.1, ?_, ?_, ?_, hq _ _⟩, hst⟩
    · rw [hst]
      have h1 := abs_le.mp (hc (t.lastCircleAngle - 1 / 100))
      simp only [add_sub_cancel_left]
      rw [abs_le]
      constructor <;> linarith [h1.1, h1.2]
    · rw [hst]
      simp
    · rw [hst]
      have h1 := abs_le.mp (hsn (t.lastCircleAngle - 1 / 100))
      simp only [add_sub_cancel_left]
      rw [abs_le]
      constructor <;> linarith [h1.1, h1.2]

/-- A position within the bounds, seen from the cat: the world position of
a child of the cat's transform lies within the bounds. -/
theorem catChild_within (P : Transform α) (hP : IsCatTransform P) (p : Vec3 α)
    (hw : Vec3.Within App.minBounds App.maxBounds p) :
    Vec3.Within App.minBounds App.maxBounds
      (⟨P._position.x + P._localScale * ((toMat4 P._rotation).c0.x * p.x
          + (toMat4 P._rotation).c1.x * p.y + (toMat4 P._rotation).c2.x * p.z),
       P._position.y + P._localScale * ((toMat4 P._rotation).c0.y * p.x
          + (toMat4 P._rotation).c1.y * p.y + (toMat4 P._rotation).c2.y * p.z),
       P._position.z + P._localScale * ((toMat4 P._rotation).c0.z * p.x
          + (toMat4 P._rotation).c1.z * p.y + (toMat4 P._rotation).c2.z * p.z)⟩ : Vec3 α) := by
  obtain ⟨_, hs, hx, hy, hz, hq⟩ := hP
  obtain ⟨bx, by1, bz⟩ := toMat4_entry_bound _ hq
  simp only [Vec3.Within, App.minBounds, App.maxBounds] at hw
  obtain ⟨w1, w2, w3, w4, w5, w6⟩ := hw
  have ax : |p.x| ≤ 15 := abs_le.mpr ⟨w1, w2⟩
  have ay : |p.y| ≤ 15 := abs_le.mpr ⟨by linarith, w4⟩
  have az : |p.z| ≤ 15 := abs_le.mpr ⟨w5, w6⟩
  have rx := abs_le.mp (row_bound _ _ _ _ _ _ bx.1 bx.2.1 bx.2.2 ax ay az)
  have ry := abs_le.mp (row_bound _ _ _ _ _ _ by1.1 by1.2.1 by1.2.2 ax ay az)
  have rz := abs_le.mp (row_bound _ _ _ _ _ _ bz.1 bz.2.1 bz.2.2 ax ay az)
  rw [abs_le] at hx hy hz
  simp only [App.CatPos] at hx hy hz
  rw [hs]
  generalize (toMat4 P._rotation).c0.x * p.x + (toMat4 P._rotation).c1.x * p.y
    + (toMat4 P._rotation).c2.x * p.z = X at rx ⊢
  generalize (toMat4 P._rotation).c0.y * p.x + (toMat4 P._rotation).c1.y * p.y
    + (toMat4 P._rotation).c2.y * p.z = Y at ry ⊢
  generalize (toMat4 P._rotation).c0.z * p.x + (toMat4 P._rotation).c1.z * p.y
    + (toMat4 P._rotation).c2.z * p.z = Z at rz ⊢
  simp only [Vec3.Within, App.minBounds, App.maxBounds, App.CatScale]
  refine ⟨?_, ?_, ?_, ?_, ?_, ?_⟩
  · linarith [hx.1, rx.1]
  · linarith [hx.2, rx.2]
  · linarith [hy.1, ry.1]
  · linarith [hy.2, ry.2]
  · linarith [hz.1, rz.1]
  · linarith [hz.2, rz.2]

/-- C13. At the end of the camera steps of `ApplyLightAndCamera` (descent,
clamp into the bounds, sphere collision) the position of the linked camera
transform lies componentwise within `[minBounds, maxBounds]`, and so does
its world position (`GetWorldPosition`), for a camera transform without
parent and for one whose parent is the transform of the cat, the only
parent that the application links (`SetStaticParent`).  The sphere object
is where the ball of twice the collision distance around it lies within
the bounds (as it does at `App::SpherePos`), and `sqrt` returns, at the
squared distance of the clamped camera position from the sphere, a positive
number that is at least half the distance. -/
theorem C13_camera_within_bounds (m : Libm α) (v : View α) (mem : Store α) (fuel : Nat)
    (hin : SphereInBounds v.sphereObj._position)
    (hs : SqrtRoughAt m (dot
      ((boundsClamp v.flyMode v.cameraObject._transform)._position.sub v.sphereObj._position)
      ((boundsClamp v.flyMode v.cameraObject._transform)._position.sub
        v.sphereObj._position)))
    (hpar : v.cameraObject._transform._parent = none ∨
      ∃ a P, v.cameraObject._transform._parent = some a ∧ mem[a]? = some P ∧
        IsCatTransform P) :
    Vec3.Within App.minBounds App.maxBounds
      (ApplyCamera m v).cameraObject._transform.GetPosition ∧
    ∃ p, (ApplyCamera m v).cameraObject._transform.worldPosition mem (fuel + 1) = some p ∧
      Vec3.Within App.minBounds App.maxBounds p := by
  have hw : Vec3.Within App.minBounds App.maxBounds
      (ApplyCamera m v).cameraObject._transform.GetPosition :=
    sphereCollision_within m _ _ hin (boundsClamp_within _ _) hs
  have hparent : (ApplyCamera m v).cameraObject._transform._parent
      = v.cameraObject._transform._parent := by
    show (sphereCollision m _ (boundsClamp _ _))._parent = _
    rw [sphereCollision_parent, boundsClamp_parent]
  refine ⟨hw, ?_⟩
  rcases hpar with hp | ⟨a, P, hp, hm, hP⟩
  · exact ⟨_, worldPosition_root mem (fuel + 1) _ (by rw [hparent, hp]), hw⟩
  · exact ⟨_, worldPosition_child mem fuel _ P a (by rw [hparent, hp]) hm hP.1,
      catChild_within P hP _ hw⟩

end Bounds

/-- C13 witness: the camera transform at (-5, 7/2, 0) in fly mode, whose
parent is the transform of the cat at `App::CatPos`, is one unit from the
sphere at (-5, 7/2, -1) and is pushed to (-5, 7/2, 1/2); its world position
is then (21/20, 847/200, 121/200). -/
theorem C13_camera_within_bounds_witness :
    SphereInBounds sampleParentedView.sphereObj._position ∧
    SqrtRoughAt sampleLibm (dot
      ((boundsClamp sampleParentedView.flyMode
        sampleParentedView.cameraObject._transform)._position.sub
        sampleParentedView.sphereObj._position)
      ((boundsClamp sampleParentedView.flyMode
        sampleParentedView.cameraObject._transform)._position.sub
        sampleParentedView.sphereObj._position)) ∧
    (sampleParentedView.cameraObject._transform._parent = some 0 ∧
      sampleCatStore[0]? = some (Transform.ofScale ⟨1, 0, 0, 0⟩ App.CatPos App.CatScale) ∧
      IsCatTransform (Transform.ofScale ⟨1, 0, 0, 0⟩ (App.CatPos : Vec3 ℚ) App.CatScale)) ∧
    (ApplyCamera sampleLibm sampleParentedView).cameraObject._transform.GetPosition
      = ⟨-5, 7 / 2, 1 / 2⟩ ∧
    (ApplyCamera sampleLibm sampleParentedView).cameraObject._transform.worldPosition
      sampleCatStore 1 = some ⟨21 / 20, 847 / 200, 121 / 200⟩ ∧
    ∃ p, (ApplyCamera sampleLibm sampleParentedView).cameraObject._transform.worldPosition
        sampleCatStore 1 = some p ∧
      Vec3.Within App.minBounds App.maxBounds p := by
  have hcat : IsCatTransform (Transform.ofScale ⟨1, 0, 0, 0⟩ (App.CatPos : Vec3 ℚ)
      App.CatScale) :=
    ofScale_isCat _ (by norm_num [Quat.Bounded])
  have hin : SphereInBounds sampleParentedView.sphereObj._position := by
    norm_num [SphereInBounds, Vec3.Within, sampleParentedView, sampleView,
      sampleTransform, App.SpherePos, App.minBounds, App.maxBounds, App.CollisionDistance]
  have hs : SqrtRoughAt sampleLibm (dot
      ((boundsClamp sampleParentedView.flyMode
        sampleParentedView.cameraObject._transform)._position.sub
        sampleParentedView.sphereObj._position)
      ((boundsClamp sampleParentedView.flyMode
        sampleParentedView.cameraObject._transform)._position.sub
        sampleParentedView.sphereObj._position)) := by
    norm_num [SqrtRoughAt, sampleParentedView, sampleView, sampleTransform, boundsClamp,
      Vec3.clamp, clamp, Transform.GetPosition, Transform.SetPosition, App.minBounds,
      App.maxBounds, App.SpherePos, dot, Vec3.sub, sampleLibm, sampleSqrt]
  have hpos : (ApplyCamera sampleLibm sampleParentedView).cameraObject._transform.GetPosition
      = ⟨-5, 7 / 2, 1 / 2⟩ := by
    norm_num [ApplyCamera, sampleParentedView, sampleView, sampleTransform,
      boundsClamp, sphereCollision, Transform.GetPosition, Transform.SetPosition, Vec3.clamp,
      clamp, App.minBounds, App.maxBounds, App.SpherePos, App.CollisionDistance, distance,
      length, normalize, inversesqrt, dot, Vec3.sub, Vec3.add, Vec3.smul, sampleLibm,
      sampleSqrt]
  refine ⟨hin, hs, ⟨rfl, rfl, hcat⟩, hpos, ?_, ?_⟩
  · norm_num [ApplyCamera, sampleParentedView, sampleView, sampleTransform, sampleCatStore,
      Transform.ofScale, App.CatPos, App.CatScale,
      boundsClamp, sphereCollision, Transform.worldPosition, Transform.worldMatrix, GetMatrix,
      Transform.GetPosition, Transform.SetPosition, Vec3.clamp, clamp, App.minBounds,
      App.maxBounds, App.SpherePos, App.CollisionDistance, distance, length, normalize,
      inversesqrt, dot, Vec3.sub, Vec3.add, Vec3.smul,
      sampleLibm, sampleSqrt, Transform.localMatrix, Mat4.mul_def, Mat4.mul, Mat4.mulCol,
      Mat4.mulVec, translate, scale, toMat4, Mat4.identity, Vec4.add, Vec4.smul, Vec4.toVec3]
  · exact (C13_camera_within_bounds sampleLibm sampleParentedView sampleCatStore 0 hin hs
      (Or.inr ⟨0, _, rfl, rfl, hcat⟩)).2

/-! ## C18: `SetForward` -/

section Forward

variable {α : Type} [LinearOrderedField α]

/-- A quaternion without `x` and `z` part (a turn about the vertical axis,
the identity included) leaves the vector (0, 1, 0) where it is. -/
theorem rotate_up_of_vertical (q : Quat α) (hx : q.x = 0) (hz : q.z = 0) :
    q.rotate ⟨0, 1, 0⟩ = ⟨0, 1, 0⟩ := by
  simp [Quat.rotate, cross, Vec3.add, Vec3.smul, hx, hz]

/-- The up vector of a transform whose rotation is a turn about the vertical
axis is (0, 1, 0), when `sqrt 1 = 1`. -/
theorem GetUp_of_vertical (m : Libm α) (t : Transform α) (h1 : m.sqrt 1 = 1)
    (hx : t._rotation.x = 0) (hz : t._rotation.z = 0) :
    t.GetUp m = ⟨0, 1, 0⟩ := by
  unfold Transform.GetUp
  rw [rotate_up_of_vertical _ hx hz]
  simp [normalize, inversesqrt, dot, Vec3.smul, h1]

/-- C18 (amended): `SetForward(direction)` sets the rotation to the
normalised look-at rotation built from `direction` and the up vector of the
transform before the call, `GetUp() = normalize(rotation * (0, 1, 0))`, and
changes nothing else; when the rotation before the call has no `x` and `z`
part (a turn about the vertical axis, the identity included) and
`sqrt 1 = 1`, that up vector is the world-up axis (0, 1, 0). -/
theorem C18_SetForward_own_up (m : Libm α) (t : Transform α) (direction : Vec3 α) :
    t.SetForward m direction =
      { t with
        _rotation :=
          (Quat.normalize m
            (quatLookAt m direction (normalize m (t._rotation.rotate ⟨0, 1, 0⟩)))) } ∧
    (m.sqrt 1 = 1 → t._rotation.x = 0 → t._rotation.z = 0 →
      (t.SetForward m direction)._rotation =
        Quat.normalize m (quatLookAt m direction ⟨0, 1, 0⟩)) := by
  refine ⟨rfl, ?_⟩
  intro h1 hx hz
  unfold Transform.SetForward
  simp only
  rw [GetUp_of_vertical m t h1 hx hz]

end Forward

/-- C18 (as stated, refuted): for a transform turned upside down (rotation
of half a turn about the x axis) the up vector is (0, -1, 0), and
`SetForward((0, 0, -1))` gives the rotation (w, x, y, z) = (0, 0, 0, 1), a
half turn about the view axis, whereas the look-at rotation built from the
same direction and the world-up axis is the identity (1, 0, 0, 0). -/
theorem C18_counterexample :
    (sampleTransform ⟨0, 0, 0⟩ ⟨0, 1, 0, 0⟩ none).GetUp sampleLibm = ⟨0, -1, 0⟩ ∧
    ((sampleTransform ⟨0, 0, 0⟩ ⟨0, 1, 0, 0⟩ none).SetForward sampleLibm ⟨0, 0, -1⟩)._rotation
      = ⟨0, 0, 0, 1⟩ ∧
    Quat.normalize sampleLibm (quatLookAt sampleLibm ⟨0, 0, -1⟩ ⟨0, 1, 0⟩)
      = (⟨1, 0, 0, 0⟩ : Quat ℚ) := by
  refine ⟨?_, ?_, ?_⟩
  · norm_num [Transform.GetUp, sampleTransform, Quat.rotate, cross, Vec3.add, Vec3.smul,
      normalize, inversesqrt, dot, sampleLibm, sampleSqrt]
  · norm_num [Transform.SetForward, Transform.GetUp, sampleTransform, Quat.rotate, cross,
      Vec3.add, Vec3.smul, Vec3.neg, normalize, inversesqrt, dot, sampleLibm, sampleSqrt,
      quatLookAt, quat_cast, Quat.normalize]
  · norm_num [Vec3.smul, Vec3.neg, cross, inversesqrt, dot, sampleLibm, sampleSqrt,
      quatLookAt, quat_cast, Quat.normalize]

/-- C18 witness: with the identity rotation before the call,
`SetForward((0, 0, -1))` gives the look-at rotation against world-up, the
identity. -/
theorem C18_SetForward_own_up_witness :
    sampleLibm.sqrt 1 = 1 ∧
    ((sampleTransform ⟨0, 0, 0⟩ ⟨1, 0, 0, 0⟩ none).SetForward sampleLibm ⟨0, 0, -1⟩)._rotation
      = ⟨1, 0, 0, 0⟩ := by
  have h1 : sampleLibm.sqrt 1 = 1 := by norm_num [sampleLibm, sampleSqrt]
  refine ⟨h1, ?_⟩
  rw [(C18_SetForward_own_up sampleLibm (sampleTransform ⟨0, 0, 0⟩ ⟨1, 0, 0, 0⟩ none)
    ⟨0, 0, -1⟩).2 h1 rfl rfl]
  norm_num [Vec3.smul, Vec3.neg, cross, inversesqrt, dot, sampleLibm, sampleSqrt,
    quatLookAt, quat_cast, Quat.normalize]

/-! ## C17: the matrix constructor -/

section FromMatrix

variable {α : Type} [LinearOrderedField α]

/-- The columns of `translate(position) * rotate(rotation) * scale(s, s, s)`. -/
theorem composeTRS_columns (p : Vec3 α) (q : Quat α) (s : α) :
    composeTRS p q s =
      ⟨(toMat4 q).c0.smul s, (toMat4 q).c1.smul s, (toMat4 q).c2.smul s,
       ⟨p.x, p.y, p.z, 1⟩⟩ := by
  simp only [composeTRS, Mat4.mul_def, Mat4.mul, Mat4.mulCol, translate, scale,
    toMat4, Mat4.identity, Vec4.add, Vec4.smul]
  simp

/-- The rotation matrix of a unit quaternion, with the diagonal written
without the constant 1. -/
theorem toMat4_unit (q : Quat α) (hq : q.IsUnit) :
    toMat4 q =
      ⟨⟨q.w * q.w + q.x * q.x - q.y * q.y - q.z * q.z, 2 * (q.x * q.y + q.w * q.z),
          2 * (q.x * q.z - q.w * q.y), 0⟩,
       ⟨2 * (q.x * q.y - q.w * q.z), q.w * q.w - q.x * q.x + q.y * q.y - q.z * q.z,
          2 * (q.y * q.z + q.w * q.x), 0⟩,
       ⟨2 * (q.x * q.z + q.w * q.y), 2 * (q.y * q.z - q.w * q.x),
          q.w * q.w - q.x * q.x - q.y * q.y + q.z * q.z, 0⟩,
       ⟨0, 0, 0, 1⟩⟩ := by
  unfold Quat.IsUnit at hq
  simp only [toMat4, Mat4.mk.injEq, Vec4.mk.injEq, and_true, true_and]
  refine ⟨⟨?_, ?_, ?_⟩, ⟨?_, ?_, ?_⟩, ?_, ?_, ?_⟩
  · linear_combination (-1 : α) * hq
  · ring
  · ring
  · ring
  · linear_combination (-1 : α) * hq
  · ring
  · ring
  · ring
  · linear_combination (-1 : α) * hq

/-- A quaternion and its negative have the same rotation matrix. -/
theorem toMat4_neg (q : Quat α) : toMat4 (⟨-q.w, -q.x, -q.y, -q.z⟩ : Quat α) = toMat4 q := by
  simp only [toMat4, Mat4.mk.injEq, Vec4.mk.injEq, and_true, true_and]
  refine ⟨⟨?_, ?_, ?_⟩, ⟨?_, ?_, ?_⟩, ?_, ?_, ?_⟩ <;> ring

/-- With `sqrt` a square root everywhere, `sqrt (d * d) = d` for `d >= 0`. -/
theorem sqrt_mul_self_eq (m : Libm α) (hsqrt : ∀ x, 0 ≤ x → SqrtAt m x) (d : α) (hd : 0 ≤ d) :
    m.sqrt (d * d) = d :=
  (hsqrt _ (mul_self_nonneg d)).eq_of_sq hd

theorem length_smul_unit (m : Libm α) (hsqrt : ∀ x, 0 ≤ x → SqrtAt m x) (r : Vec3 α) (s : α)
    (hr : dot r r = 1) (hs : 0 ≤ s) : length m (r.smul s) = s := by
  unfold length
  have h : dot (r.smul s) (r.smul s) = s * s := by
    simp only [dot, Vec3.smul] at hr ⊢
    linear_combination (s * s) * hr
  rw [h]
  exact sqrt_mul_self_eq m hsqrt s hs

theorem detailScale_smul_unit (m : Libm α) (hsqrt : ∀ x, 0 ≤ x → SqrtAt m x) (r : Vec3 α)
    (s : α) (hr : dot r r = 1) (hs : 0 < s) : detailScale m (r.smul s) 1 = r := by
  unfold detailScale
  rw [length_smul_unit m hsqrt r s hr hs.le]
  have h0 : s ≠ 0 := ne_of_gt hs
  cases r
  simp only [Vec3.smul, Vec3.mk.injEq]
  refine ⟨?_, ?_, ?_⟩ <;> field_simp

theorem dot_smul_right (a b : Vec3 α) (s : α) : dot a (b.smul s) = dot a b * s := by
  simp only [dot, Vec3.smul]
  ring

theorem detailCombine_zero (a b : Vec3 α) : detailCombine a b 1 (-0) = a := by
  cases a
  simp [detailCombine, Vec3.smul, Vec3.add]

/-- The scale and shear part of `decompose` on the rows of a rotation scaled
by `s > 0`: the scale factors are `s` and the rows of the rotation come
back. -/
theorem decomposeScale_scaled (m : Libm α) (hsqrt : ∀ x, 0 ≤ x → SqrtAt m x)
    (r0 r1 r2 : Vec3 α) (s : α) (hs : 0 < s)
    (h00 : dot r0 r0 = 1) (h11 : dot r1 r1 = 1) (h22 : dot r2 r2 = 1)
    (h01 : dot r0 r1 = 0) (h02 : dot r0 r2 = 0) (h12 : dot r1 r2 = 0)
    (hdet : 0 ≤ dot r0 (cross r1 r2)) :
    decomposeScale m (r0.smul s) (r1.smul s) (r2.smul s) = (⟨s, s, s⟩, r0, r1, r2) := by
  unfold decomposeScale
  simp only [length_smul_unit m hsqrt _ s h00 hs.le, detailScale_smul_unit m hsqrt _ s h00 hs,
    dot_smul_right, h01, h02, zero_mul, detailCombine_zero,
    length_smul_unit m hsqrt _ s h11 hs.le, detailScale_smul_unit m hsqrt _ s h11 hs,
    h12, length_smul_unit m hsqrt _ s h22 hs.le, detailScale_smul_unit m hsqrt _ s h22 hs]
  rw [if_neg (not_lt.2 hdet)]

set_option maxHeartbeats 1000000 in
/-- The rotation part of `decompose` on the rows of the rotation matrix of a
unit quaternion returns that quaternion or its negative. -/
theorem decomposeOrientation_unit (m : Libm α) (hsqrt : ∀ x, 0 ≤ x → SqrtAt m x)
    (q : Quat α) (hq : q.IsUnit) :
    decomposeOrientation m (toMat4 q).c0.toVec3 (toMat4 q).c1.toVec3 (toMat4 q).c2.toVec3 = q ∨
    decomposeOrientation m (toMat4 q).c0.toVec3 (toMat4 q).c1.toVec3 (toMat4 q).c2.toVec3
      = ⟨-q.w, -q.x, -q.y, -q.z⟩ := by
  rw [toMat4_unit q hq]
  obtain ⟨w, x, y, z⟩ := q
  unfold Quat.IsUnit at hq
  simp only at hq
  simp only [Vec4.toVec3, decomposeOrientation]
  by_cases ht : w * w + x * x - y * y - z * z + (w * w - x * x + y * y - z * z) +
      (w * w - x * x - y * y + z * z) > 0
  · rw [if_pos ht]
    rcases lt_trichotomy w 0 with hw | hw | hw
    · right
      have harg : w * w + x * x - y * y - z * z + (w * w - x * x + y * y - z * z) +
          (w * w - x * x - y * y + z * z) + 1 = (-(2 * w)) * (-(2 * w)) := by
        linear_combination (-1 : α) * hq
      rw [harg, sqrt_mul_self_eq m hsqrt _ (by linarith)]
      have hw0 : w ≠ 0 := ne_of_lt hw
      simp only [Quat.mk.injEq]
      refine ⟨?_, ?_, ?_, ?_⟩ <;> field_simp <;> ring
    · exfalso
      subst hw
      nlinarith [mul_self_nonneg x, mul_self_nonneg y, mul_self_nonneg z]
    · left
      have harg : w * w + x * x - y * y - z * z + (w * w - x * x + y * y - z * z) +
          (w * w - x * x - y * y + z * z) + 1 = (2 * w) * (2 * w) := by
        linear_combination (-1 : α) * hq
      rw [harg, sqrt_mul_self_eq m hsqrt _ (by linarith)]
      have hw0 : w ≠ 0 := ne_of_gt hw
      simp only [Quat.mk.injEq]
      refine ⟨?_, ?_, ?_, ?_⟩ <;> field_simp <;> ring
  · rw [if_neg ht]
    have e01 : ((0 : ℕ) = 1) = False := by simp
    by_cases c1 : w * w - x * x + y * y - z * z > w * w + x * x - y * y - z * z
    · by_cases c2 : w * w - x * x - y * y + z * z > w * w - x * x + y * y - z * z
      · simp only [c1, c2, ↓reduceIte]
        rcases lt_trichotomy z 0 with hv | hv | hv
        · right
          have harg : w * w - x * x - y * y + z * z - (w * w + x * x - y * y - z * z) - (w * w - x * x + y * y - z * z) + 1 = (-(2 * z)) * (-(2 * z)) := by
            linear_combination (-1 : α) * hq
          rw [harg, sqrt_mul_self_eq m hsqrt _ (by linarith)]
          have hv0 : z ≠ 0 := ne_of_lt hv
          simp only [Quat.mk.injEq]
          refine ⟨?_, ?_, ?_, ?_⟩ <;> field_simp <;> ring
        · exfalso
          have hv2 : z * z = 0 := by rw [hv]; ring
          linarith [mul_self_nonneg w, mul_self_nonneg x, mul_self_nonneg y, mul_self_nonneg z]
        · left
          have harg : w * w - x * x - y * y + z * z - (w * w + x * x - y * y - z * z) - (w * w - x * x + y * y - z * z) + 1 = (2 * z) * (2 * z) := by
            linear_combination (-1 : α) * hq
          rw [harg, sqrt_mul_self_eq m hsqrt _ (by linarith)]
          have hv0 : z ≠ 0 := ne_of_gt hv
          simp only [Quat.mk.injEq]
          refine ⟨?_, ?_, ?_, ?_⟩ <;> field_simp <;> ring
      · simp only [c1, c2, ↓reduceIte]
        rcases lt_trichotomy y 0 with hv | hv | hv
        · right
          have harg : w * w - x * x + y * y - z * z - (w * w - x * x - y * y + z * z) - (w * w + x * x - y * y - z * z) + 1 = (-(2 * y)) * (-(2 * y)) := by
            linear_combination (-1 : α) * hq
          rw [harg, sqrt_mul_self_eq m hsqrt _ (by linarith)]
          have hv0 : y ≠ 0 := ne_of_lt hv
          simp only [Quat.mk.injEq]
          refine ⟨?_, ?_, ?_, ?_⟩ <;> field_simp <;> ring
        · exfalso
          have hv2 : y * y = 0 := by rw [hv]; ring
          linarith [mul_self_nonneg w, mul_self_nonneg x, mul_self_nonneg y, mul_self_nonneg z]
        · left
          have harg : w * w - x * x + y * y - z * z - (w * w - x * x - y * y + z * z) - (w * w + x * x - y * y - z * z) + 1 = (2 * y) * (2 * y) := by
            linear_combination (-1 : α) * hq
          rw [harg, sqrt_mul_self_eq m hsqrt _ (by linarith)]
          have hv0 : y ≠ 0 := ne_of_gt hv
          simp only [Quat.mk.injEq]
          refine ⟨?_, ?_, ?_, ?_⟩ <;> field_simp <;> ring
    · by_cases c2 : w * w - x * x - y * y + z * z > w * w + x * x - y * y - z * z
      · simp only [c1, c2, ↓reduceIte, e01]
        rcases lt_trichotomy z 0 with hv | hv | hv
        · right
          have harg : w * w - x * x - y * y + z * z - (w * w + x * x - y * y - z * z) - (w * w - x * x + y * y - z * z) + 1 = (-(2 * z)) * (-(2 * z)) := by
            linear_combination (-1 : α) * hq
          rw [harg, sqrt_mul_self_eq m hsqrt _ (by linarith)]
          have hv0 : z ≠ 0 := ne_of_lt hv
          simp only [Quat.mk.injEq]
          refine ⟨?_, ?_, ?_, ?_⟩ <;> field_simp <;> ring
        · exfalso
          have hv2 : z * z = 0 := by rw [hv]; ring
          linarith [mul_self_nonneg w, mul_self_nonneg x, mul_self_nonneg y, mul_self_nonneg z]
        · left
          have harg : w * w - x * x - y * y + z * z - (w * w + x * x - y * y - z * z) - (w * w - x * x + y * y - z * z) + 1 = (2 * z) * (2 * z) := by
            linear_combination (-1 : α) * hq
          rw [harg, sqrt_mul_self_eq m hsqrt _ (by linarith)]
          have hv0 : z ≠ 0 := ne_of_gt hv
          simp only [Quat.mk.injEq]
          refine ⟨?_, ?_, ?_, ?_⟩ <;> field_simp <;> ring
      · simp only [c1, c2, ↓reduceIte, e01]
        rcases lt_trichotomy x 0 with hv | hv | hv
        · right
          have harg : w * w + x * x - y * y - z * z - (w * w - x * x + y * y - z * z) - (w * w - x * x - y * y + z * z) + 1 = (-(2 * x)) * (-(2 * x)) := by
            linear_combination (-1 : α) * hq
          rw [harg, sqrt_mul_self_eq m hsqrt _ (by linarith)]
          have hv0 : x ≠ 0 := ne_of_lt hv
          simp only [Quat.mk.injEq]
          refine ⟨?_, ?_, ?_, ?_⟩ <;> field_simp <;> ring
        · exfalso
          have hv2 : x * x = 0 := by rw [hv]; ring
          linarith [mul_self_nonneg w, mul_self_nonneg x, mul_self_nonneg y, mul_self_nonneg z]
        · left
          have harg : w * w + x * x - y * y - z * z - (w * w - x * x + y * y - z * z) - (w * w - x * x - y * y + z * z) + 1 = (2 * x) * (2 * x) := by
            linear_combination (-1 : α) * hq
          rw [harg, sqrt_mul_self_eq m hsqrt _ (by linarith)]
          have hv0 : x ≠ 0 := ne_of_gt hv
          simp only [Quat.mk.injEq]
          refine ⟨?_, ?_, ?_, ?_⟩ <;> field_simp <;> ring

/-- The columns of the rotation matrix of a unit quaternion are orthonormal
and right-handed. -/
theorem toMat4_orthonormal (q : Quat α) (hq : q.IsUnit) :
    dot (toMat4 q).c0.toVec3 (toMat4 q).c0.toVec3 = 1 ∧
    dot (toMat4 q).c1.toVec3 (toMat4 q).c1.toVec3 = 1 ∧
    dot (toMat4 q).c2.toVec3 (toMat4 q).c2.toVec3 = 1 ∧
    dot (toMat4 q).c0.toVec3 (toMat4 q).c1.toVec3 = 0 ∧
    dot (toMat4 q).c0.toVec3 (toMat4 q).c2.toVec3 = 0 ∧
    dot (toMat4 q).c1.toVec3 (toMat4 q).c2.toVec3 = 0 ∧
    dot (toMat4 q).c0.toVec3 (cross (toMat4 q).c1.toVec3 (toMat4 q).c2.toVec3) = 1 := by
  rw [toMat4_unit q hq]
  obtain ⟨w, x, y, z⟩ := q
  unfold Quat.IsUnit at hq
  simp only at hq
  simp only [Vec4.toVec3, dot, cross]
  have n2 : (w * w + x * x + y * y + z * z) * (w * w + x * x + y * y + z * z) = 1 := by
    rw [hq]; norm_num
  have n3 : (w * w + x * x + y * y + z * z) * (w * w + x * x + y * y + z * z) *
      (w * w + x * x + y * y + z * z) = 1 := by
    rw [hq]; norm_num
  refine ⟨?_, ?_, ?_, ?_, ?_, ?_, ?_⟩
  · linear_combination n2
  · linear_combination n2
  · linear_combination n2
  · ring
  · ring
  · ring
  · linear_combination n3

theorem smul_div_one_toVec3 (c : Vec4 α) (s : α) :
    ((c.smul s).div 1).toVec3 = c.toVec3.smul s := by
  simp [Vec4.smul, Vec4.div, Vec4.toVec3, Vec3.smul]

theorem determinant_perspective (q : Quat α) (hq : q.IsUnit) (p : Vec3 α) (s : α) :
    determinant
      (⟨{ ((toMat4 q).c0.smul s).div 1 with w := 0 }, { ((toMat4 q).c1.smul s).div 1 with w := 0 },
        { ((toMat4 q).c2.smul s).div 1 with w := 0 },
        { (⟨p.x, p.y, p.z, 1⟩ : Vec4 α).div 1 with w := 1 }⟩ : Mat4 α) = s * s * s := by
  have h := (toMat4_orthonormal q hq).2.2.2.2.2.2
  simp only [determinant, Vec4.smul, Vec4.div, div_one, Vec4.toVec3, dot, cross] at h ⊢
  linear_combination (s * s * s) * h

/-- On the matrix `translate(p) * rotate(q) * scale(s, s, s)` with `q` a unit
quaternion and `s > 0` whose cube is not below `epsilon`, `decompose`
succeeds and returns the scale `(s, s, s)`, the translation `p` and a
quaternion with the rotation matrix of `q`. -/
theorem decompose_composeTRS (m : Libm α) (hsqrt : ∀ x, 0 ≤ x → SqrtAt m x)
    (p : Vec3 α) (q : Quat α) (s : α) (hq : q.IsUnit) (hs : 0 < s)
    (hdet : epsilon ≤ s * s * s) :
    ∃ r, decompose m (composeTRS p q s) = some (⟨s, s, s⟩, r, p) ∧ toMat4 r = toMat4 q := by
  obtain ⟨h00, h11, h22, h01, h02, h12, hd⟩ := toMat4_orthonormal q hq
  have hL : ∀ c : Vec4 α, c.w = 0 → (((c.smul s).div 1).w = 0) := by
    intro c hc
    simp [Vec4.smul, Vec4.div, hc]
  have e1 : ¬ epsilonEqual (1 : α) 0 epsilon := by
    unfold epsilonEqual epsilon
    rw [sub_zero, abs_one]
    norm_num
  have e0 : epsilonEqual (0 : α) 0 epsilon := by
    unfold epsilonEqual epsilon
    rw [sub_zero, abs_zero]
    norm_num
  have edet : ¬ epsilonEqual (s * s * s) 0 epsilon := by
    unfold epsilonEqual
    rw [sub_zero, abs_of_pos (by positivity)]
    exact not_lt.2 hdet
  have hw0 : (toMat4 q).c0.w = 0 := rfl
  have hw1 : (toMat4 q).c1.w = 0 := rfl
  have hw2 : (toMat4 q).c2.w = 0 := rfl
  rw [composeTRS_columns]
  unfold decompose
  simp only [if_neg e1, determinant_perspective q hq p s, if_neg edet, hL _ hw0, hL _ hw1,
    hL _ hw2, e0, not_true_eq_false, or_self, ↓reduceIte, smul_div_one_toVec3,
    decomposeScale_scaled m hsqrt _ _ _ s hs h00 h11 h22 h01 h02 h12 (by rw [hd]; norm_num)]
  have ht : ((⟨p.x, p.y, p.z, 1⟩ : Vec4 α).div 1).toVec3 = p := by
    cases p
    simp [Vec4.div, Vec4.toVec3]
  rw [ht]
  refine ⟨_, rfl, ?_⟩
  rcases decomposeOrientation_unit m hsqrt q hq with h | h
  · rw [h]
  · rw [h, toMat4_neg]

/-- The matrix of a transform constructed from a matrix that decomposes into
the scale `(s, s, s)`, a quaternion with the rotation matrix of `q` and the
translation `p`. -/
theorem fromMatrix_worldMatrix (d : Mat4 α → Option (Vec3 α × Quat α × Vec3 α))
    (M : Mat4 α) (p : Vec3 α) (q r : Quat α) (s : α)
    (hd : d M = some (⟨s, s, s⟩, r, p)) (hr : toMat4 r = toMat4 q)
    (mem : Store α) (fuel : Nat) :
    (Transform.fromMatrix d M).worldMatrix mem fuel = some (composeTRS p q s) := by
  unfold Transform.fromMatrix
  rw [hd]
  simp only [Transform.worldMatrix, Transform.localMatrix, composeTRS, hr]
  have h3 : (s + s + s) / 3 = s := by field_simp; ring
  rw [h3]

end FromMatrix

/-! ## C17: round trip through the matrix constructor -/

section RoundTripExact

variable {α : Type} [LinearOrderedField α]

/-- In exact arithmetic the round trip is exact where the decomposition
succeeds: for every position, every unit quaternion `rotation` and every
`s > 0` whose cube is not below `epsilon` (2^-23), with `sqrt` a square root
on the non-negative numbers, the transform constructed from
`M = translate(position) * rotate(rotation) * scale(s, s, s)` has no parent
and `GetMatrix()` returns `M`. -/
theorem fromMatrix_round_trip_exact (m : Libm α) (position : Vec3 α) (rotation : Quat α)
    (s : α) (mem : Store α) (fuel : Nat) (hsqrt : ∀ x, 0 ≤ x → SqrtAt m x)
    (hq : rotation.IsUnit) (hs : 0 < s) (hdet : epsilon ≤ s * s * s) :
    (Transform.fromMatrix (decompose m) (composeTRS position rotation s))._parent = none ∧
    (Transform.fromMatrix (decompose m) (composeTRS position rotation s)).worldMatrix mem fuel
      = some (composeTRS position rotation s) := by
  obtain ⟨r, hd, hr⟩ := decompose_composeTRS m hsqrt position rotation s hq hs hdet
  refine ⟨?_, fromMatrix_worldMatrix (decompose m) _ position rotation r s hd hr mem fuel⟩
  unfold Transform.fromMatrix
  rw [hd]

end RoundTripExact

theorem IndexOk.objectAt {n : Nat} {idx : Int} (st : App) (hn : st.RenderObjects.length = n)
    (h0 : 0 ≤ idx) (h : IndexOk n idx) : ∃ o, st.objectAt idx = some o := by
  rcases h with h | ⟨_, h⟩
  · omega
  · obtain ⟨k, rfl⟩ := Int.eq_ofNat_of_zero_le h0
    have hk : k < st.RenderObjects.length := by omega
    exact ⟨st.RenderObjects[k], by rw [App.objectAt_natCast]; exact List.getElem?_eq_getElem hk⟩

theorem IndexOk.neg_one (n : Nat) : IndexOk n (-1) := Or.inl rfl

theorem IndexOk.of_neg {n : Nat} {idx : Int} (h : IndexOk n idx) (hneg : idx < 0) : idx = -1 := by
  rcases h with h | ⟨h, _⟩
  · exact h
  · omega

/-- A frame keeps the selection state consistent and makes no out-of-bounds
access. -/
theorem Render_selectInv (n : Nat) (st : App) (h : SelectInv n st) :
    ∃ s, st.Render = some s ∧ SelectInv n s := by
  obtain ⟨hn, hi, hl⟩ := h
  by_cases h0 : 0 ≤ st.stencilIdx
  · obtain ⟨o, ho⟩ := IndexOk.objectAt st hn h0 hi
    by_cases he : st.stencilIdx = st.stencilIdxLast
    · obtain ⟨s, hs, hsc, a, b, _⟩ := App.Render_same st o he h0 ho
      exact ⟨s, hs, by rw [hsc.2.2.2.1]; exact hn, by rw [a]; exact IndexOk.neg_one n,
        by rw [b]; exact IndexOk.neg_one n⟩
    · obtain ⟨s, hs, hsc, a, b, _⟩ := App.Render_new st o he h0 ho
      exact ⟨s, hs, by rw [hsc.2.2.2.1]; exact hn, by rw [a]; exact IndexOk.neg_one n,
        by rw [b]; exact hi⟩
  · have hneg : st.stencilIdx < 0 := not_le.mp h0
    by_cases h1 : 0 ≤ st.stencilIdxLast
    · obtain ⟨o, ho⟩ := IndexOk.objectAt st hn h1 hl
      obtain ⟨s, hs, hsc, _⟩ := App.Render_keep st o (hi.of_neg hneg) h1 ho
      exact ⟨s, hs, by rw [hsc.1.2.2.2.1]; exact hn, by rw [hsc.2.1]; exact hi,
        by rw [hsc.2.2]; exact hl⟩
    · obtain ⟨s, hs, hsc, _⟩ := App.Render_idle st hneg (not_le.mp h1)
      exact ⟨s, hs, by rw [hsc.1.2.2.2.1]; exact hn, by rw [hsc.2.1]; exact hi,
        by rw [hsc.2.2]; exact hl⟩

/-- A pick whose read-back value is at most the number of objects keeps the
selection state consistent and makes no out-of-bounds access. -/
theorem DoPicking_selectInv (n : Nat) (R : Fin 256) (st : App) (h : SelectInv n st)
    (hR : R.val ≤ n) : ∃ s, DoPicking R st = some s ∧ SelectInv n s := by
  obtain ⟨hn, hi, hl⟩ := h
  by_cases h0 : R.val = 0
  · have hR0 : R = 0 := Fin.ext h0
    obtain ⟨s, hs, hsc, a, b⟩ := DoPicking_miss st
    exact ⟨s, by rw [hR0]; exact hs, by rw [hsc.2.2.2.1]; exact hn,
      by rw [a]; exact IndexOk.neg_one n, by rw [b]; exact hl⟩
  · have h1 : 1 ≤ R.val := Nat.one_le_iff_ne_zero.mpr h0
    have hk : R.val - 1 < st.RenderObjects.length := by omega
    have ho : st.RenderObjects[R.val - 1]? = some st.RenderObjects[R.val - 1] :=
      List.getElem?_eq_getElem hk
    cases ht : (st.RenderObjects[R.val - 1])._type.isToggle
    · have hA : R.val - 1 + 1 < 256 := by have := R.isLt; omega
      have hRe : (⟨R.val - 1 + 1, hA⟩ : Fin 256) = R := Fin.ext (by simp only; omega)
      obtain ⟨s, hs, hsc, a, b⟩ := DoPicking_select st (R.val - 1) hA _ ho ht
      refine ⟨s, by rw [← hRe]; exact hs, by rw [hsc.2.2.2.1]; exact hn, ?_,
        by rw [b]; exact hl⟩
      rw [a]
      exact Or.inr ⟨by omega, by omega⟩
    · obtain ⟨s, hs, a, b, _, _, _, c⟩ := DoPicking_toggle st R _ h1 ho ht
      exact ⟨s, hs, by rw [c]; exact hn, by rw [a]; exact IndexOk.neg_one n,
        by rw [b]; exact hl⟩

/-- A run whose read-back values are at most the number of objects keeps the
selection state consistent and makes no out-of-bounds access. -/
theorem runSelect_selectInv (n : Nat) (events : List SelectEvent) :
    ∀ st : App, SelectInv n st → (∀ e ∈ events, e.Within n) →
      ∃ s, runSelect events st = some s ∧ SelectInv n s := by
  induction events with
  | nil => intro st h _; exact ⟨st, rfl, h⟩
  | cons e es ih =>
    intro st h hR
    have step : ∃ s, e.apply st = some s ∧ SelectInv n s := by
      cases e with
      | render => exact Render_selectInv n st h
      | pick R => exact DoPicking_selectInv n R st h (hR (.pick R) (List.mem_cons_self _ _))
    obtain ⟨s, hs, hinv⟩ := step
    obtain ⟨s2, hs2, hinv2⟩ := ih s hinv (fun e he => hR e (List.mem_cons_of_mem _ he))
    exact ⟨s2, by simp only [runSelect, hs, Option.some_bind]; exact hs2, hinv2⟩

/-- C27: for a collection of `n` objects and every sequence of `DoPicking`
calls (each reading back a value `R ≤ n`) and `Render` calls that starts
with `stencilIdx = stencilIdxLast = -1`, after every number `k` of the
calls the run has made no out-of-bounds access to `RenderObjects` (it
returns a state), the collection still has `n` objects, and `stencilIdx`
and `stencilIdxLast` are each -1 or in `[0, n)`. -/
theorem C27_selection_indices_in_range (n : Nat) (events : List SelectEvent) (st : App)
    (hn : st.RenderObjects.length = n)
    (h1 : st.stencilIdx = -1) (h2 : st.stencilIdxLast = -1)
    (hR : ∀ e ∈ events, e.Within n) (k : Nat) :
    ∃ s, runSelect (events.take k) st = some s ∧ s.RenderObjects.length = n ∧
      IndexOk n s.stencilIdx ∧ IndexOk n s.stencilIdxLast :=
  runSelect_selectInv n (events.take k) st
    ⟨hn, by rw [h1]; exact IndexOk.neg_one n, by rw [h2]; exact IndexOk.neg_one n⟩
    (fun e he => hR e (List.mem_of_mem_take he))

/-- C27 witness: the box, the mesh and the water object; the mesh is picked,
a frame is rendered, the mesh is picked again, a frame is rendered, and the
last pick reads back the largest value 3. -/
theorem C27_selection_indices_in_range_witness :
    (sampleTrio.RenderObjects.length = 3 ∧ sampleTrio.stencilIdx = -1 ∧
      sampleTrio.stencilIdxLast = -1 ∧
      ∀ e ∈ [SelectEvent.pick 2, .render, .pick 2, .render, .pick 3], e.Within 3) ∧
    ∃ s, runSelect ([SelectEvent.pick 2, .render, .pick 2, .render, .pick 3].take 3)
        sampleTrio = some s ∧ s.RenderObjects.length = 3 ∧
      IndexOk 3 s.stencilIdx ∧ IndexOk 3 s.stencilIdxLast := by
  have hR : ∀ e ∈ [SelectEvent.pick 2, .render, .pick 2, .render, .pick 3], e.Within 3 := by
    intro e he
    simp only [List.mem_cons, List.mem_singleton, List.mem_nil_iff, or_false] at he
    rcases he with rfl | rfl | rfl | rfl | rfl
    · exact (by decide : (2 : Fin 256).val ≤ 3)
    · exact trivial
    · exact (by decide : (2 : Fin 256).val ≤ 3)
    · exact trivial
    · exact (by decide : (3 : Fin 256).val ≤ 3)
  exact ⟨⟨rfl, rfl, rfl, hR⟩,
    C27_selection_indices_in_range 3 _ sampleTrio rfl rfl rfl hR 3⟩

/-! ## C28: the stencil write mask of the cube map and the water -/

@[simp] theorem GLContext.uniform_stencilMask (g : GLContext) (l : Int) (v : UVal) :
    (g.uniform l v).stencilMask = g.stencilMask := by
  unfold GLContext.uniform; split <;> rfl

@[simp] theorem GLContext.uniform_stencilTest (g : GLContext) (l : Int) (v : UVal) :
    (g.uniform l v).stencilTest = g.stencilTest := by
  unfold GLContext.uniform; split <;> rfl

@[simp] theorem applyNamed_stencilMask (sh : Shader) (vs : List (String × UVal))
    (g : GLContext) : (applyNamed sh vs g).stencilMask = g.stencilMask := by
  unfold applyNamed
  induction vs generalizing g with
  | nil => rfl
  | cons hd tl ih => simp [List.foldl_cons, ih]

@[simp] theorem applyNamed_stencilTest (sh : Shader) (vs : List (String × UVal))
    (g : GLContext) : (applyNamed sh vs g).stencilTest = g.stencilTest := by
  unfold applyNamed
  induction vs generalizing g with
  | nil => rfl
  | cons hd tl ih => simp [List.foldl_cons, ih]

/-- A render routine entered with stencil mask 0xFF issues exactly one draw
call, under mask 0x00 for the cube map and the water and under 0xFF for the
other kinds; it returns with mask 0xFF and the stencil test as it was. -/
theorem Render_stencilOps (o : RenderObject) (i : Nat) (sh : Shader) (st : App)
    (hm : st.gl.stencilMask = 255) :
    (o.Render i sh st).stencilOps =
      st.stencilOps ++ [(i, st.gl.stencilRef, o._type.drawMask, st.gl.stencilTest)] ∧
    (o.Render i sh st).gl.stencilMask = 255 ∧
    (o.Render i sh st).gl.stencilTest = st.gl.stencilTest := by
  unfold RenderObject.Render
  cases o._type
  · simp only [RenderObject.RenderMesh, MeshRenderer.Bind]
    split
    · split <;>
        simp [App.stencilOps, App.withGL, GLContext.draw, Shader.SetVal, Shader.Bind,
          GLContext.useProgram, RenderObjectType.drawMask, hm]
    · simp [App.stencilOps, App.withGL, GLContext.draw, Shader.SetVal, Shader.Bind,
          GLContext.useProgram, RenderObjectType.drawMask, hm]
  · simp [RenderObject.RenderBox, App.stencilOps, App.withGL, GLContext.draw, Shader.SetVal,
      Shader.SetInt, Shader.SetFloat, Shader.Bind, GLContext.useProgram,
      RenderObjectType.drawMask, hm]
  · simp only [RenderObject.RenderSphere]
    split <;>
      simp [App.stencilOps, App.withGL, GLContext.draw, Shader.SetVal,
        Shader.SetInt, Shader.SetFloat, Shader.Bind, GLContext.useProgram,
        RenderObjectType.drawMask, hm]
  · simp [RenderObject.RenderCubeMap, App.stencilOps, App.withGL, GLContext.draw,
      Shader.SetVal, Shader.SetInt, Shader.SetFloat, Shader.Bind, GLContext.useProgram,
      RenderObjectType.drawMask]
  · simp [RenderObject.RenderWater, Water.Render, App.stencilOps, App.withGL, GLContext.draw,
      Shader.SetVal, Shader.SetInt, Shader.SetFloat, Shader.Bind, GLContext.useProgram,
      RenderObjectType.drawMask]
  · simp [RenderObject.RenderFire, Fire.Render, App.stencilOps, App.withGL, GLContext.draw,
      Shader.SetVal, Shader.SetInt, Shader.SetFloat, Shader.Bind, GLContext.useProgram,
      RenderObjectType.drawMask, hm]
  · simp [RenderObject.RenderCat, App.stencilOps, App.withGL, GLContext.draw, Shader.SetVal,
      Shader.SetInt, Shader.SetFloat, Shader.Bind, GLContext.useProgram,
      RenderObjectType.drawMask, hm]

/-- The stencil pass entered with mask 0xFF: its draws, and the mask and the
stencil test on return. -/
theorem stencilPassFrom_stencilOps (os : List RenderObject) :
    ∀ (i : Nat) (st : App), st.gl.stencilMask = 255 →
      (stencilPassFrom i os st).stencilOps =
        st.stencilOps ++ stencilOpsFrom st.gl.stencilTest i os ∧
      (stencilPassFrom i os st).gl.stencilMask = 255 ∧
      (stencilPassFrom i os st).gl.stencilTest = st.gl.stencilTest := by
  induction os with
  | nil => intro i st hm; simp [stencilPassFrom, stencilOpsFrom, hm]
  | cons o os ih =>
    intro i st hm
    have hm2 : (st.withGL (fun g => g.stencilFunc (i + 1))).gl.stencilMask = 255 := hm
    obtain ⟨a, b, c⟩ := Render_stencilOps o i st.shader _ hm2
    obtain ⟨a2, b2, c2⟩ := ih (i + 1) _ b
    rw [stencilPassFrom]
    refine ⟨?_, b2, c2.trans c⟩
    rw [a2, a, c]
    have hr : (st.withGL (fun g => g.stencilFunc (i + 1))).gl.stencilRef = min (i + 1) 255 := rfl
    have hl : (st.withGL (fun g => g.stencilFunc (i + 1))).stencilOps = st.stencilOps := rfl
    have ht : (st.withGL (fun g => g.stencilFunc (i + 1))).gl.stencilTest = st.gl.stencilTest :=
      rfl
    rw [hr, hl, ht]
    simp [stencilOpsFrom]

/-- The draws of the picking pass of `DoPicking` with their stencil state, and
the mask after the pass. -/
theorem pickingPass_stencilOps (st : App) :
    (pickingPass st).stencilOps = stencilOpsFrom true 0 st.RenderObjects ∧
    (pickingPass st).gl.stencilMask = 255 := by
  unfold pickingPass
  obtain ⟨a, b, _⟩ := stencilPassFrom_stencilOps st.RenderObjects 0
    (st.withGL (fun g =>
      let g := { g with depthTest := true, stencilTest := true, stencilMask := 255 }
      let g := g.clear
      { g with colorMask := false, depthMask := true })) (by rfl)
  simp only [App.stencilOps, App.withGL, GLContext.clear, List.map_nil, List.nil_append] at a b ⊢
  exact ⟨a, b⟩

theorem mem_stencilOpsFrom (test : Bool) (os : List RenderObject) :
    ∀ (i : Nat) (x : Nat × Nat × Nat × Bool), x ∈ stencilOpsFrom test i os →
      ∃ k o, os[k]? = some o ∧ x = (i + k, min (i + k + 1) 255, o._type.drawMask, test) := by
  induction os with
  | nil => intro i x hx; simp [stencilOpsFrom] at hx
  | cons o os ih =>
    intro i x hx
    simp only [stencilOpsFrom, List.mem_cons] at hx
    rcases hx with rfl | hx
    · exact ⟨0, o, by simp, rfl⟩
    · obtain ⟨k, o2, ho, rfl⟩ := ih (i + 1) x hx
      refine ⟨k + 1, o2, by simpa using ho, ?_⟩
      rw [show i + 1 + k = i + (k + 1) by omega]

theorem stencilWrite_zero (old ref : Nat) (h : old < 256) : stencilWrite old ref 0 = old := by
  unfold stencilWrite
  simp only [Nat.sub_zero, Nat.and_zero, Nat.or_zero]
  have := Nat.and_pow_two_sub_one_eq_mod old 8
  norm_num at this
  rw [this]
  exact Nat.mod_eq_of_lt h

theorem stencilWrite_full (old ref : Nat) (h : ref < 256) : stencilWrite old ref 255 = ref := by
  unfold stencilWrite
  simp only [Nat.sub_self, Nat.and_zero, Nat.zero_or]
  have := Nat.and_pow_two_sub_one_eq_mod ref 8
  norm_num at this
  rw [this]
  exact Nat.mod_eq_of_lt h

/-- The stencil value of a pixel after draws whose write masks are 0x00 or
0xFF and whose references fit in a byte: the start value, or the reference
of a draw under mask 0xFF whose fragment passed. -/
theorem stencil_fold (passes : Nat → Bool) (draws : List Draw)
    (hd : ∀ d ∈ draws, d.stencilRef < 256 ∧ (d.stencilMask = 0 ∨ d.stencilMask = 255)) :
    ∀ v0 : Nat, v0 < 256 →
      let v := draws.foldl (fun v d =>
        if d.stencilTest = true ∧ passes d.obj = true then
          stencilWrite v d.stencilRef d.stencilMask
        else v) v0
      v < 256 ∧ (v = v0 ∨ ∃ d ∈ draws, d.stencilMask = 255 ∧ passes d.obj = true ∧
        v = d.stencilRef) := by
  induction draws using List.reverseRecOn with
  | nil => intro v0 h0; exact ⟨h0, Or.inl rfl⟩
  | append_singleton ds d ih =>
    intro v0 h0
    have hds : ∀ d ∈ ds, d.stencilRef < 256 ∧ (d.stencilMask = 0 ∨ d.stencilMask = 255) :=
      fun x hx => hd x (List.mem_append_left _ hx)
    obtain ⟨hr, hmask⟩ := hd d (List.mem_append_right _ (List.mem_singleton_self d))
    obtain ⟨hv, hcase⟩ := ih hds v0 h0
    simp only [List.foldl_append, List.foldl_cons, List.foldl_nil]
    have keep : ∀ w, w < 256 → (w = v0 ∨ ∃ d ∈ ds, d.stencilMask = 255 ∧ passes d.obj = true ∧
        w = d.stencilRef) →
        (w = v0 ∨ ∃ x ∈ ds ++ [d], x.stencilMask = 255 ∧ passes x.obj = true ∧
          w = x.stencilRef) := by
      intro w _ hw
      rcases hw with hw | ⟨x, hx, h1, h2, h3⟩
      · exact Or.inl hw
      · exact Or.inr ⟨x, List.mem_append_left _ hx, h1, h2, h3⟩
    split
    · rename_i hc
      rcases hmask with hz | hf
      · rw [hz, stencilWrite_zero _ _ hv]
        exact ⟨hv, keep _ hv hcase⟩
      · rw [hf, stencilWrite_full _ _ hr]
        exact ⟨hr, Or.inr ⟨d, List.mem_append_right _ (List.mem_singleton_self d), hf, hc.2,
          rfl⟩⟩
    · exact ⟨hv, keep _ hv hcase⟩

/-- The draws of the picking pass, one by one: the draw of the object at
position `k` has reference `k + 1` clamped to 255 and the mask of its kind. -/
theorem pickingPass_draw (st : App) (d : Draw) (hd : d ∈ (pickingPass st).gl.draws) :
    ∃ o, st.RenderObjects[d.obj]? = some o ∧ d.stencilRef = min (d.obj + 1) 255 ∧
      d.stencilMask = o._type.drawMask ∧ d.stencilTest = true := by
  have hmem : (d.obj, d.stencilRef, d.stencilMask, d.stencilTest)
      ∈ (pickingPass st).stencilOps := by
    unfold App.stencilOps
    exact List.mem_map.mpr ⟨d, hd, rfl⟩
  rw [(pickingPass_stencilOps st).1] at hmem
  obtain ⟨k, o, ho, hx⟩ := mem_stencilOpsFrom true st.RenderObjects 0 _ hmem
  simp only [Prod.mk.injEq, Nat.zero_add] at hx
  obtain ⟨h1, h2, h3, h4⟩ := hx
  exact ⟨o, by rw [h1]; exact ho, by rw [h2, h1], h3, h4⟩

theorem drawMask_cases (t : RenderObjectType) : t.drawMask = 0 ∨ t.drawMask = 255 := by
  cases t <;> simp [RenderObjectType.drawMask]

theorem drawMask_full (t : RenderObjectType) (h : t.drawMask = 255) :
    t ≠ .CubeMap ∧ t ≠ .Water := by
  cases t <;> simp [RenderObjectType.drawMask] at h ⊢

/-- Pairwise distinct references of the picking pass: at most 255 objects. -/
theorem length_le_of_distinct (st : App)
    (hdist : ∀ i j r, (i, r) ∈ (pickingPass st).stencilLog →
      (j, r) ∈ (pickingPass st).stencilLog → i = j) :
    st.RenderObjects.length ≤ 255 := by
  by_contra hc
  rw [pickingPass_stencilLog] at hdist
  have h1 : (254, 255) ∈ (List.range st.RenderObjects.length).map
      (fun k => (k, min (k + 1) 255)) :=
    List.mem_map.mpr ⟨254, List.mem_range.mpr (by omega), rfl⟩
  have h2 : (255, 255) ∈ (List.range st.RenderObjects.length).map
      (fun k => (k, min (k + 1) 255)) :=
    List.mem_map.mpr ⟨255, List.mem_range.mpr (by omega), rfl⟩
  have := hdist 254 255 255 h1 h2
  omega

/-- C28: in the stencil pass of `DoPicking` the draws of the cube map and of
the water are issued with stencil mask 0x00, every other draw with 0xFF, and
the mask is 0xFF after the pass; so for every collection whose stencil
references are pairwise distinct and every pixel (given by the set `passes`
of the objects whose fragment at the pixel passes the depth test), the
value `R` read back is 0 or `RenderObjects[R - 1]`, the object the pick
resolves to, exists, produced a passing fragment at the pixel and is
neither the cube map nor the water. -/
theorem C28_pick_skips_masked_kinds (st : App) (passes : Nat → Bool)
    (hdist : ∀ i j r, (i, r) ∈ (pickingPass st).stencilLog →
      (j, r) ∈ (pickingPass st).stencilLog → i = j) :
    (pickingPass st).stencilOps = stencilOpsFrom true 0 st.RenderObjects ∧
    (pickingPass st).gl.stencilMask = 255 ∧
    stencilAt passes (pickingPass st).gl.draws < 256 ∧
    (stencilAt passes (pickingPass st).gl.draws = 0 ∨
      ∃ o, st.RenderObjects[stencilAt passes (pickingPass st).gl.draws - 1]? = some o ∧
        passes (stencilAt passes (pickingPass st).gl.draws - 1) = true ∧
        o._type ≠ .CubeMap ∧ o._type ≠ .Water) := by
  have hn := length_le_of_distinct st hdist
  have hds : ∀ d ∈ (pickingPass st).gl.draws,
      d.stencilRef < 256 ∧ (d.stencilMask = 0 ∨ d.stencilMask = 255) := by
    intro d hd
    obtain ⟨o, _, h2, h3, _⟩ := pickingPass_draw st d hd
    exact ⟨by rw [h2]; omega, by rw [h3]; exact drawMask_cases _⟩
  obtain ⟨hv, hcase⟩ := stencil_fold passes _ hds 0 (by norm_num)
  refine ⟨(pickingPass_stencilOps st).1, (pickingPass_stencilOps st).2, hv, ?_⟩
  rcases hcase with h0 | ⟨d, hd, hmask, hpass, hval⟩
  · exact Or.inl h0
  · right
    obtain ⟨o, ho, h2, h3, _⟩ := pickingPass_draw st d hd
    have hlt : d.obj < st.RenderObjects.length := by
      by_contra hc
      rw [List.getElem?_eq_none (not_lt.mp hc)] at ho
      exact absurd ho (by simp)
    have hidx : stencilAt passes (pickingPass st).gl.draws - 1 = d.obj := by
      unfold stencilAt
      rw [hval, h2]
      omega
    rw [hidx]
    exact ⟨o, ho, hpass, drawMask_full _ (h3 ▸ hmask)⟩

/-- C28 witness: a mesh, the cube map, the water and a box; at a pixel that
every object covers, with the mesh in front of the box for the depth test,
the value read back is 1, the reference of the mesh. -/
theorem C28_pick_skips_masked_kinds_witness :
    (∀ i j r,
      (i, r) ∈ (pickingPass (sampleApp [sampleMesh, sampleCubeMap, sampleWater,
        sampleBox .BoxSmlA] (-1) (-1))).stencilLog →
      (j, r) ∈ (pickingPass (sampleApp [sampleMesh, sampleCubeMap, sampleWater,
        sampleBox .BoxSmlA] (-1) (-1))).stencilLog → i = j) ∧
    (pickingPass (sampleApp [sampleMesh, sampleCubeMap, sampleWater,
      sampleBox .BoxSmlA] (-1) (-1))).stencilOps =
      [(0, 1, 255, true), (1, 2, 0, true), (2, 3, 0, true), (3, 4, 255, true)] ∧
    stencilAt (fun i => decide (i < 3)) (pickingPass (sampleApp [sampleMesh, sampleCubeMap,
      sampleWater, sampleBox .BoxSmlA] (-1) (-1))).gl.draws = 1 := by
  have hdist : ∀ i j r,
      (i, r) ∈ (pickingPass (sampleApp [sampleMesh, sampleCubeMap, sampleWater,
        sampleBox .BoxSmlA] (-1) (-1))).stencilLog →
      (j, r) ∈ (pickingPass (sampleApp [sampleMesh, sampleCubeMap, sampleWater,
        sampleBox .BoxSmlA] (-1) (-1))).stencilLog → i = j := by
    intro i j r hi hj
    rw [pickingPass_stencilLog] at hi hj
    simp only [sampleApp, List.length_cons, List.length_nil, List.mem_map, List.mem_range,
      Prod.mk.injEq] at hi hj
    obtain ⟨a, ha, rfl, rfl⟩ := hi
    obtain ⟨b, hb, rfl, hr⟩ := hj
    omega
  have h := C28_pick_skips_masked_kinds
    (sampleApp [sampleMesh, sampleCubeMap, sampleWater, sampleBox .BoxSmlA] (-1) (-1))
    (fun i => decide (i < 3)) hdist
  exact ⟨hdist, h.1.trans (by decide), by decide⟩

/-! ## C29: the view matrix under which the main shader draws -/

/-- A render routine issues exactly one draw call; a uniform of its program
with which none of its writes interferes has at the draw the value it had
before the routine. -/
theorem Render_uniformLog (o : RenderObject) (i : Nat) (sh : Shader) (st : App)
    (f : Int) (hw : WritesSeparate sh f)
    (ha : o._type = .Box → Separate sh._utils.useAlpha f)
    (hc : o._type = .CubeMap → Separate sh._utils.useCubeMap f)
    (hm : o._type = .Mesh → ∀ m, o._renderer._material = some m → ∀ nv ∈ m._values,
      Separate (st.gl.locations (st.shaderOf m._shader)._id nv.1) f) :
    (o.Render i sh st).uniformLog f =
      st.uniformLog f ++ [(i, sh._id, st.gl.uniforms sh._id f)] := by
  obtain ⟨h1, h2, h3, h4, h5, h6, h7, h8⟩ := hw
  unfold RenderObject.Render
  cases ht : o._type
  · have hm2 := hm ht
    simp only [RenderObject.RenderMesh, MeshRenderer.Bind]
    cases hmat : o._renderer._material with
    | none =>
      simp [App.uniformLog, GLContext.draw, App.withGL, Shader.SetVal, Shader.Bind, GLContext.useProgram,
        GLContext.uniform_sep, h1]
    | some m =>
      simp only
      split
      · simp only [App.uniformLog, GLContext.draw, App.withGL, Shader.SetVal, Shader.Bind, GLContext.useProgram,
          List.map_append, List.map_cons, List.map_nil, GLContext.uniform_draws,
          GLContext.uniform_program, applyNamed_draws, applyNamed_program,
          GLContext.useProgram_program]
        rw [GLContext.uniform_sep _ _ _ _ _ h1, applyNamed_sep]
        exact hm2 m hmat
      · simp [App.uniformLog, GLContext.draw, App.withGL, Shader.SetVal, Shader.Bind, GLContext.useProgram,
          GLContext.uniform_sep, h1]
  · have ha2 := ha ht
    simp [RenderObject.RenderBox, App.uniformLog, GLContext.draw, App.withGL, Shader.SetVal,
      Shader.SetInt, Shader.SetFloat, Shader.Bind, GLContext.useProgram, GLContext.uniform_sep, h1, h2, h3, ha2]
  · simp only [RenderObject.RenderSphere]
    split <;>
      simp [App.uniformLog, GLContext.draw, App.withGL, Shader.SetVal, Shader.SetInt,
        Shader.SetFloat, Shader.Bind, GLContext.useProgram, GLContext.uniform_sep, h1, h2, h4, h5]
  · have hc2 := hc ht
    simp [RenderObject.RenderCubeMap, App.uniformLog, GLContext.draw, App.withGL,
      Shader.SetVal, Shader.SetInt, Shader.SetFloat, Shader.Bind, GLContext.useProgram, GLContext.uniform_sep, h1, h2,
      hc2]
  · simp [RenderObject.RenderWater, Water.Render, App.uniformLog, GLContext.draw, App.withGL,
      Shader.SetVal, Shader.SetInt, Shader.SetFloat, Shader.Bind, GLContext.useProgram, GLContext.uniform_sep, h8]
  · simp [RenderObject.RenderFire, Fire.Render, App.uniformLog, GLContext.draw, App.withGL,
      Shader.SetVal, Shader.SetInt, Shader.SetFloat, Shader.Bind, GLContext.useProgram, GLContext.uniform_sep, h1, h6,
      h7]
  · simp [RenderObject.RenderCat, App.uniformLog, GLContext.draw, App.withGL, Shader.SetVal,
      Shader.SetInt, Shader.SetFloat, Shader.Bind, GLContext.useProgram, GLContext.uniform_sep, h1, h2]

theorem viewLog_eq (st : App) (p : Nat) (f : Int) :
    viewLog st.gl p f =
      ((st.uniformLog f).filter (fun x => decide (x.2.1 = p))).map (fun x => (x.1, x.2.2)) := by
  unfold viewLog App.uniformLog
  rw [List.filter_map, List.map_map]
  rfl

/-- A render routine with the program `p` adds one entry to the log of `p`,
with the value the uniform had before the routine, and leaves the uniform
alone. -/
theorem Render_viewLog (o : RenderObject) (i : Nat) (sh : Shader) (st : App)
    (f : Int) (hw : WritesSeparate sh f)
    (ha : o._type = .Box → Separate sh._utils.useAlpha f)
    (hc : o._type = .CubeMap → Separate sh._utils.useCubeMap f)
    (hm : o._type = .Mesh → ∀ m, o._renderer._material = some m → ∀ nv ∈ m._values,
      Separate (st.gl.locations (st.shaderOf m._shader)._id nv.1) f) :
    viewLog (o.Render i sh st).gl sh._id f =
      viewLog st.gl sh._id f ++ [(i, st.gl.uniforms sh._id f)] := by
  rw [viewLog_eq, viewLog_eq, Render_uniformLog o i sh st f hw ha hc hm]
  simp

/-- The water routine with another program adds nothing to the log of `p`. -/
theorem RenderWater_viewLog (o : RenderObject) (i : Nat) (sh : Shader) (st : App)
    (f : Int) (p : Nat) (hp : sh._id ≠ p) :
    viewLog (o.RenderWater i sh st).gl p f = viewLog st.gl p f := by
  simp [viewLog, RenderObject.RenderWater, Water.Render, GLContext.draw, App.withGL,
    Shader.SetFloat, Shader.Bind, GLContext.useProgram, List.filter_append, hp]

theorem ApplyBoxSettings_draws (o : RenderObject) (st : App) :
    (ApplyBoxSettings o st).gl.draws = st.gl.draws := by
  unfold ApplyBoxSettings
  cases o._box._type <;> simp [App.withGL, Shader.SetInt, Shader.SetFloat]

/-- The preparation of the loop body of `RenderSceneObjects` for an object:
what it does to the main shader's `ViewM`, to the log of the main program
and to the location table. -/
theorem renderSceneStep_view (st : App) (i : Nat) (o : RenderObject)
    (henv : ViewEnv st [o]) :
    (renderSceneStep st i o).mainViewLog =
      st.mainViewLog ++
        [(i, viewAt o._type (st.gl.uniforms st.shader._id st.shader._utils.ViewM))] ∧
    (renderSceneStep st i o).gl.uniforms st.shader._id st.shader._utils.ViewM =
      viewAt o._type (st.gl.uniforms st.shader._id st.shader._utils.ViewM) := by
  obtain ⟨hid, hloc, hw, ha, hc, hmat⟩ := henv
  have hsc := renderSceneStep_sameControl st i o
  have hm := hmat o (List.mem_singleton_self o)
  obtain ⟨h1, h2, h3, h4, h5, h6, h7, h8⟩ := hw
  have hw2 : WritesSeparate st.shader st.shader._utils.ViewM := ⟨h1, h2, h3, h4, h5, h6, h7, h8⟩
  unfold App.mainViewLog
  rw [hsc.1.1]
  unfold renderSceneStep
  by_cases hb : o._type = .Box
  · simp only [hb, ↓reduceIte, viewAt]
    have hsh : (ApplyBoxSettings o (st.withGL (fun g =>
        Shader.SetVal st.shader._utils.ViewM .viewMatrix (Shader.Bind st.shader g)))).shader
          = st.shader := (ApplyBoxSettings_sameControl o _).1.1
    have hval : (ApplyBoxSettings o (st.withGL (fun g =>
        Shader.SetVal st.shader._utils.ViewM .viewMatrix
          (Shader.Bind st.shader g)))).gl.uniforms st.shader._id st.shader._utils.ViewM
          = some .viewMatrix := by
      refine Eq.trans (ApplyBoxSettings_uniform_untouched o _ _ _ ha h3) ?_
      simp [App.withGL, Shader.SetVal, Shader.Bind, GLContext.useProgram, GLContext.uniform,
        hloc]
    have hlog : viewLog (ApplyBoxSettings o (st.withGL (fun g =>
        Shader.SetVal st.shader._utils.ViewM .viewMatrix
          (Shader.Bind st.shader g)))).gl st.shader._id st.shader._utils.ViewM
          = viewLog st.gl st.shader._id st.shader._utils.ViewM := by
      unfold viewLog
      rw [ApplyBoxSettings_draws]
      simp [App.withGL, Shader.SetVal, Shader.Bind, GLContext.useProgram]
    have hl : (ApplyBoxSettings o (st.withGL (fun g =>
        Shader.SetVal st.shader._utils.ViewM .viewMatrix
          (Shader.Bind st.shader g)))).gl.locations = st.gl.locations := by
      rw [ApplyBoxSettings_locations]
      simp [App.withGL, Shader.SetVal, Shader.Bind, GLContext.useProgram]
    have hso : ∀ r, (ApplyBoxSettings o (st.withGL (fun g =>
        Shader.SetVal st.shader._utils.ViewM .viewMatrix
          (Shader.Bind st.shader g)))).shaderOf r = st.shaderOf r := by
      have hc2 := ApplyBoxSettings_sameControl o (st.withGL (fun g =>
        Shader.SetVal st.shader._utils.ViewM .viewMatrix (Shader.Bind st.shader g)))
      intro r
      cases r
      · exact hc2.1.1
      · exact hc2.1.2.1
      · exact hc2.1.2.2.1
    rw [hsh]
    constructor
    · rw [Render_viewLog o i st.shader _ _ hw2 (fun _ => ha) (fun _ => hc)
        (by intro _ m hm2 nv hnv; rw [hl, hso]; exact hm m hm2 nv hnv), hlog, hval]
    · rw [Render_uniform_untouched o i st.shader _ _ _ hw2 (fun _ => ha) (fun _ => hc)
        (by intro _ m hm2 nv hnv; rw [hl, hso]; exact hm m hm2 nv hnv), hval]
  · by_cases hcm : o._type = .CubeMap
    · simp only [hcm, ↓reduceIte, viewAt, reduceCtorEq]
      have hval : (st.withGL (fun g =>
          Shader.SetVal st.shader._utils.ViewM .viewRotation
            (Shader.Bind st.shader g))).gl.uniforms st.shader._id st.shader._utils.ViewM
            = some .viewRotation := by
        simp [App.withGL, Shader.SetVal, Shader.Bind, GLContext.useProgram, GLContext.uniform,
          hloc]
      have hlog : viewLog (st.withGL (fun g =>
          Shader.SetVal st.shader._utils.ViewM .viewRotation
            (Shader.Bind st.shader g))).gl st.shader._id st.shader._utils.ViewM
            = viewLog st.gl st.shader._id st.shader._utils.ViewM := by
        simp [viewLog, App.withGL, Shader.SetVal, Shader.Bind, GLContext.useProgram]
      have hl : (st.withGL (fun g =>
          Shader.SetVal st.shader._utils.ViewM .viewRotation
            (Shader.Bind st.shader g))).gl.locations = st.gl.locations := by
        simp [App.withGL, Shader.SetVal, Shader.Bind, GLContext.useProgram]
      constructor
      · refine Eq.trans (Render_viewLog o i st.shader _ _ hw2 (fun _ => ha) (fun _ => hc)
          (by intro _ m hm2 nv hnv; rw [hl]; exact hm m hm2 nv hnv)) ?_
        rw [hlog, hval]
      · refine Eq.trans (Render_uniform_untouched o i st.shader _ _ _ hw2 (fun _ => ha)
          (fun _ => hc) (by intro _ m hm2 nv hnv; rw [hl]; exact hm m hm2 nv hnv)) ?_
        exact hval
    · by_cases hwt : o._type = .Water
      · simp only [hwt, ↓reduceIte, viewAt, reduceCtorEq]
        have hr : o.Render i st.shaderWater st = o.RenderWater i st.shaderWater st := by
          unfold RenderObject.Render; rw [hwt]
        have hsh : (o.Render i st.shaderWater st).shader = st.shader :=
          (Render_sameControl o i _ _).1.1
        rw [hsh]
        constructor
        · refine Eq.trans (Render_viewLog o i st.shader _ _ hw2 (fun _ => ha) (fun _ => hc)
            (by intro hmesh; rw [hwt] at hmesh; exact absurd hmesh (by simp))) ?_
          rw [hr, RenderWater_viewLog o i _ st _ _ hid,
            RenderWater_other_program o i _ st _ _ hid.symm]
        · refine Eq.trans (Render_uniform_untouched o i st.shader _ _ _ hw2 (fun _ => ha)
            (fun _ => hc) (by intro hmesh; rw [hwt] at hmesh; exact absurd hmesh (by simp))) ?_
          rw [hr, RenderWater_other_program o i _ st _ _ hid.symm]
      · simp only [hb, hcm, hwt, ↓reduceIte]
        have hv : viewAt o._type (st.gl.uniforms st.shader._id st.shader._utils.ViewM)
            = st.gl.uniforms st.shader._id st.shader._utils.ViewM := by
          cases ht : o._type <;> simp_all [viewAt]
        rw [hv]
        exact ⟨Render_viewLog o i st.shader _ _ hw2 (fun _ => ha) (fun _ => hc)
            (fun _ => hm),
          Render_uniform_untouched o i st.shader _ _ _ hw2 (fun _ => ha) (fun _ => hc)
            (fun _ => hm)⟩

theorem ViewEnv.head {st : App} {o : RenderObject} {os : List RenderObject}
    (h : ViewEnv st (o :: os)) : ViewEnv st [o] := by
  obtain ⟨a, b, c, d, e, f⟩ := h
  refine ⟨a, b, c, d, e, ?_⟩
  intro o2 ho2
  rw [List.mem_singleton] at ho2
  exact f o2 (by rw [ho2]; exact List.mem_cons_self _ _)

theorem ViewEnv.tail {st : App} {o : RenderObject} {os : List RenderObject} (i : Nat)
    (h : ViewEnv st (o :: os)) : ViewEnv (renderSceneStep st i o) os := by
  obtain ⟨a, b, c, d, e, f⟩ := h
  have hsc := renderSceneStep_sameControl st i o
  have hloc := renderSceneStep_locations st i o
  have hshaderOf : ∀ r, (renderSceneStep st i o).shaderOf r = st.shaderOf r := by
    intro r
    cases r
    · exact hsc.1.1
    · exact hsc.1.2.1
    · exact hsc.1.2.2.1
  unfold ViewEnv
  rw [hsc.1.1, hsc.1.2.1, hloc]
  refine ⟨a, b, c, d, e, ?_⟩
  intro o2 ho2 m hm nv hnv
  rw [hshaderOf]
  exact f o2 (List.mem_cons_of_mem _ ho2) m hm nv hnv

/-- The loop of `RenderSceneObjects`: the main-shader draws with the value of
`ViewM` at each. -/
theorem RenderSceneObjectsFrom_view (os : List RenderObject) :
    ∀ (i : Nat) (st : App), ViewEnv st os →
      (RenderSceneObjectsFrom i os st).mainViewLog =
        st.mainViewLog ++
          viewLogFrom i os (st.gl.uniforms st.shader._id st.shader._utils.ViewM) := by
  induction os with
  | nil => intro i st _; simp [RenderSceneObjectsFrom, viewLogFrom]
  | cons o os ih =>
    intro i st henv
    obtain ⟨h1, h2⟩ := renderSceneStep_view st i o henv.head
    have hsc := renderSceneStep_sameControl st i o
    have h := ih (i + 1) (renderSceneStep st i o) (henv.tail i)
    rw [hsc.1.1, h1, h2] at h
    rw [RenderSceneObjectsFrom, h]
    simp [viewLogFrom]

/-- The entries of the log of a loop carry the positions `i`, `i + 1`, ... -/
theorem viewLogFrom_index (os : List RenderObject) :
    ∀ (i : Nat) (v : Option UVal) (x : Nat × Option UVal), x ∈ viewLogFrom i os v →
      i ≤ x.1 ∧ x.1 < i + os.length := by
  induction os with
  | nil => intro i v x hx; simp [viewLogFrom] at hx
  | cons o os ih =>
    intro i v x hx
    simp only [viewLogFrom, List.mem_cons] at hx
    rcases hx with rfl | hx
    · simp
    · have := ih (i + 1) _ x hx
      simp only [List.length_cons]
      omega

/-- The value of `ViewM` after a loop over `os` that starts with `v`. -/
theorem viewLogFrom_append (pre suf : List RenderObject) :
    ∀ (i : Nat) (v : Option UVal),
      viewLogFrom i (pre ++ suf) v =
        viewLogFrom i pre v ++
          viewLogFrom (i + pre.length) suf (pre.foldl (fun w o => viewAt o._type w) v) := by
  induction pre with
  | nil => intro i v; simp [viewLogFrom]
  | cons o os ih =>
    intro i v
    have h := ih (i + 1) (viewAt o._type v)
    rw [show i + 1 + os.length = i + (o :: os).length by
      simp only [List.length_cons]; omega] at h
    show (i, viewAt o._type v) :: viewLogFrom (i + 1) (os ++ suf) (viewAt o._type v) = _
    rw [h]
    rfl

/-- A loop without a box that starts with the stripped matrix: every draw is
made with it, at each of the positions, and the loop ends with it. -/
theorem viewLogFrom_stripped (mid : List RenderObject) (hmid : ∀ o ∈ mid, o._type ≠ .Box) :
    ∀ i : Nat,
      viewLogFrom i mid (some .viewRotation) =
        (List.range mid.length).map (fun k => (i + k, some .viewRotation)) := by
  induction mid with
  | nil => intro i; simp [viewLogFrom]
  | cons o os ih =>
    intro i
    have ho : viewAt o._type (some .viewRotation) = some .viewRotation := by
      have := hmid o (List.mem_cons_self _ _)
      cases ht : o._type <;> simp_all [viewAt]
    simp only [viewLogFrom, ho, List.length_cons, List.range_succ_eq_map, List.map_cons,
      List.map_map, Nat.add_zero]
    rw [ih (fun o2 ho2 => hmid o2 (List.mem_cons_of_mem _ ho2)) (i + 1)]
    congr 1
    apply List.map_congr_left
    intro k _
    simp only [Function.comp_apply]
    rw [show i + 1 + k = i + (k + 1) by omega]

/-- C29: in `RenderSceneObjects` the main shader's `ViewM` is assigned only
right before a box (the full view matrix) and right before the cube map (the
view matrix without its translation), so the main-shader draws are made with
the values `viewLogFrom` lists; the value is not restored after the cube
map: every object between a cube map and the next box (the water, in the
order of `LoadObjects`) is drawn by the main shader, and drawn only with the
stripped matrix.  Assumed of the graphics library: `ViewEnv`; the draw phase
starts right after the clear of the frame. -/
theorem C29_view_matrix_after_cube_map (st : App) (pre mid rest : List RenderObject)
    (cube : RenderObject) (hobjs : st.RenderObjects = pre ++ cube :: (mid ++ rest))
    (hcube : cube._type = .CubeMap) (hmid : ∀ o ∈ mid, o._type ≠ .Box)
    (henv : ViewEnv st st.RenderObjects) (hclear : st.gl.draws = []) :
    (RenderSceneObjects st).mainViewLog =
      viewLogFrom 0 st.RenderObjects (st.gl.uniforms st.shader._id st.shader._utils.ViewM) ∧
    ∀ j, pre.length ≤ j → j ≤ pre.length + mid.length →
      (j, some UVal.viewRotation) ∈ (RenderSceneObjects st).mainViewLog ∧
      ∀ v, (j, v) ∈ (RenderSceneObjects st).mainViewLog → v = some UVal.viewRotation := by
  have hlog : (RenderSceneObjects st).mainViewLog =
      viewLogFrom 0 st.RenderObjects
        (st.gl.uniforms st.shader._id st.shader._utils.ViewM) := by
    unfold RenderSceneObjects
    rw [RenderSceneObjectsFrom_view _ 0 st henv]
    simp [App.mainViewLog, viewLog, hclear]
  refine ⟨hlog, ?_⟩
  intro j hj1 hj2
  rw [hlog, hobjs, viewLogFrom_append]
  have hsplit : viewLogFrom (0 + pre.length) (cube :: (mid ++ rest))
      (pre.foldl (fun w o => viewAt o._type w)
        (st.gl.uniforms st.shader._id st.shader._utils.ViewM)) =
      (pre.length, some UVal.viewRotation) ::
        ((List.range mid.length).map (fun k => (pre.length + 1 + k, some UVal.viewRotation)) ++
          viewLogFrom (pre.length + 1 + mid.length) rest
            (mid.foldl (fun w o => viewAt o._type w) (some UVal.viewRotation))) := by
    have hc : ∀ w, viewAt cube._type w = some UVal.viewRotation := by
      intro w; rw [hcube]; rfl
    simp only [viewLogFrom, Nat.zero_add]
    rw [hc, viewLogFrom_append, viewLogFrom_stripped mid hmid]
  rw [hsplit]
  constructor
  · apply List.mem_append_right
    rcases Nat.eq_or_lt_of_le hj1 with h | h
    · rw [← h]; exact List.mem_cons_self _ _
    · apply List.mem_cons_of_mem
      apply List.mem_append_left
      exact List.mem_map.mpr ⟨j - (pre.length + 1), List.mem_range.mpr (by omega),
        by simp only [Prod.mk.injEq, and_true]; omega⟩
  · intro v hv
    rcases List.mem_append.mp hv with h | h
    · have := (viewLogFrom_index pre 0 _ _ h).2
      simp only at this
      omega
    · rcases List.mem_cons.mp h with h | h
      · exact (Prod.mk.inj h).2
      · rcases List.mem_append.mp h with h | h
        · obtain ⟨k, _, hk⟩ := List.mem_map.mp h
          exact (Prod.mk.inj hk).2.symm
        · have := (viewLogFrom_index rest _ _ _ h).1
          simp only at this
          omega

/-- C29 witness: a mesh, the fire, the cube map, the water and a box: the
water at position 3 is drawn by the main shader with the stripped matrix,
the box after it with the full view matrix. -/
theorem C29_view_matrix_after_cube_map_witness :
    (sampleLoadOrder.RenderObjects =
        [sampleMesh, sampleFire] ++ sampleCubeMap :: ([sampleWater] ++ [sampleBox .BoxBigT]) ∧
      ViewEnv sampleLoadOrder sampleLoadOrder.RenderObjects ∧
      sampleLoadOrder.gl.draws = []) ∧
    (RenderSceneObjects sampleLoadOrder).mainViewLog =
      [(0, none), (1, none), (2, some .viewRotation), (3, some .viewRotation),
        (4, some .viewMatrix)] ∧
    (3, some UVal.viewRotation) ∈ (RenderSceneObjects sampleLoadOrder).mainViewLog ∧
    ∀ v, (3, v) ∈ (RenderSceneObjects sampleLoadOrder).mainViewLog →
      v = some UVal.viewRotation := by
  have henv : ViewEnv sampleLoadOrder sampleLoadOrder.RenderObjects := by
    refine ⟨by decide, by decide, by unfold WritesSeparate; decide, by decide, by decide, ?_⟩
    intro o ho m hm
    simp only [sampleLoadOrder, sampleApp, List.mem_cons, List.mem_singleton,
      List.mem_nil_iff, or_false] at ho
    rcases ho with h | h | h | h | h <;> rw [h] at hm <;> cases hm
  have hmid : ∀ o ∈ [sampleWater], o._type ≠ .Box := by
    intro o ho
    rw [List.mem_singleton] at ho
    rw [ho]
    decide
  have h := C29_view_matrix_after_cube_map sampleLoadOrder [sampleMesh, sampleFire]
    [sampleWater] [sampleBox .BoxBigT] sampleCubeMap rfl rfl hmid henv rfl
  exact ⟨⟨rfl, henv, rfl⟩, h.1.trans (by decide), h.2 3 (by decide) (by decide)⟩

/-! ## C30: mouse look only in dynamic mode -/

section InputFacts

variable {α : Type} [LinearOrderedField α]

omit [LinearOrderedField α] in
theorem useStaticCamera_flags (k : Nat) (v s : View α) (h : useStaticCamera k v = some s) :
    s.input.mouseLooking = false ∧ s.dynamicMode = false := by
  unfold useStaticCamera at h
  simp only at h
  split at h
  · exact absurd h (by simp)
  · rw [← Option.some.inj h]
    exact ⟨rfl, rfl⟩

/-- `ChangeCamera` keeps the flag `mouseLooking` off outside dynamic mode. -/
theorem ChangeCamera_looking (m : Libm α) (tr : Trig α) (mem : Store α) (fuel : Nat)
    (buttonIdx : Int) (v s : View α) (hv : LookingIsDynamic v)
    (h : ChangeCamera m tr mem fuel buttonIdx v = some s) : LookingIsDynamic s := by
  unfold ChangeCamera at h
  split at h
  · simp only at h
    split at h
    · split at h
      · rw [← Option.some.inj h]
        intro _
        rfl
      · exact absurd h (by simp)
    · exact absurd h (by simp)
  · split at h
    · intro hl
      rw [(useStaticCamera_flags 1 v s h).1] at hl
      exact absurd hl (by simp)
    · split at h
      · intro hl
        rw [(useStaticCamera_flags 2 v s h).1] at hl
        exact absurd hl (by simp)
      · split at h
        · intro hl
          rw [(useStaticCamera_flags 3 v s h).1] at hl
          exact absurd hl (by simp)
        · rw [← Option.some.inj h]
          exact hv

/-- `OnKeyChanged` keeps the flag `mouseLooking` off outside dynamic mode. -/
theorem OnKeyChanged_looking (m : Libm α) (tr : Trig α) (mem : Store α) (fuel : Nat)
    (key : Key) (pressed : Bool) (v s : View α) (hv : LookingIsDynamic v)
    (h : OnKeyChanged m tr mem fuel key pressed v = some s) : LookingIsDynamic s := by
  unfold OnKeyChanged at h
  cases pressed
  · cases key <;> simp only [Bool.false_eq_true, ↓reduceIte] at h <;>
      (rw [← Option.some.inj h]; exact hv)
  · cases key <;> simp only [↓reduceIte] at h
    case LEFT => refine ChangeCamera_looking m tr mem fuel _ _ s ?_ h; exact hv
    case RIGHT => refine ChangeCamera_looking m tr mem fuel _ _ s ?_ h; exact hv
    case DOWN => exact ChangeCamera_looking m tr mem fuel _ _ s hv h
    case K1 => exact ChangeCamera_looking m tr mem fuel _ _ s hv h
    case K2 => exact ChangeCamera_looking m tr mem fuel _ _ s hv h
    case K3 => exact ChangeCamera_looking m tr mem fuel _ _ s hv h
    case K4 => exact ChangeCamera_looking m tr mem fuel _ _ s hv h
    all_goals (rw [← Option.some.inj h]; exact hv)

/-- `OnMouseButtonChanged` keeps the flag `mouseLooking` off outside dynamic
mode. -/
theorem OnMouseButtonChanged_looking (button : MouseButton) (pressed : Bool) (v : View α)
    (hv : LookingIsDynamic v) : LookingIsDynamic (OnMouseButtonChanged button pressed v) := by
  unfold OnMouseButtonChanged
  cases pressed
  · exact hv
  · cases button
    · simp only [↓reduceIte]
      cases hd : v.dynamicMode
      · intro hl
        simp at hl
      · simp only [Bool.not_true, Bool.false_eq_true, ↓reduceIte]
        split <;> (intro _; rfl)
    · exact hv
    · exact hv

theorem UpdateMouse_flags (m : Libm α) (v : View α) :
    (UpdateMouse m v).input = v.input ∧ (UpdateMouse m v).dynamicMode = v.dynamicMode := by
  unfold UpdateMouse
  split
  · exact ⟨rfl, rfl⟩
  · exact ⟨rfl, rfl⟩

theorem UpdateKeyboard_flags (m : Libm α) (v : View α) :
    (UpdateKeyboard m v).input = v.input ∧
    (UpdateKeyboard m v).dynamicMode = v.dynamicMode := by
  unfold UpdateKeyboard
  split
  · exact ⟨rfl, rfl⟩
  · exact ⟨rfl, rfl⟩

/-- `App::Update` keeps the flag `mouseLooking` off outside dynamic mode. -/
theorem Update_looking (m : Libm α) (v : View α) (hv : LookingIsDynamic v) :
    LookingIsDynamic (Update m v) := by
  unfold LookingIsDynamic Update
  rw [(UpdateKeyboard_flags m _).1, (UpdateKeyboard_flags m _).2, (UpdateMouse_flags m v).1,
    (UpdateMouse_flags m v).2]
  exact hv

/-- Every run of the input loop keeps the flag `mouseLooking` off outside
dynamic mode. -/
theorem runInput_looking (m : Libm α) (tr : Trig α) (mem : Store α) (fuel : Nat)
    (events : List (InputEvent α)) :
    ∀ v s : View α, LookingIsDynamic v → runInput m tr mem fuel events v = some s →
      LookingIsDynamic s := by
  induction events with
  | nil =>
    intro v s hv h
    rw [← Option.some.inj h]
    exact hv
  | cons e es ih =>
    intro v s hv h
    simp only [runInput] at h
    cases hstep : e.apply m tr mem fuel v with
    | none => rw [hstep] at h; exact absurd h (by simp)
    | some w =>
      rw [hstep, Option.some_bind] at h
      refine ih w s ?_ h
      cases e with
      | key k pressed => exact OnKeyChanged_looking m tr mem fuel k pressed v w hv hstep
      | mouse b pressed =>
        rw [← Option.some.inj hstep]
        exact OnMouseButtonChanged_looking b pressed v hv
      | update =>
        rw [← Option.some.inj hstep]
        exact Update_looking m v hv
      | cursor x y =>
        rw [← Option.some.inj hstep]
        exact hv

/-- Outside dynamic mode and without mouse look `App::Update` changes
nothing. -/
theorem Update_static (m : Libm α) (v : View α) (hd : v.dynamicMode = false)
    (hl : v.input.mouseLooking = false) : Update m v = v := by
  unfold Update UpdateMouse UpdateKeyboard
  simp [hd, hl]

/-- C30: in every state `s` reached from a state with `dynamicMode = true`
(as the initial state has it; its `mouseLooking = false` is not needed) by
calls of `OnKeyChanged`, `OnMouseButtonChanged` and `Update` (and cursor
movements), `mouseLooking` implies `dynamicMode`; so whenever
`dynamicMode = false` in `s`, `App::Update` leaves the camera transform
(position, yaw, pitch, rotation) as it is. -/
theorem C30_static_camera_ignores_update (m : Libm α) (tr : Trig α) (mem : Store α)
    (fuel : Nat) (events : List (InputEvent α)) (v s : View α)
    (hd : v.dynamicMode = true)
    (hrun : runInput m tr mem fuel events v = some s) :
    (s.input.mouseLooking = true → s.dynamicMode = true) ∧
    (s.dynamicMode = false →
      (Update m s).cameraObject._transform = s.cameraObject._transform) := by
  have hinv : LookingIsDynamic s :=
    runInput_looking m tr mem fuel events v s (fun _ => hd) hrun
  refine ⟨hinv, ?_⟩
  intro hs
  have hl : s.input.mouseLooking = false := by
    cases h : s.input.mouseLooking
    · rfl
    · rw [hinv h] at hs
      exact absurd hs (by simp)
  rw [Update_static m s hs hl]

end InputFacts

/-- C30 witness: from the initial view the left button starts mouse look,
key 2 selects the first static camera, W is held, the left button is clicked
again and the cursor moves: dynamic mode and mouse look are off, and
`App::Update` leaves the camera at the preset (-12, 10, -10). -/
theorem C30_static_camera_ignores_update_witness :
    (sampleInitialView.dynamicMode = true ∧ sampleInitialView.input.mouseLooking = false) ∧
    ∃ s, runInput sampleLibm sampleTrig [] 1 sampleInputs sampleInitialView = some s ∧
      s.input.keyW = true ∧ s.dynamicMode = false ∧ s.input.mouseLooking = false ∧
      s.cameraObject._transform._position = ⟨-12, 10, -10⟩ ∧
      (Update sampleLibm s).cameraObject._transform = s.cameraObject._transform := by
  have hsome : (runInput sampleLibm sampleTrig [] 1 sampleInputs sampleInitialView).isSome
      = true := rfl
  obtain ⟨s, hs⟩ := Option.isSome_iff_exists.mp hsome
  have hflags : (runInput sampleLibm sampleTrig [] 1 sampleInputs sampleInitialView).map
      (fun s => (s.input.keyW, s.dynamicMode, s.input.mouseLooking,
        s.cameraObject._transform._position)) = some (true, false, false, ⟨-12, 10, -10⟩) :=
    rfl
  rw [hs] at hflags
  simp only [Option.map_some', Option.some.injEq, Prod.mk.injEq] at hflags
  obtain ⟨h1, h2, h3, h4⟩ := hflags
  exact ⟨⟨rfl, rfl⟩, s, hs, h1, h2, h3, h4,
    (C30_static_camera_ignores_update sampleLibm sampleTrig [] 1 sampleInputs
      sampleInitialView s rfl hs).2 h2⟩

/-! ## C21: the bounds check of `LoadFloatAttribute` -/

theorem u64_of_lt {n : Nat} (h : n < 18446744073709551616) : u64 n = n :=
  Nat.mod_eq_of_lt h

/-- A `mapM` over a list succeeds when the function succeeds on every
element. -/
theorem mapM_some_of_forall {β γ : Type} (f : β → Option γ) (l : List β)
    (h : ∀ x ∈ l, ∃ y, f x = some y) : ∃ ys, l.mapM f = some ys := by
  induction l with
  | nil => exact ⟨[], rfl⟩
  | cons x rest ih =>
    obtain ⟨y, hy⟩ := h x (List.mem_cons_self _ _)
    obtain ⟨ys, hys⟩ := ih (fun z hz => h z (List.mem_cons_of_mem _ hz))
    exact ⟨y :: ys, by rw [List.mapM_cons, hy, hys]; rfl⟩

theorem readFloat_inside (data : List Nat) (off : Nat) (h : off + 4 ≤ data.length) :
    ∃ v, readFloat data off = some v := by
  unfold readFloat readU32
  rw [List.getElem?_eq_getElem (by omega : off < data.length),
    List.getElem?_eq_getElem (by omega : off + 1 < data.length),
    List.getElem?_eq_getElem (by omega : off + 2 < data.length),
    List.getElem?_eq_getElem (by omega : off + 3 < data.length)]
  exact ⟨_, rfl⟩

/-- The extraction loop stays inside the buffer when no byte it reads lies
past the end. -/
theorem extractFloats_inside (data : List Nat) (start stride count components : Nat)
    (hw : count * stride < 18446744073709551616)
    (hin : ¬ ReadsPastEnd data.length start stride count components) :
    ∃ fs, extractFloats data start stride count components = some fs := by
  unfold extractFloats
  have hrows : ∀ i ∈ List.range count, ∃ row,
      (List.range components).mapM (fun c =>
        readFloat data (start + u64 (i * stride) + 4 * c)) = some row := by
    intro i hi
    have hic : i < count := List.mem_range.mp hi
    apply mapM_some_of_forall
    intro c hc
    have hcc : c < components := List.mem_range.mp hc
    have hlt : i * stride < 18446744073709551616 :=
      lt_of_le_of_lt (Nat.mul_le_mul_right _ (le_of_lt hic)) hw
    rw [u64_of_lt hlt]
    apply readFloat_inside
    by_contra hcon
    exact hin ⟨i, hic, c, hcc, by omega⟩
  obtain ⟨rows, h⟩ := mapM_some_of_forall _ _ hrows
  exact ⟨rows.flatten, by rw [h]; rfl⟩

/-- Where the check is right: for a buffer view whose stride is 0 or at
least the size of an element, and without wrap-around of the `size_t`
arithmetic, `LoadFloatAttribute` returns the empty attribute whenever the
extraction would read past the end of the buffer, and reads inside the
buffer otherwise. -/
theorem extractChecked_strided (components : Nat) (acc : Gltf.Accessor)
    (view : Gltf.BufferView) (buf : Gltf.Buffer) (hc : components ≤ 4)
    (hstride : view.byteStride = 0 ∨ 4 * components ≤ view.byteStride)
    (hw : view.byteOffset + acc.byteOffset + acc.count * attributeStride components view
      < 18446744073709551616) :
    (ReadsPastEnd buf.data.length (view.byteOffset + acc.byteOffset)
        (attributeStride components view) acc.count components →
      extractChecked components acc view buf = some []) ∧
    ∃ fs, extractChecked components acc view buf = some fs := by
  have hs : 4 * components ≤ attributeStride components view := by
    unfold attributeStride
    split
    · rw [u64_of_lt (by omega)]; omega
    · rcases hstride with h | h
      · contradiction
      · exact h
  have h1 : u64 (view.byteOffset + acc.byteOffset) = view.byteOffset + acc.byteOffset :=
    u64_of_lt (by omega)
  have h2 : u64 (acc.count * attributeStride components view)
      = acc.count * attributeStride components view := u64_of_lt (by omega)
  have h3 : u64 (view.byteOffset + acc.byteOffset + acc.count * attributeStride components view)
      = view.byteOffset + acc.byteOffset + acc.count * attributeStride components view :=
    u64_of_lt hw
  unfold extractChecked
  simp only [h1, h2, h3]
  constructor
  · rintro ⟨i, hi, c, hcc, hover⟩
    rw [if_pos]
    have hmul : (i + 1) * attributeStride components view
        ≤ acc.count * attributeStride components view := Nat.mul_le_mul_right _ hi
    rw [Nat.add_mul, Nat.one_mul] at hmul
    show buf.data.length
      < view.byteOffset + acc.byteOffset + acc.count * attributeStride components view
    omega
  · split
    · exact ⟨[], rfl⟩
    · rename_i hfit
      apply extractFloats_inside _ _ _ _ _ (by omega)
      rintro ⟨i, hi, c, hcc, hover⟩
      apply hfit
      have hmul : (i + 1) * attributeStride components view
          ≤ acc.count * attributeStride components view := Nat.mul_le_mul_right _ hi
      rw [Nat.add_mul, Nat.one_mul] at hmul
      show buf.data.length
        < view.byteOffset + acc.byteOffset + acc.count * attributeStride components view
      omega

/-- C21, failing input: one element of three floats, a buffer view with
`byteStride` 4 and a buffer of 4 bytes.  The extraction reads the bytes 0 to
11, so it reads past the end of the buffer; the check
`byteOffset + count * attributeStride > size` compares 4 with 4 and lets the
extraction run, so the function does not return the empty attribute: it
reads outside the buffer (`none`). -/
theorem C21_stride_defeats_bounds_check :
    ReadsPastEnd sampleShortBuffer.data.length 0 4 1 3 ∧
    LoadFloatAttribute "POSITION" 3 false sampleShortModel sampleShortPrimitive ≠ some [] ∧
    LoadFloatAttribute "POSITION" 3 false sampleShortModel sampleShortPrimitive = none ∧
    readFloat sampleShortBuffer.data 4 = none := by
  refine ⟨⟨0, by decide, 1, by decide, by decide⟩, by decide, by decide, by decide⟩

/-! ## C24: the UV channels of the expanded mesh -/

theorem SetTexCoords_count {α : Type} (s s2 : MeshSource α) (uv : List α) (i : Nat)
    (hi : i ≤ 3) (h : s.SetTexCoords uv (i : Int) = some s2) :
    s2._texCoordChannelCount = max s._texCoordChannelCount i := by
  have hu : intToU32 (i : Int) = i := by
    unfold intToU32
    omega
  unfold MeshSource.SetTexCoords at h
  rw [if_neg (by omega), hu] at h
  simp only at h
  split at h
  · rename_i hgt
    simp only [assignFrom] at h
    split at h
    · simp only [Option.map_some', Option.some.injEq] at h
      rw [← h]
      simp only
      omega
    · exact absurd h (by simp)
  · rename_i hgt
    simp only [assignFrom] at h
    split at h
    · simp only [Option.map_some', Option.some.injEq] at h
      rw [← h]
      simp only
      omega
    · exact absurd h (by simp)

/-- After the UV channels `i`, ..., `i + k - 1` have been populated,
`TexCoordCount()` is the largest channel index, not the number of
channels. -/
theorem populateTexCoords_count {α : Type} (uvs : List (List α)) :
    ∀ (i : Nat) (s s2 : MeshSource α), i + uvs.length ≤ 4 →
      populateTexCoords i uvs s = some s2 →
      s2.TexCoordCount = if uvs.isEmpty then s.TexCoordCount
        else max s.TexCoordCount (i + uvs.length - 1) := by
  induction uvs with
  | nil =>
    intro i s s2 _ h
    simp only [populateTexCoords, Option.some.injEq] at h
    rw [← h]
    simp
  | cons uv rest ih =>
    intro i s s2 hlen h
    simp only [List.length_cons] at hlen
    simp only [populateTexCoords] at h
    cases hs : s.SetTexCoords uv (i : Int) with
    | none => rw [hs] at h; exact absurd h (by simp)
    | some s1 =>
      rw [hs, Option.some_bind] at h
      have h1 := SetTexCoords_count s s1 uv i (by omega) hs
      have h2 := ih (i + 1) s1 s2 (by omega) h
      simp only [MeshSource.TexCoordCount] at h2 ⊢
      rw [h2, h1]
      simp only [List.isEmpty_cons, Bool.false_eq_true, ↓reduceIte, List.length_cons]
      cases rest with
      | nil => simp
      | cons r rs =>
        simp only [List.isEmpty_cons, Bool.false_eq_true, ↓reduceIte, List.length_cons]
        omega

/-- C24, failing input: a source mesh of three vertices and the face
(2, 0, 1) whose UV channels 0 and 1 are populated with `SetTexCoords`.
`SetTexCoords` stores the highest channel index in `_texCoordChannelCount`,
so `TexCoordCount()` is 1 and the expansion copies channel 0 alone: the
expanded mesh holds the UVs of the vertices 2, 0, 1 in channel 0 and nothing
in channel 1.  With channel 0 alone populated `TexCoordCount()` is 0 and the
expanded mesh holds no UV at all. -/
theorem C24_last_channel_lost :
    sampleTwoChannels.map (fun s => s._texCoordChannels) =
      some [[10, 11, 20, 21, 30, 31], [40, 41, 50, 51, 60, 61], [], []] ∧
    sampleTwoChannels.map (fun s => s.TexCoordCount) = some 1 ∧
    (sampleTwoChannels.bind (fun s => LoadMesh s false)).map (fun r => r._texCoordChannels) =
      some [[30, 31, 10, 11, 20, 21], [], [], []] ∧
    sampleOneChannel.map (fun s => s.TexCoordCount) = some 0 ∧
    (sampleOneChannel.bind (fun s => LoadMesh s false)).map (fun r => r._texCoordChannels) =
      some [[], [], [], []] := by
  refine ⟨by decide, by decide, by decide, by decide, by decide⟩

/-! ## C25: the tangents of the interleaved buffer -/

/-- C25, failing input: a primitive of two vertices whose TANGENT values are
(1, 2, 3, 4) and (5, 6, 7, 8) (bit patterns).  `ProcessNode` stores four
floats per vertex in `_tangents`, `Mesh::CreateGLBuffers` reads three per
vertex at `v * 3`: the tangent stored for vertex 1 is (4, 5, 6), not the
first three components (5, 6, 7) of the second TANGENT value. -/
theorem C25_tangent_stride_mismatch :
    FillFloatAttr sampleTangentModel sampleTangentPrimitive "TANGENT" 4 =
      some [1, 2, 3, 4, 5, 6, 7, 8] ∧
    (loadPrimitive sampleTangentModel sampleTangentPrimitive).map
      (fun sm => sm.meshSource._tangents) = some [1, 2, 3, 4, 5, 6, 7, 8] ∧
    (loadPrimitive sampleTangentModel sampleTangentPrimitive).map
      (fun sm => sm.meshSource.VertexCount) = some 2 ∧
    (loadPrimitive sampleTangentModel sampleTangentPrimitive).bind
      (fun sm => CreateGLBuffers sm.meshSource) =
      some [101, 102, 103, 1, 2, 3, 104, 105, 106, 4, 5, 6] ∧
    (loadPrimitive sampleTangentModel sampleTangentPrimitive).bind
      (fun sm => (CreateGLBuffers sm.meshSource).map
        (fun b => storedTangent sm.meshSource b 1)) = some [4, 5, 6] ∧
    (FillFloatAttr sampleTangentModel sampleTangentPrimitive "TANGENT" 4).map
      (fun t => tangentXYZ t 1) = some [5, 6, 7] := by
  refine ⟨by decide, by decide, by decide, by decide, by decide, by decide⟩

/-! ## C22: one `SceneMesh` per TRIANGLES primitive -/

/-- The loop over the primitives pushes one `SceneMesh` per primitive of
mode TRIANGLES, in order, and skips the others. -/
theorem processPrimitives_eq (mdl : Gltf.Model) (build : Gltf.Primitive → SceneMesh)
    (ps : List Gltf.Primitive) :
    ∀ out : List SceneMesh,
      (∀ p ∈ ps, isTriangles p = true → loadPrimitive mdl p = some (build p)) →
      processPrimitives mdl ps out = some (out ++ (ps.filter isTriangles).map build) := by
  induction ps with
  | nil => intro out _; simp [processPrimitives]
  | cons p ps ih =>
    intro out h
    have hrest : ∀ q ∈ ps, isTriangles q = true → loadPrimitive mdl q = some (build q) :=
      fun q hq => h q (List.mem_cons_of_mem _ hq)
    by_cases hp : p.mode = TINYGLTF_MODE_TRIANGLES
    · have ht : isTriangles p = true := by simp [isTriangles, hp]
      simp only [processPrimitives, hp, ne_eq, not_true_eq_false, ↓reduceIte,
        h p (List.mem_cons_self _ _) ht, List.filter_cons, ht, List.map_cons]
      rw [ih _ hrest]
      simp
    · have ht : isTriangles p = false := by simp [isTriangles, hp]
      simp only [processPrimitives, ne_eq, hp, not_false_eq_true, ↓reduceIte,
        List.filter_cons, ht]
      exact ih _ hrest

theorem primitivesInOrder_cons (mdl : Gltf.Model) (i : Nat) (rest : List Nat) :
    primitivesInOrder mdl (i :: rest) =
      (match mdl.nodes[i]? with
       | some n => meshPrimitives mdl n
       | none => []) ++ primitivesInOrder mdl rest := by
  simp [primitivesInOrder]

theorem primitivesInOrder_append (mdl : Gltf.Model) (a b : List Nat) :
    primitivesInOrder mdl (a ++ b) = primitivesInOrder mdl a ++ primitivesInOrder mdl b := by
  simp [primitivesInOrder]

theorem MeshesExist.left {mdl : Gltf.Model} {a b : List Nat} (h : MeshesExist mdl (a ++ b)) :
    MeshesExist mdl a :=
  fun i hi => h i (List.mem_append_left _ hi)

theorem MeshesExist.right {mdl : Gltf.Model} {a b : List Nat} (h : MeshesExist mdl (a ++ b)) :
    MeshesExist mdl b :=
  fun i hi => h i (List.mem_append_right _ hi)

/-- The part of `ProcessNode` before the children, for a node whose mesh
exists. -/
theorem nodeMeshes_eq (mdl : Gltf.Model) (build : Gltf.Primitive → SceneMesh) (n : Gltf.Node)
    (out : List SceneMesh) (hm : n.mesh ≥ 0 → (vecAt mdl.meshes n.mesh).isSome = true)
    (hload : ∀ p ∈ meshPrimitives mdl n, isTriangles p = true →
      loadPrimitive mdl p = some (build p)) :
    (if n.mesh ≥ 0 then
        match vecAt mdl.meshes n.mesh with
        | none => none
        | some mesh => processPrimitives mdl mesh.primitives out
      else some out) = some (out ++ ((meshPrimitives mdl n).filter isTriangles).map build) := by
  unfold meshPrimitives at hload ⊢
  by_cases h : n.mesh ≥ 0
  · simp only [h, ↓reduceIte] at hload ⊢
    obtain ⟨mesh, hmesh⟩ := Option.isSome_iff_exists.mp (hm h)
    simp only [hmesh] at hload ⊢
    exact processPrimitives_eq mdl build _ out hload
  · simp [h]

mutual
/-- `ProcessNode` on the root of a tree of the node graph, with fuel for its
height: one `SceneMesh` per TRIANGLES primitive of the nodes in depth-first
order is appended to `out`. -/
theorem ProcessNode_tree (mdl : Gltf.Model) (build : Gltf.Primitive → SceneMesh)
    (t : NodeTree) (hunf : t.unfolds mdl = true) (hmesh : MeshesExist mdl t.preorder)
    (hload : ∀ p ∈ primitivesInOrder mdl t.preorder, isTriangles p = true →
      loadPrimitive mdl p = some (build p))
    (fuel : Nat) (hfuel : t.height ≤ fuel) (out : List SceneMesh) :
    (match vecAt mdl.nodes (t.idx : Int) with
     | none => none
     | some n => ProcessNode mdl fuel n out) =
      some (out ++ ((primitivesInOrder mdl t.preorder).filter isTriangles).map build) := by
  cases t with
  | node idx children =>
    simp only [NodeTree.unfolds, Bool.and_eq_true] at hunf
    obtain ⟨hnode, hchildren⟩ := hunf
    simp only [NodeTree.preorder] at hmesh hload
    simp only [NodeTree.height] at hfuel
    obtain ⟨f, rfl⟩ : ∃ f, fuel = f + 1 := ⟨fuel - 1, by omega⟩
    cases hn : mdl.nodes[idx]? with
    | none => rw [hn] at hnode; exact absurd hnode (by simp)
    | some n =>
      rw [hn] at hnode
      have hch : n.children = children.roots := of_decide_eq_true hnode
      rw [primitivesInOrder_cons, hn] at hload
      have hv : vecAt mdl.nodes ((NodeTree.node idx children).idx : Int) = some n := by
        simp [vecAt, NodeTree.idx, hn]
      rw [hv]
      simp only [ProcessNode]
      rw [nodeMeshes_eq mdl build n out
        (fun h => hmesh idx (List.mem_cons_self _ _) n hn h)
        (fun p hp => hload p (List.mem_append_left _ hp))]
      simp only [Option.some_bind]
      rw [hch, ProcessNode_forest mdl build children hchildren
        (fun i hi => hmesh i (List.mem_cons_of_mem _ hi))
        (fun p hp => hload p (List.mem_append_right _ hp)) f (by omega)]
      simp [NodeTree.preorder, primitivesInOrder_cons, hn]
/-- The loop over the children, or over the roots of the scene, on a forest
of the node graph. -/
theorem ProcessNode_forest (mdl : Gltf.Model) (build : Gltf.Primitive → SceneMesh)
    (f : NodeForest) (hunf : f.unfolds mdl = true) (hmesh : MeshesExist mdl f.preorder)
    (hload : ∀ p ∈ primitivesInOrder mdl f.preorder, isTriangles p = true →
      loadPrimitive mdl p = some (build p))
    (fuel : Nat) (hfuel : f.height ≤ fuel) (out : List SceneMesh) :
    f.roots.foldlM (fun out child =>
      match vecAt mdl.nodes child with
      | none => none
      | some n => ProcessNode mdl fuel n out) out =
      some (out ++ ((primitivesInOrder mdl f.preorder).filter isTriangles).map build) := by
  cases f with
  | nil => simp [NodeForest.roots, NodeForest.preorder, primitivesInOrder]
  | cons t rest =>
    simp only [NodeForest.unfolds, Bool.and_eq_true] at hunf
    simp only [NodeForest.preorder] at hmesh hload
    simp only [NodeForest.height] at hfuel
    rw [primitivesInOrder_append] at hload
    simp only [NodeForest.roots, List.foldlM_cons]
    rw [ProcessNode_tree mdl build t hunf.1 hmesh.left
      (fun p hp => hload p (List.mem_append_left _ hp)) fuel (by omega) out]
    simp only [Option.some_bind, Option.bind_eq_bind]
    rw [ProcessNode_forest mdl build rest hunf.2 hmesh.right
      (fun p hp => hload p (List.mem_append_right _ hp)) fuel (by omega)]
    simp [NodeForest.preorder, primitivesInOrder_append]
end

/-- C22, counterexample: the root of the scene bears a mesh with a LINE and a
TRIANGLES primitive, its second child a mesh with one TRIANGLES primitive.
Three mesh primitives are reachable from the root, `LoadScene` returns two
`SceneMesh`: the primitive of mode LINE has none. -/
theorem C22_counterexample :
    selectScene sampleSceneModel = some { nodes := sampleForest.roots } ∧
    sampleForest.unfolds sampleSceneModel = true ∧
    primitivesInOrder sampleSceneModel sampleForest.preorder =
      [sampleLinePrimitive, sampleTangentPrimitive, sampleTangentPrimitive] ∧
    LoadScene sampleSceneModel 2 = some [sampleSceneMesh, sampleSceneMesh] := by
  refine ⟨by decide, by decide, by decide, by decide⟩

/-- C22, amended: let the node graph below the roots of the selected scene
be the finite forest `forest`, let the mesh of every mesh-bearing node
exist and let the extraction of every TRIANGLES primitive succeed with the
`SceneMesh` `build p`.  With fuel for the height of the forest `LoadScene`
returns exactly one `SceneMesh` per mesh primitive of mode TRIANGLES of the
nodes of the forest, in depth-first node order and in the order of the
primitives within a mesh; primitives of other modes have none. -/
theorem C22_one_mesh_per_triangle_primitive (mdl : Gltf.Model) (scn : Gltf.Scene)
    (forest : NodeForest) (build : Gltf.Primitive → SceneMesh) (fuel : Nat)
    (hscn : selectScene mdl = some scn) (hroots : scn.nodes = forest.roots)
    (hunf : forest.unfolds mdl = true) (hmesh : MeshesExist mdl forest.preorder)
    (hload : ∀ p ∈ primitivesInOrder mdl forest.preorder, isTriangles p = true →
      loadPrimitive mdl p = some (build p))
    (hfuel : forest.height ≤ fuel) :
    LoadScene mdl fuel =
      some (((primitivesInOrder mdl forest.preorder).filter isTriangles).map build) := by
  unfold LoadScene
  rw [hscn]
  simp only
  rw [hroots, ProcessNode_forest mdl build forest hunf hmesh hload fuel hfuel []]
  simp

/-- C22 witness: the scene of three nodes with the forest of its node graph;
both TRIANGLES primitives yield `sampleSceneMesh`. -/
theorem C22_one_mesh_per_triangle_primitive_witness :
    (selectScene sampleSceneModel = some { nodes := [0] } ∧
      sampleForest.unfolds sampleSceneModel = true ∧
      MeshesExist sampleSceneModel sampleForest.preorder ∧
      sampleForest.height ≤ 2) ∧
    LoadScene sampleSceneModel 2 =
      some (((primitivesInOrder sampleSceneModel sampleForest.preorder).filter
        isTriangles).map (fun _ => sampleSceneMesh)) := by
  have hmesh : MeshesExist sampleSceneModel sampleForest.preorder := by
    intro i hi n hn
    have hi2 : i = 0 ∨ i = 1 ∨ i = 2 := by
      simpa [sampleForest, NodeForest.preorder, NodeTree.preorder] using hi
    rcases hi2 with rfl | rfl | rfl
    · have : n = { mesh := 0, children := [1, 2] } := by
        have h2 : sampleSceneModel.nodes[0]? = some { mesh := 0, children := [1, 2] } := by
          decide
        rw [h2] at hn
        exact (Option.some.inj hn).symm
      rw [this]
      decide
    · have : n = { mesh := -1 } := by
        have h2 : sampleSceneModel.nodes[1]? = some { mesh := -1 } := by decide
        rw [h2] at hn
        exact (Option.some.inj hn).symm
      rw [this]
      decide
    · have : n = { mesh := 1 } := by
        have h2 : sampleSceneModel.nodes[2]? = some { mesh := 1 } := by decide
        rw [h2] at hn
        exact (Option.some.inj hn).symm
      rw [this]
      decide
  exact ⟨⟨by decide, by decide, hmesh, by decide⟩,
    C22_one_mesh_per_triangle_primitive sampleSceneModel { nodes := [0] } sampleForest
      (fun _ => sampleSceneMesh) 2 (by decide) (by decide) (by decide) hmesh (by decide)
      (by decide)⟩

/-! ## C23: the expansion of an indexed mesh -/

section Expansion

variable {α : Type}

theorem u32_of_lt {n : Nat} (h : n < 4294967296) : u32 n = n :=
  Nat.mod_eq_of_lt h

theorem u32_le (n : Nat) : u32 n ≤ n :=
  Nat.mod_le _ _

theorem take3_drop (l : List α) (i : Nat) (h : i + 2 < l.length) :
    (l.drop i).take 3 = [l[i], l[i + 1], l[i + 2]] := by
  rw [List.drop_eq_getElem_cons (by omega : i < l.length),
    List.drop_eq_getElem_cons (by omega : i + 1 < l.length),
    List.drop_eq_getElem_cons (by omega : i + 1 + 1 < l.length)]
  rfl

theorem take2_drop (l : List α) (i : Nat) (h : i + 1 < l.length) :
    (l.drop i).take 2 = [l[i], l[i + 1]] := by
  rw [List.drop_eq_getElem_cons (by omega : i < l.length),
    List.drop_eq_getElem_cons (by omega : i + 1 < l.length)]
  rfl

/-- The three reads of a vertex with index below the vertex count. -/
theorem readTriple_eq (p : List α) (b V : Nat) (hlen : p.length = 3 * V)
    (hV : 3 * V ≤ 4294967296) (hb : b < V) :
    readTriple p b = some (vec3Of p b) ∧ (vec3Of p b).length = 3 := by
  have h0 : u32 (3 * b) = 3 * b := u32_of_lt (by omega)
  have h1 : u32 (3 * b + 1) = 3 * b + 1 := u32_of_lt (by omega)
  have h2 : u32 (3 * b + 2) = 3 * b + 2 := u32_of_lt (by omega)
  have hv : vec3Of p b = [p[3 * b], p[3 * b + 1], p[3 * b + 2]] :=
    take3_drop p (3 * b) (by omega)
  constructor
  · unfold readTriple
    rw [h0, h1, h2, hv, List.getElem?_eq_getElem (by omega : 3 * b < p.length),
      List.getElem?_eq_getElem (by omega : 3 * b + 1 < p.length),
      List.getElem?_eq_getElem (by omega : 3 * b + 2 < p.length)]
  · rw [hv]; rfl

theorem gather_snoc (p : List α) (idx : List Nat) (b : Nat) :
    gather p (idx ++ [b]) = gather p idx ++ vec3Of p b := by
  simp [gather]

theorem gather_length (p : List α) (V : Nat) (hlen : p.length = 3 * V) (idx : List Nat)
    (h : ∀ b ∈ idx, b < V) : (gather p idx).length = 3 * idx.length := by
  induction idx with
  | nil => rfl
  | cons b rest ih =>
    have hb := h b (List.mem_cons_self _ _)
    have h3 : (vec3Of p b).length = 3 := by
      unfold vec3Of
      rw [take3_drop p (3 * b) (by omega)]
      rfl
    have := ih (fun c hc => h c (List.mem_cons_of_mem _ hc))
    simp only [gather, List.map_cons, List.flatten_cons, List.length_append,
      List.length_cons] at this ⊢
    omega

/-- The components of vertex `k` of a gathered array are those of the source
vertex `idx[k]`. -/
theorem vec3Of_gather (p : List α) (V : Nat) (hlen : p.length = 3 * V) (idx : List Nat)
    (h : ∀ b ∈ idx, b < V) (k b : Nat) (hk : idx[k]? = some b) :
    vec3Of (gather p idx) k = vec3Of p b := by
  induction idx generalizing k with
  | nil => simp at hk
  | cons c rest ih =>
    have hc := h c (List.mem_cons_self _ _)
    have h3 : (vec3Of p c).length = 3 := by
      unfold vec3Of
      rw [take3_drop p (3 * c) (by omega)]
      rfl
    have hg : gather p (c :: rest) = vec3Of p c ++ gather p rest := by simp [gather]
    cases k with
    | zero =>
      simp only [List.getElem?_cons_zero, Option.some.injEq] at hk
      subst hk
      rw [hg]
      unfold vec3Of at h3 ⊢
      simp only [Nat.mul_zero, List.drop_zero]
      rw [List.take_append_of_le_length (by omega), List.take_of_length_le (by omega)]
    | succ k =>
      simp only [List.getElem?_cons_succ] at hk
      have := ih (fun d hd => h d (List.mem_cons_of_mem _ hd)) k hk
      rw [hg, ← this]
      show ((vec3Of p c ++ gather p rest).drop (3 * (k + 1))).take 3 = _
      rw [List.drop_append_eq_append_drop, List.drop_of_length_le (by omega), h3,
        List.nil_append, show 3 * (k + 1) - 3 = 3 * k by omega]
      rfl

theorem liveChannel_iff (src : MeshSource α) (c : Nat) :
    liveChannel src c = true ↔
      ∀ k, k ≤ c → ∃ tc, src.TexCoords k = some tc ∧ tc.isEmpty = false := by
  unfold liveChannel
  rw [List.all_eq_true]
  constructor
  · intro h k hk
    have := h k (List.mem_range.mpr (by omega))
    cases hc : src.TexCoords k with
    | none => rw [hc] at this; exact absurd this (by simp)
    | some tc =>
      rw [hc] at this
      exact ⟨tc, rfl, by simpa using this⟩
  · intro h k hk
    obtain ⟨tc, h1, h2⟩ := h k (by have := List.mem_range.mp hk; omega)
    rw [h1]
    simp [h2]

/-- The loop over the channels in one iteration of the expansion loop keeps
the lengths of the expanded UV vectors in step. -/
theorem expandTexCoords_inv (src : MeshSource α) (V : Nat) (hok : SourceOk src V) (b : Nat)
    (hb : b < V) (i : Nat) :
    ∀ (n channel : Nat) (acc : List (List α)), channel + n = src.TexCoordCount →
      acc.length = src.TexCoordCount →
      (∀ c, c < channel → liveChannel src c = true) →
      (∀ c, c < src.TexCoordCount → ∃ tc, acc[c]? = some tc ∧
        tc.length = if liveChannel src c then (if c < channel then 2 * (i + 1) else 2 * i)
          else 0) →
      ∃ acc2, expandTexCoords src b n channel acc = some acc2 ∧ TexLen src (i + 1) acc2 := by
  intro n
  induction n with
  | zero =>
    intro channel acc hsum hlen _ hacc
    refine ⟨acc, rfl, hlen, ?_⟩
    intro c hc
    obtain ⟨tc, h1, h2⟩ := hacc c hc
    refine ⟨tc, h1, ?_⟩
    rw [h2, if_pos (by omega : c < channel)]
  | succ n ih =>
    intro channel acc hsum hlen hlive hacc
    have hT : src.TexCoordCount ≤ 4 := hok.channelCount
    have hch : channel < src._texCoordChannels.length := by rw [hok.channels]; omega
    have htc : src.TexCoords channel = some src._texCoordChannels[channel] :=
      List.getElem?_eq_getElem hch
    simp only [expandTexCoords, htc]
    cases hemp : (src._texCoordChannels[channel]).isEmpty
    · -- the channel is populated
      simp only [Bool.false_eq_true, ↓reduceIte]
      have hmem : src._texCoordChannels[channel] ∈ src._texCoordChannels :=
        List.getElem_mem hch
      have hl : (src._texCoordChannels[channel]).length = 2 * V := by
        rcases hok.texCoords _ hmem with h | h
        · rw [h] at hemp; exact absurd hemp (by simp)
        · exact h
      have hr := hok.range
      have h0 : u32 (2 * b) = 2 * b := u32_of_lt (by omega)
      have h1 : u32 (2 * b + 1) = 2 * b + 1 := u32_of_lt (by omega)
      obtain ⟨e, he, hel⟩ := hacc channel (by omega)
      have hlc : liveChannel src channel = true := by
        rw [liveChannel_iff]
        intro k hk
        rcases Nat.lt_or_ge k channel with hlt | hge
        · exact (liveChannel_iff src k).mp (hlive k hlt) k (le_refl k)
        · have hkc : k = channel := by omega
          rw [hkc]
          exact ⟨_, htc, hemp⟩
      rw [hlc, if_neg (by omega : ¬ channel < channel)] at hel
      rw [h0, h1, List.getElem?_eq_getElem (by omega : 2 * b < _),
        List.getElem?_eq_getElem (by omega : 2 * b + 1 < _), he]
      simp only
      refine ih (channel + 1) _ (by omega) (by rw [List.length_set]; exact hlen) ?_ ?_
      · intro c hc
        rcases Nat.lt_or_ge c channel with hlt | hge
        · exact hlive c hlt
        · have hcc : c = channel := by omega
          rw [hcc]; exact hlc
      · intro c hc
        by_cases hcc : c = channel
        · subst hcc
          refine ⟨_, List.getElem?_set_self (by omega), ?_⟩
          rw [hlc, if_pos (by omega : c < c + 1)]
          simp only [List.length_append, List.length_cons, List.length_nil, hel]
          simp only [↓reduceIte]
          omega
        · obtain ⟨tc, h1c, h2c⟩ := hacc c hc
          refine ⟨tc, ?_, ?_⟩
          · rw [List.getElem?_set_ne (by omega)]
            exact h1c
          · rw [h2c]
            by_cases hlt : c < channel
            · rw [if_pos hlt, if_pos (by omega : c < channel + 1)]
            · rw [if_neg hlt, if_neg (by omega : ¬ c < channel + 1)]
    · -- the data pointer of the channel is null: the loop ends
      simp only [↓reduceIte]
      refine ⟨acc, rfl, hlen, ?_⟩
      intro c hc
      obtain ⟨tc, h1, h2⟩ := hacc c hc
      refine ⟨tc, h1, ?_⟩
      rw [h2]
      by_cases hlt : c < channel
      · rw [if_pos hlt]
      · have hdead : liveChannel src c = false := by
          cases hl : liveChannel src c
          · rfl
          · obtain ⟨tc2, h3, h4⟩ := (liveChannel_iff src c).mp hl channel (by omega)
            rw [htc] at h3
            rw [← Option.some.inj h3, hemp] at h4
            exact absurd h4 (by simp)
        rw [hdead]
        simp

/-- One iteration of the expansion loop. -/
theorem expandStep_inv (src : MeshSource α) (V : Nat) (hok : SourceOk src V) (e : Expanded α)
    (i : Nat) (hinv : ExpandInv src i e) (hi : i < src._indices.length) :
    ∃ e2, expandStep src e i = some e2 ∧ ExpandInv src (i + 1) e2 := by
  have hb : src._indices[i] < V := hok.indices _ (List.getElem_mem hi)
  have hidx : src._indices[i]? = some src._indices[i] := List.getElem?_eq_getElem hi
  have htake : src._indices.take (i + 1) = src._indices.take i ++ [src._indices[i]] := by
    rw [List.take_succ, hidx]
    rfl
  obtain ⟨hp, _⟩ := readTriple_eq src._positions _ V hok.positions hok.range hb
  have hn : ∃ en : Expanded α,
      (if !src._normals.isEmpty then
        (readTriple src._normals src._indices[i]).map (fun n =>
          ({ e with positions := e.positions ++ vec3Of src._positions src._indices[i],
                    normals := e.normals ++ n } : Expanded α))
      else some { e with positions := e.positions ++ vec3Of src._positions src._indices[i] })
        = some en ∧
      en.positions = gather src._positions (src._indices.take (i + 1)) ∧
      en.normals = (if src._normals.isEmpty then []
        else gather src._normals (src._indices.take (i + 1))) ∧
      en.tangents = e.tangents ∧ en.texCoords = e.texCoords := by
    cases hemp : src._normals.isEmpty
    · have hlen : src._normals.length = 3 * V := by
        rcases hok.normals with h | h
        · rw [h] at hemp; exact absurd hemp (by simp)
        · exact h
      obtain ⟨hnr, _⟩ := readTriple_eq src._normals _ V hlen hok.range hb
      refine ⟨{ e with positions := e.positions ++ vec3Of src._positions src._indices[i],
                       normals := e.normals ++ vec3Of src._normals src._indices[i] },
        by simp only [Bool.not_false, ↓reduceIte, hnr, Option.map_some'], ?_, ?_, rfl, rfl⟩
      · simp only [htake, gather_snoc, hinv.positions]
      · simp only [htake, gather_snoc, hinv.normals, hemp, Bool.false_eq_true, ↓reduceIte]
    · refine ⟨{ e with positions := e.positions ++ vec3Of src._positions src._indices[i] },
        by simp only [Bool.not_true, Bool.false_eq_true, ↓reduceIte], ?_, ?_, rfl, rfl⟩
      · simp only [htake, gather_snoc, hinv.positions]
      · simp only [hinv.normals, hemp, ↓reduceIte]
  obtain ⟨en, hen, hen1, hen2, hen3, hen4⟩ := hn
  have ht : ∃ et : Expanded α,
      (if !src._tangents.isEmpty then
        (readTriple src._tangents src._indices[i]).map (fun t =>
          ({ en with tangents := en.tangents ++ t } : Expanded α))
      else some en) = some et ∧
      et.positions = en.positions ∧ et.normals = en.normals ∧
      et.tangents.length = (if src._tangents.isEmpty then 0 else 3 * (i + 1)) ∧
      et.texCoords = en.texCoords := by
    cases hemp : src._tangents.isEmpty
    · have hlen : src._tangents.length = 3 * V := by
        rcases hok.tangents with h | h
        · rw [h] at hemp; exact absurd hemp (by simp)
        · exact h
      obtain ⟨htr, ht3⟩ := readTriple_eq src._tangents _ V hlen hok.range hb
      refine ⟨{ en with tangents := en.tangents ++ vec3Of src._tangents src._indices[i] },
        by simp only [Bool.not_false, ↓reduceIte, htr, Option.map_some'], rfl, rfl, ?_, rfl⟩
      have := hinv.tangents
      simp only [hemp, Bool.false_eq_true, ↓reduceIte] at this
      simp only [List.length_append, ht3, hen3, this, Bool.false_eq_true, ↓reduceIte]
      omega
    · refine ⟨en, by simp only [Bool.not_true, Bool.false_eq_true, ↓reduceIte], rfl, rfl,
        ?_, rfl⟩
      have := hinv.tangents
      simp only [hemp, ↓reduceIte] at this
      simp only [↓reduceIte, hen3, this]
  obtain ⟨et, het, het1, het2, het3, het4⟩ := ht
  obtain ⟨acc2, hacc2, htex⟩ := expandTexCoords_inv src V hok _ hb i src.TexCoordCount 0
    et.texCoords (by omega) (by rw [het4, hen4]; exact hinv.texCoords.1)
    (fun c hc => absurd hc (by omega))
    (by
      intro c hc
      obtain ⟨tc, h1, h2⟩ := hinv.texCoords.2 c hc
      refine ⟨tc, by rw [het4, hen4]; exact h1, ?_⟩
      rw [h2, if_neg (by omega : ¬ c < 0)])
  refine ⟨{ et with texCoords := acc2 }, ?_, ⟨?_, ?_, ?_, htex⟩⟩
  · unfold expandStep
    rw [hidx]
    simp only [hp]
    rw [hen]
    simp only [Option.some_bind]
    rw [het]
    simp only [Option.some_bind, hacc2, Option.map_some']
  · exact het1.trans hen1
  · exact het2.trans hen2
  · exact het3

/-- The expansion loop over the first `n` indices. -/
theorem expandLoop_inv (src : MeshSource α) (V : Nat) (hok : SourceOk src V) :
    ∀ n, n ≤ src._indices.length →
      ∃ e, (List.range n).foldlM (expandStep src)
          ({ texCoords := List.replicate src.TexCoordCount [] } : Expanded α) = some e ∧
        ExpandInv src n e := by
  intro n
  induction n with
  | zero =>
    intro _
    refine ⟨_, rfl, ⟨rfl, by simp [gather], by simp, ?_⟩⟩
    refine ⟨by simp, ?_⟩
    intro c hc
    refine ⟨[], by simp [List.getElem?_replicate, hc], by simp⟩
  | succ n ih =>
    intro hn
    obtain ⟨e, he, hinv⟩ := ih (by omega)
    obtain ⟨e2, he2, hinv2⟩ := expandStep_inv src V hok e n hinv (by omega)
    refine ⟨e2, ?_, hinv2⟩
    rw [List.range_succ, List.foldlM_append, he]
    simp only [Option.some_bind, Option.bind_eq_bind, List.foldlM_cons, List.foldlM_nil, he2]
    rfl

/-- `SetTexCoords` with an array long enough returns a mesh and leaves the
positions, the normals, the indices and the vertex count alone. -/
theorem SetTexCoords_keeps (m : MeshSource α) (tc : List α) (channel : Int)
    (hlen : u32 (m._vertexCount * 2) ≤ tc.length) :
    ∃ m2, m.SetTexCoords tc channel = some m2 ∧ m2._positions = m._positions ∧
      m2._normals = m._normals ∧ m2._indices = m._indices ∧
      m2._vertexCount = m._vertexCount := by
  unfold MeshSource.SetTexCoords
  split
  · exact ⟨m, rfl, rfl, rfl, rfl, rfl⟩
  · simp only
    split
    · simp only [assignFrom]
      rw [if_pos hlen]
      exact ⟨_, rfl, rfl, rfl, rfl, rfl⟩
    · simp only [assignFrom]
      rw [if_pos hlen]
      exact ⟨_, rfl, rfl, rfl, rfl, rfl⟩

/-- The last loop of the expansion returns a mesh and leaves the positions,
the normals, the indices and the vertex count alone. -/
theorem setExpandedTexCoords_keeps (tcs : List (List α)) (n T : Nat)
    (htcs : ∀ c, c < T → ∃ tc, tcs[c]? = some tc ∧ (tc.length = 2 * n ∨ tc.length = 0))
    (cs : List Nat) :
    ∀ m : MeshSource α, (∀ c ∈ cs, c < T) → m._vertexCount = n →
      ∃ m2, setExpandedTexCoords tcs cs m = some m2 ∧ m2._positions = m._positions ∧
        m2._normals = m._normals ∧ m2._indices = m._indices ∧ m2._vertexCount = n := by
  induction cs with
  | nil => intro m _ hv; exact ⟨m, rfl, rfl, rfl, rfl, hv⟩
  | cons c rest ih =>
    intro m hcs hv
    obtain ⟨tc, h1, h2⟩ := htcs c (hcs c (List.mem_cons_self _ _))
    have hrest : ∀ d ∈ rest, d < T := fun d hd => hcs d (List.mem_cons_of_mem _ hd)
    simp only [setExpandedTexCoords, h1]
    cases hemp : tc.isEmpty
    · simp only [Bool.not_false, ↓reduceIte]
      have hl : tc.length = 2 * n := by
        rcases h2 with h | h
        · exact h
        · rw [List.isEmpty_eq_false_iff_exists_mem] at hemp
          obtain ⟨x, hx⟩ := hemp
          have := List.length_pos_of_mem hx
          omega
      obtain ⟨m2, hm2, a, b, c2, d⟩ := SetTexCoords_keeps m tc (c : Int)
        (by rw [hv, hl]; have := u32_le (n * 2); omega)
      rw [hm2, Option.some_bind]
      obtain ⟨m3, hm3, a3, b3, c3, d3⟩ := ih m2 hrest (d.trans hv)
      exact ⟨m3, hm3, a3.trans a, b3.trans b, c3.trans c2, d3⟩
    · simp only [Bool.not_true, Bool.false_eq_true, ↓reduceIte]
      exact ih m hrest hv

/-- The mesh that `LoadMesh` returns for a well-formed source with
`useIndices = false`: the gathered positions and normals, cut to the number
of floats that `SetPositions` and `SetNormals` compute in `uint32_t`, no
indices, and the counts of `UpdateCounts`. -/
theorem LoadMesh_expanded (src : MeshSource α) (V : Nat) (hok : SourceOk src V)
    (hV : src.VertexCount ≠ 0) (hn : u32 (src.FaceCount * 3) ≤ src._indices.length) :
    ∃ r, LoadMesh src false = some r ∧
      r._positions = (gather src._positions
        (src._indices.take (u32 (src.FaceCount * 3)))).take (u32 (u32 (src.FaceCount * 3) * 3)) ∧
      r._normals = (if src._normals.isEmpty then []
        else (gather src._normals (src._indices.take (u32 (src.FaceCount * 3)))).take
          (u32 (u32 (src.FaceCount * 3) * 3))) ∧
      r._indices = [] ∧ r._vertexCount = u32 (r._positions.length / 3) ∧
      r._faceCount = r._vertexCount / 3 := by
  obtain ⟨e, he, hinv⟩ := expandLoop_inv src V hok (u32 (src.FaceCount * 3)) hn
  have hidx : ∀ b ∈ src._indices.take (u32 (src.FaceCount * 3)), b < V :=
    fun b hb => hok.indices b (List.mem_of_mem_take hb)
  have htl : (src._indices.take (u32 (src.FaceCount * 3))).length = u32 (src.FaceCount * 3) := by
    rw [List.length_take]; omega
  have hpl : e.positions.length = 3 * u32 (src.FaceCount * 3) := by
    rw [hinv.positions, gather_length _ V hok.positions _ hidx, htl]
  have hcut : u32 (u32 (src.FaceCount * 3) * 3) ≤ 3 * u32 (src.FaceCount * 3) := by
    have := u32_le (u32 (src.FaceCount * 3) * 3); omega
  -- SetPositions
  have h1 : (MeshSource.new (u32 (src.FaceCount * 3)) src.FaceCount : MeshSource α).SetPositions
      e.positions = some { (MeshSource.new (u32 (src.FaceCount * 3)) src.FaceCount :
        MeshSource α) with
        _positions := e.positions.take (u32 (u32 (src.FaceCount * 3) * 3)) } := by
    simp only [MeshSource.SetPositions, MeshSource.new, assignFrom]
    rw [if_pos (by rw [hpl]; exact hcut)]
    rfl
  -- SetNormals
  have h2 : ∃ m2 : MeshSource α,
      (if !src._normals.isEmpty then
        ({ (MeshSource.new (u32 (src.FaceCount * 3)) src.FaceCount : MeshSource α) with
          _positions := e.positions.take (u32 (u32 (src.FaceCount * 3) * 3)) }).SetNormals
            e.normals
       else some { (MeshSource.new (u32 (src.FaceCount * 3)) src.FaceCount : MeshSource α) with
          _positions := e.positions.take (u32 (u32 (src.FaceCount * 3) * 3)) }) = some m2 ∧
      m2._positions = e.positions.take (u32 (u32 (src.FaceCount * 3) * 3)) ∧
      m2._normals = (if src._normals.isEmpty then []
        else e.normals.take (u32 (u32 (src.FaceCount * 3) * 3))) ∧
      m2._indices = [] ∧ m2._vertexCount = u32 (src.FaceCount * 3) := by
    cases hemp : src._normals.isEmpty
    · have hlen : src._normals.length = 3 * V := by
        rcases hok.normals with h | h
        · rw [h] at hemp; exact absurd hemp (by simp)
        · exact h
      have hnl : e.normals.length = 3 * u32 (src.FaceCount * 3) := by
        rw [hinv.normals, hemp]
        simp only [Bool.false_eq_true, ↓reduceIte]
        rw [gather_length _ V hlen _ hidx, htl]
      simp only [Bool.not_false, ↓reduceIte, MeshSource.SetNormals, MeshSource.new, assignFrom]
      rw [if_pos (by rw [hnl]; exact hcut)]
      exact ⟨_, rfl, rfl, by simp, rfl, rfl⟩
    · simp only [Bool.not_true, Bool.false_eq_true, ↓reduceIte]
      exact ⟨_, rfl, rfl, rfl, rfl, rfl⟩
  obtain ⟨m2, hm2, a2, b2, c2, d2⟩ := h2
  -- SetTangents
  have h3 : ∃ m3 : MeshSource α,
      (if !src._tangents.isEmpty then m2.SetTangents e.tangents else some m2) = some m3 ∧
      m3._positions = m2._positions ∧ m3._normals = m2._normals ∧ m3._indices = m2._indices ∧
      m3._vertexCount = m2._vertexCount := by
    cases hemp : src._tangents.isEmpty
    · have htl2 : e.tangents.length = 3 * u32 (src.FaceCount * 3) := by
        rw [hinv.tangents, hemp]
        simp
      simp only [Bool.not_false, ↓reduceIte, MeshSource.SetTangents, assignFrom]
      rw [if_pos (by rw [htl2, d2]; exact hcut)]
      exact ⟨_, rfl, rfl, rfl, rfl, rfl⟩
    · simp only [Bool.not_true, Bool.false_eq_true, ↓reduceIte]
      exact ⟨_, rfl, rfl, rfl, rfl, rfl⟩
  obtain ⟨m3, hm3, a3, b3, c3, d3⟩ := h3
  -- SetTexCoords
  have htcs : ∀ c, c < src.TexCoordCount → ∃ tc, e.texCoords[c]? = some tc ∧
      (tc.length = 2 * u32 (src.FaceCount * 3) ∨ tc.length = 0) := by
    intro c hc
    obtain ⟨tc, h, hl⟩ := hinv.texCoords.2 c hc
    refine ⟨tc, h, ?_⟩
    rw [hl]
    split
    · exact Or.inl rfl
    · exact Or.inr rfl
  obtain ⟨m4, hm4, a4, b4, c4, d4⟩ := setExpandedTexCoords_keeps e.texCoords
    (u32 (src.FaceCount * 3)) src.TexCoordCount htcs (List.range src.TexCoordCount) m3
    (fun c hc => List.mem_range.mp hc) (d3.trans d2)
  refine ⟨m4.UpdateCounts, ?_, ?_, ?_, ?_, ?_, ?_⟩
  · unfold LoadMesh
    rw [if_neg hV]
    simp only [Bool.not_false, ↓reduceIte, he, h1, Option.some_bind, hm2, hm3, hm4,
      Option.map_some']
  · show m4._positions = _
    rw [a4, a3, a2, hinv.positions]
  · show m4._normals = _
    rw [b4, b3, b2, hinv.normals]
    split <;> rfl
  · show m4._indices = _
    rw [c4, c3, c2]
  · rfl
  · simp only [MeshSource.UpdateCounts, MeshSource.IsIndexed]
    rw [c4, c3, c2]
    simp

end Expansion

/-- C23, counterexample: a source mesh of one vertex with F = 477218589
faces, its 3 F indices all 0.  The expanded mesh is given 3 F vertices, but
`SetPositions` computes the number of floats `_vertexCount * 3` in
`uint32_t`: 4294967301 wraps to 5, five floats are kept and `UpdateCounts`
sets `VertexCount()` to 1, not to 3 F = 1431655767. -/
theorem C23_counterexample :
    sampleHugeMesh._indices.length = 3 * sampleHugeMesh.FaceCount ∧
    (∀ b ∈ sampleHugeMesh._indices, b < sampleHugeMesh.VertexCount) ∧
    ∃ r, LoadMesh sampleHugeMesh false = some r ∧ r.VertexCount = 1 ∧ r.FaceCount = 0 ∧
      r.VertexCount ≠ 3 * sampleHugeMesh.FaceCount := by
  have hidx : ∀ b ∈ sampleHugeMesh._indices, b < sampleHugeMesh.VertexCount := by
    intro b hb
    have := (List.mem_replicate.mp hb).2
    rw [this]
    exact Nat.one_pos
  have hlen : sampleHugeMesh._indices.length = 1431655767 := List.length_replicate _ _
  have hok : SourceOk sampleHugeMesh 1 :=
    { positions := rfl
      range := by norm_num
      indices := hidx
      normals := Or.inl rfl
      tangents := Or.inl rfl
      channels := rfl
      channelCount := Nat.zero_le 4
      texCoords := by
        intro tc htc
        left
        have h4 : sampleHugeMesh._texCoordChannels = [[], [], [], []] := rfl
        rw [h4] at htc
        simp only [List.mem_cons, List.mem_singleton, List.mem_nil_iff, or_false,
          or_self] at htc
        exact htc }
  have hF : u32 (sampleHugeMesh.FaceCount * 3) = 1431655767 := by
    show 477218589 * 3 % 4294967296 = 1431655767
    norm_num
  have hcut : u32 (1431655767 * 3) = 5 := by
    show 1431655767 * 3 % 4294967296 = 5
    norm_num
  obtain ⟨r, hr, hpos, _, _, hvc, hfc⟩ := LoadMesh_expanded sampleHugeMesh 1 hok
    (by show (1 : Nat) ≠ 0; exact Nat.one_ne_zero) (by rw [hF, hlen])
  have hgl : (gather sampleHugeMesh._positions
      (sampleHugeMesh._indices.take 1431655767)).length = 3 * 1431655767 := by
    rw [gather_length _ 1 hok.positions _ (fun b hb => hidx b (List.mem_of_mem_take hb)),
      List.length_take, hlen, Nat.min_self]
  have hpl : r._positions.length = 5 := by
    rw [hpos, hF, hcut, List.length_take, hgl]
    norm_num
  have hv : r.VertexCount = 1 := by
    show r._vertexCount = 1
    rw [hvc, hpl]
    rfl
  refine ⟨by rw [hlen]; rfl, hidx, r, hr, hv, ?_, ?_⟩
  · show r._faceCount = 0
    have hv2 : r._vertexCount = 1 := hv
    rw [hfc, hv2]
  · rw [hv]
    show (1 : Nat) ≠ 3 * 477218589
    norm_num

/-- C23, amended: for every well-formed source mesh with V vertices and F
faces, an index array of length 3 F with every index below V and
9 F < 2^32, `LoadMesh` with `useIndices = false` returns a non-indexed mesh
with `VertexCount() = 3 F` and `FaceCount() = F` whose vertex k has the
position of the source vertex `I[k]`, and likewise its normal when the
source has normals. -/
theorem C23_expanded_mesh {α : Type} (src : MeshSource α)
    (hok : SourceOk src src.VertexCount)
    (hI : src._indices.length = 3 * src.FaceCount)
    (hrange : 9 * src.FaceCount < 4294967296) :
    ∃ r, LoadMesh src false = some r ∧ r.IsIndexed = false ∧
      r.VertexCount = 3 * src.FaceCount ∧ r.FaceCount = src.FaceCount ∧
      (∀ k b, src._indices[k]? = some b → vec3Of r._positions k = vec3Of src._positions b) ∧
      (src._normals ≠ [] → ∀ k b, src._indices[k]? = some b →
        vec3Of r._normals k = vec3Of src._normals b) := by
  by_cases hV : src.VertexCount = 0
  · have hnil : src._indices = [] := by
      cases hi : src._indices with
      | nil => rfl
      | cons b rest =>
        have := hok.indices b (by rw [hi]; exact List.mem_cons_self _ _)
        omega
    have hF : src.FaceCount = 0 := by
      rw [hnil] at hI
      simp only [List.length_nil] at hI
      omega
    refine ⟨src, by unfold LoadMesh; rw [if_pos hV], ?_, by rw [hV, hF], rfl, ?_, ?_⟩
    · simp [MeshSource.IsIndexed, hnil]
    · intro k b hk
      rw [hnil] at hk
      simp at hk
    · intro _ k b hk
      rw [hnil] at hk
      simp at hk
  · have hF : u32 (src.FaceCount * 3) = 3 * src.FaceCount := by
      rw [Nat.mul_comm]; exact u32_of_lt (by omega)
    have hcut : u32 (3 * src.FaceCount * 3) = 9 * src.FaceCount := by
      rw [show 3 * src.FaceCount * 3 = 9 * src.FaceCount by omega]
      exact u32_of_lt hrange
    obtain ⟨r, hr, hpos, hnor, hind, hvc, hfc⟩ := LoadMesh_expanded src src.VertexCount hok hV
      (by rw [hF, hI])
    have htake : src._indices.take (3 * src.FaceCount) = src._indices := by
      rw [← hI]; exact List.take_length _
    rw [hF, hcut, htake] at hpos hnor
    have hgl : (gather src._positions src._indices).length = 9 * src.FaceCount := by
      rw [gather_length _ _ hok.positions _ hok.indices, hI]; omega
    have hpos2 : r._positions = gather src._positions src._indices := by
      rw [hpos, List.take_of_length_le (by omega)]
    have hv : r._vertexCount = 3 * src.FaceCount := by
      rw [hvc, hpos2, hgl, show 9 * src.FaceCount / 3 = 3 * src.FaceCount by omega]
      exact u32_of_lt (by omega)
    refine ⟨r, hr, ?_, hv, ?_, ?_, ?_⟩
    · simp [MeshSource.IsIndexed, hind]
    · show r._faceCount = src.FaceCount
      rw [hfc, hv]
      omega
    · intro k b hk
      rw [hpos2]
      exact vec3Of_gather _ _ hok.positions _ hok.indices k b hk
    · intro hne k b hk
      have hemp : src._normals.isEmpty = false := by
        cases hc : src._normals with
        | nil => exact absurd hc hne
        | cons x xs => rfl
      have hnl : src._normals.length = 3 * src.VertexCount := by
        rcases hok.normals with h | h
        · exact absurd h hne
        · exact h
      have hgn : (gather src._normals src._indices).length = 9 * src.FaceCount := by
        rw [gather_length _ _ hnl _ hok.indices, hI]; omega
      rw [hnor, hemp]
      simp only [Bool.false_eq_true, ↓reduceIte]
      rw [List.take_of_length_le (by omega)]
      exact vec3Of_gather _ _ hnl _ hok.indices k b hk

/-- C23 witness: four vertices and the faces (0, 1, 2) and (2, 1, 3): the
expanded mesh has six vertices and two faces, its vertex 3 is the source
vertex 2. -/
theorem C23_expanded_mesh_witness :
    (SourceOk sampleQuad sampleQuad.VertexCount ∧
      sampleQuad._indices.length = 3 * sampleQuad.FaceCount ∧
      9 * sampleQuad.FaceCount < 4294967296) ∧
    ∃ r, LoadMesh sampleQuad false = some r ∧ r.IsIndexed = false ∧
      r.VertexCount = 6 ∧ r.FaceCount = 2 ∧ vec3Of r._positions 3 = [30, 31, 32] ∧
      vec3Of r._normals 3 = [130, 131, 132] := by
  have hok : SourceOk sampleQuad sampleQuad.VertexCount :=
    { positions := by decide
      range := by decide
      indices := by decide
      normals := Or.inr (by decide)
      tangents := Or.inl rfl
      channels := by decide
      channelCount := by decide
      texCoords := by decide }
  obtain ⟨r, hr, h1, h2, h3, h4, h5⟩ :=
    C23_expanded_mesh sampleQuad hok (by decide) (by decide)
  exact ⟨⟨hok, by decide, by decide⟩, r, hr, h1, h2, h3,
    (h4 3 2 (by decide)).trans (by decide),
    (h5 (by decide) 3 2 (by decide)).trans (by decide)⟩

end Scene
